import Mathlib

/-!
# Global online DDL coordinator (BaikalDB meta server)

A shallow embedding of `src/meta_server/ddl_manager.cpp`: the table-level DDL
controller (`DDLManager`), the worker pool scheduler and broadcast coordinator
(`DBManager`) and the dwell policy (`StatusChangePolicy`), followed by theorems
about them.

Conventions of the embedding.
* Every C++ map (`std::unordered_map`, `ThreadSafeMap`) is an association list
  with unique keys; the list order is the iteration order of the map.
* A task id, the string `"{table_id}_{region_id}"` in the source, is the pair
  `(table_id, region_id)` (the formatting is injective).
* `butil::gettimeofday_us()` is the parameter `now` of each operation.
* gflags are the fields of `Flags`; `FLAGS_x` in the source is `fl.x` here.
* `apply_raft` appends the request to the pending consensus log; `on_apply`
  delivers the oldest pending request to the state machine.
-/

namespace baikaldb

/-! ## Association lists -/

namespace AMap

/-- Lookup of a key (`find` of the C++ maps). -/
def find {κ α : Type} [DecidableEq κ] (k : κ) : List (κ × α) → Option α
  | [] => none
  | (k1, v) :: rest => if k1 = k then some v else find k rest

/-- Membership test (`count(key) == 1`, `exist(key)`). -/
def contains {κ α : Type} [DecidableEq κ] (k : κ) (m : List (κ × α)) : Bool :=
  (find k m).isSome

/-- Assignment `map[key] = value` (`set(key, value)`): overwrite in place, or append. -/
def set {κ α : Type} [DecidableEq κ] (k : κ) (v : α) : List (κ × α) → List (κ × α)
  | [] => [(k, v)]
  | (k1, v1) :: rest => if k1 = k then (k1, v) :: rest else (k1, v1) :: set k v rest

/-- Removal `erase(key)`. -/
def erase {κ α : Type} [DecidableEq κ] (k : κ) : List (κ × α) → List (κ × α)
  | [] => []
  | (k1, v1) :: rest => if k1 = k then erase k rest else (k1, v1) :: erase k rest

/-- In-place update `update(key, call)`: applies `call` to the value when the key exists. -/
def update {κ α : Type} [DecidableEq κ] (k : κ) (f : α → α) : List (κ × α) → List (κ × α)
  | [] => []
  | (k1, v1) :: rest => if k1 = k then (k1, f v1) :: rest else (k1, v1) :: update k f rest

end AMap

/-! ## Protocol types (`pb::*`) -/

/--
Modelled from the spec: the `pb::IndexState` enum is declared outside the given
sources; these are the five visibility states of spec section 4.4.
-/
inductive IndexState where
  | IS_NONE
  | IS_DELETE_ONLY
  | IS_WRITE_ONLY
  | IS_WRITE_LOCAL
  | IS_PUBLIC
  deriving DecidableEq, Repr

/-- Modelled from the spec: the `pb::DdlWorkStatus` enum (status of a work unit or of a broadcast ack). -/
inductive DdlWorkStatus where
  | DdlWorkIdle
  | DdlWorkDoing
  | DdlWorkDone
  | DdlWorkFail
  | DdlWorkDupUniq
  | DdlWorkError
  deriving DecidableEq, Repr

/-- Modelled from the spec: the values of `pb::ErrCode` a DDL job takes. -/
inductive ErrCode where
  | IN_PROCESS
  | SUCCESS
  | EXEC_FAIL
  deriving DecidableEq, Repr

/-- Modelled from the spec: the values of `pb::OpType` used by the coordinator. -/
inductive OpType where
  | OP_ADD_INDEX
  | OP_DROP_INDEX
  | OP_UPDATE_GLOBAL_REGION_DDL_WORK
  | OP_DELETE_DDLWORK
  | OP_SUSPEND_DDL_WORK
  | OP_RESTART_DDL_WORK
  | OP_REMOVE_GLOBAL_INDEX_DATA
  deriving DecidableEq, Repr

/-- Modelled from the spec: `pb::Status` of a worker instance. -/
inductive InstanceState where
  | NORMAL
  | FAULTY
  deriving DecidableEq, Repr

/-- The message `pb::DdlWorkInfo`: one table-level DDL job (`DDLJob` of the spec). -/
structure DdlWorkInfo where
  table_id : Int
  op_type : OpType
  index_id : Int
  job_state : IndexState
  errcode : ErrCode
  suspend : Bool
  deleted : Bool
  global : Bool
  status : DdlWorkStatus
  deriving DecidableEq, Repr

/-- The message `pb::RegionDdlWork`: one backfill unit (`RegionWork` of the spec). -/
structure RegionDdlWork where
  table_id : Int
  region_id : Int
  index_id : Int
  partition_id : Int
  start_key : String
  end_key : String
  status : DdlWorkStatus
  retry_time : Int
  address : String
  deriving DecidableEq, Repr

/-- The message `pb::MetaManagerRequest`, restricted to the fields the coordinator fills. -/
structure MetaManagerRequest where
  op_type : OpType
  ddlwork_info : Option DdlWorkInfo
  region_ddl_work : Option RegionDdlWork
  global_ddl_table_id : Int
  deriving DecidableEq, Repr

/-- The fields of `pb::BaikalHeartBeatRequest` read by the coordinator. -/
structure BaikalHeartBeatRequest where
  can_do_ddlwork : Bool
  physical_room : String
  region_ddl_works : List RegionDdlWork
  ddl_works : List DdlWorkInfo
  deriving DecidableEq, Repr

/-- The fields of `pb::BaikalHeartBeatResponse` written by the coordinator. -/
structure BaikalHeartBeatResponse where
  region_ddl_works : List RegionDdlWork
  ddl_works : List DdlWorkInfo
  deriving DecidableEq, Repr

/-! ## Flags -/

/--
The gflags of `ddl_manager.cpp`, with the defaults of their `DEFINE_int32`
lines. `baikal_heartbeat_interval_us` is only declared in this file; the value
used by the scenarios, 10 s, is given as its default here.
-/
structure Flags where
  baikaldb_max_concurrent : Int := 10
  ddl_status_update_interval_us : Int := 10 * 1000 * 1000
  max_region_num_ratio : Int := 2
  max_ddl_retry_time : Int := 30
  baikal_heartbeat_interval_us : Int := 10 * 1000 * 1000
  deriving DecidableEq, Repr

/-- The default configuration. -/
def defaultFlags : Flags := {}

/-- Wrap-around of a product computed in `int32_t`. -/
def wrap_int32 (x : Int) : Int := (x + 2 ^ 31) % 2 ^ 32 - 2 ^ 31

/-- Conversion of a signed integer to `size_t` (64 bit) in a mixed comparison. -/
def to_size_t (x : Int) : Nat := (x % 2 ^ 64).toNat

/-- The value `region_size * FLAGS_max_region_num_ratio`, computed in `size_t`. -/
def region_limit (fl : Flags) (region_size : Nat) : Nat :=
  (region_size * to_size_t fl.max_region_num_ratio) % 2 ^ 64

/-- The comparison `n > region_size * FLAGS_max_region_num_ratio` of an `int32_t` with a `size_t`. -/
def over_region_limit (fl : Flags) (region_size : Nat) (n : Int) : Bool :=
  decide (region_limit fl region_size < to_size_t n)

/-! ## In-memory records (`ddl_manager.h`) -/

/-- The record `MemRegionDdlWork`. -/
structure MemRegionDdlWork where
  region_info : RegionDdlWork
  update_timestamp : Int := 0
  deriving DecidableEq, Repr

/-- The record `MemDdlWork`: the entry of one worker in a broadcast task. -/
structure MemDdlWork where
  update_timestamp : Int := 0
  deriving DecidableEq, Repr

/-- Task id `"{table_id}_{region_id}"`. -/
abbrev TaskId := Int × Int

/-- The task id of a unit. -/
def task_id_of (w : RegionDdlWork) : TaskId := (w.table_id, w.region_id)

/-- The record `CommonTaskMap`: the two queues of one worker (`WorkerQueues` of the spec). -/
structure CommonTaskMap where
  to_do_task_map : List (TaskId × MemRegionDdlWork) := []
  doing_task_map : List (TaskId × MemRegionDdlWork) := []
  deriving DecidableEq, Repr

/-- The record `BroadcastTask`. -/
structure BroadcastTask where
  work : DdlWorkInfo
  number : Int
  to_do_task_map : List (String × MemDdlWork)
  doing_task_map : List (String × MemDdlWork)
  deriving DecidableEq, Repr

/-- One known worker (`WorkerInfo` of the spec): room and `instance_status`. -/
structure InstanceDBStatus where
  room : String
  state : InstanceState
  timestamp : Int
  deriving DecidableEq, Repr

/-- The record `MemDdlInfo`: a job and its counter of submitted units. -/
structure MemDdlInfo where
  work_info : DdlWorkInfo
  doing_work_number : Int := 0
  deriving DecidableEq, Repr

/-- The record of one table waiting on the broadcast barrier (`_wait_txns`). -/
structure WaitTxnWorkInfo where
  work_info : DdlWorkInfo
  success : Bool := false
  done : Bool := false
  deriving DecidableEq, Repr

/-! ## State of the singletons -/

/-- The class `StatusChangePolicy`: `_time_costs_map`, the start time of the timer of each (table, state). -/
structure StatusChangePolicy where
  time_costs_map : List ((Int × IndexState) × Int) := []
  deriving DecidableEq, Repr

/-- The singleton `DBManager`. -/
structure DBManager where
  address_instance_map : List (String × InstanceDBStatus) := []
  last_rolling_instance : String := ""
  common_task_map : List (String × CommonTaskMap) := []
  broadcast_task_map : List (Int × BroadcastTask) := []
  deriving DecidableEq, Repr

/--
The singleton `DDLManager`. The entries of `_region_ddlwork` are held in two
parts: `region_ddlwork` has the tables whose entry points to a region map,
`region_ddlwork_null` the tables whose entry is a null pointer (the entry that
`_region_ddlwork[table_id]` creates for a table without entry).
-/
structure DDLManager where
  table_ddl_mem : List (Int × MemDdlInfo) := []
  region_ddlwork : List (Int × List (Int × MemRegionDdlWork)) := []
  region_ddlwork_null : List Int := []
  wait_txns : List (Int × WaitTxnWorkInfo) := []
  update_policy : StatusChangePolicy := {}
  deriving DecidableEq, Repr

/--
Modelled from the spec: the catalog service (`TableManager`), an external
collaborator: the visibility state of each (table, index) and the number of
regions of each index.
-/
structure TableManager where
  index_state : List ((Int × Int) × IndexState) := []
  region_size : List (Int × Nat) := []
  drop_index_requests : List DdlWorkInfo := []
  deriving DecidableEq, Repr

/--
Modelled from the spec: the durable meta store (`MetaRocksdb`), keyed by
`table_id` for jobs and by `(table_id, region_id)` for region rows;
`writable = false` makes every write fail.
-/
structure MetaRocksdb where
  ddlwork : List (Int × DdlWorkInfo) := []
  region_ddlwork : List ((Int × Int) × RegionDdlWork) := []
  writable : Bool := true
  deriving DecidableEq, Repr

/-- The meta server: the singletons and the pending part of the consensus log. -/
structure MetaServer where
  db : DBManager := {}
  ddl : DDLManager := {}
  table_manager : TableManager := {}
  rocksdb : MetaRocksdb := {}
  raft_pending : List MetaManagerRequest := []
  deriving DecidableEq, Repr

/-! ## Map helpers of `ThreadSafeMap` and the standard containers -/

namespace AMap

/-- Position of a key in iteration order (the iterator returned by `find`). -/
def position {κ α : Type} [DecidableEq κ] (k : κ) : List (κ × α) → Option Nat
  | [] => none
  | (k1, _) :: rest => if k1 = k then some 0 else (position k rest).map (fun i => i + 1)

/-- The call `insert(pair)` of `std::unordered_map`: no effect when the key is present. -/
def insert_new {κ α : Type} [DecidableEq κ] (k : κ) (v : α) (m : List (κ × α)) : List (κ × α) :=
  if contains k m then m else m ++ [(k, v)]

/-- Number of entries removed by `erase(key)` (0 or 1). -/
def erase_count {κ α : Type} [DecidableEq κ] (k : κ) (m : List (κ × α)) : Int :=
  if contains k m then 1 else 0

end AMap

/--
Modelled from the spec: `ThreadSafeMap::traverse_with_early_return` (declared
outside the given sources) calls `call` on each value in iteration order,
the value being passed by reference, and stops after the first call that
returns false.
-/
def traverse_with_early_return {κ α σ : Type} (call : σ → α → Bool × α × σ) :
    σ → List (κ × α) → List (κ × α) × σ
  | s, [] => ([], s)
  | s, (k, v) :: rest =>
    match call s v with
    | (true, v1, s1) =>
      let r := traverse_with_early_return call s1 rest
      ((k, v1) :: r.1, r.2)
    | (false, v1, s1) => ((k, v1) :: rest, s1)

/-! ## StatusChangePolicy -/

/-- Modelled from the spec: `TimeCost::get_time`, the time elapsed since the timer was created. -/
def TimeCost_get_time (start now : Int) : Int := now - start

/-- The method `StatusChangePolicy::should_change` (lines 40-49). -/
def StatusChangePolicy.should_change (fl : Flags) (now : Int) (p : StatusChangePolicy)
    (table_id : Int) (status : IndexState) : Bool × StatusChangePolicy :=
  match AMap.find (table_id, status) p.time_costs_map with
  | none => (false, { time_costs_map := AMap.set (table_id, status) now p.time_costs_map })
  | some start =>
    (decide (wrap_int32 (5 * fl.ddl_status_update_interval_us) < TimeCost_get_time start now), p)

/--
Modelled from the spec: `StatusChangePolicy::clear(table_id)` (declared outside
the given sources) drops every timer of the table ("clear dwell-policy caches").
-/
def StatusChangePolicy.clear (p : StatusChangePolicy) (table_id : Int) : StatusChangePolicy :=
  { time_costs_map := p.time_costs_map.filter (fun e => !decide (e.1.1 = table_id)) }

/-! ## DBManager: worker selection and submission -/

/-- The loop of `DBManager::round_robin_select` (lines 213-234); `iter` is a position in `_address_instance_map`. -/
def DBManager.round_robin_loop (fl : Flags) : Nat → Nat → DBManager → Option String × DBManager
  | 0, _, db => (none, db)
  | k + 1, iter, db =>
    let iter := if iter = db.address_instance_map.length then 0 else iter
    match db.address_instance_map[iter]? with
    | none => (none, db)
    | some (address, inst) =>
      if inst.state = InstanceState.FAULTY then
        DBManager.round_robin_loop fl k (iter + 1) db
      else
        -- init_if_not_exist_else_update(iter->first, call): false when the entry had to be created
        let find_task_map := AMap.contains address db.common_task_map
        let current_task_number : Int :=
          match AMap.find address db.common_task_map with
          | some q => (q.doing_task_map.length : Int) + (q.to_do_task_map.length : Int)
          | none => 0
        let db1 : DBManager :=
          if find_task_map then db
          else { db with common_task_map := AMap.set address {} db.common_task_map }
        if !find_task_map || decide (current_task_number < fl.baikaldb_max_concurrent) then
          (some address, { db1 with last_rolling_instance := address })
        else
          DBManager.round_robin_loop fl k (iter + 1) db1

/-- The method `DBManager::round_robin_select` (lines 206-236): the selected address, if any. -/
def DBManager.round_robin_select (fl : Flags) (db : DBManager) : Option String × DBManager :=
  let start : Nat :=
    match AMap.position db.last_rolling_instance db.address_instance_map with
    | none => 0
    | some i => if i + 1 = db.address_instance_map.length then 0 else i + 1
  DBManager.round_robin_loop fl db.address_instance_map.length start db

/-- The method `DBManager::select_instance` (lines 238-240). -/
def DBManager.select_instance (fl : Flags) (db : DBManager) : Option String × DBManager :=
  DBManager.round_robin_select fl db

/-- The method `DBManager::execute_task` (lines 242-261): return code, the unit (passed by reference), the manager. -/
def DBManager.execute_task (fl : Flags) (now : Int) (db : DBManager) (work : MemRegionDdlWork) :
    Int × MemRegionDdlWork × DBManager :=
  let work : MemRegionDdlWork := { work with update_timestamp := now }
  match DBManager.select_instance fl db with
  | (some address, db1) =>
    let task_id := task_id_of work.region_info
    let work : MemRegionDdlWork :=
      { work with region_info := { work.region_info with retry_time := work.region_info.retry_time + 1 } }
    let cm :=
      if AMap.contains address db1.common_task_map then
        AMap.update address
          (fun q => { q with to_do_task_map := AMap.set task_id work q.to_do_task_map })
          db1.common_task_map
      else
        AMap.set address { to_do_task_map := [(task_id, work)] } db1.common_task_map
    (0, work, { db1 with common_task_map := cm })
  | (none, db1) => (-1, work, db1)

/--
Modelled from the spec: `DBManager::execute_broadcast_task` (declared outside
the given sources): "creates a BroadcastTask with todo populated by the current
live worker set and number = |todo|".
-/
def DBManager.execute_broadcast_task (now : Int) (db : DBManager) (work : DdlWorkInfo) : DBManager :=
  let live := db.address_instance_map.filter (fun e => !decide (e.2.state = InstanceState.FAULTY))
  let todo : List (String × MemDdlWork) := live.map (fun e => (e.1, { update_timestamp := now }))
  let task : BroadcastTask :=
    { work := work, number := (todo.length : Int), to_do_task_map := todo, doing_task_map := [] }
  { db with broadcast_task_map := AMap.set work.table_id task db.broadcast_task_map }

/-! ## DDLManager: accessors declared in `ddl_manager.h` -/

/--
Modelled from the spec: `DDLManager::get_doing_work_number`, the counter
`doing_work_count(table)` of the job, or -1 when the table has no job in memory.
-/
def DDLManager.get_doing_work_number (d : DDLManager) (table_id : Int) : Int :=
  match AMap.find table_id d.table_ddl_mem with
  | some m => m.doing_work_number
  | none => -1

/--
Modelled from the spec: `DDLManager::increase_doing_work_number`, "the counter
is incremented optimistically during admission"; returns the new value, or -1
when the table has no job in memory.
-/
def DDLManager.increase_doing_work_number (d : DDLManager) (table_id : Int) : Int × DDLManager :=
  match AMap.find table_id d.table_ddl_mem with
  | some m =>
    let mem := AMap.update table_id
      (fun m => { m with doing_work_number := m.doing_work_number + 1 }) d.table_ddl_mem
    (m.doing_work_number + 1, { d with table_ddl_mem := mem })
  | none => (-1, d)

/--
Modelled from the spec: `DDLManager::decrease_doing_work_number`, the counter is
"decremented when a non-Doing status is applied via UpdateRegionWork".
-/
def DDLManager.decrease_doing_work_number (d : DDLManager) (table_id : Int) : Int × DDLManager :=
  match AMap.find table_id d.table_ddl_mem with
  | some m =>
    let mem := AMap.update table_id
      (fun m => { m with doing_work_number := m.doing_work_number - 1 }) d.table_ddl_mem
    (m.doing_work_number - 1, { d with table_ddl_mem := mem })
  | none => (-1, d)

/--
Modelled from the spec: `DDLManager::update_table_ddl_mem`, stores the job
record of an existing in-memory job (the counter of the job is kept).
-/
def DDLManager.update_table_ddl_mem (d : DDLManager) (work : DdlWorkInfo) : DDLManager :=
  { d with table_ddl_mem :=
      AMap.update work.table_id (fun m => { m with work_info := work }) d.table_ddl_mem }

/--
The lookup `_region_ddlwork[table_id]` (lines 770, 990, 1018) as far as it
writes: `operator[]` of the standard maps gives a table without entry an entry
with a null pointer; a table with an entry, null or not, keeps it.
-/
def DDLManager.index_region_ddlwork (d : DDLManager) (table_id : Int) : DDLManager :=
  { d with region_ddlwork_null :=
      if AMap.contains table_id d.region_ddlwork || decide (table_id ∈ d.region_ddlwork_null) then
        d.region_ddlwork_null
      else d.region_ddlwork_null ++ [table_id] }

/-- The null pointer of a table is gone when its entry is assigned a region map or erased. -/
def DDLManager.drop_null_entry (d : DDLManager) (table_id : Int) : DDLManager :=
  { d with region_ddlwork_null := d.region_ddlwork_null.filter (fun t => !decide (t = table_id)) }

/-- Modelled from the spec: `DDLManager::get_ddl_mem`, the job record of a table, if any. -/
def DDLManager.get_ddl_mem (d : DDLManager) (table_id : Int) : Option DdlWorkInfo :=
  (AMap.find table_id d.table_ddl_mem).map (fun m => m.work_info)

/-- Modelled from the spec: `DDLManager::exist_wait_txn_info`, whether the table has a barrier record. -/
def DDLManager.exist_wait_txn_info (d : DDLManager) (table_id : Int) : Bool :=
  AMap.contains table_id d.wait_txns

/-- Modelled from the spec: `DDLManager::set_wait_txn_info`, creates the barrier record (pending). -/
def DDLManager.set_wait_txn_info (d : DDLManager) (table_id : Int) (work : DdlWorkInfo) : DDLManager :=
  { d with wait_txns := AMap.set table_id { work_info := work } d.wait_txns }

/-- Modelled from the spec: `DDLManager::erase_txn_info`, removes the barrier record. -/
def DDLManager.erase_txn_info (d : DDLManager) (table_id : Int) : DDLManager :=
  { d with wait_txns := AMap.erase table_id d.wait_txns }

/-- Modelled from the spec: `DDLManager::is_txn_done`, the barrier has a result. -/
def DDLManager.is_txn_done (d : DDLManager) (table_id : Int) : Bool :=
  match AMap.find table_id d.wait_txns with
  | some w => w.done
  | none => false

/-- Modelled from the spec: `DDLManager::is_txn_success`, the result is AllAcked. -/
def DDLManager.is_txn_success (d : DDLManager) (table_id : Int) : Bool :=
  match AMap.find table_id d.wait_txns with
  | some w => w.success
  | none => false

/--
Modelled from the spec: `DDLManager::set_txn_ready(table_id, success)` records
the result of the barrier of the table: AllAcked (true) or Failed (false).
-/
def DDLManager.set_txn_ready (d : DDLManager) (table_id : Int) (success : Bool) : DDLManager :=
  { d with wait_txns :=
      AMap.update table_id (fun w => { w with success := success, done := true }) d.wait_txns }

/-! ## TableManager (catalog) -/

/-- Modelled from the spec: `TableManager::get_region_size`, the number of regions of an index (0 when unknown). -/
def TableManager.get_region_size (t : TableManager) (index_id : Int) : Nat :=
  match AMap.find index_id t.region_size with
  | some n => n
  | none => 0

/-- Modelled from the spec: `TableManager::get_index_state`, the catalog state of an index, `none` when the call fails. -/
def TableManager.get_index_state (t : TableManager) (table_id index_id : Int) : Option IndexState :=
  AMap.find (table_id, index_id) t.index_state

/-- Modelled from the spec: `TableManager::update_index_status`, "publish catalog state": the index takes the job state. -/
def TableManager.update_index_status (t : TableManager) (work : DdlWorkInfo) : TableManager :=
  { t with index_state := AMap.set (work.table_id, work.index_id) work.job_state t.index_state }

/-- Modelled from the spec: `TableManager::drop_index_request`, "requests the catalog drop the partially-built index". -/
def TableManager.drop_index_request (t : TableManager) (work : DdlWorkInfo) : TableManager :=
  { t with drop_index_requests := t.drop_index_requests ++ [work] }

/-! ## Consensus log -/

/-- The method `DDLManager::apply_raft` (lines 980-983): hands the request to the consensus log. -/
def DDLManager.apply_raft (s : MetaServer) (request : MetaManagerRequest) : MetaServer :=
  { s with raft_pending := s.raft_pending ++ [request] }

/-- The method `DDLManager::update_region_ddlwork` (lines 869-880). -/
def DDLManager.update_region_ddlwork (s : MetaServer) (work : RegionDdlWork) : MetaServer :=
  let ddl :=
    if work.status = DdlWorkStatus.DdlWorkDoing then s.ddl
    else (s.ddl.decrease_doing_work_number work.table_id).2
  DDLManager.apply_raft { s with ddl := ddl }
    { op_type := OpType.OP_UPDATE_GLOBAL_REGION_DDL_WORK, ddlwork_info := none,
      region_ddl_work := some work, global_ddl_table_id := 0 }

/-- The method `DBManager::update_txn_ready` (lines 393-410). -/
def DBManager.update_txn_ready (s : MetaServer) (table_id : Int) : MetaServer :=
  match AMap.find table_id s.db.broadcast_task_map with
  | some task =>
    if task.number = 0 then
      { s with
        db := { s.db with broadcast_task_map := AMap.erase table_id s.db.broadcast_task_map }
        ddl := s.ddl.set_txn_ready table_id true }
    else s
  | none => s

/-! ## DDLManager: the controller steps -/

/-- The variables captured by reference by the callback of the `IS_WRITE_LOCAL` traversal. -/
structure TraverseCtx where
  done : Bool := true
  rollback : Bool := false
  current_task_number : Nat := 0
  wait_num : Int := 0
  g_ddl_work : DdlWorkInfo
  db : DBManager
  ddl : DDLManager
  deriving DecidableEq, Repr

/-- The constant `max_task_number` (line 764). -/
def max_task_number : Nat := 20

/-- The assignment `region_work.region_info.set_status(st)`. -/
def MemRegionDdlWork.set_status (w : MemRegionDdlWork) (st : DdlWorkStatus) : MemRegionDdlWork :=
  { w with region_info := { w.region_info with status := st } }

/-- Lines 789-808 of the callback: admission of an Idle unit; the flag is false at a `return false`. -/
def add_index_call_idle (fl : Flags) (now : Int) (table_id : Int) (region_size : Nat)
    (c : TraverseCtx) (region_work : MemRegionDdlWork) : Bool × MemRegionDdlWork × TraverseCtx :=
  if region_work.region_info.status = DdlWorkStatus.DdlWorkIdle then
    let c : TraverseCtx := { c with done := false }
    match DBManager.execute_task fl now c.db region_work with
    | (ret, w1, db1) =>
      if ret = 0 then
        let w2 := w1.set_status DdlWorkStatus.DdlWorkDoing
        match c.ddl.increase_doing_work_number table_id with
        | (n, ddl1) =>
          let c1 : TraverseCtx := { c with db := db1, ddl := ddl1 }
          if over_region_limit fl region_size n then (false, w2, c1)
          else
            let c2 : TraverseCtx := { c1 with current_task_number := c1.current_task_number + 1 }
            if max_task_number < c2.current_task_number then (false, w2, c2) else (true, w2, c2)
      else (false, w1, { c with db := db1 })
  else (true, region_work, c)

/-- Lines 809-813 of the callback: a unit that is not Done is waited for. -/
def add_index_call_wait (c : TraverseCtx) (region_work : MemRegionDdlWork) : TraverseCtx :=
  if region_work.region_info.status = DdlWorkStatus.DdlWorkDone then c
  else { c with wait_num := c.wait_num + 1, done := false }

/-- Lines 814-838 of the callback: retry of a Fail unit, fatal statuses. -/
def add_index_call_fail (fl : Flags) (now : Int) (table_id : Int) (region_size : Nat)
    (c : TraverseCtx) (region_work : MemRegionDdlWork) : Bool × MemRegionDdlWork × TraverseCtx :=
  if region_work.region_info.status = DdlWorkStatus.DdlWorkFail then
    if region_work.region_info.retry_time < fl.max_ddl_retry_time then
      match DBManager.execute_task fl now c.db region_work with
      | (ret, w1, db1) =>
        if ret = 0 then
          let w2 := w1.set_status DdlWorkStatus.DdlWorkDoing
          match c.ddl.increase_doing_work_number table_id with
          | (n, ddl1) =>
            if over_region_limit fl region_size n then (false, w2, { c with db := db1, ddl := ddl1 })
            else (true, w2, { c with db := db1, ddl := ddl1, done := false })
        else (true, w1, { c with db := db1, done := false })
    else (true, region_work, { c with rollback := true, done := false })
  else if region_work.region_info.status = DdlWorkStatus.DdlWorkDupUniq
      ∨ region_work.region_info.status = DdlWorkStatus.DdlWorkError then
    (true, region_work, { c with done := false, rollback := true })
  else (true, region_work, c)

/-- Lines 840-847 of the callback: rollback of the job. -/
def add_index_call_rollback (table_id : Int) (c : TraverseCtx) (region_work : MemRegionDdlWork) :
    Bool × MemRegionDdlWork × TraverseCtx :=
  if c.rollback then
    let g : DdlWorkInfo := { c.g_ddl_work with errcode := ErrCode.EXEC_FAIL }
    let ddl1 := c.ddl.update_table_ddl_mem g
    let ddl2 : DDLManager := { ddl1 with update_policy := ddl1.update_policy.clear table_id }
    (false, region_work, { c with g_ddl_work := g, ddl := ddl2 })
  else (true, region_work, c)

/-- The callback of the traversal of `add_index_global_ddlwork` (lines 785-848). -/
def add_index_call (fl : Flags) (now : Int) (table_id : Int) (region_size : Nat)
    (c : TraverseCtx) (region_work : MemRegionDdlWork) : Bool × MemRegionDdlWork × TraverseCtx :=
  match add_index_call_idle fl now table_id region_size c region_work with
  | (false, w, c1) => (false, w, c1)
  | (true, w, c1) =>
    match add_index_call_fail fl now table_id region_size (add_index_call_wait c1 w) w with
    | (false, w1, c2) => (false, w1, c2)
    | (true, w1, c2) => add_index_call_rollback table_id c2 w1

/-- Lines 759-859: the case `IS_WRITE_LOCAL` of `add_index_global_ddlwork`. -/
def DDLManager.add_index_write_local (fl : Flags) (now : Int) (s : MetaServer)
    (g_ddl_work : DdlWorkInfo) (region_size : Nat) : Int × DdlWorkInfo × MetaServer :=
  let table_id := g_ddl_work.table_id
  match AMap.find table_id s.ddl.region_ddlwork with
  | none => (0, g_ddl_work, { s with ddl := s.ddl.index_region_ddlwork table_id })
  | some region_map =>
    let doing_work_number := s.ddl.get_doing_work_number table_id
    if doing_work_number = -1 then (0, g_ddl_work, s)
    else if over_region_limit fl region_size doing_work_number then (0, g_ddl_work, s)
    else
      match traverse_with_early_return (add_index_call fl now table_id region_size)
          { g_ddl_work := g_ddl_work, db := s.db, ddl := s.ddl } region_map with
      | (region_map1, c) =>
        let ddl1 : DDLManager :=
          { c.ddl with region_ddlwork := AMap.update table_id (fun _ => region_map1) c.ddl.region_ddlwork }
        if c.done then
          let g : DdlWorkInfo :=
            { c.g_ddl_work with job_state := IndexState.IS_PUBLIC, errcode := ErrCode.SUCCESS }
          (0, g, { s with db := c.db, ddl := ddl1.update_table_ddl_mem g,
                          table_manager := s.table_manager.update_index_status g })
        else (0, c.g_ddl_work, { s with db := c.db, ddl := ddl1 })

/-- Lines 731-758: the case `IS_WRITE_ONLY` of `add_index_global_ddlwork`. -/
def DDLManager.add_index_write_only (now : Int) (s : MetaServer) (g_ddl_work : DdlWorkInfo) :
    Int × DdlWorkInfo × MetaServer :=
  let table_id := g_ddl_work.table_id
  if !s.ddl.exist_wait_txn_info table_id then
    (0, g_ddl_work,
      { s with ddl := s.ddl.set_wait_txn_info table_id g_ddl_work,
               db := s.db.execute_broadcast_task now g_ddl_work })
  else
    let s1 := DBManager.update_txn_ready s table_id
    if s1.ddl.is_txn_done table_id then
      if s1.ddl.is_txn_success table_id then
        let g : DdlWorkInfo := { g_ddl_work with job_state := IndexState.IS_WRITE_LOCAL }
        (0, g, { s1 with ddl := (s1.ddl.update_table_ddl_mem g).erase_txn_info table_id,
                         table_manager := s1.table_manager.update_index_status g })
      else
        let g : DdlWorkInfo := { g_ddl_work with errcode := ErrCode.EXEC_FAIL }
        let ddl1 := (s1.ddl.update_table_ddl_mem g).erase_txn_info table_id
        (0, g, { s1 with ddl := { ddl1 with update_policy := ddl1.update_policy.clear table_id } })
    else (0, g_ddl_work, s1)

/-- The dwell-gated advance of lines 717-730: consult the policy, then set and publish `next`. -/
def DDLManager.add_index_advance (fl : Flags) (now : Int) (s : MetaServer) (g_ddl_work : DdlWorkInfo)
    (current_state next : IndexState) : Int × DdlWorkInfo × MetaServer :=
  match s.ddl.update_policy.should_change fl now g_ddl_work.table_id current_state with
  | (true, p) =>
    let g : DdlWorkInfo := { g_ddl_work with job_state := next }
    let ddl1 : DDLManager := { s.ddl with update_policy := p }
    (0, g, { s with ddl := ddl1.update_table_ddl_mem g,
                    table_manager := s.table_manager.update_index_status g })
  | (false, p) => (0, g_ddl_work, { s with ddl := { s.ddl with update_policy := p } })

/-- The method `DDLManager::add_index_global_ddlwork` (lines 699-867): return code, the job (passed by reference), the server. -/
def DDLManager.add_index_global_ddlwork (fl : Flags) (now : Int) (s : MetaServer)
    (g_ddl_work : DdlWorkInfo) : Int × DdlWorkInfo × MetaServer :=
  let region_size := s.table_manager.get_region_size g_ddl_work.index_id
  match s.table_manager.get_index_state g_ddl_work.table_id g_ddl_work.index_id with
  | none => (-1, g_ddl_work, s)
  | some current_state =>
    if g_ddl_work.errcode = ErrCode.EXEC_FAIL then (0, g_ddl_work, s)
    else
      match current_state with
      | IndexState.IS_NONE =>
        DDLManager.add_index_advance fl now s g_ddl_work current_state IndexState.IS_DELETE_ONLY
      | IndexState.IS_DELETE_ONLY =>
        DDLManager.add_index_advance fl now s g_ddl_work current_state IndexState.IS_WRITE_ONLY
      | IndexState.IS_WRITE_ONLY => DDLManager.add_index_write_only now s g_ddl_work
      | IndexState.IS_WRITE_LOCAL => DDLManager.add_index_write_local fl now s g_ddl_work region_size
      | IndexState.IS_PUBLIC => (0, g_ddl_work, s)

/-- The dwell-gated step of lines 664-691: consult the policy, then set and publish `next`. -/
def DDLManager.drop_index_step (fl : Flags) (now : Int) (s : MetaServer) (g_ddl_work : DdlWorkInfo)
    (current_state next : IndexState) : Int × DdlWorkInfo × MetaServer :=
  match s.ddl.update_policy.should_change fl now g_ddl_work.table_id current_state with
  | (true, p) =>
    let g : DdlWorkInfo := { g_ddl_work with job_state := next }
    let ddl1 : DDLManager := { s.ddl with update_policy := p }
    (0, g, { s with table_manager := s.table_manager.update_index_status g,
                    ddl := ddl1.update_table_ddl_mem g })
  | (false, p) => (0, g_ddl_work, { s with ddl := { s.ddl with update_policy := p } })

/-- Lines 645-663: the case `IS_NONE` of `drop_index_global_ddlwork`. -/
def DDLManager.drop_index_none (fl : Flags) (now : Int) (s : MetaServer) (g_ddl_work : DdlWorkInfo) :
    Int × DdlWorkInfo × MetaServer :=
  let table_id := g_ddl_work.table_id
  match s.ddl.update_policy.should_change fl now table_id IndexState.IS_NONE with
  | (true, p) =>
    let g : DdlWorkInfo := { g_ddl_work with deleted := true, errcode := ErrCode.SUCCESS }
    let s1 : MetaServer :=
      { s with ddl := { s.ddl with update_policy := p },
               table_manager := s.table_manager.update_index_status g }
    let s2 := DDLManager.apply_raft s1
      { op_type := OpType.OP_DELETE_DDLWORK, ddlwork_info := some g, region_ddl_work := none,
        global_ddl_table_id := 0 }
    let s3 := DDLManager.apply_raft s2
      { op_type := OpType.OP_REMOVE_GLOBAL_INDEX_DATA, ddlwork_info := some g, region_ddl_work := none,
        global_ddl_table_id := 0 }
    let ddl1 : DDLManager := { s3.ddl with update_policy := s3.ddl.update_policy.clear table_id }
    (0, g, { s3 with ddl := ddl1.update_table_ddl_mem g })
  | (false, p) => (0, g_ddl_work, { s with ddl := { s.ddl with update_policy := p } })

/-- The method `DDLManager::drop_index_global_ddlwork` (lines 628-697). -/
def DDLManager.drop_index_global_ddlwork (fl : Flags) (now : Int) (s : MetaServer)
    (g_ddl_work : DdlWorkInfo) : Int × DdlWorkInfo × MetaServer :=
  match s.table_manager.get_index_state g_ddl_work.table_id g_ddl_work.index_id with
  | none => (-1, g_ddl_work, s)
  | some current_state =>
    if g_ddl_work.errcode = ErrCode.EXEC_FAIL then (0, g_ddl_work, s)
    else
      match current_state with
      | IndexState.IS_NONE => DDLManager.drop_index_none fl now s g_ddl_work
      | IndexState.IS_DELETE_ONLY =>
        DDLManager.drop_index_step fl now s g_ddl_work current_state IndexState.IS_NONE
      | IndexState.IS_WRITE_ONLY =>
        DDLManager.drop_index_step fl now s g_ddl_work current_state IndexState.IS_DELETE_ONLY
      | IndexState.IS_WRITE_LOCAL =>
        DDLManager.drop_index_step fl now s g_ddl_work current_state IndexState.IS_WRITE_ONLY
      | IndexState.IS_PUBLIC =>
        DDLManager.drop_index_step fl now s g_ddl_work current_state IndexState.IS_WRITE_ONLY

/-! ## DBManager: heartbeats -/

/-- The drain loop of `process_common_task_hearbeat` (lines 55-70) over the todo entries of the sender. -/
def DBManager.drain_to_do (now : Int) (address : String) :
    List (TaskId × MemRegionDdlWork) →
    MetaServer × List (TaskId × MemRegionDdlWork) × BaikalHeartBeatResponse →
    MetaServer × List (TaskId × MemRegionDdlWork) × BaikalHeartBeatResponse
  | [], acc => acc
  | (task_id, w) :: rest, (s, doing, response) =>
    let region_ddl_info : RegionDdlWork :=
      { w.region_info with status := DdlWorkStatus.DdlWorkDoing, address := address }
    let w1 : MemRegionDdlWork := { region_info := region_ddl_info, update_timestamp := now }
    DBManager.drain_to_do now address rest
      (DDLManager.update_region_ddlwork s region_ddl_info,
       AMap.insert_new task_id w1 doing,
       { response with region_ddl_works := response.region_ddl_works ++ [region_ddl_info] })

/-- One iteration of the report loop of `process_common_task_hearbeat` (lines 74-96). -/
def DBManager.process_region_report (now : Int) (s : MetaServer) (region_ddl_info : RegionDdlWork) :
    MetaServer :=
  let task_id := task_id_of region_ddl_info
  match AMap.find region_ddl_info.address s.db.common_task_map with
  | none => s
  | some q =>
    if region_ddl_info.status = DdlWorkStatus.DdlWorkDoing then
      let refresh : MemRegionDdlWork → MemRegionDdlWork := fun w => { w with update_timestamp := now }
      let cm := AMap.update region_ddl_info.address
        (fun q => { q with doing_task_map := AMap.update task_id refresh q.doing_task_map })
        s.db.common_task_map
      { s with db := { s.db with common_task_map := cm } }
    else if AMap.contains task_id q.doing_task_map then
      let s1 := DDLManager.update_region_ddlwork s region_ddl_info
      let cm := AMap.update region_ddl_info.address
        (fun q => { q with doing_task_map := AMap.erase task_id q.doing_task_map })
        s1.db.common_task_map
      { s1 with db := { s1.db with common_task_map := cm } }
    else s

/-- The method `DBManager::process_common_task_hearbeat` (lines 51-97). -/
def DBManager.process_common_task_hearbeat (now : Int) (address : String) (s : MetaServer)
    (request : BaikalHeartBeatRequest) (response : BaikalHeartBeatResponse) :
    MetaServer × BaikalHeartBeatResponse :=
  let drained : MetaServer × BaikalHeartBeatResponse :=
    match AMap.find address s.db.common_task_map with
    | none => (s, response)
    | some q =>
      match DBManager.drain_to_do now address q.to_do_task_map (s, q.doing_task_map, response) with
      | (s1, doing, response1) =>
        let cm := AMap.update address
          (fun _ => { to_do_task_map := [], doing_task_map := doing }) s1.db.common_task_map
        ({ s1 with db := { s1.db with common_task_map := cm } }, response1)
  (request.region_ddl_works.foldl (DBManager.process_region_report now) drained.1, drained.2)

/-- Lines 111-122 of `process_broadcast_task_hearbeat` for one task: hand the payload to the sender. -/
def DBManager.broadcast_hand_out (now : Int) (address : String) (task : BroadcastTask) :
    BroadcastTask × List DdlWorkInfo :=
  if AMap.contains address task.to_do_task_map then
    ({ task with to_do_task_map := AMap.erase address task.to_do_task_map,
                 doing_task_map := AMap.set address { update_timestamp := now } task.doing_task_map },
     [{ task.work with status := DdlWorkStatus.DdlWorkDoing }])
  else (task, [])

/-- One iteration of the acknowledgement loop of `process_broadcast_task_hearbeat` (lines 125-177). -/
def DBManager.process_broadcast_ack (now : Int) (address : String) (s : MetaServer)
    (txn_ddl_info : DdlWorkInfo) : MetaServer :=
  let table_id := txn_ddl_info.table_id
  match AMap.find table_id s.db.broadcast_task_map with
  | none => s
  | some txn =>
    if txn_ddl_info.status = DdlWorkStatus.DdlWorkDoing then
      let refresh : MemDdlWork → MemDdlWork := fun _ => { update_timestamp := now }
      let txn1 : BroadcastTask :=
        if AMap.contains address txn.doing_task_map then
          { txn with doing_task_map := AMap.update address refresh txn.doing_task_map }
        else
          { txn with to_do_task_map := AMap.update address refresh txn.to_do_task_map }
      let bm := AMap.update table_id (fun _ => txn1) s.db.broadcast_task_map
      { s with db := { s.db with broadcast_task_map := bm } }
    else
      -- the branches Fail (lines 154-160) and Done (lines 161-168); `txn1` is the task behind `txn_ptr`
      let r : MetaServer × BroadcastTask :=
        if txn_ddl_info.status = DdlWorkStatus.DdlWorkFail then
          ({ s with
              ddl := s.ddl.set_txn_ready txn.work.table_id false
              db := { s.db with broadcast_task_map := AMap.erase table_id s.db.broadcast_task_map } },
           txn)
        else if txn_ddl_info.status = DdlWorkStatus.DdlWorkDone then
          if AMap.contains address txn.doing_task_map then
            let txn1 : BroadcastTask :=
              { txn with number := txn.number - 1,
                         doing_task_map := AMap.erase address txn.doing_task_map }
            let bm := AMap.update table_id (fun _ => txn1) s.db.broadcast_task_map
            ({ s with db := { s.db with broadcast_task_map := bm } }, txn1)
          else (s, txn)
        else (s, txn)
      -- lines 169-176
      if r.2.number = 0 then
        { r.1 with
          ddl := r.1.ddl.set_txn_ready r.2.work.table_id true
          db := { r.1.db with broadcast_task_map := AMap.erase table_id r.1.db.broadcast_task_map } }
      else r.1

/-- The method `DBManager::process_broadcast_task_hearbeat` (lines 99-178). -/
def DBManager.process_broadcast_task_hearbeat (now : Int) (address : String) (s : MetaServer)
    (request : BaikalHeartBeatRequest) (response : BaikalHeartBeatResponse) :
    MetaServer × BaikalHeartBeatResponse :=
  let handed := s.db.broadcast_task_map.map (fun e => (e.1, DBManager.broadcast_hand_out now address e.2))
  let s1 : MetaServer :=
    { s with db := { s.db with broadcast_task_map := handed.map (fun e => (e.1, e.2.1)) } }
  let response1 : BaikalHeartBeatResponse :=
    { response with ddl_works := response.ddl_works ++ (handed.map (fun e => e.2.2)).flatten }
  (request.ddl_works.foldl (DBManager.process_broadcast_ack now address) s1, response1)

/--
Modelled from the spec: `DBManager::update_baikaldb_info` (declared outside the
given sources): "record last_seen_us = now, transition WorkerInfo.state to
Healthy"; the worker is created on its first heartbeat.
-/
def DBManager.update_baikaldb_info (now : Int) (db : DBManager) (address room : String) : DBManager :=
  let info : InstanceDBStatus := { room := room, state := InstanceState.NORMAL, timestamp := now }
  { db with address_instance_map := AMap.set address info db.address_instance_map }

/-- The method `DBManager::process_baikal_heartbeat` (lines 179-204); `address` is the remote side of the call. -/
def DBManager.process_baikal_heartbeat (now : Int) (address : String) (s : MetaServer)
    (request : BaikalHeartBeatRequest) (response : BaikalHeartBeatResponse) :
    MetaServer × BaikalHeartBeatResponse :=
  if !request.can_do_ddlwork then (s, response)
  else
    let s1 : MetaServer :=
      { s with db := DBManager.update_baikaldb_info now s.db address request.physical_room }
    match DBManager.process_common_task_hearbeat now address s1 request response with
    | (s2, response1) => DBManager.process_broadcast_task_hearbeat now address s2 request response1

/-! ## DBManager: the background sweeper (`DBManager::init`) -/

/-- The lambda `traverse_func` (lines 299-317): entries older than `20 * heartbeat` go back to Idle and are erased. -/
def DBManager.traverse_func (fl : Flags) (now : Int) :
    List (TaskId × MemRegionDdlWork) → MetaServer → List (TaskId × MemRegionDdlWork) × MetaServer
  | [], s => ([], s)
  | (task_id, w) :: rest, s =>
    if wrap_int32 (fl.baikal_heartbeat_interval_us * 20) < now - w.update_timestamp then
      let info : RegionDdlWork := { w.region_info with status := DdlWorkStatus.DdlWorkIdle }
      DBManager.traverse_func fl now rest (DDLManager.update_region_ddlwork s info)
    else
      let r := DBManager.traverse_func fl now rest s
      ((task_id, w) :: r.1, r.2)

/-- Lines 298-321: the timeout sweep over the queues of every worker. -/
def DBManager.sweep_common_tasks (fl : Flags) (now : Int) :
    List (String × CommonTaskMap) → MetaServer → List (String × CommonTaskMap) × MetaServer
  | [], s => ([], s)
  | (address, q) :: rest, s =>
    match DBManager.traverse_func fl now q.to_do_task_map s with
    | (todo, s1) =>
      match DBManager.traverse_func fl now q.doing_task_map s1 with
      | (doing, s2) =>
        let r := DBManager.sweep_common_tasks fl now rest s2
        ((address, { to_do_task_map := todo, doing_task_map := doing }) :: r.1, r.2)

/-- The lambda `delete_heartbeat_timeout_txn_work` (lines 333-346) on one map of a broadcast task. -/
def DBManager.delete_heartbeat_timeout_txn_work (fl : Flags) (now : Int)
    (number : Int) (work_map : List (String × MemDdlWork)) : Int × List (String × MemDdlWork) :=
  let timeout : String × MemDdlWork → Bool :=
    fun e => decide (wrap_int32 (fl.baikal_heartbeat_interval_us * 30) < now - e.2.update_timestamp)
  (number - ((work_map.filter timeout).length : Int), work_map.filter (fun e => !timeout e))

/-- Lines 332-349: the timeout sweep of one broadcast task (doing first, then todo). -/
def DBManager.sweep_broadcast_task (fl : Flags) (now : Int) (task : BroadcastTask) : BroadcastTask :=
  match DBManager.delete_heartbeat_timeout_txn_work fl now task.number task.doing_task_map with
  | (n1, doing) =>
    match DBManager.delete_heartbeat_timeout_txn_work fl now n1 task.to_do_task_map with
    | (n2, todo) => { task with number := n2, to_do_task_map := todo, doing_task_map := doing }

/-- The method `DBManager::get_faulty_baikaldb` (lines 263-285): the faulty addresses and the new worker map. -/
def DBManager.get_faulty_baikaldb (fl : Flags) (now : Int) :
    List (String × InstanceDBStatus) → List String × List (String × InstanceDBStatus)
  | [] => ([], [])
  | (address, inst) :: rest =>
    let r := DBManager.get_faulty_baikaldb fl now rest
    if wrap_int32 (fl.baikal_heartbeat_interval_us * 20) < now - inst.timestamp then
      if wrap_int32 (fl.baikal_heartbeat_interval_us * 90) < now - inst.timestamp then
        (address :: r.1, r.2)
      else
        (address :: r.1, (address, { inst with state := InstanceState.FAULTY }) :: r.2)
    else (r.1, (address, inst) :: r.2)

/-- The lambda `re_launch_task_func` (lines 354-363): every unit of the map goes back to Idle. -/
def DBManager.re_launch_task_func : List (TaskId × MemRegionDdlWork) → MetaServer → MetaServer
  | [], s => s
  | (_, w) :: rest, s =>
    let info : RegionDdlWork := { w.region_info with status := DdlWorkStatus.DdlWorkIdle }
    DBManager.re_launch_task_func rest (DDLManager.update_region_ddlwork s info)

/-- Lines 352-372: the treatment of one faulty worker. -/
def DBManager.sweep_faulty_db (s : MetaServer) (faulty_db : String) : MetaServer :=
  let s1 : MetaServer :=
    match AMap.find faulty_db s.db.common_task_map with
    | none => s
    | some q =>
      let s2 := DBManager.re_launch_task_func q.doing_task_map
        (DBManager.re_launch_task_func q.to_do_task_map s)
      let cm := AMap.update faulty_db (fun _ => { to_do_task_map := [], doing_task_map := [] })
        s2.db.common_task_map
      { s2 with db := { s2.db with common_task_map := cm } }
  let drop_worker : BroadcastTask → BroadcastTask := fun t =>
    { t with
      number := t.number - AMap.erase_count faulty_db t.to_do_task_map
                  - AMap.erase_count faulty_db t.doing_task_map
      to_do_task_map := AMap.erase faulty_db t.to_do_task_map
      doing_task_map := AMap.erase faulty_db t.doing_task_map }
  let bm := s1.db.broadcast_task_map.map (fun e => (e.1, drop_worker e.2))
  { s1 with db := { s1.db with broadcast_task_map := bm } }

/-- One pass of the loop of `DBManager::init` on the leader (lines 297-373). -/
def DBManager.init_pass (fl : Flags) (now : Int) (s : MetaServer) : MetaServer :=
  match DBManager.sweep_common_tasks fl now s.db.common_task_map s with
  | (cm, s1) =>
    let bm := s1.db.broadcast_task_map.map (fun e => (e.1, DBManager.sweep_broadcast_task fl now e.2))
    match DBManager.get_faulty_baikaldb fl now s1.db.address_instance_map with
    | (faulty_dbs, instances) =>
      let s2 : MetaServer :=
        { s1 with db := { s1.db with common_task_map := cm, broadcast_task_map := bm,
                                     address_instance_map := instances } }
      faulty_dbs.foldl DBManager.sweep_faulty_db s2

/-! ## DDLManager: applied consensus operations -/

/-- Modelled from the spec: `MetaRocksdb::put_meta_info` for a region row; fails (returns -1) when the store is not writable. -/
def MetaRocksdb.put_region (m : MetaRocksdb) (work : RegionDdlWork) : Int × MetaRocksdb :=
  if m.writable then
    (0, { m with region_ddlwork := AMap.set (work.table_id, work.region_id) work m.region_ddlwork })
  else (-1, m)

/-- Modelled from the spec: `MetaRocksdb::put_meta_info` for a job row; fails (returns -1) when the store is not writable. -/
def MetaRocksdb.put_ddlwork (m : MetaRocksdb) (work : DdlWorkInfo) : Int × MetaRocksdb :=
  if m.writable then (0, { m with ddlwork := AMap.set work.table_id work m.ddlwork }) else (-1, m)

/-- The method `DDLManager::update_global_ddlwork_region_info` (lines 985-1011). -/
def DDLManager.update_global_ddlwork_region_info (s : MetaServer) (work : RegionDdlWork) :
    Int × MetaServer :=
  let ddl : DDLManager :=
    match AMap.find work.table_id s.ddl.region_ddlwork with
    | some region_map =>
      let region_map1 := AMap.set work.region_id { region_info := work } region_map
      { s.ddl with region_ddlwork := AMap.update work.table_id (fun _ => region_map1) s.ddl.region_ddlwork }
    | none => s.ddl.index_region_ddlwork work.table_id
  match s.rocksdb.put_region work with
  | (ret, m) => if ret = 0 then (0, { s with ddl := ddl, rocksdb := m }) else (-1, { s with ddl := ddl })

/--
Modelled from the spec: `MetaRocksdb::put_meta_info` for the job row stored
under the key of `table_id` (`construct_global_ddl_key(DDLWORK_IDENTIFY,
{table_id})`); fails (returns -1) when the store is not writable.
-/
def MetaRocksdb.put_ddlwork_key (m : MetaRocksdb) (table_id : Int) (work : DdlWorkInfo) :
    Int × MetaRocksdb :=
  if m.writable then (0, { m with ddlwork := AMap.set table_id work m.ddlwork }) else (-1, m)

/-- The method `DDLManager::update_ddl_status` (lines 922-939). -/
def DDLManager.update_ddl_status (s : MetaServer) (is_suspend : Bool) (table_id : Int) : Int × MetaServer :=
  match s.ddl.get_ddl_mem table_id with
  | some mem_info =>
    let mem_info : DdlWorkInfo := { mem_info with suspend := is_suspend }
    let ddl := s.ddl.update_table_ddl_mem mem_info
    match s.rocksdb.put_ddlwork_key table_id mem_info with
    | (ret, m) => if ret = 0 then (0, { s with ddl := ddl, rocksdb := m }) else (-1, { s with ddl := ddl })
  | none => (0, s)

/-- The unset message `pb::RegionDdlWork` (protobuf defaults). -/
def RegionDdlWork.unset : RegionDdlWork :=
  { table_id := 0, region_id := 0, index_id := 0, partition_id := 0, start_key := "", end_key := "",
    status := DdlWorkStatus.DdlWorkIdle, retry_time := 0, address := "" }

/-- The method `DDLManager::raft_update_info` (lines 941-966). -/
def DDLManager.raft_update_info (s : MetaServer) (request : MetaManagerRequest) : MetaServer :=
  let table_id := request.global_ddl_table_id
  match request.op_type with
  | OpType.OP_UPDATE_GLOBAL_REGION_DDL_WORK =>
    (DDLManager.update_global_ddlwork_region_info s (request.region_ddl_work.getD RegionDdlWork.unset)).2
  | OpType.OP_SUSPEND_DDL_WORK => (DDLManager.update_ddl_status s true table_id).2
  | OpType.OP_RESTART_DDL_WORK => (DDLManager.update_ddl_status s false table_id).2
  | _ => s

/--
Modelled from the spec: `DBManager::clear_task` (declared outside the given
sources), "removes all queues of work belonging to a completed/rolled-back job".
-/
def DBManager.clear_task (db : DBManager) (table_id : Int) : DBManager :=
  let keep : TaskId × MemRegionDdlWork → Bool := fun e => !decide (e.1.1 = table_id)
  { db with common_task_map := db.common_task_map.map (fun e =>
      (e.1, { to_do_task_map := e.2.to_do_task_map.filter keep,
              doing_task_map := e.2.doing_task_map.filter keep })) }

/-! ## Keys of the meta store -/

/--
Modelled from the spec: the identifier `MetaServer::SCHEMA_IDENTIFY`, a string
declared outside the given sources, as a list of bytes. The byte is a
placeholder: the key functions take the identifiers as arguments and the
theorems about keys hold for all identifiers.
-/
def SCHEMA_IDENTIFY : List Nat := [2]

/--
Modelled from the spec: the identifier
`MetaServer::GLOBAL_DDLWORK_REGION_IDENTIFY`, declared outside the given
sources, as a list of bytes (a placeholder byte, as for `SCHEMA_IDENTIFY`).
-/
def GLOBAL_DDLWORK_REGION_IDENTIFY : List Nat := [9]

/--
The bytes appended by `ddl_key.append((char*)&id, sizeof(int64_t))` (line 35):
the object representation of an `int64_t`, two's complement, least significant
byte first.
-/
def int64_bytes (id : Int) : List Nat :=
  (List.range 8).map (fun i => to_size_t id / 256 ^ i % 256)

/-- The function `construct_global_ddl_key` (lines 31-38) on strings of bytes; `schema_identify` stands for `MetaServer::SCHEMA_IDENTIFY`. -/
def construct_global_ddl_key (schema_identify identify : List Nat) (ids : List Int) : List Nat :=
  ids.foldl (fun ddl_key id => ddl_key ++ int64_bytes id) (schema_identify ++ identify)

/--
Modelled from the spec: the order of the keys of the meta store ("bytewise"):
bytes are compared as unsigned values, a proper prefix comes first.
-/
def bytes_lt : List Nat → List Nat → Bool
  | _, [] => false
  | [], _ :: _ => true
  | a :: x, b :: y => decide (a < b) || (decide (a = b) && bytes_lt x y)

/-- Modelled from the spec: membership of a key in the half-open range `[begin_key, end_key)` removed by `remove_range`. -/
def key_in_range (begin_key end_key key : List Nat) : Bool :=
  !bytes_lt key begin_key && bytes_lt key end_key

/-- The keys `begin_key` and `end_key` of `delete_global_ddlwork_region_info` (lines 889-892). -/
def region_range (schema_identify identify : List Nat) (table_id : Int) : List Nat × List Nat :=
  let begin_key := construct_global_ddl_key schema_identify identify [table_id]
  (begin_key, begin_key ++ List.replicate 8 255)

/-- Whether the row of region `key.2` of table `key.1` lies in the range removed for `table_id`. -/
def region_row_in_range (schema_identify identify : List Nat) (table_id : Int) (key : Int × Int) : Bool :=
  key_in_range (region_range schema_identify identify table_id).1
    (region_range schema_identify identify table_id).2
    (construct_global_ddl_key schema_identify identify [key.1, key.2])

/--
The method `DDLManager::delete_global_ddlwork_region_info` (lines 882-901): the
region map of the table is erased and the rows whose key lies in
`[begin_key, end_key)` are removed from the store; the row of a unit is stored
under `construct_global_ddl_key(GLOBAL_DDLWORK_REGION_IDENTIFY, {table_id, region_id})`.
-/
def DDLManager.delete_global_ddlwork_region_info (s : MetaServer) (table_id : Int) : MetaServer :=
  let rows := s.rocksdb.region_ddlwork.filter
    (fun e => !region_row_in_range SCHEMA_IDENTIFY GLOBAL_DDLWORK_REGION_IDENTIFY table_id e.1)
  { s with ddl := { s.ddl.drop_null_entry table_id with
                    region_ddlwork := AMap.erase table_id s.ddl.region_ddlwork },
           rocksdb := if s.rocksdb.writable then { s.rocksdb with region_ddlwork := rows } else s.rocksdb }

/-- The method `DDLManager::delete_global_ddlwork_info` (lines 903-920). -/
def DDLManager.delete_global_ddlwork_info (s : MetaServer) (table_id : Int) : Int × MetaServer :=
  let ddl : DDLManager :=
    { s.ddl with table_ddl_mem := AMap.erase table_id s.ddl.table_ddl_mem,
                 update_policy := s.ddl.update_policy.clear table_id,
                 wait_txns := AMap.erase table_id s.ddl.wait_txns }
  if s.rocksdb.writable then
    (0, { s with ddl := ddl, rocksdb := { s.rocksdb with ddlwork := AMap.erase table_id s.rocksdb.ddlwork } })
  else (-1, { s with ddl := ddl })

/-- The method `DDLManager::delete_ddlwork` (lines 968-978). -/
def DDLManager.delete_ddlwork (s : MetaServer) (request : MetaManagerRequest) : MetaServer :=
  let table_id : Int := match request.ddlwork_info with
    | some w => w.table_id
    | none => 0
  let s1 := DDLManager.delete_global_ddlwork_region_info s table_id
  let s2 := (DDLManager.delete_global_ddlwork_info s1 table_id).2
  { s2 with db := s2.db.clear_task table_id }

/--
Modelled from the spec: the consensus log "apply this state change" primitive
(`SchemaManager::process_schema_info` and the state machine, outside the given
sources): the oldest pending request is delivered to `delete_ddlwork` or
`raft_update_info`; `OP_REMOVE_GLOBAL_INDEX_DATA` goes to the storage layer.
-/
def MetaServer.on_apply (s : MetaServer) : MetaServer :=
  match s.raft_pending with
  | [] => s
  | request :: rest =>
    let s1 : MetaServer := { s with raft_pending := rest }
    match request.op_type with
    | OpType.OP_DELETE_DDLWORK => DDLManager.delete_ddlwork s1 request
    | OpType.OP_UPDATE_GLOBAL_REGION_DDL_WORK => DDLManager.raft_update_info s1 request
    | OpType.OP_SUSPEND_DDL_WORK => DDLManager.raft_update_info s1 request
    | OpType.OP_RESTART_DDL_WORK => DDLManager.raft_update_info s1 request
    | _ => s1

/-! ## DDLManager: job initialisation -/

/--
The unset message `pb::DdlWorkInfo`. Modelled from the spec: the protobuf
defaults are declared outside the given sources; `job_state` starts at
`IS_NONE` (the controller reads the state of the catalog, never this default).
-/
def DdlWorkInfo.unset : DdlWorkInfo :=
  { table_id := 0, op_type := OpType.OP_ADD_INDEX, index_id := 0, job_state := IndexState.IS_NONE,
    errcode := ErrCode.IN_PROCESS, suspend := false, deleted := false, global := false,
    status := DdlWorkStatus.DdlWorkIdle }

/-- The fields of `pb::RegionInfo` read by `init_global_ddlwork`. -/
structure RegionInfo where
  region_id : Int
  start_key : String
  end_key : String
  deriving DecidableEq, Repr

/-- The method `DDLManager::init_del_global_ddlwork` (lines 412-438). -/
def DDLManager.init_del_global_ddlwork (s : MetaServer) (table_id index_id : Int) : Int × MetaServer :=
  if AMap.contains table_id s.ddl.table_ddl_mem then (-1, s)
  else
    let work_info : DdlWorkInfo :=
      { DdlWorkInfo.unset with table_id := table_id, op_type := OpType.OP_DROP_INDEX,
                               index_id := index_id, errcode := ErrCode.IN_PROCESS, global := true }
    let mem := s.ddl.table_ddl_mem ++ [(table_id, { work_info := work_info })]
    let s1 : MetaServer := { s with ddl := { s.ddl with table_ddl_mem := mem } }
    match s1.rocksdb.put_ddlwork work_info with
    | (ret, m) => if ret = 0 then (0, { s1 with rocksdb := m }) else (-1, s1)

/-- The loop of lines 485-514 of `init_global_ddlwork` over the region infos. -/
def DDLManager.init_region_works (table_id index_id : Int) (region_partition_map : List (Int × Int)) :
    List RegionInfo → List (Int × MemRegionDdlWork) × MetaRocksdb →
    Int × List (Int × MemRegionDdlWork) × MetaRocksdb
  | [], (region_map, m) => (0, region_map, m)
  | region_info :: rest, (region_map, m) =>
    let region_work : RegionDdlWork :=
      { RegionDdlWork.unset with
        table_id := table_id, region_id := region_info.region_id,
        start_key := region_info.start_key, end_key := region_info.end_key,
        status := DdlWorkStatus.DdlWorkIdle, index_id := index_id,
        partition_id := (AMap.find region_info.region_id region_partition_map).getD 0 }
    let region_map1 := AMap.set region_info.region_id { region_info := region_work } region_map
    match m.put_region region_work with
    | (ret, m1) =>
      if ret = 0 then DDLManager.init_region_works table_id index_id region_partition_map rest (region_map1, m1)
      else (-1, region_map1, m)

/--
Lines 469-474 of `init_global_ddlwork`: the assignment
`region_partition_map[region_id] = partition` for the regions of every
partition in turn; a later assignment to the same region replaces an earlier one.
-/
def DDLManager.region_partition_map (partition_regions : List (Int × List Int)) : List (Int × Int) :=
  partition_regions.foldl
    (fun m partition_region =>
      partition_region.2.foldl (fun m1 region_id => AMap.set region_id partition_region.1 m1) m) []

/--
The method `DDLManager::init_global_ddlwork` (lines 440-516); `region_infos` is
the answer of `RegionManager::get_region_info` for the regions of `partition_regions`.
-/
def DDLManager.init_global_ddlwork (s : MetaServer) (table_id index_id : Int)
    (partition_regions : List (Int × List Int)) (region_infos : List RegionInfo) : Int × MetaServer :=
  if AMap.contains table_id s.ddl.table_ddl_mem then (-1, s)
  else
    let work_info : DdlWorkInfo :=
      { DdlWorkInfo.unset with table_id := table_id, op_type := OpType.OP_ADD_INDEX,
                               index_id := index_id, errcode := ErrCode.IN_PROCESS, global := true }
    let mem := s.ddl.table_ddl_mem ++ [(table_id, { work_info := work_info })]
    let s1 : MetaServer := { s with ddl := { s.ddl with table_ddl_mem := mem } }
    match s1.rocksdb.put_ddlwork work_info with
    | (ret, m) =>
      if ret = 0 then
        let region_partition_map := DDLManager.region_partition_map partition_regions
        match DDLManager.init_region_works table_id index_id region_partition_map region_infos ([], m) with
        | (ret1, region_map, m1) =>
          let ddl1 : DDLManager :=
            { s1.ddl.drop_null_entry table_id with
              region_ddlwork := AMap.set table_id region_map s1.ddl.region_ddlwork }
          (ret1, { s1 with ddl := ddl1, rocksdb := m1 })
      else (-1, s1)

/-! ## Runs of the meta server -/

/-- The events that drive the coordinator. -/
inductive Step where
  | tick (now : Int) (table_id : Int)
  | heartbeat (now : Int) (address : String) (request : BaikalHeartBeatRequest)
  | sweep (now : Int)
  | apply
  deriving DecidableEq, Repr

/--
One controller visit of a job, as done by one round of the loop of
`DDLManager::work` (lines 531-562): a finished job is cleaned up, a suspended
job is skipped, otherwise the step of its op type runs on a copy of the record.
-/
def DDLManager.work_one (fl : Flags) (now : Int) (s : MetaServer) (table_id : Int) : MetaServer :=
  match AMap.find table_id s.ddl.table_ddl_mem with
  | none => s
  | some mem =>
    if mem.work_info.errcode = ErrCode.SUCCESS ∨ mem.work_info.errcode = ErrCode.EXEC_FAIL then
      let s1 := DDLManager.apply_raft s
        { op_type := OpType.OP_DELETE_DDLWORK, ddlwork_info := some mem.work_info,
          region_ddl_work := none, global_ddl_table_id := 0 }
      if mem.work_info.errcode = ErrCode.EXEC_FAIL ∧ mem.work_info.op_type = OpType.OP_ADD_INDEX then
        { s1 with table_manager := s1.table_manager.drop_index_request mem.work_info }
      else s1
    else if mem.work_info.suspend then s
    else
      match mem.work_info.op_type with
      | OpType.OP_DROP_INDEX => (DDLManager.drop_index_global_ddlwork fl now s mem.work_info).2.2
      | OpType.OP_ADD_INDEX => (DDLManager.add_index_global_ddlwork fl now s mem.work_info).2.2
      | _ => s

/-- The effect of one event. -/
def MetaServer.step (fl : Flags) (s : MetaServer) : Step → MetaServer
  | Step.tick now table_id => DDLManager.work_one fl now s table_id
  | Step.heartbeat now address request =>
    (DBManager.process_baikal_heartbeat now address s request
      { region_ddl_works := [], ddl_works := [] }).1
  | Step.sweep now => DBManager.init_pass fl now s
  | Step.apply => s.on_apply

/-- The state after a sequence of events. -/
def MetaServer.run (fl : Flags) (s : MetaServer) (steps : List Step) : MetaServer :=
  steps.foldl (MetaServer.step fl) s

/-! ## Predicates and scenarios used by the theorems -/

/-- A unit whose status makes the traversal of `IS_WRITE_LOCAL` roll the job back (lines 826-838). -/
def fatal_unit (fl : Flags) (w : MemRegionDdlWork) : Prop :=
  w.region_info.status = DdlWorkStatus.DdlWorkDupUniq ∨
  w.region_info.status = DdlWorkStatus.DdlWorkError ∨
  (w.region_info.status = DdlWorkStatus.DdlWorkFail ∧ ¬ w.region_info.retry_time < fl.max_ddl_retry_time)

/-- The chain `IS_NONE -> IS_DELETE_ONLY -> IS_WRITE_ONLY -> IS_WRITE_LOCAL -> IS_PUBLIC` of spec section 4.4. -/
def forward_successor : IndexState → Option IndexState
  | IndexState.IS_NONE => some IndexState.IS_DELETE_ONLY
  | IndexState.IS_DELETE_ONLY => some IndexState.IS_WRITE_ONLY
  | IndexState.IS_WRITE_ONLY => some IndexState.IS_WRITE_LOCAL
  | IndexState.IS_WRITE_LOCAL => some IndexState.IS_PUBLIC
  | IndexState.IS_PUBLIC => none

/-- The position of a visibility state in the forward chain. -/
def visibility_rank : IndexState → Nat
  | IndexState.IS_NONE => 0
  | IndexState.IS_DELETE_ONLY => 1
  | IndexState.IS_WRITE_ONLY => 2
  | IndexState.IS_WRITE_LOCAL => 3
  | IndexState.IS_PUBLIC => 4

/--
The job records seen along a sequence of add-index ticks: tick `i` runs at the
time and in the server state of the `i`-th entry, on the record left by tick `i - 1`.
-/
def add_index_job_trace (fl : Flags) : DdlWorkInfo → List (Int × MetaServer) → List DdlWorkInfo
  | g, [] => [g]
  | g, (now, s) :: rest =>
    g :: add_index_job_trace fl (DDLManager.add_index_global_ddlwork fl now s g).2.1 rest

/-- The number of places of a sequence of job records where `errcode` becomes `EXEC_FAIL`. -/
def exec_fail_sets : List DdlWorkInfo → Nat
  | a :: b :: rest =>
    (if a.errcode ≠ ErrCode.EXEC_FAIL ∧ b.errcode = ErrCode.EXEC_FAIL then 1 else 0)
      + exec_fail_sets (b :: rest)
  | _ => 0

/-- The dwell gate of a tick: the answer of `should_change` in the state before the tick. -/
def dwell_gate (fl : Flags) (now : Int) (s : MetaServer) (table_id : Int) (st : IndexState) : Bool :=
  (s.ddl.update_policy.should_change fl now table_id st).1

/-- Successive drop-index ticks at the given times, each on the record and server left by the one before. -/
def drop_index_ticks (fl : Flags) : List Int → DdlWorkInfo × MetaServer → DdlWorkInfo × MetaServer
  | [], r => r
  | now :: rest, r =>
    drop_index_ticks fl rest
      ((DDLManager.drop_index_global_ddlwork fl now r.2 r.1).2.1,
       (DDLManager.drop_index_global_ddlwork fl now r.2 r.1).2.2)

/-- Scenario: the add-index job of table 1 on index 10. -/
def scenario_job (job_state : IndexState) : DdlWorkInfo :=
  { DdlWorkInfo.unset with table_id := 1, index_id := 10, job_state := job_state, global := true }

/-- Scenario: the unit of region `region_id` of table 1. -/
def scenario_unit (region_id : Int) (status : DdlWorkStatus) (retry_time : Int) : Int × MemRegionDdlWork :=
  (region_id,
   { region_info := { RegionDdlWork.unset with table_id := 1, region_id := region_id, index_id := 10,
                                               status := status, retry_time := retry_time } })

/-- Scenario: healthy workers with the given addresses, last seen at time 0. -/
def scenario_workers (addresses : List String) : List (String × InstanceDBStatus) :=
  addresses.map (fun a => (a, { room := "", state := InstanceState.NORMAL, timestamp := 0 }))

/--
Scenario: a meta server holding the job of table 1, whose index 10 has one
region and catalog state `current_state`, with the given counter, units and workers.
-/
def scenario_server (current_state : IndexState) (doing_work_number : Int)
    (units : List (Int × MemRegionDdlWork)) (addresses : List String) : MetaServer :=
  { db := { address_instance_map := scenario_workers addresses },
    ddl := { table_ddl_mem := [(1, { work_info := scenario_job current_state,
                                     doing_work_number := doing_work_number })],
             region_ddlwork := [(1, units)] },
    table_manager := { index_state := [((1, 10), current_state)], region_size := [(10, 1)] } }

/-- Scenario of the ratio cap: counter 0, limit `1 * 2`, four Idle units, one worker. -/
def ratio_cap_server : MetaServer :=
  scenario_server IndexState.IS_WRITE_LOCAL 0
    [scenario_unit 1 DdlWorkStatus.DdlWorkIdle 0, scenario_unit 2 DdlWorkStatus.DdlWorkIdle 0,
     scenario_unit 3 DdlWorkStatus.DdlWorkIdle 0, scenario_unit 4 DdlWorkStatus.DdlWorkIdle 0] ["w1"]

/-- Scenario of publication: every unit of the table is Done. -/
def all_done_server : MetaServer :=
  scenario_server IndexState.IS_WRITE_LOCAL 0
    [scenario_unit 1 DdlWorkStatus.DdlWorkDone 1, scenario_unit 2 DdlWorkStatus.DdlWorkDone 1] ["w1"]

/-- Scenario: a heartbeat request without reports. -/
def empty_request : BaikalHeartBeatRequest :=
  { can_do_ddlwork := true, physical_room := "", region_ddl_works := [], ddl_works := [] }

/-- Scenario: an empty heartbeat response. -/
def empty_response : BaikalHeartBeatResponse := { region_ddl_works := [], ddl_works := [] }

/-- Scenario of the barrier: the job at `IS_WRITE_ONLY`, no unit, the worker `w1`. -/
def write_only_server : MetaServer := scenario_server IndexState.IS_WRITE_ONLY 0 [] ["w1"]

/--
Scenario of the failed barrier: the controller starts the broadcast (time 0),
the worker `w1` fetches the payload (time 1) and is then swept out of the task
for being silent (time 300000002), which leaves the task with `number = 0`.
-/
def broadcast_swept_server : MetaServer :=
  write_only_server.run defaultFlags
    [Step.tick 0 1, Step.heartbeat 1 "w1" empty_request, Step.sweep 300000002]

/-- Scenario of the failed barrier: `w1` acknowledges the payload of table 1 with status Fail. -/
def fail_ack_request : BaikalHeartBeatRequest :=
  { empty_request with
    ddl_works := [{ scenario_job IndexState.IS_WRITE_ONLY with status := DdlWorkStatus.DdlWorkFail }] }

/-- The state the inverse chain of `drop_index_global_ddlwork` moves to from a state above `IS_NONE` (lines 664-691). -/
def inverse_successor : IndexState → Option IndexState
  | IndexState.IS_PUBLIC => some IndexState.IS_WRITE_ONLY
  | IndexState.IS_WRITE_LOCAL => some IndexState.IS_WRITE_ONLY
  | IndexState.IS_WRITE_ONLY => some IndexState.IS_DELETE_ONLY
  | IndexState.IS_DELETE_ONLY => some IndexState.IS_NONE
  | IndexState.IS_NONE => none

/-- The two requests issued by a drop-index tick at `IS_NONE` (lines 650-658). -/
def drop_cleanup_requests (g : DdlWorkInfo) : List MetaManagerRequest :=
  [{ op_type := OpType.OP_DELETE_DDLWORK, ddlwork_info := some g, region_ddl_work := none,
     global_ddl_table_id := 0 },
   { op_type := OpType.OP_REMOVE_GLOBAL_INDEX_DATA, ddlwork_info := some g, region_ddl_work := none,
     global_ddl_table_id := 0 }]

/-- The server after a step that publishes the record `g` to the catalog and stores it in memory. -/
def published (s : MetaServer) (g : DdlWorkInfo) : MetaServer :=
  { s with table_manager := s.table_manager.update_index_status g,
           ddl := s.ddl.update_table_ddl_mem g }

/-- Scenario of the inverse path: the drop-index job of table 1 on index 10. -/
def drop_job (job_state : IndexState) : DdlWorkInfo :=
  { scenario_job job_state with op_type := OpType.OP_DROP_INDEX }

/-- Scenario of the inverse path: the index is public and the timer of each state was started at time 0. -/
def drop_server : MetaServer :=
  { ddl := { table_ddl_mem := [(1, { work_info := drop_job IndexState.IS_PUBLIC })],
             update_policy := { time_costs_map :=
               [((1, IndexState.IS_PUBLIC), 0), ((1, IndexState.IS_WRITE_ONLY), 0),
                ((1, IndexState.IS_DELETE_ONLY), 0), ((1, IndexState.IS_NONE), 0)] } },
    table_manager := { index_state := [((1, 10), IndexState.IS_PUBLIC)], region_size := [(10, 1)] } }

/-- Scenario of the barrier: `w1` acknowledges the payload of table 1 with status Done. -/
def done_ack_request : BaikalHeartBeatRequest :=
  { empty_request with
    ddl_works := [{ scenario_job IndexState.IS_WRITE_ONLY with status := DdlWorkStatus.DdlWorkDone }] }

/--
Scenario of the barrier: the controller first visits the job at `IS_WRITE_ONLY`
at time 0 and starts the broadcast, `w1` fetches the payload at time 1 and
acknowledges it at time 2, the controller visits the job again at time 3.
-/
def barrier_steps : List Step :=
  [Step.tick 0 1, Step.heartbeat 1 "w1" empty_request, Step.heartbeat 2 "w1" done_ack_request,
   Step.tick 3 1]

/-- Whether `traverse_with_early_return` visits every entry of the list: no call returns false. -/
def traverse_completes {κ α σ : Type} (call : σ → α → Bool × α × σ) : σ → List (κ × α) → Bool
  | _, [] => true
  | s, (_, v) :: rest =>
    match call s v with
    | (true, _, s1) => traverse_completes call s1 rest
    | (false, _, _) => false

/-- Scenario of the data-fatal rollback: an Idle unit is visited before a DupUniq unit and the pool has no worker. -/
def fatal_behind_idle_server : MetaServer :=
  scenario_server IndexState.IS_WRITE_LOCAL 0
    [scenario_unit 1 DdlWorkStatus.DdlWorkIdle 0, scenario_unit 2 DdlWorkStatus.DdlWorkDupUniq 1] []

/-- Scenario of the data-fatal rollback: a Done unit is visited before a DupUniq unit. -/
def fatal_behind_done_server : MetaServer :=
  scenario_server IndexState.IS_WRITE_LOCAL 0
    [scenario_unit 1 DdlWorkStatus.DdlWorkDone 1, scenario_unit 2 DdlWorkStatus.DdlWorkDupUniq 1] []

/-- Scenario of the retry policy: one Idle unit, one worker, the job at `IS_WRITE_LOCAL`. -/
def retry_server : MetaServer :=
  scenario_server IndexState.IS_WRITE_LOCAL 0 [scenario_unit 1 DdlWorkStatus.DdlWorkIdle 0] ["w1"]

/-- The report of worker `w1` after attempt `k` of region 1: the unit it was handed, with status Fail. -/
def fail_report (k : Int) : BaikalHeartBeatRequest :=
  { empty_request with
    region_ddl_works :=
      [{ (scenario_unit 1 DdlWorkStatus.DdlWorkFail k).2.region_info with address := "w1" }] }

/-- Attempt `k`: the tick submits, `w1` fetches the unit, then reports Fail; the log is applied after each heartbeat. -/
def retry_round (k : Nat) : List Step :=
  [Step.tick 0 1, Step.heartbeat 0 "w1" empty_request, Step.apply,
   Step.heartbeat 0 "w1" (fail_report k), Step.apply]

/-- Scenario of the retry policy: the attempts `1 .. n`. -/
def retry_rounds (n : Nat) : List Step :=
  ((List.range n).map (fun i => retry_round (i + 1))).flatten


/-- The retry count of the unit of region 1 waiting in the todo queue of `w1`, if it is there. -/
def submitted_retry_time (s : MetaServer) : Option Int :=
  (AMap.find "w1" s.db.common_task_map).bind
    (fun q => (AMap.find ((1, 1) : TaskId) q.to_do_task_map).map (fun w => w.region_info.retry_time))

/-- The error code of the job of table 1. -/
def job_errcode (s : MetaServer) : Option ErrCode :=
  (s.ddl.get_ddl_mem 1).map (fun g => g.errcode)

/-- Scenario of the retry bound: the catalog holds index 10 of table 1, hidden, with one region. -/
def fresh_server : MetaServer :=
  { table_manager := { index_state := [((1, 10), IndexState.IS_NONE)], region_size := [(10, 1)] } }

/-- Scenario of the retry bound: the server after `init_global_ddlwork` for table 1 with the single region 1. -/
def initialised_server : MetaServer :=
  (DDLManager.init_global_ddlwork fresh_server 1 10 [(0, [1])]
    [{ region_id := 1, start_key := "", end_key := "" }]).2

/-- Scenario of the retry bound: the job is driven from `IS_NONE` to `IS_WRITE_LOCAL`. -/
def forward_steps : List Step :=
  [Step.heartbeat 0 "w1" empty_request,
   Step.tick 0 1, Step.tick 50000001 1,
   Step.tick 50000002 1, Step.tick 100000003 1,
   Step.tick 100000004 1,
   Step.heartbeat 100000005 "w1" empty_request,
   Step.heartbeat 100000006 "w1" done_ack_request,
   Step.tick 100000007 1]

/--
Scenario of the retry bound, round at time `t`: the tick submits the unit to
`w1`, which stays silent; the sweeper run `20 * heartbeat + 1` later resets the
unit to Idle, the reset is applied, and `w1` heartbeats again.
-/
def timeout_round (t : Int) : List Step :=
  [Step.tick t 1, Step.sweep (t + 200000001), Step.apply,
   Step.heartbeat (t + 200000002) "w1" empty_request]

/-- Scenario of the retry bound: `n` successive timeout rounds. -/
def timeout_rounds (n : Nat) : List Step :=
  ((List.range n).map (fun i => timeout_round (100000010 + (i : Int) * 200000003))).flatten

/-- The unit of region 1 of table 1 in the region map. -/
def region_one (s : MetaServer) : Option RegionDdlWork :=
  (AMap.find 1 s.ddl.region_ddlwork).bind (fun m => (AMap.find 1 m).map (fun w => w.region_info))

/-! ## Scheduler: restore, heartbeat steps, reference definitions, accounting and scenarios -/

/--
The method `DBManager::restore_task` (lines 379-391): a unit found Doing in the
durable store goes back to the worker recorded in it. When that worker has a
queue entry the unit is assigned in its doing map; otherwise the entry created
is the local `map`, which holds the unit in its todo map.
-/
def DBManager.restore_task (now : Int) (db : DBManager) (region_ddl_info : RegionDdlWork) : Int × DBManager :=
  let task_id := task_id_of region_ddl_info
  let work : MemRegionDdlWork := { region_info := region_ddl_info, update_timestamp := now }
  let map : CommonTaskMap := { to_do_task_map := [(task_id, work)] }
  let cm :=
    if AMap.contains region_ddl_info.address db.common_task_map then
      AMap.update region_ddl_info.address
        (fun q => { q with doing_task_map := AMap.set task_id work q.doing_task_map })
        db.common_task_map
    else
      AMap.set region_ddl_info.address map db.common_task_map
  (0, { db with common_task_map := cm })

/-- The drain step of `process_common_task_hearbeat` (lines 54-71): the call `_common_task_map.update(address, ...)`. -/
def DBManager.drain_step (now : Int) (address : String) (s : MetaServer)
    (response : BaikalHeartBeatResponse) : MetaServer × BaikalHeartBeatResponse :=
  match AMap.find address s.db.common_task_map with
  | none => (s, response)
  | some q =>
    match DBManager.drain_to_do now address q.to_do_task_map (s, q.doing_task_map, response) with
    | (s1, doing, response1) =>
      let cm := AMap.update address
        (fun _ => { to_do_task_map := [], doing_task_map := doing }) s1.db.common_task_map
      ({ s1 with db := { s1.db with common_task_map := cm } }, response1)

/-- The report loop of `process_common_task_hearbeat` (lines 74-96) over the reports of a request. -/
def DBManager.apply_reports (now : Int) (s : MetaServer) (request : BaikalHeartBeatRequest) : MetaServer :=
  request.region_ddl_works.foldl (DBManager.process_region_report now) s

/-- The assignment written to the response for a drained unit: the unit with status Doing and the address of the worker. -/
def assignment_of (address : String) (w : MemRegionDdlWork) : RegionDdlWork :=
  { w.region_info with status := DdlWorkStatus.DdlWorkDoing, address := address }

/-- The request handed to the consensus log by `update_region_ddlwork(work)`. -/
def update_request (work : RegionDdlWork) : MetaManagerRequest :=
  { op_type := OpType.OP_UPDATE_GLOBAL_REGION_DDL_WORK, ddlwork_info := none,
    region_ddl_work := some work, global_ddl_table_id := 0 }

/--
Reference definition of the claim on worker selection, eligibility: the worker
is not Faulty and either has no queue entry yet or holds fewer than
`MaxConcurrent` units in its two queues.
-/
def eligible (fl : Flags) (db : DBManager) (e : String × InstanceDBStatus) : Bool :=
  !decide (e.2.state = InstanceState.FAULTY) &&
    (match AMap.find e.1 db.common_task_map with
     | none => true
     | some q =>
       decide ((q.to_do_task_map.length : Int) + (q.doing_task_map.length : Int)
                < fl.baikaldb_max_concurrent))

/--
Reference definition of the claim on worker selection, scan order: the workers
in cyclic address order starting at the one immediately after the last-assigned
worker, which itself comes last; the whole pool from its first address when the
last-assigned worker is unknown.
-/
def scan_order (db : DBManager) : List (String × InstanceDBStatus) :=
  match AMap.position db.last_rolling_instance db.address_instance_map with
  | none => db.address_instance_map
  | some i => db.address_instance_map.drop (i + 1) ++ db.address_instance_map.take (i + 1)

/-- Reference definition of the claim on worker selection: the first eligible worker of the scan order. -/
def round_robin_reference (fl : Flags) (db : DBManager) : Option String :=
  ((scan_order db).find? (eligible fl db)).map Prod.fst

/-- The manager after the selection of `address`: it is the last-assigned worker and has a queue entry. -/
def DBManager.selected (db : DBManager) (address : String) : DBManager :=
  { db with
    last_rolling_instance := address
    common_task_map :=
      if AMap.contains address db.common_task_map then db.common_task_map
      else AMap.set address {} db.common_task_map }

/--
Reference definition of the claim on heartbeat ordering: "apply all reports,
then drain todo".
-/
def reports_then_drain (now : Int) (address : String) (s : MetaServer)
    (request : BaikalHeartBeatRequest) (response : BaikalHeartBeatResponse) :
    MetaServer × BaikalHeartBeatResponse :=
  DBManager.drain_step now address (DBManager.apply_reports now s request) response

/-- The order of the source: drain the todo queue of the sender, then apply all reports. -/
def drain_then_reports (now : Int) (address : String) (s : MetaServer)
    (request : BaikalHeartBeatRequest) (response : BaikalHeartBeatResponse) :
    MetaServer × BaikalHeartBeatResponse :=
  let drained := DBManager.drain_step now address s response
  (DBManager.apply_reports now drained.1 request, drained.2)

/-- The concurrency cap: every worker holds at most `MaxConcurrent` units in its two queues. -/
def concurrency_cap (fl : Flags) (db : DBManager) : Prop :=
  ∀ e ∈ db.common_task_map,
    (e.2.to_do_task_map.length : Int) + (e.2.doing_task_map.length : Int) ≤ fl.baikaldb_max_concurrent

/-- Scenario of the submission: the pool `w1`, `w2` with `w1` last assigned, and the Idle unit of region 7. -/
def submit_pool : DBManager :=
  { address_instance_map := scenario_workers ["w1", "w2"], last_rolling_instance := "w1",
    common_task_map :=
      [("w1", { to_do_task_map := [((1, 1), (scenario_unit 1 DdlWorkStatus.DdlWorkDoing 1).2)] })] }

/-- The unit stored in the doing map by the drain loop for a todo entry. -/
def drained_unit (now : Int) (address : String) (w : MemRegionDdlWork) : MemRegionDdlWork :=
  { region_info := assignment_of address w, update_timestamp := now }

/-- The queue entry of a worker after the drain step: todo is empty, doing has received the todo entries. -/
def drained_queue (now : Int) (address : String) (q : CommonTaskMap) : CommonTaskMap :=
  { to_do_task_map := [],
    doing_task_map := q.to_do_task_map.foldl
      (fun d e => AMap.insert_new e.1 (drained_unit now address e.2) d) q.doing_task_map }

/-- Scenario of the drain: the queue entry of `w1`, two units of table 1 waiting in todo. -/
def drain_queue : CommonTaskMap :=
  { to_do_task_map := [((1, 1), (scenario_unit 1 DdlWorkStatus.DdlWorkDoing 1).2),
                       ((1, 2), (scenario_unit 2 DdlWorkStatus.DdlWorkDoing 1).2)] }

/-- Scenario of the drain: the job of table 1 at `IS_WRITE_LOCAL`, both units submitted to `w1`. -/
def drain_server : MetaServer :=
  let s := scenario_server IndexState.IS_WRITE_LOCAL 2
    [scenario_unit 1 DdlWorkStatus.DdlWorkDoing 1, scenario_unit 2 DdlWorkStatus.DdlWorkDoing 1] ["w1"]
  { s with db := { s.db with common_task_map := [("w1", drain_queue)] } }

/-- The doing-map entry of task `t` at worker `b`, if any. -/
def doing_entry (s : MetaServer) (b : String) (t : TaskId) : Option MemRegionDdlWork :=
  (AMap.find b s.db.common_task_map).bind (fun q => AMap.find t q.doing_task_map)

/-- The todo map of worker `b`, if it has a queue entry. -/
def to_do_of (s : MetaServer) (b : String) : Option (List (TaskId × MemRegionDdlWork)) :=
  (AMap.find b s.db.common_task_map).map (fun q => q.to_do_task_map)

/-- Scenario of the reports: the server after `w1` has fetched its two units at time 5. -/
def reported_server : MetaServer := (DBManager.drain_step 5 "w1" drain_server empty_response).1

/-- Scenario of the reports: the report of region `region_id` of table 1 by `address` with the given status. -/
def region_report (region_id : Int) (status : DdlWorkStatus) (address : String) : RegionDdlWork :=
  { (scenario_unit region_id status 1).2.region_info with address := address }

/-- Scenario of the heartbeat order: `w1` reports Fail for region 1, which is still waiting in its todo map. -/
def early_fail_request : BaikalHeartBeatRequest :=
  { empty_request with region_ddl_works := [region_report 1 DdlWorkStatus.DdlWorkFail "w1"] }

/-- Scenario of the frame: `w1` is idle, `w2` works on region 3 of table 1. -/
def two_worker_server : MetaServer :=
  let s := scenario_server IndexState.IS_WRITE_LOCAL 1
    [scenario_unit 3 DdlWorkStatus.DdlWorkDoing 1] ["w1", "w2"]
  { s with db := { s.db with common_task_map :=
      [("w1", {}),
       ("w2", { doing_task_map := [((1, 3), { region_info := region_report 3 DdlWorkStatus.DdlWorkDoing "w2" })] })] } }

/-- Scenario of the frame: a heartbeat request whose report about region 3 carries the address `w2`. -/
def foreign_report_request : BaikalHeartBeatRequest :=
  { empty_request with region_ddl_works := [region_report 3 DdlWorkStatus.DdlWorkFail "w2"] }

/-- The broadcast task of a table, if any. -/
def broadcast_task (s : MetaServer) (table_id : Int) : Option BroadcastTask :=
  AMap.find table_id s.db.broadcast_task_map

/-- Scenario of the barrier: `w1` acknowledges the payload of table 1 with status Doing. -/
def doing_ack_request : BaikalHeartBeatRequest :=
  { empty_request with
    ddl_works := [{ scenario_job IndexState.IS_WRITE_ONLY with status := DdlWorkStatus.DdlWorkDoing }] }

/-- Scenario of the barrier: the broadcast of table 1 was started at time 0 and fetched by `w1` at time 1. -/
def barrier_fetched_server : MetaServer :=
  write_only_server.run defaultFlags [Step.tick 0 1, Step.heartbeat 1 "w1" empty_request]

/-- The task of table 1 in the scenario of the fetched barrier. -/
def barrier_fetched_task : BroadcastTask :=
  { work := scenario_job IndexState.IS_WRITE_ONLY, number := 1, to_do_task_map := [],
    doing_task_map := [("w1", { update_timestamp := 1 })] }

/-- The request issued when a unit is sent back to Idle by the sweeper. -/
def idle_request (e : TaskId × MemRegionDdlWork) : MetaManagerRequest :=
  update_request { e.2.region_info with status := DdlWorkStatus.DdlWorkIdle }

/-- The server with the table of job counters replaced and requests appended to the pending log. -/
def MetaServer.with_log (s : MetaServer) (mem : List (Int × MemDdlInfo))
    (requests : List MetaManagerRequest) : MetaServer :=
  { s with ddl := { s.ddl with table_ddl_mem := mem }, raft_pending := s.raft_pending ++ requests }

/-- The timeout test of `traverse_func` (lines 302-303). -/
def task_timeout (fl : Flags) (now : Int) (e : TaskId × MemRegionDdlWork) : Bool :=
  decide (wrap_int32 (fl.baikal_heartbeat_interval_us * 20) < now - e.2.update_timestamp)

/-- The requests issued by the timeout sweep of one worker: its timed-out todo entries, then its timed-out doing entries. -/
def timeout_requests (fl : Flags) (now : Int) (q : CommonTaskMap) : List MetaManagerRequest :=
  (q.to_do_task_map.filter (task_timeout fl now)).map idle_request
    ++ (q.doing_task_map.filter (task_timeout fl now)).map idle_request

/-- The queues of one worker after the timeout sweep. -/
def timeout_swept (fl : Flags) (now : Int) (q : CommonTaskMap) : CommonTaskMap :=
  { to_do_task_map := q.to_do_task_map.filter (fun e => !task_timeout fl now e),
    doing_task_map := q.doing_task_map.filter (fun e => !task_timeout fl now e) }

/-- Lines 370-371: a faulty worker is dropped from a broadcast task, `number` decreasing by the entries erased. -/
def BroadcastTask.drop_worker (faulty_db : String) (t : BroadcastTask) : BroadcastTask :=
  { t with
    number := t.number - AMap.erase_count faulty_db t.to_do_task_map
                - AMap.erase_count faulty_db t.doing_task_map
    to_do_task_map := AMap.erase faulty_db t.to_do_task_map
    doing_task_map := AMap.erase faulty_db t.doing_task_map }

/-- The server with the two task maps of the `DBManager` replaced. -/
def MetaServer.with_queues (s : MetaServer) (cm : List (String × CommonTaskMap))
    (bm : List (Int × BroadcastTask)) : MetaServer :=
  { s with db := { s.db with common_task_map := cm, broadcast_task_map := bm } }

/-- The requests issued for a faulty worker: one Idle request per entry of its todo map, then of its doing map. -/
def faulty_requests (s : MetaServer) (faulty_db : String) : List MetaManagerRequest :=
  match AMap.find faulty_db s.db.common_task_map with
  | none => []
  | some q => q.to_do_task_map.map idle_request ++ q.doing_task_map.map idle_request

/-- The timeout test of `delete_heartbeat_timeout_txn_work` (lines 337-338). -/
def txn_timeout (fl : Flags) (now : Int) (e : String × MemDdlWork) : Bool :=
  decide (wrap_int32 (fl.baikal_heartbeat_interval_us * 30) < now - e.2.update_timestamp)

/-- A broadcast task that waits for nobody: `number = 0` and both maps empty. -/
def BroadcastTask.emptied (t : BroadcastTask) : BroadcastTask :=
  { t with number := 0, to_do_task_map := [], doing_task_map := [] }

/-- The number of units held by a worker. -/
def CommonTaskMap.load (q : CommonTaskMap) : Int :=
  (q.to_do_task_map.length : Int) + (q.doing_task_map.length : Int)

/-- Scenario of the cap: `w1` holds `MaxConcurrent = 10` units of table 1 in its doing map. -/
def full_worker_db : DBManager :=
  { address_instance_map := scenario_workers ["w1"],
    common_task_map :=
      [("w1", { doing_task_map := (List.range 10).map (fun i =>
          (((1, (i : Int)) : TaskId),
           ({ region_info := region_report i DdlWorkStatus.DdlWorkDoing "w1" } : MemRegionDdlWork))) })] }

/-- The number of entries of a map stored under the key `k`. -/
def AMap.key_count {κ α : Type} [DecidableEq κ] (k : κ) : List (κ × α) → Nat
  | [] => 0
  | (k1, _) :: rest => (if k1 = k then 1 else 0) + AMap.key_count k rest

/-- The number of slots of the two queues of one worker that hold the task id `t`. -/
def CommonTaskMap.slots (t : TaskId) (q : CommonTaskMap) : Nat :=
  AMap.key_count t q.to_do_task_map + AMap.key_count t q.doing_task_map

/-- Whether the task id `t` is in the todo or in the doing queue of a worker. -/
def CommonTaskMap.holds (t : TaskId) (q : CommonTaskMap) : Bool :=
  AMap.contains t q.to_do_task_map || AMap.contains t q.doing_task_map

/-- The number of queue slots, over all workers, that hold the task id `t`. -/
def queue_count (t : TaskId) (cm : List (String × CommonTaskMap)) : Nat :=
  (cm.map (fun e => e.2.slots t)).sum

/-- Whether a unit is one the controller may submit for `t`: its task id is `t` and its status is Idle or Fail. -/
def unit_claim (t : TaskId) (w : RegionDdlWork) : Nat :=
  if task_id_of w = t ∧ (w.status = DdlWorkStatus.DdlWorkIdle ∨ w.status = DdlWorkStatus.DdlWorkFail)
  then 1 else 0

/-- The number of units of a region map that may be submitted for `t`. -/
def region_map_claims (t : TaskId) (m : List (Int × MemRegionDdlWork)) : Nat :=
  (m.map (fun e => unit_claim t e.2.region_info)).sum

/-- The number of units in memory that may be submitted for `t`. -/
def memory_claims (t : TaskId) (rd : List (Int × List (Int × MemRegionDdlWork))) : Nat :=
  (rd.map (fun e => region_map_claims t e.2)).sum

/-- Whether a pending request, once applied, stores a unit that may be submitted for `t`. -/
def request_claim (t : TaskId) (r : MetaManagerRequest) : Nat :=
  if r.op_type = OpType.OP_UPDATE_GLOBAL_REGION_DDL_WORK then
    unit_claim t (r.region_ddl_work.getD RegionDdlWork.unset)
  else 0

/-- The number of pending requests that store a unit that may be submitted for `t`. -/
def pending_claims (t : TaskId) (l : List MetaManagerRequest) : Nat :=
  (l.map (request_claim t)).sum

/--
The ways the task id `t` is or may come to be in a queue: the queue slots that
hold it, the units in memory that may be submitted for it, and the pending
requests that store such a unit.
-/
def task_load (t : TaskId) (s : MetaServer) : Nat :=
  queue_count t s.db.common_task_map + memory_claims t s.ddl.region_ddlwork
    + pending_claims t s.raft_pending

/-- Every queue entry is stored under the task id of its unit. -/
def queue_keys_ok (cm : List (String × CommonTaskMap)) : Prop :=
  ∀ e ∈ cm, (∀ x ∈ e.2.to_do_task_map, task_id_of x.2.region_info = x.1) ∧
    (∀ x ∈ e.2.doing_task_map, task_id_of x.2.region_info = x.1)

/-- Queue disjointness: no task id is held in the queues of two workers. -/
def queues_disjoint (cm : List (String × CommonTaskMap)) : Prop :=
  ∀ (t : TaskId) (a b : String) (qa qb : CommonTaskMap), a ≠ b →
    AMap.find a cm = some qa → AMap.find b cm = some qb →
    ¬ (qa.holds t = true ∧ qb.holds t = true)

/-- A server without work: every queue is empty, no unit is in memory and no request is pending. -/
def no_work (s : MetaServer) : Prop :=
  (∀ e ∈ s.db.common_task_map, e.2.to_do_task_map = [] ∧ e.2.doing_task_map = []) ∧
  s.ddl.region_ddlwork = [] ∧ s.raft_pending = []

/-- The unit as `execute_task` stores it: stamped with the current time, one more attempt. -/
def DBManager.submitted (now : Int) (w : MemRegionDdlWork) : MemRegionDdlWork :=
  { region_info := { w.region_info with retry_time := w.region_info.retry_time + 1 },
    update_timestamp := now }

/-- The assignment `to_do_task_map[task_id] = work` on the queues of one worker. -/
def CommonTaskMap.push (task_id : TaskId) (work : MemRegionDdlWork) (q : CommonTaskMap) : CommonTaskMap :=
  { q with to_do_task_map := AMap.set task_id work q.to_do_task_map }

/-- A step of the server is safe when it keeps the queue keys and does not increase the load of any task id. -/
def safe_step (s s1 : MetaServer) : Prop :=
  queue_keys_ok s.db.common_task_map →
    queue_keys_ok s1.db.common_task_map ∧ ∀ t, task_load t s1 ≤ task_load t s

/-- Scenario of the queue disjointness: the job of table 1 is driven to `IS_WRITE_LOCAL`, its unit is submitted, fetched and reported. -/
def disjointness_steps : List Step :=
  forward_steps ++
    [Step.heartbeat 100000008 "w2" empty_request, Step.tick 100000010 1,
     Step.heartbeat 100000011 "w1" empty_request, Step.apply,
     Step.heartbeat 100000012 "w2" (fail_report 1), Step.apply, Step.tick 100000013 1]

/-- The faulty test of `get_faulty_baikaldb` (lines 269-270). -/
def faulty_worker (fl : Flags) (now : Int) (e : String × InstanceDBStatus) : Bool :=
  decide (wrap_int32 (fl.baikal_heartbeat_interval_us * 20) < now - e.2.timestamp)

/-- The eviction test of `get_faulty_baikaldb` (lines 275-276). -/
def dead_worker (fl : Flags) (now : Int) (e : String × InstanceDBStatus) : Bool :=
  decide (wrap_int32 (fl.baikal_heartbeat_interval_us * 90) < now - e.2.timestamp)

/-- A queue entry of table 1 with the given region and time of last update, held by `address`. -/
def queued_unit (region_id : Int) (address : String) (update_timestamp : Int) : TaskId × MemRegionDdlWork :=
  ((1, region_id),
   { region_info := region_report region_id DdlWorkStatus.DdlWorkDoing address,
     update_timestamp := update_timestamp })

/--
Scenario of the sweeper at time 300000000 (heartbeat interval 10 s): `w1` was
seen at 290000000 and holds a unit submitted at 0 and a unit fetched at
250000000; `w2` was seen at 0 and `w3` at -700000000, each holding a recent unit.
-/
def sweeper_server : MetaServer :=
  let s := scenario_server IndexState.IS_WRITE_LOCAL 4
    [scenario_unit 1 DdlWorkStatus.DdlWorkDoing 1, scenario_unit 2 DdlWorkStatus.DdlWorkDoing 1,
     scenario_unit 3 DdlWorkStatus.DdlWorkDoing 1, scenario_unit 4 DdlWorkStatus.DdlWorkDoing 1] []
  { s with db := { s.db with
      address_instance_map :=
        [("w1", { room := "", state := InstanceState.NORMAL, timestamp := 290000000 }),
         ("w2", { room := "", state := InstanceState.NORMAL, timestamp := 0 }),
         ("w3", { room := "", state := InstanceState.NORMAL, timestamp := -700000000 })]
      common_task_map :=
        [("w1", { to_do_task_map := [queued_unit 1 "w1" 0],
                  doing_task_map := [queued_unit 2 "w1" 250000000] }),
         ("w2", { to_do_task_map := [queued_unit 3 "w2" 280000000], doing_task_map := [] }),
         ("w3", { to_do_task_map := [], doing_task_map := [queued_unit 4 "w3" 280000000] })] } }

/-- The unit as `restore_task` stores it: the unit read from the durable store, stamped with the current time. -/
def restored_unit (now : Int) (r : RegionDdlWork) : MemRegionDdlWork :=
  { region_info := r, update_timestamp := now }

/-- The callback of the traversal of `on_leader_start` (lines 610-617) on one unit. -/
def DDLManager.on_leader_start_call (now : Int) (s : MetaServer) (work : MemRegionDdlWork) : MetaServer :=
  if work.region_info.status = DdlWorkStatus.DdlWorkDoing then
    let ddl1 := (s.ddl.increase_doing_work_number work.region_info.table_id).2
    { s with ddl := ddl1, db := (DBManager.restore_task now s.db work.region_info).2 }
  else s

/--
The method `DDLManager::on_leader_start` (lines 599-619): the pointer of every
entry of `_region_ddlwork` is collected and every one is traversed in turn,
without a test for null. When an entry holds a null pointer the traversal
dereferences it and the call does not return: the result is `none`.
-/
def DDLManager.on_leader_start (now : Int) (s : MetaServer) : Option MetaServer :=
  if s.ddl.region_ddlwork_null ≠ [] then none
  else
    let region_work_ptrs := s.ddl.region_ddlwork.map (fun e => e.2)
    some (region_work_ptrs.foldl
      (fun s1 region_work => region_work.foldl (fun s2 e => DDLManager.on_leader_start_call now s2 e.2) s1) s)

/--
The method `DDLManager::get_global_ddlwork_info` (lines 1013-1026): the units of
the region map of the table, for the response; a table without entry in
`_region_ddlwork` gets an entry with a null pointer by the lookup of line 1018.
-/
def DDLManager.get_global_ddlwork_info (d : DDLManager) (table_id : Int) :
    List RegionDdlWork × DDLManager :=
  match AMap.find table_id d.region_ddlwork with
  | some region_map => (region_map.map (fun e => e.2.region_info), d)
  | none => ([], d.index_region_ddlwork table_id)

/-- The number of units of a region map with the given status. -/
def status_count (status : DdlWorkStatus) (region_map : List (Int × MemRegionDdlWork)) : Nat :=
  (region_map.filter (fun e => decide (e.2.region_info.status = status))).length

/--
Scenario of the batch limit: the job of table 1 at `IS_WRITE_LOCAL` with counter
0, index 10 with 11 regions (limit `11 * 2`), 22 Idle units and three healthy
workers with empty queues (30 free slots).
-/
def batch_server : MetaServer :=
  let s := scenario_server IndexState.IS_WRITE_LOCAL 0
    ((List.range 22).map (fun i => scenario_unit ((i : Int) + 1) DdlWorkStatus.DdlWorkIdle 0))
    ["w1", "w2", "w3"]
  { s with table_manager := { s.table_manager with region_size := [(10, 11)] } }

/-- The region map of table 1 after the tick of the batch scenario at time 100. -/
def batch_region_map : List (Int × MemRegionDdlWork) :=
  (AMap.find 1 (DDLManager.add_index_global_ddlwork defaultFlags 100 batch_server
    (scenario_job IndexState.IS_WRITE_LOCAL)).2.2.ddl.region_ddlwork).getD []

/--
Scenario of the progress claim, retry ahead of admission: counter 9, index 10
with 11 regions (limit `11 * 2`), region 1 Fail with one attempt, region 2 Idle,
regions 3 to 11 Doing in the doing map of the only worker `w1`, which has one
free slot under `MaxConcurrent = 10`.
-/
def retry_first_server : MetaServer :=
  let doing : List (Int × MemRegionDdlWork) := (List.range 9).map (fun i =>
    (((i : Int) + 3), ({ region_info := region_report ((i : Int) + 3) DdlWorkStatus.DdlWorkDoing "w1" } : MemRegionDdlWork)))
  let s := scenario_server IndexState.IS_WRITE_LOCAL 9
    ([scenario_unit 1 DdlWorkStatus.DdlWorkFail 1, scenario_unit 2 DdlWorkStatus.DdlWorkIdle 0] ++ doing)
    ["w1"]
  { s with
    table_manager := { s.table_manager with region_size := [(10, 11)] }
    db := { s.db with common_task_map :=
      [("w1", { doing_task_map := doing.map (fun e => (((1, e.1) : TaskId), e.2)) })] } }

/-- Scenario of the progress claim, fatal unit ahead of admission: region 1 DupUniq, region 2 Idle, one idle worker. -/
def fatal_first_server : MetaServer :=
  scenario_server IndexState.IS_WRITE_LOCAL 0
    [scenario_unit 1 DdlWorkStatus.DdlWorkDupUniq 1, scenario_unit 2 DdlWorkStatus.DdlWorkIdle 0] ["w1"]

/-- The statuses of the units of table 1 after an add-index tick of the scenario job at time 100. -/
def statuses_after_tick (s : MetaServer) : List DdlWorkStatus :=
  ((AMap.find 1 (DDLManager.add_index_global_ddlwork defaultFlags 100 s
    (scenario_job IndexState.IS_WRITE_LOCAL)).2.2.ddl.region_ddlwork).getD []).map
    (fun e => e.2.region_info.status)

/-- Whether a worker holds the task id `t` in its todo map. -/
def in_to_do (t : TaskId) (a : String) (db : DBManager) : Prop :=
  ∃ q, AMap.find a db.common_task_map = some q ∧ AMap.contains t q.to_do_task_map = true

/--
The first loop of `DDLManager::work` (lines 531-550) over the job table: a
finished job is handed to cleanup, a suspended job is skipped, any other job is
copied to `temp_ddl_mem`.
-/
def DDLManager.work_collect :
    List (Int × MemDdlInfo) → MetaServer → List (Int × MemDdlInfo) → MetaServer × List (Int × MemDdlInfo)
  | [], s, temp_ddl_mem => (s, temp_ddl_mem)
  | (table_id, mem) :: rest, s, temp_ddl_mem =>
    if mem.work_info.errcode = ErrCode.SUCCESS ∨ mem.work_info.errcode = ErrCode.EXEC_FAIL then
      let s1 := DDLManager.apply_raft s
        { op_type := OpType.OP_DELETE_DDLWORK, ddlwork_info := some mem.work_info,
          region_ddl_work := none, global_ddl_table_id := 0 }
      let s2 : MetaServer :=
        if mem.work_info.errcode = ErrCode.EXEC_FAIL ∧ mem.work_info.op_type = OpType.OP_ADD_INDEX then
          { s1 with table_manager := s1.table_manager.drop_index_request mem.work_info }
        else s1
      DDLManager.work_collect rest s2 temp_ddl_mem
    else if mem.work_info.suspend then DDLManager.work_collect rest s temp_ddl_mem
    else DDLManager.work_collect rest s (AMap.insert_new table_id mem temp_ddl_mem)

/-- The second loop of `DDLManager::work` (lines 553-562): the step of its op type runs on each copied job. -/
def DDLManager.work_dispatch (fl : Flags) (now : Int) : List (Int × MemDdlInfo) → MetaServer → MetaServer
  | [], s => s
  | (_, mem) :: rest, s =>
    let s1 : MetaServer :=
      match mem.work_info.op_type with
      | OpType.OP_DROP_INDEX => (DDLManager.drop_index_global_ddlwork fl now s mem.work_info).2.2
      | OpType.OP_ADD_INDEX => (DDLManager.add_index_global_ddlwork fl now s mem.work_info).2.2
      | _ => s
    DDLManager.work_dispatch fl now rest s1

/-- One round of the loop of `DDLManager::work` on the leader (lines 528-562). -/
def DDLManager.work_body (fl : Flags) (now : Int) (s : MetaServer) : MetaServer :=
  match DDLManager.work_collect s.ddl.table_ddl_mem s [] with
  | (s1, temp_ddl_mem) => DDLManager.work_dispatch fl now temp_ddl_mem s1

/-- Scenario of the suspension: the job of table 1 at `IS_WRITE_LOCAL`, suspended, with an Idle unit and an idle worker. -/
def suspended_server : MetaServer :=
  let s := scenario_server IndexState.IS_WRITE_LOCAL 0 [scenario_unit 1 DdlWorkStatus.DdlWorkIdle 0] ["w1"]
  { s with ddl := { s.ddl with table_ddl_mem :=
      [(1, { work_info := { scenario_job IndexState.IS_WRITE_LOCAL with suspend := true } })] } }

/-- The part of the memory of the `DDLManager` that belongs to table `t`: its job record with the counter, and its region map. -/
def job_view (t : Int) (d : DDLManager) : Option MemDdlInfo × Option (List (Int × MemRegionDdlWork)) :=
  (AMap.find t d.table_ddl_mem, AMap.find t d.region_ddlwork)

/-- Reference definition of the claim on job creation: the job record of a new job, in process, with counter 0. -/
def initial_job (table_id index_id : Int) (op_type : OpType) : MemDdlInfo :=
  { work_info := { DdlWorkInfo.unset with table_id := table_id, op_type := op_type, index_id := index_id,
                                          errcode := ErrCode.IN_PROCESS, global := true } }

/--
Reference definition of the claim on job creation: the unit of a region of a
new add-index job: Idle, no attempt, no worker, the keys of the region.
-/
def initial_unit (table_id index_id partition_id : Int) (region_info : RegionInfo) : MemRegionDdlWork :=
  { region_info :=
      { table_id := table_id, region_id := region_info.region_id, index_id := index_id,
        partition_id := partition_id, start_key := region_info.start_key, end_key := region_info.end_key,
        status := DdlWorkStatus.DdlWorkIdle, retry_time := 0, address := "" } }

/-- The partition recorded for a region by `init_global_ddlwork` (`region_partition_map[region_id]`, 0 when absent). -/
def partition_of (partition_regions : List (Int × List Int)) (region_id : Int) : Int :=
  (AMap.find region_id (DDLManager.region_partition_map partition_regions)).getD 0

/-- The server with a job appended to the job table in memory. -/
def MetaServer.with_job (s : MetaServer) (table_id : Int) (job : MemDdlInfo) : MetaServer :=
  { s with ddl := { s.ddl with table_ddl_mem := s.ddl.table_ddl_mem ++ [(table_id, job)] } }

/-- The server with the region map of a table assigned in memory. -/
def MetaServer.with_region_map (s : MetaServer) (table_id : Int)
    (region_map : List (Int × MemRegionDdlWork)) : MetaServer :=
  { s with ddl := { s.ddl.drop_null_entry table_id with
                    region_ddlwork := AMap.set table_id region_map s.ddl.region_ddlwork } }

/-- The server after the lookup `_region_ddlwork[table_id]`: a table without entry has an entry with a null pointer. -/
def MetaServer.with_null_entry (s : MetaServer) (table_id : Int) : MetaServer :=
  { s with ddl := s.ddl.index_region_ddlwork table_id }

/-- The server with the meta store replaced. -/
def MetaServer.with_store (s : MetaServer) (m : MetaRocksdb) : MetaServer :=
  { s with rocksdb := m }

/-- Scenario of the job creation: two regions of partition 0 and one of partition 1. -/
def creation_regions : List RegionInfo :=
  [{ region_id := 1, start_key := "", end_key := "g" }, { region_id := 2, start_key := "g", end_key := "" },
   { region_id := 3, start_key := "", end_key := "" }]

/-- The server with a meta store on which every write fails. -/
def MetaServer.read_only (s : MetaServer) : MetaServer :=
  { s with rocksdb := { s.rocksdb with writable := false } }

/-- Scenario of the failed write: the report that region 1 of table 1 is Done on `w1`. -/
def done_report : RegionDdlWork := region_report 1 DdlWorkStatus.DdlWorkDone "w1"

/--
The method `DDLManager::load_region_ddl_snapshot` (lines 578-597);
`region_ddl_info` is the outcome of parsing the stored string, `none` when it
does not parse.
-/
def DDLManager.load_region_ddl_snapshot (d : DDLManager) (region_ddl_info : Option RegionDdlWork) :
    Int × DDLManager :=
  match region_ddl_info with
  | none => (0, d)
  | some region_work =>
    let region_ddl_work : MemRegionDdlWork := { region_info := region_work }
    let table_id := region_work.table_id
    let d1 : DDLManager := d.drop_null_entry table_id
    let region_ddlwork :=
      match AMap.find table_id d.region_ddlwork with
      | none => AMap.set table_id [] d.region_ddlwork
      | some _ => d.region_ddlwork
    (0, { d1 with
          region_ddlwork :=
            AMap.update table_id (AMap.set region_work.region_id region_ddl_work) region_ddlwork })

/--
Modelled from the spec: the leader restart of the round-trip property (the
snapshot load of the state machine is outside the given sources): every region
row of the meta store is handed to `load_region_ddl_snapshot`.
-/
def DDLManager.load_region_rows (d : DDLManager) (rows : List ((Int × Int) × RegionDdlWork)) :
    DDLManager :=
  rows.foldl (fun d e => (DDLManager.load_region_ddl_snapshot d (some e.2)).2) d

/-- The region maps rebuilt from the region rows of the meta store by a coordinator without region maps. -/
def DDLManager.rehydrate (rows : List ((Int × Int) × RegionDdlWork)) : DDLManager :=
  DDLManager.load_region_rows {} rows

/-- The unit of a region in the in-memory region maps, without its `update_timestamp`. -/
def DDLManager.region_lookup (d : DDLManager) (table_id region_id : Int) : Option RegionDdlWork :=
  match AMap.find table_id d.region_ddlwork with
  | some region_map => (AMap.find region_id region_map).map (fun m => m.region_info)
  | none => none

/-- The applied updates of a list of units, in order. -/
def DDLManager.apply_region_updates (s : MetaServer) (works : List RegionDdlWork) : MetaServer :=
  works.foldl (fun s work => (DDLManager.update_global_ddlwork_region_info s work).2) s

/-- Every region row of the meta store sits under the key of its own table and region ids. -/
def MetaRocksdb.region_rows_keyed (m : MetaRocksdb) : Prop :=
  ∀ e ∈ m.region_ddlwork, e.1 = (e.2.table_id, e.2.region_id)

/-- Scenario of the round trip: a unit of region 1 of table 1. -/
def round_trip_unit : RegionDdlWork :=
  { table_id := 1, region_id := 1, index_id := 10, partition_id := 0, start_key := "", end_key := "",
    status := DdlWorkStatus.DdlWorkDoing, retry_time := 1, address := "w1" }

/-! ## The backfill executor (`global_ddl_manager_node.cpp`) -/

/--
Modelled from the spec: the scan node (`RocksdbScanNode`, declared outside the
given sources), restricted to the accessors `GlobalDDLManagerNode::open` reads:
`get_limit`, `router_index_id`, `table_id` and `covering_index`.
-/
structure RocksdbScanNode where
  limit : Int
  router_index_id : Int
  table_id : Int
  covering_index : Bool
  deriving DecidableEq, Repr

/--
Modelled from the spec: a fetched row (`MemRow`) together with the outcomes of
the calls made on the record built from it, all outside the given sources:
the result and the key of `encode_key`, the result and the bytes of `encode`,
and the text of `to_string`.
-/
structure MemRow where
  encode_key_ret : Int := 0
  pk_key : List Nat := []
  encode_ret : Int := 0
  encoded : List Nat := []
  text : String := ""
  deriving DecidableEq, Repr

/--
Modelled from the spec: the fetcher store (`FetcherStore`, declared outside the
given sources): `start_key_sort` in iteration order and `region_batch`, where a
region without an entry stands for a null batch.
-/
structure FetcherStore where
  start_key_sort : List (String × Int) := []
  region_batch : List (Int × List MemRow) := []
  deriving DecidableEq, Repr

/-- The client connection (`NetworkSocket`), restricted to `seq_id`. -/
structure NetworkSocket where
  seq_id : Int := 0
  deriving DecidableEq, Repr

/-- The runtime state (`RuntimeState`), restricted to the fields `open` reads and writes. -/
structure RuntimeState where
  client_conn : Option NetworkSocket := some {}
  ddl_scan_size : Int := 0
  ddl_max_pk_key : List Nat := []
  ddl_max_router_key : List Nat := []
  first_record_ptr : Option String := none
  last_record_ptr : Option String := none
  error_code : Int := 0
  ddl_error_code : Int := 0
  deriving DecidableEq, Repr

/-- The node `GlobalDDLManagerNode`, restricted to the members `open` reads. -/
structure GlobalDDLManagerNode where
  table_id : Int
  index_id : Int
  fetcher_store : FetcherStore := {}
  deriving DecidableEq, Repr

/--
Modelled from the spec: the collaborators of `GlobalDDLManagerNode::open`
outside the given sources: the scan nodes found by `get_node`, the result of
`FetcherStore::run` and the store contents it leaves, the schema lookups
`get_index_info(id).id` and `get_index_info_ptr(id) != nullptr`,
`send_request` (its result for the records handed over, and what it writes
to the runtime state), and `max_size`, the value of
`insert_records.max_size()` of the platform, above which `reserve` throws
`std::length_error`.
-/
structure ExecEnv where
  max_size : Nat
  scan_nodes : List RocksdbScanNode
  run_ret : Int
  run_store : FetcherStore
  index_info_id : Int → Int
  has_index_info : Int → Bool
  send_request : List MemRow → Int
  send_state : RuntimeState → List MemRow → RuntimeState

/-- The locals of the scan loop of `open` (lines 73-129). -/
structure ScanState where
  ddl_scan_size : Int := 0
  insert_records : List MemRow := []
  max_pk_str : List Nat := []
  max_record : List Nat := []
  deriving DecidableEq, Repr

/-- The outcome of a part of `open`: an early `return`, or the locals it leaves. -/
inductive ScanOutcome where
  | returned (ret : Int)
  | finished (st : ScanState)
  deriving DecidableEq, Repr

/-- The body of the row loop of `open` (lines 81-123) for the row at `index` of a batch. -/
def GlobalDDLManagerNode.scan_row (node : GlobalDDLManagerNode) (env : ExecEnv) (limit : Int)
    (batch_size index : Nat) (mem_row : MemRow) (st : ScanState) : ScanOutcome :=
  let ddl_scan_size := wrap_int32 (st.ddl_scan_size + 1)
  if !env.has_index_info node.table_id || !env.has_index_info node.index_id then
    ScanOutcome.returned (-1)
  else
    let insert_records := st.insert_records ++ [mem_row]
    if index + 1 = batch_size ∨ ddl_scan_size = limit then
      if mem_row.encode_key_ret ≠ 0 then ScanOutcome.returned mem_row.encode_key_ret
      else if bytes_lt st.max_pk_str mem_row.pk_key then
        if mem_row.encode_ret = -1 then ScanOutcome.returned (-1)
        else ScanOutcome.finished
          { ddl_scan_size := ddl_scan_size, insert_records := insert_records,
            max_pk_str := mem_row.pk_key, max_record := mem_row.encoded }
      else ScanOutcome.finished
          { ddl_scan_size := ddl_scan_size, insert_records := insert_records,
            max_pk_str := st.max_pk_str, max_record := mem_row.pk_key }
    else ScanOutcome.finished
      { ddl_scan_size := ddl_scan_size, insert_records := insert_records,
        max_pk_str := st.max_pk_str, max_record := st.max_record }

/-- The row loop of `open` (line 80) over the rows of a batch from `index` on. -/
def GlobalDDLManagerNode.scan_rows (node : GlobalDDLManagerNode) (env : ExecEnv) (limit : Int)
    (batch_size : Nat) : Nat → List MemRow → ScanState → ScanOutcome
  | _, [], st => ScanOutcome.finished st
  | index, mem_row :: rest, st =>
    match node.scan_row env limit batch_size index mem_row st with
    | ScanOutcome.returned ret => ScanOutcome.returned ret
    | ScanOutcome.finished st1 => GlobalDDLManagerNode.scan_rows node env limit batch_size (index + 1) rest st1

/-- One round of the batch loop of `open` (lines 78-125): the rows of the batch of a region, when it is there and not empty. -/
def GlobalDDLManagerNode.scan_batch (node : GlobalDDLManagerNode) (env : ExecEnv) (limit : Int)
    (store : FetcherStore) (region_id : Int) (st : ScanState) : ScanOutcome :=
  match AMap.find region_id store.region_batch with
  | some batch =>
    if batch.length ≠ 0 then node.scan_rows env limit batch.length 0 batch st
    else ScanOutcome.finished st
  | none => ScanOutcome.finished st

/-- The batch loop of `open` (lines 77-130) over the entries of `start_key_sort`. -/
def GlobalDDLManagerNode.scan_batches (node : GlobalDDLManagerNode) (env : ExecEnv) (limit : Int)
    (store : FetcherStore) : List (String × Int) → ScanState → ScanOutcome
  | [], st => ScanOutcome.finished st
  | pair :: rest, st =>
    match node.scan_batch env limit store pair.2 st with
    | ScanOutcome.returned ret => ScanOutcome.returned ret
    | ScanOutcome.finished st1 =>
      if to_size_t limit ≤ st1.insert_records.length then ScanOutcome.finished st1
      else GlobalDDLManagerNode.scan_batches node env limit store rest st1

/--
The result of `GlobalDDLManagerNode::open`: the returned value and the runtime
state, with the record of what happened: whether `FetcherStore::run` was
called, the records handed to `send_request` if it was called, and the locals
of the scan loop if line 131 was reached. When `length_error` is set,
`insert_records.reserve(limit)` (line 63) threw `std::length_error`: `open`
returns nothing, and `ret` is the value of the local `ret` at that point.
-/
structure OpenResult where
  ret : Int
  state : RuntimeState
  length_error : Bool := false
  fetch_run : Bool := false
  insert_request : Option (List MemRow) := none
  scanned : Option ScanState := none
  deriving DecidableEq, Repr

/-- The end of `open` (lines 131-165) from the locals of the scan loop. -/
def GlobalDDLManagerNode.open_finish (env : ExecEnv) (state : RuntimeState) (ret : Int)
    (fetch_run : Bool) (sc : ScanState) : OpenResult :=
  let state : RuntimeState :=
    { state with ddl_scan_size := sc.ddl_scan_size, ddl_max_pk_key := sc.max_record,
                 ddl_max_router_key := sc.max_pk_str }
  let state : RuntimeState :=
    if 0 < sc.ddl_scan_size then
      { state with
        first_record_ptr :=
          match state.first_record_ptr with
          | none => some ((sc.insert_records.head?.map (fun r => r.text)).getD "")
          | some first => some first,
        last_record_ptr := some ((sc.insert_records.getLast?.map (fun r => r.text)).getD "") }
    else state
  if 0 < sc.ddl_scan_size then
    let ret := env.send_request sc.insert_records
    let state := env.send_state state sc.insert_records
    if ret = -1 then
      { ret := ret, state := { state with ddl_error_code := state.error_code },
        fetch_run := fetch_run, insert_request := some sc.insert_records, scanned := some sc }
    else
      { ret := if ret ≠ sc.ddl_scan_size then -1 else ret, state := state,
        fetch_run := fetch_run, insert_request := some sc.insert_records, scanned := some sc }
  else
    { ret := ret, state := state, fetch_run := fetch_run, insert_request := none, scanned := some sc }

/-- The method `GlobalDDLManagerNode::open` (`global_ddl_manager_node.cpp`, lines 30-166). -/
def GlobalDDLManagerNode.open (node : GlobalDDLManagerNode) (env : ExecEnv) (state : RuntimeState) :
    OpenResult :=
  match state.client_conn with
  | none => { ret := -1, state := state }
  | some client_conn =>
    let seq_id := wrap_int32 (client_conn.seq_id + 1)
    let state : RuntimeState := { state with client_conn := some { client_conn with seq_id := seq_id } }
    match env.scan_nodes with
    | [scan_node] =>
      let limit := scan_node.limit
      let router_index_id := scan_node.router_index_id
      let main_table_id := scan_node.table_id
      let fetch_run : Bool := decide (router_index_id = main_table_id) || scan_node.covering_index
      let ret : Int := if fetch_run then env.run_ret else 0
      let store : FetcherStore := if fetch_run then env.run_store else node.fetcher_store
      if ret < 0 then { ret := ret, state := state, fetch_run := fetch_run }
      else if env.max_size < to_size_t limit then
        { ret := ret, state := state, fetch_run := fetch_run, length_error := true }
      else if env.index_info_id node.table_id = -1 then
        { ret := -1, state := state, fetch_run := fetch_run }
      else
        match node.scan_batches env limit store store.start_key_sort {} with
        | ScanOutcome.returned r => { ret := r, state := state, fetch_run := fetch_run }
        | ScanOutcome.finished sc => GlobalDDLManagerNode.open_finish env state ret fetch_run sc
    | _ => { ret := -1, state := state }

/-- Scenario of the backfill: the node of table 1 that fills index 10. -/
def backfill_node : GlobalDDLManagerNode := { table_id := 1, index_id := 10 }

/--
Scenario of the backfill: one scan node, a fetch that succeeds and leaves
`store`, a ready schema, and an insert that stores every record handed over;
`max_size` is that of a vector of 16-byte elements on a 64-bit platform.
-/
def backfill_env (scan_node : RocksdbScanNode) (store : FetcherStore) : ExecEnv :=
  { max_size := (2 ^ 63 - 1) / 16, scan_nodes := [scan_node], run_ret := 0, run_store := store,
    index_info_id := fun id => id, has_index_info := fun _ => true,
    send_request := fun records => (records.length : Int),
    send_state := fun state _ => state }

/-- Scenario of the backfill: three rows with the keys 1, 2, 3. -/
def backfill_rows : List MemRow :=
  [{ pk_key := [1], encoded := [1, 0], text := "a" }, { pk_key := [2], encoded := [2, 0], text := "b" },
   { pk_key := [3], encoded := [3, 0], text := "c" }]

/-- Scenario of the backfill: region 1 holds the first row, region 2 the other two. -/
def backfill_store : FetcherStore :=
  { start_key_sort := [("", 1), ("m", 2)],
    region_batch := [(1, backfill_rows.take 1), (2, backfill_rows.drop 1)] }

/-- Scenario of the scan gate: the router index 20 is not the main table 1 and the index is not covering. -/
def gated_scan_node : RocksdbScanNode :=
  { limit := 2, router_index_id := 20, table_id := 1, covering_index := false }

/-- Scenario of the row bound: a scan of the main table with limit 2. -/
def limited_scan_node : RocksdbScanNode :=
  { limit := 2, router_index_id := 1, table_id := 1, covering_index := false }

/-- The encoding of a key fails with a negative value for every row of the store. -/
def FetcherStore.encode_key_convention (store : FetcherStore) : Prop :=
  ∀ e ∈ store.region_batch, ∀ row ∈ e.2, row.encode_key_ret ≤ 0

/-- The counter of the scan loop is the 32-bit value of the number of collected records. -/
def ScanState.counted (st : ScanState) : Prop :=
  st.ddl_scan_size = wrap_int32 (st.insert_records.length : Int)

/-- What the scan loop leaves when rows fail with negative values only: a negative return or a counted state. -/
def ScanOutcome.sound : ScanOutcome → Prop
  | ScanOutcome.returned ret => ret < 0
  | ScanOutcome.finished st => st.counted

/-- The number of records the scan loop of a run of `open` collected (0 after an early return). -/
def OpenResult.scanned_rows (r : OpenResult) : Nat :=
  match r.scanned with
  | some sc => sc.insert_records.length
  | none => 0

/-- The condition of line 52 on the scan nodes found: one scan node whose router index is the main table or which is covering. -/
def ExecEnv.scan_gate (env : ExecEnv) : Bool :=
  match env.scan_nodes with
  | [scan_node] => decide (scan_node.router_index_id = scan_node.table_id) || scan_node.covering_index
  | _ => false

/-- Scenario of the insert count: a scan of the main table with limit 10. -/
def wide_scan_node : RocksdbScanNode :=
  { limit := 10, router_index_id := 1, table_id := 1, covering_index := false }

/-- A sequence of `should_change` calls, each with its time, table and state, in order. -/
def StatusChangePolicy.calls (fl : Flags) (cs : List (Int × Int × IndexState))
    (p : StatusChangePolicy) : StatusChangePolicy :=
  cs.foldl (fun p c => (StatusChangePolicy.should_change fl c.1 p c.2.1 c.2.2).2) p

/--
The counter predicate of a broadcast task: no worker occurs twice in the todo
and doing maps taken together (each map has distinct keys and the two worker
sets are disjoint), and `number` is the number of entries of the two maps.
-/
def BroadcastTask.balanced (t : BroadcastTask) : Prop :=
  (t.to_do_task_map.map Prod.fst ++ t.doing_task_map.map Prod.fst).Nodup
    ∧ t.number = (t.to_do_task_map.length : Int) + (t.doing_task_map.length : Int)

/-- Every broadcast task of the worker pool satisfies the counter predicate. -/
def DBManager.broadcast_balanced (db : DBManager) : Prop :=
  ∀ e ∈ db.broadcast_task_map, e.2.balanced

/-- Scenario of the counter: the task of table 1 waits for `w1` (todo) and `w2` (doing, silent since time 0). -/
def counter_server : MetaServer :=
  { db := { broadcast_task_map :=
      [(1, { work := scenario_job IndexState.IS_WRITE_ONLY, number := 2,
             to_do_task_map := [("w1", { update_timestamp := 0 })],
             doing_task_map := [("w2", { update_timestamp := 0 })] })] } }

/-- Whether the table has a region map in memory (an entry of `_region_ddlwork` that points to a map). -/
def DDLManager.has_region_map (d : DDLManager) (table_id : Int) : Bool :=
  (AMap.find table_id d.region_ddlwork).isSome

/-- Whether the meta store holds a region row of the table. -/
def MetaRocksdb.has_region_row (rows : List ((Int × Int) × RegionDdlWork)) (table_id : Int) : Bool :=
  rows.any (fun e => decide (e.2.table_id = table_id))

/-- What the scan loop leaves in every case: an early return, or a counted state. -/
def ScanOutcome.tallied : ScanOutcome → Prop
  | ScanOutcome.returned _ => True
  | ScanOutcome.finished st => st.counted

/-- Scenario of the insert count: the fetch returns 5 and leaves no batch. -/
def positive_fetch_env : ExecEnv :=
  { backfill_env wide_scan_node {} with run_ret := 5 }

/-- Scenario of the insert count: one fetched row whose key encoding returns 7. -/
def positive_key_store : FetcherStore :=
  { start_key_sort := [("", 1)], region_batch := [(1, [{ encode_key_ret := 7 }])] }

/-! ## Lemmas: association lists -/

/-- A key is found with the value just assigned to it. -/
theorem AMap.find_set_self {κ α : Type} [DecidableEq κ] (k : κ) (v : α) (m : List (κ × α)) :
    AMap.find k (AMap.set k v m) = some v := by
  induction m with
  | nil => simp [AMap.set, AMap.find]
  | cons e rest ih =>
    obtain ⟨k1, v1⟩ := e
    by_cases h : k1 = k
    · simp [AMap.set, AMap.find, h]
    · simp [AMap.set, AMap.find, h, ih]

/-! ## Lemmas: the traversal of `IS_WRITE_LOCAL` -/

/-- The method `execute_task` never changes the status of the unit. -/
theorem execute_task_status (fl : Flags) (now : Int) (db : DBManager) (w : MemRegionDdlWork) :
    (DBManager.execute_task fl now db w).2.1.region_info.status = w.region_info.status := by
  unfold DBManager.execute_task
  rcases DBManager.select_instance fl db with ⟨_ | a, db1⟩ <;> rfl

/-- What the admission stage of the callback does to the captured variables and to the unit. -/
theorem idle_stage_spec (fl : Flags) (now table_id : Int) (region_size : Nat) (c : TraverseCtx)
    (w : MemRegionDdlWork) (b : Bool) (w' : MemRegionDdlWork) (c' : TraverseCtx)
    (h : add_index_call_idle fl now table_id region_size c w = (b, w', c')) :
    c'.g_ddl_work = c.g_ddl_work ∧ c'.rollback = c.rollback ∧
    (w.region_info.status ≠ DdlWorkStatus.DdlWorkIdle → b = true ∧ w' = w ∧ c' = c) ∧
    (w.region_info.status = DdlWorkStatus.DdlWorkIdle → c'.done = false ∧
      (b = true → w'.region_info.status = DdlWorkStatus.DdlWorkDoing)) ∧
    (c.done = false → c'.done = false) := by
  unfold add_index_call_idle at h
  by_cases hs : w.region_info.status = DdlWorkStatus.DdlWorkIdle
  · simp only [hs, if_true] at h
    rcases he : DBManager.execute_task fl now c.db w with ⟨ret, w1, db1⟩
    rcases hi : c.ddl.increase_doing_work_number table_id with ⟨n, ddl1⟩
    simp only [he, hi] at h
    by_cases hret : ret = 0
    · by_cases hov : over_region_limit fl region_size n = true
      · simp only [hret, hov, if_true, Prod.mk.injEq] at h
        obtain ⟨rfl, rfl, rfl⟩ := h
        simp [hs]
      · by_cases hm : max_task_number < c.current_task_number + 1
        · simp only [hret, hov, hm, if_true, Prod.mk.injEq] at h
          obtain ⟨rfl, rfl, rfl⟩ := h
          simp [hs]
        · simp only [hret, hov, hm, if_true, if_false, Prod.mk.injEq] at h
          obtain ⟨rfl, rfl, rfl⟩ := h
          simp [hs, MemRegionDdlWork.set_status]
    · simp only [hret, if_false, Prod.mk.injEq] at h
      obtain ⟨rfl, rfl, rfl⟩ := h
      simp [hs]
  · simp only [hs, if_false, Prod.mk.injEq] at h
    obtain ⟨rfl, rfl, rfl⟩ := h
    simp [hs]

/-- What the wait stage of the callback does: only `done` and `wait_num` may change. -/
theorem wait_stage_spec (c : TraverseCtx) (w : MemRegionDdlWork) :
    (add_index_call_wait c w).g_ddl_work = c.g_ddl_work ∧
    (add_index_call_wait c w).rollback = c.rollback ∧
    (add_index_call_wait c w).db = c.db ∧ (add_index_call_wait c w).ddl = c.ddl ∧
    (w.region_info.status = DdlWorkStatus.DdlWorkDone → add_index_call_wait c w = c) ∧
    (w.region_info.status ≠ DdlWorkStatus.DdlWorkDone → (add_index_call_wait c w).done = false) ∧
    (c.done = false → (add_index_call_wait c w).done = false) := by
  unfold add_index_call_wait
  by_cases hs : w.region_info.status = DdlWorkStatus.DdlWorkDone <;> simp [hs]

/-- What the retry stage of the callback does: the job record is kept, `rollback` is raised exactly on a fatal unit. -/
theorem fail_stage_spec (fl : Flags) (now table_id : Int) (region_size : Nat) (c : TraverseCtx)
    (w : MemRegionDdlWork) (b : Bool) (w' : MemRegionDdlWork) (c' : TraverseCtx)
    (h : add_index_call_fail fl now table_id region_size c w = (b, w', c')) :
    c'.g_ddl_work = c.g_ddl_work ∧
    (c.done = false → c'.done = false) ∧
    (w.region_info.status = DdlWorkStatus.DdlWorkDone ∨ w.region_info.status = DdlWorkStatus.DdlWorkDoing ∨
      w.region_info.status = DdlWorkStatus.DdlWorkIdle → b = true ∧ w' = w ∧ c' = c) ∧
    (fatal_unit fl w → b = true ∧ w' = w ∧ c'.rollback = true) ∧
    (¬ fatal_unit fl w → c'.rollback = c.rollback) := by
  unfold add_index_call_fail at h
  unfold fatal_unit
  rcases he : DBManager.execute_task fl now c.db w with ⟨ret, w1, db1⟩
  rcases hi : c.ddl.increase_doing_work_number table_id with ⟨n, ddl1⟩
  simp only [he, hi] at h
  by_cases hs : w.region_info.status = DdlWorkStatus.DdlWorkFail
  · simp only [hs, if_true] at h
    by_cases hr : w.region_info.retry_time < fl.max_ddl_retry_time
    · simp only [hr, if_true] at h
      by_cases hret : ret = 0
      · by_cases hov : over_region_limit fl region_size n = true
        · simp only [hret, hov, if_true, Prod.mk.injEq] at h
          obtain ⟨rfl, rfl, rfl⟩ := h
          simp [hs, hr]
        · simp only [hret, hov, if_true, if_false, Prod.mk.injEq] at h
          obtain ⟨rfl, rfl, rfl⟩ := h
          simp [hs, hr]
      · simp only [hret, if_false, Prod.mk.injEq] at h
        obtain ⟨rfl, rfl, rfl⟩ := h
        simp [hs, hr]
    · simp only [hr, if_false, Prod.mk.injEq] at h
      obtain ⟨rfl, rfl, rfl⟩ := h
      simp [hs, hr]
  · simp only [hs, if_false] at h
    by_cases hf : w.region_info.status = DdlWorkStatus.DdlWorkDupUniq
        ∨ w.region_info.status = DdlWorkStatus.DdlWorkError
    · simp only [hf, if_true, Prod.mk.injEq] at h
      obtain ⟨rfl, rfl, rfl⟩ := h
      rcases hf with hf | hf <;> simp [hf]
    · simp only [hf, if_false, Prod.mk.injEq] at h
      obtain ⟨rfl, rfl, rfl⟩ := h
      push_neg at hf
      simp [hs, hf.1, hf.2]

/-- The rollback stage of the callback, by the value of `rollback`. -/
theorem rollback_stage_spec (table_id : Int) (c : TraverseCtx) (w : MemRegionDdlWork) :
    (c.rollback = true → add_index_call_rollback table_id c w =
      (false, w, { c with
        g_ddl_work := { c.g_ddl_work with errcode := ErrCode.EXEC_FAIL },
        ddl := { (c.ddl.update_table_ddl_mem { c.g_ddl_work with errcode := ErrCode.EXEC_FAIL }) with
          update_policy :=
            (c.ddl.update_table_ddl_mem { c.g_ddl_work with errcode := ErrCode.EXEC_FAIL }).update_policy.clear
              table_id } })) ∧
    (c.rollback = false → add_index_call_rollback table_id c w = (true, w, c)) := by
  unfold add_index_call_rollback
  by_cases hr : c.rollback = true <;> simp [hr]

/-- Summary of one call of the callback entered with `rollback = false`. -/
theorem add_index_call_spec (fl : Flags) (now table_id : Int) (region_size : Nat) (c : TraverseCtx)
    (w : MemRegionDdlWork) (b : Bool) (w' : MemRegionDdlWork) (c' : TraverseCtx)
    (hrb : c.rollback = false)
    (h : add_index_call fl now table_id region_size c w = (b, w', c')) :
    (b = true → c'.rollback = false ∧ c'.g_ddl_work = c.g_ddl_work) ∧
    (c'.g_ddl_work = c.g_ddl_work ∨ c'.g_ddl_work = { c.g_ddl_work with errcode := ErrCode.EXEC_FAIL }) ∧
    (w.region_info.status = DdlWorkStatus.DdlWorkDone → b = true ∧ w' = w ∧ c' = c) ∧
    (w.region_info.status ≠ DdlWorkStatus.DdlWorkDone → c'.done = false) ∧
    (c.done = false → c'.done = false) ∧
    (fatal_unit fl w → b = false ∧ c'.g_ddl_work = { c.g_ddl_work with errcode := ErrCode.EXEC_FAIL }) ∧
    (w.region_info.status = DdlWorkStatus.DdlWorkDoing → b = true ∧ w' = w) := by
  unfold add_index_call at h
  rcases hidle : add_index_call_idle fl now table_id region_size c w with ⟨b1, wa, c1⟩
  obtain ⟨ig, irb, inid, iid, idn⟩ := idle_stage_spec fl now table_id region_size c w b1 wa c1 hidle
  rw [hidle] at h
  cases b1
  · -- the traversal stops in the admission of an Idle unit
    simp only [Prod.mk.injEq] at h
    obtain ⟨rfl, rfl, rfl⟩ := h
    have hidle_st : w.region_info.status = DdlWorkStatus.DdlWorkIdle := by
      by_contra hne
      exact absurd (inid hne).1 (by simp)
    refine ⟨by simp, Or.inl ig, ?_, fun _ => (iid hidle_st).1, idn, ?_, ?_⟩
    · intro hd; rw [hd] at hidle_st; exact absurd hidle_st (by simp)
    · intro hf
      rcases hf with hf | hf | ⟨hf, _⟩ <;> rw [hf] at hidle_st <;> exact absurd hidle_st (by simp)
    · intro hd; rw [hd] at hidle_st; exact absurd hidle_st (by simp)
  · simp only at h
    obtain ⟨wg, wrb, wdb, wddl, wdone, wnd, wdn⟩ := wait_stage_spec c1 wa
    rcases hfail : add_index_call_fail fl now table_id region_size (add_index_call_wait c1 wa) wa
      with ⟨b2, wb, c2⟩
    obtain ⟨fg, fdn, fid, ffatal, fnf⟩ :=
      fail_stage_spec fl now table_id region_size (add_index_call_wait c1 wa) wa b2 wb c2 hfail
    rw [hfail] at h
    obtain ⟨rtrue, rfalse⟩ := rollback_stage_spec table_id c2 wb
    have hc1rb : (add_index_call_wait c1 wa).rollback = false := by rw [wrb, irb, hrb]
    have hg2 : c2.g_ddl_work = c.g_ddl_work := by rw [fg, wg, ig]
    by_cases hwi : w.region_info.status = DdlWorkStatus.DdlWorkIdle
    · -- an admitted Idle unit is Doing in the rest of the call
      have hwa : wa.region_info.status = DdlWorkStatus.DdlWorkDoing := (iid hwi).2 rfl
      have hc1d : c1.done = false := (iid hwi).1
      obtain ⟨hb2, hwb, hc2⟩ := fid (Or.inr (Or.inl hwa))
      subst hb2 hwb hc2
      have hnd : (add_index_call_wait c1 wb).done = false := wdn hc1d
      simp only at h
      rw [rfalse hc1rb] at h
      simp only [Prod.mk.injEq] at h
      obtain ⟨hb, hw, hc⟩ := h
      subst hb hw hc
      refine ⟨fun _ => ⟨hc1rb, hg2⟩, Or.inl hg2, ?_, fun _ => hnd, fun _ => hnd, ?_, ?_⟩
      · intro hd; rw [hd] at hwi; exact absurd hwi (by simp)
      · intro hf
        rcases hf with hf | hf | ⟨hf, _⟩ <;> rw [hf] at hwi <;> exact absurd hwi (by simp)
      · intro hd; rw [hd] at hwi; exact absurd hwi (by simp)
    · obtain ⟨-, hwa, hc1⟩ := inid hwi
      subst hwa hc1
      by_cases hfat : fatal_unit fl wa
      · obtain ⟨hb2, hwb, hrb2⟩ := ffatal hfat
        subst hb2 hwb
        simp only at h
        rw [rtrue hrb2] at h
        simp only [Prod.mk.injEq] at h
        obtain ⟨hb, hw, hc⟩ := h
        subst hb hw hc
        have hnd : wb.region_info.status ≠ DdlWorkStatus.DdlWorkDone := by
          intro hd
          rcases hfat with hf | hf | ⟨hf, _⟩ <;> rw [hf] at hd <;> exact absurd hd (by simp)
        refine ⟨by simp, Or.inr (by simp [hg2]), fun hd => absurd hd hnd, fun _ => ?_, fun hcd => ?_,
          fun _ => ⟨rfl, by simp [hg2]⟩, ?_⟩
        · exact fdn (wnd hnd)
        · exact fdn (wdn hcd)
        · intro hd
          rcases hfat with hf | hf | ⟨hf, _⟩ <;> rw [hf] at hd <;> exact absurd hd (by simp)
      · have hrb2 : c2.rollback = false := by rw [fnf hfat, hc1rb]
        cases b2
        · simp only [Prod.mk.injEq] at h
          obtain ⟨hb, hw, hc⟩ := h
          subst hb hw hc
          refine ⟨by simp, Or.inl hg2, ?_, fun hnd => fdn (wnd hnd), fun hcd => fdn (wdn hcd),
            fun hf => absurd hf hfat, ?_⟩
          · intro hd; exact absurd (fid (Or.inl hd)).1 (by simp)
          · intro hd; exact absurd (fid (Or.inr (Or.inl hd))).1 (by simp)
        · simp only at h
          rw [rfalse hrb2] at h
          simp only [Prod.mk.injEq] at h
          obtain ⟨hb, hw, hc⟩ := h
          subst hb hw hc
          refine ⟨fun _ => ⟨hrb2, hg2⟩, Or.inl hg2, ?_, fun hnd => fdn (wnd hnd),
            fun hcd => fdn (wdn hcd), fun hf => absurd hf hfat, ?_⟩
          · intro hd
            obtain ⟨-, hwb, hc2⟩ := fid (Or.inl hd)
            subst hwb hc2
            exact ⟨rfl, rfl, wdone hd⟩
          · intro hd
            exact ⟨rfl, (fid (Or.inr (Or.inl hd))).2.1⟩

/-- The traversal changes the job record at most by `errcode := EXEC_FAIL`, and `done` survives exactly when every unit is Done. -/
theorem traverse_add_index_spec (fl : Flags) (now table_id : Int) (region_size : Nat)
    (l : List (Int × MemRegionDdlWork)) :
    ∀ c : TraverseCtx, c.rollback = false →
    ((traverse_with_early_return (add_index_call fl now table_id region_size) c l).2.g_ddl_work
        = c.g_ddl_work ∨
     (traverse_with_early_return (add_index_call fl now table_id region_size) c l).2.g_ddl_work
        = { c.g_ddl_work with errcode := ErrCode.EXEC_FAIL }) ∧
    ((traverse_with_early_return (add_index_call fl now table_id region_size) c l).2.done = true ↔
      (c.done = true ∧ ∀ e ∈ l, e.2.region_info.status = DdlWorkStatus.DdlWorkDone)) := by
  induction l with
  | nil => intro c _; simp [traverse_with_early_return]
  | cons e rest ih =>
    intro c hrb
    obtain ⟨k, v⟩ := e
    rcases hcall : add_index_call fl now table_id region_size c v with ⟨b, v1, c1⟩
    obtain ⟨hcont, hg, hdone, hnd, hdn, -, -⟩ :=
      add_index_call_spec fl now table_id region_size c v b v1 c1 hrb hcall
    cases b
    · simp only [traverse_with_early_return, hcall]
      refine ⟨hg, ?_⟩
      have hv : v.region_info.status ≠ DdlWorkStatus.DdlWorkDone := by
        intro hd; exact absurd (hdone hd).1 (by simp)
      constructor
      · intro h; rw [hnd hv] at h; exact absurd h (by simp)
      · intro h; exact absurd (h.2 (k, v) (List.mem_cons_self _ _)) hv
    · simp only [traverse_with_early_return, hcall]
      obtain ⟨hrb1, hg1⟩ := hcont rfl
      obtain ⟨ihg, ihd⟩ := ih c1 hrb1
      rw [hg1] at ihg
      refine ⟨ihg, ?_⟩
      rw [ihd]
      constructor
      · rintro ⟨hc1, hall⟩
        have hv : v.region_info.status = DdlWorkStatus.DdlWorkDone := by
          by_contra hv; rw [hnd hv] at hc1; exact absurd hc1 (by simp)
        have hcd : c.done = true := by
          by_contra hcd
          rw [hdn (by simpa using hcd)] at hc1; exact absurd hc1 (by simp)
        refine ⟨hcd, ?_⟩
        intro e he
        rcases List.mem_cons.mp he with rfl | he
        · exact hv
        · exact hall e he
      · rintro ⟨hcd, hall⟩
        have hv := hall (k, v) (List.mem_cons_self _ _)
        obtain ⟨-, -, hc⟩ := hdone hv
        rw [hc]
        exact ⟨hcd, fun e he => hall e (List.mem_cons_of_mem _ he)⟩


/-- The tick of a job that has not failed, at catalog state `IS_WRITE_LOCAL`, is the `IS_WRITE_LOCAL` case. -/
theorem add_index_write_local_eq (fl : Flags) (now : Int) (s : MetaServer) (g : DdlWorkInfo)
    (hstate : s.table_manager.get_index_state g.table_id g.index_id = some IndexState.IS_WRITE_LOCAL)
    (herr : g.errcode ≠ ErrCode.EXEC_FAIL) :
    DDLManager.add_index_global_ddlwork fl now s g =
      DDLManager.add_index_write_local fl now s g (s.table_manager.get_region_size g.index_id) := by
  unfold DDLManager.add_index_global_ddlwork
  simp [hstate, herr]

/-! ## Claims -/

/--
Claim C1. Evaluation of the tick at the failing input: the tick starts with
counter 0, within the limit 2, admits units until the incremented counter
exceeds the limit, and ends with counter 3, above the limit.
-/
theorem ratio_cap_exceeded_by_tick :
    ratio_cap_server.ddl.get_doing_work_number 1
        ≤ (ratio_cap_server.table_manager.get_region_size 10 : Int) * defaultFlags.max_region_num_ratio ∧
    ((DDLManager.add_index_global_ddlwork defaultFlags 100 ratio_cap_server
        (scenario_job IndexState.IS_WRITE_LOCAL)).2.2.ddl.get_doing_work_number 1 = 3) ∧
    ¬ ((DDLManager.add_index_global_ddlwork defaultFlags 100 ratio_cap_server
        (scenario_job IndexState.IS_WRITE_LOCAL)).2.2.ddl.get_doing_work_number 1
        ≤ (ratio_cap_server.table_manager.get_region_size 10 : Int) * defaultFlags.max_region_num_ratio) := by
  decide

/--
Claim C2. An `IS_WRITE_LOCAL` tick of an in-process add-index job whose region
map exists and whose counter passes the pre-check sets `job_state = IS_PUBLIC`
and `errcode = SUCCESS` exactly when every unit of the table is Done at the
start of the tick, and it publishes `IS_PUBLIC` to the catalog in exactly the
same case; so the index is never published while some unit is not Done.
-/
theorem add_index_publishes_iff_all_done (fl : Flags) (now : Int) (s : MetaServer) (g : DdlWorkInfo)
    (region_map : List (Int × MemRegionDdlWork))
    (hstate : s.table_manager.get_index_state g.table_id g.index_id = some IndexState.IS_WRITE_LOCAL)
    (herr : g.errcode = ErrCode.IN_PROCESS)
    (hmap : AMap.find g.table_id s.ddl.region_ddlwork = some region_map)
    (hcount : s.ddl.get_doing_work_number g.table_id ≠ -1)
    (hpre : over_region_limit fl (s.table_manager.get_region_size g.index_id)
      (s.ddl.get_doing_work_number g.table_id) = false) :
    (((DDLManager.add_index_global_ddlwork fl now s g).2.1.job_state = IndexState.IS_PUBLIC ∧
      (DDLManager.add_index_global_ddlwork fl now s g).2.1.errcode = ErrCode.SUCCESS) ↔
      ∀ e ∈ region_map, e.2.region_info.status = DdlWorkStatus.DdlWorkDone) ∧
    ((DDLManager.add_index_global_ddlwork fl now s g).2.2.table_manager.get_index_state
        g.table_id g.index_id = some IndexState.IS_PUBLIC ↔
      ∀ e ∈ region_map, e.2.region_info.status = DdlWorkStatus.DdlWorkDone) := by
  rw [add_index_write_local_eq fl now s g hstate (by rw [herr]; simp)]
  unfold DDLManager.add_index_write_local
  simp only [hmap, hcount, hpre, if_false, Bool.false_eq_true]
  obtain ⟨hg, hd⟩ := traverse_add_index_spec fl now g.table_id
    (s.table_manager.get_region_size g.index_id) region_map
    { g_ddl_work := g, db := s.db, ddl := s.ddl } rfl
  rcases htr : traverse_with_early_return
      (add_index_call fl now g.table_id (s.table_manager.get_region_size g.index_id))
      { g_ddl_work := g, db := s.db, ddl := s.ddl } region_map with ⟨region_map1, c⟩
  rw [htr] at hg hd
  simp only at hg hd
  simp only [true_and] at hd
  by_cases hdone : c.done = true
  · simp only [hdone, if_true]
    have hall := hd.mp hdone
    have hgt : c.g_ddl_work.table_id = g.table_id ∧ c.g_ddl_work.index_id = g.index_id := by
      rcases hg with hg | hg <;> rw [hg] <;> simp
    refine ⟨⟨fun _ => hall, fun _ => by simp⟩, ⟨fun _ => hall, fun _ => ?_⟩⟩
    simp only [TableManager.get_index_state, TableManager.update_index_status]
    rw [hgt.1, hgt.2]
    exact AMap.find_set_self _ _ _
  · have hnall : ¬ ∀ e ∈ region_map, e.2.region_info.status = DdlWorkStatus.DdlWorkDone :=
      fun h => hdone (hd.mpr h)
    simp only [hdone, if_false, Bool.false_eq_true]
    refine ⟨⟨fun h => ?_, fun h => absurd h hnall⟩, ⟨fun h => ?_, fun h => absurd h hnall⟩⟩
    · exfalso
      rcases hg with hg | hg
      · rw [hg, herr] at h; exact absurd h.2 (by simp)
      · rw [hg] at h; exact absurd h.2 (by simp)
    · rw [hstate] at h; exact absurd h (by simp)


/-- The publication theorem at the scenario where both units are Done. -/
theorem add_index_publishes_iff_all_done_witness :
    (((DDLManager.add_index_global_ddlwork defaultFlags 100 all_done_server
        (scenario_job IndexState.IS_WRITE_LOCAL)).2.1.job_state = IndexState.IS_PUBLIC ∧
      (DDLManager.add_index_global_ddlwork defaultFlags 100 all_done_server
        (scenario_job IndexState.IS_WRITE_LOCAL)).2.1.errcode = ErrCode.SUCCESS) ↔
      ∀ e ∈ [scenario_unit 1 DdlWorkStatus.DdlWorkDone 1, scenario_unit 2 DdlWorkStatus.DdlWorkDone 1],
        e.2.region_info.status = DdlWorkStatus.DdlWorkDone) ∧
    ((DDLManager.add_index_global_ddlwork defaultFlags 100 all_done_server
        (scenario_job IndexState.IS_WRITE_LOCAL)).2.2.table_manager.get_index_state 1 10
        = some IndexState.IS_PUBLIC ↔
      ∀ e ∈ [scenario_unit 1 DdlWorkStatus.DdlWorkDone 1, scenario_unit 2 DdlWorkStatus.DdlWorkDone 1],
        e.2.region_info.status = DdlWorkStatus.DdlWorkDone) :=
  add_index_publishes_iff_all_done defaultFlags 100 all_done_server
    (scenario_job IndexState.IS_WRITE_LOCAL)
    [scenario_unit 1 DdlWorkStatus.DdlWorkDone 1, scenario_unit 2 DdlWorkStatus.DdlWorkDone 1]
    (by decide) (by decide) (by decide) (by decide) (by decide)

/-- The tick of a job that has not failed, at catalog state `IS_WRITE_ONLY`, is the `IS_WRITE_ONLY` case. -/
theorem add_index_write_only_eq (fl : Flags) (now : Int) (s : MetaServer) (g : DdlWorkInfo)
    (hstate : s.table_manager.get_index_state g.table_id g.index_id = some IndexState.IS_WRITE_ONLY)
    (herr : g.errcode ≠ ErrCode.EXEC_FAIL) :
    DDLManager.add_index_global_ddlwork fl now s g = DDLManager.add_index_write_only now s g := by
  unfold DDLManager.add_index_global_ddlwork
  simp [hstate, herr]

/-- The method `update_txn_ready` does not touch the catalog. -/
theorem update_txn_ready_table_manager (s : MetaServer) (table_id : Int) :
    (DBManager.update_txn_ready s table_id).table_manager = s.table_manager := by
  unfold DBManager.update_txn_ready
  rcases AMap.find table_id s.db.broadcast_task_map with _ | task
  · rfl
  · by_cases h : task.number = 0 <;> simp [h]

/--
Claim C3. Broadcast barrier gate of `add_index_global_ddlwork` at
`IS_WRITE_ONLY` for a job that has not failed: the first visit (no barrier
record) starts the broadcast and leaves the job record and the catalog
unchanged; on a later visit, with the barrier result read after
`update_txn_ready`, the record and the catalog become `IS_WRITE_LOCAL` when the
barrier is done and successful; the record gets `errcode = EXEC_FAIL` with
`job_state` and the catalog unchanged when it is done and failed; record and
catalog are unchanged when it is not done; `job_state` changes only in the
first of these three cases.
-/
theorem add_index_write_only_gate (fl : Flags) (now : Int) (s : MetaServer) (g : DdlWorkInfo)
    (hstate : s.table_manager.get_index_state g.table_id g.index_id = some IndexState.IS_WRITE_ONLY)
    (herr : g.errcode ≠ ErrCode.EXEC_FAIL) :
    -- first visit: the broadcast is started, the job record and the catalog are unchanged
    (s.ddl.exist_wait_txn_info g.table_id = false →
      (DDLManager.add_index_global_ddlwork fl now s g).2.1 = g ∧
      (DDLManager.add_index_global_ddlwork fl now s g).2.2.table_manager = s.table_manager ∧
      (DDLManager.add_index_global_ddlwork fl now s g).2.2.db = s.db.execute_broadcast_task now g ∧
      (AMap.find g.table_id (DDLManager.add_index_global_ddlwork fl now s g).2.2.db.broadcast_task_map).map
        (fun t => t.work) = some g ∧
      (DDLManager.add_index_global_ddlwork fl now s g).2.2.ddl.exist_wait_txn_info g.table_id = true) ∧
    -- later visits: decided by the barrier result after `update_txn_ready`
    (s.ddl.exist_wait_txn_info g.table_id = true →
      ((DBManager.update_txn_ready s g.table_id).ddl.is_txn_done g.table_id = true →
        (DBManager.update_txn_ready s g.table_id).ddl.is_txn_success g.table_id = true →
        (DDLManager.add_index_global_ddlwork fl now s g).2.1
          = { g with job_state := IndexState.IS_WRITE_LOCAL } ∧
        (DDLManager.add_index_global_ddlwork fl now s g).2.2.table_manager.get_index_state
          g.table_id g.index_id = some IndexState.IS_WRITE_LOCAL) ∧
      ((DBManager.update_txn_ready s g.table_id).ddl.is_txn_done g.table_id = true →
        (DBManager.update_txn_ready s g.table_id).ddl.is_txn_success g.table_id = false →
        (DDLManager.add_index_global_ddlwork fl now s g).2.1
          = { g with errcode := ErrCode.EXEC_FAIL } ∧
        (DDLManager.add_index_global_ddlwork fl now s g).2.2.table_manager = s.table_manager) ∧
      ((DBManager.update_txn_ready s g.table_id).ddl.is_txn_done g.table_id = false →
        (DDLManager.add_index_global_ddlwork fl now s g).2.1 = g ∧
        (DDLManager.add_index_global_ddlwork fl now s g).2.2.table_manager = s.table_manager) ∧
      ((DDLManager.add_index_global_ddlwork fl now s g).2.1.job_state ≠ g.job_state →
        (DDLManager.add_index_global_ddlwork fl now s g).2.1.job_state = IndexState.IS_WRITE_LOCAL ∧
        (DBManager.update_txn_ready s g.table_id).ddl.is_txn_done g.table_id = true ∧
        (DBManager.update_txn_ready s g.table_id).ddl.is_txn_success g.table_id = true)) := by
  rw [add_index_write_only_eq fl now s g hstate herr]
  unfold DDLManager.add_index_write_only
  have htm := update_txn_ready_table_manager s g.table_id
  constructor
  · intro hex
    simp only [hex, Bool.not_false, if_true]
    refine ⟨trivial, trivial, trivial, ?_, ?_⟩
    · simp [DBManager.execute_broadcast_task, AMap.find_set_self]
    · simp [DDLManager.exist_wait_txn_info, DDLManager.set_wait_txn_info, AMap.contains,
        AMap.find_set_self]
  · intro hex
    simp only [hex, Bool.not_true, Bool.false_eq_true, if_false]
    by_cases hd : (DBManager.update_txn_ready s g.table_id).ddl.is_txn_done g.table_id = true
    · by_cases hs : (DBManager.update_txn_ready s g.table_id).ddl.is_txn_success g.table_id = true
      · simp [hd, hs, TableManager.get_index_state, TableManager.update_index_status,
          AMap.find_set_self]
      · simp [hd, hs, htm]
    · simp [hd, htm]

/-- The barrier theorem at the first visit of the scenario job. -/
theorem add_index_write_only_gate_witness :
    (DDLManager.add_index_global_ddlwork defaultFlags 0 write_only_server
        (scenario_job IndexState.IS_WRITE_ONLY)).2.1 = scenario_job IndexState.IS_WRITE_ONLY ∧
    (DDLManager.add_index_global_ddlwork defaultFlags 0 write_only_server
        (scenario_job IndexState.IS_WRITE_ONLY)).2.2.table_manager = write_only_server.table_manager ∧
    (DDLManager.add_index_global_ddlwork defaultFlags 0 write_only_server
        (scenario_job IndexState.IS_WRITE_ONLY)).2.2.db
      = write_only_server.db.execute_broadcast_task 0 (scenario_job IndexState.IS_WRITE_ONLY) ∧
    (AMap.find (scenario_job IndexState.IS_WRITE_ONLY).table_id
        (DDLManager.add_index_global_ddlwork defaultFlags 0 write_only_server
          (scenario_job IndexState.IS_WRITE_ONLY)).2.2.db.broadcast_task_map).map (fun t => t.work)
      = some (scenario_job IndexState.IS_WRITE_ONLY) ∧
    (DDLManager.add_index_global_ddlwork defaultFlags 0 write_only_server
        (scenario_job IndexState.IS_WRITE_ONLY)).2.2.ddl.exist_wait_txn_info
        (scenario_job IndexState.IS_WRITE_ONLY).table_id = true :=
  (add_index_write_only_gate defaultFlags 0 write_only_server (scenario_job IndexState.IS_WRITE_ONLY)
    (by decide) (by decide)).1 (by decide)

/--
Claim C4. Evaluation of `process_broadcast_task_hearbeat` at the failing input:
the task of table 1 has `number = 0` and no barrier result yet; after the
acknowledgement with status Fail the task is removed from the broadcast map,
but the barrier result recorded for the table is success, and the next tick
moves the job to `IS_WRITE_LOCAL`.
-/
theorem fail_ack_recorded_as_success :
    (AMap.find 1 broadcast_swept_server.db.broadcast_task_map).map (fun t => t.number) = some 0 ∧
    broadcast_swept_server.ddl.is_txn_done 1 = false ∧
    (DBManager.process_broadcast_task_hearbeat 300000003 "w1" broadcast_swept_server
        fail_ack_request empty_response).1.ddl.is_txn_done 1 = true ∧
    (DBManager.process_broadcast_task_hearbeat 300000003 "w1" broadcast_swept_server
        fail_ack_request empty_response).1.ddl.is_txn_success 1 = true ∧
    AMap.find 1 (DBManager.process_broadcast_task_hearbeat 300000003 "w1" broadcast_swept_server
        fail_ack_request empty_response).1.db.broadcast_task_map = none ∧
    ((broadcast_swept_server.run defaultFlags
        [Step.heartbeat 300000003 "w1" fail_ack_request, Step.tick 300000004 1]).ddl.get_ddl_mem 1).map
      (fun g => (g.job_state, g.errcode)) = some (IndexState.IS_WRITE_LOCAL, ErrCode.IN_PROCESS) := by
  decide

/-- The traversal keeps `job_state`. -/
theorem traverse_job_state (fl : Flags) (now table_id : Int) (region_size : Nat)
    (l : List (Int × MemRegionDdlWork)) (c : TraverseCtx) (hrb : c.rollback = false) :
    (traverse_with_early_return (add_index_call fl now table_id region_size) c l).2.g_ddl_work.job_state
      = c.g_ddl_work.job_state := by
  rcases (traverse_add_index_spec fl now table_id region_size l c hrb).1 with h | h <;> rw [h]

/-- A dwell-gated advance leaves the record or sets `job_state := next`. -/
theorem add_index_advance_job_state (fl : Flags) (now : Int) (s : MetaServer) (g : DdlWorkInfo)
    (cur next : IndexState) :
    (DDLManager.add_index_advance fl now s g cur next).2.1 = g ∨
    (DDLManager.add_index_advance fl now s g cur next).2.1 = { g with job_state := next } := by
  unfold DDLManager.add_index_advance
  rcases s.ddl.update_policy.should_change fl now g.table_id cur with ⟨b, p⟩
  cases b <;> simp

/-- The three outcomes of the `IS_WRITE_ONLY` case for the job record. -/
theorem add_index_write_only_job (now : Int) (s : MetaServer) (g : DdlWorkInfo) :
    (DDLManager.add_index_write_only now s g).2.1 = g ∨
    (DDLManager.add_index_write_only now s g).2.1 = { g with job_state := IndexState.IS_WRITE_LOCAL } ∨
    (DDLManager.add_index_write_only now s g).2.1 = { g with errcode := ErrCode.EXEC_FAIL } := by
  unfold DDLManager.add_index_write_only
  by_cases hex : s.ddl.exist_wait_txn_info g.table_id = true
  · by_cases hd : (DBManager.update_txn_ready s g.table_id).ddl.is_txn_done g.table_id = true
    · by_cases hs : (DBManager.update_txn_ready s g.table_id).ddl.is_txn_success g.table_id = true
      · simp [hex, hd, hs]
      · simp [hex, hd, hs]
    · simp [hex, hd]
  · simp [hex]

/-- The three outcomes of the `IS_WRITE_LOCAL` case for the job record. -/
theorem add_index_write_local_job (fl : Flags) (now : Int) (s : MetaServer) (g : DdlWorkInfo)
    (region_size : Nat) :
    (DDLManager.add_index_write_local fl now s g region_size).2.1 = g ∨
    (DDLManager.add_index_write_local fl now s g region_size).2.1
      = { g with job_state := IndexState.IS_PUBLIC, errcode := ErrCode.SUCCESS } ∨
    (DDLManager.add_index_write_local fl now s g region_size).2.1 = { g with errcode := ErrCode.EXEC_FAIL } := by
  unfold DDLManager.add_index_write_local
  rcases hmap : AMap.find g.table_id s.ddl.region_ddlwork with _ | region_map
  · simp [hmap]
  · simp only [hmap]
    by_cases h1 : s.ddl.get_doing_work_number g.table_id = -1
    · simp [h1]
    · by_cases h2 : over_region_limit fl region_size (s.ddl.get_doing_work_number g.table_id) = true
      · simp [h1, h2]
      · simp only [h1, h2, if_false]
        obtain ⟨hg, -⟩ := traverse_add_index_spec fl now g.table_id region_size region_map
          { g_ddl_work := g, db := s.db, ddl := s.ddl } rfl
        rcases htr : traverse_with_early_return (add_index_call fl now g.table_id region_size)
          { g_ddl_work := g, db := s.db, ddl := s.ddl } region_map with ⟨region_map1, c⟩
        rw [htr] at hg
        simp only at hg
        by_cases hdone : c.done = true
        · simp only [hdone, if_true]
          rcases hg with hg | hg <;> rw [hg] <;> simp
        · simp only [hdone, if_false, Bool.false_eq_true]
          rcases hg with hg | hg
          · exact Or.inl hg
          · exact Or.inr (Or.inr hg)

/-- The outcomes of an add-index tick for the job record. -/
theorem add_index_job_cases (fl : Flags) (now : Int) (s : MetaServer) (g : DdlWorkInfo) :
    (DDLManager.add_index_global_ddlwork fl now s g).2.1 = g ∨
    (∃ cur next, s.table_manager.get_index_state g.table_id g.index_id = some cur ∧
      forward_successor cur = some next ∧ g.errcode ≠ ErrCode.EXEC_FAIL ∧
      ((DDLManager.add_index_global_ddlwork fl now s g).2.1 = { g with job_state := next } ∨
       (DDLManager.add_index_global_ddlwork fl now s g).2.1
          = { g with job_state := next, errcode := ErrCode.SUCCESS })) ∨
    (g.errcode ≠ ErrCode.EXEC_FAIL ∧
      (DDLManager.add_index_global_ddlwork fl now s g).2.1 = { g with errcode := ErrCode.EXEC_FAIL }) := by
  unfold DDLManager.add_index_global_ddlwork
  rcases hst : s.table_manager.get_index_state g.table_id g.index_id with _ | cur
  · simp
  · by_cases herr : g.errcode = ErrCode.EXEC_FAIL
    · simp [herr]
    · simp only [herr, if_false]
      cases cur
      · simp only
        rcases add_index_advance_job_state fl now s g IndexState.IS_NONE IndexState.IS_DELETE_ONLY
          with h | h
        · exact Or.inl h
        · exact Or.inr (Or.inl ⟨_, _, rfl, rfl, herr, Or.inl h⟩)
      · simp only
        rcases add_index_advance_job_state fl now s g IndexState.IS_DELETE_ONLY IndexState.IS_WRITE_ONLY
          with h | h
        · exact Or.inl h
        · exact Or.inr (Or.inl ⟨_, _, rfl, rfl, herr, Or.inl h⟩)
      · simp only
        rcases add_index_write_only_job now s g with h | h | h
        · exact Or.inl h
        · exact Or.inr (Or.inl ⟨_, _, rfl, rfl, herr, Or.inl h⟩)
        · exact Or.inr (Or.inr ⟨herr, h⟩)
      · simp only
        rcases add_index_write_local_job fl now s g (s.table_manager.get_region_size g.index_id)
          with h | h | h
        · exact Or.inl h
        · exact Or.inr (Or.inl ⟨_, _, rfl, rfl, herr, Or.inr h⟩)
        · exact Or.inr (Or.inr ⟨herr, h⟩)
      · simp

/-- A tick on a job with `errcode = EXEC_FAIL` returns the job and the server unchanged. -/
theorem add_index_failed_noop (fl : Flags) (now : Int) (s : MetaServer) (g : DdlWorkInfo)
    (herr : g.errcode = ErrCode.EXEC_FAIL) :
    DDLManager.add_index_global_ddlwork fl now s g
      = ((if (s.table_manager.get_index_state g.table_id g.index_id).isSome then 0 else -1), g, s) := by
  unfold DDLManager.add_index_global_ddlwork
  rcases s.table_manager.get_index_state g.table_id g.index_id with _ | cur <;> simp [herr]

/-- A trace of job records starts with the initial record. -/
theorem add_index_job_trace_head (fl : Flags) (g : DdlWorkInfo) (envs : List (Int × MetaServer)) :
    ∃ tl, add_index_job_trace fl g envs = g :: tl := by
  cases envs with
  | nil => exact ⟨[], rfl⟩
  | cons e rest => exact ⟨_, rfl⟩

/-- Along the ticks of a failed job `errcode` never becomes `EXEC_FAIL` again. -/
theorem exec_fail_sets_failed (fl : Flags) (envs : List (Int × MetaServer)) :
    ∀ g : DdlWorkInfo, g.errcode = ErrCode.EXEC_FAIL →
      exec_fail_sets (add_index_job_trace fl g envs) = 0 := by
  induction envs with
  | nil => intro g _; simp [add_index_job_trace, exec_fail_sets]
  | cons e rest ih =>
    intro g hg
    obtain ⟨now, s⟩ := e
    have h1 : (DDLManager.add_index_global_ddlwork fl now s g).2.1 = g := by
      rw [add_index_failed_noop fl now s g hg]
    have h0 := ih g hg
    obtain ⟨tl, htl⟩ := add_index_job_trace_head fl g rest
    simp only [add_index_job_trace, h1]
    rw [htl] at h0 ⊢
    simp [exec_fail_sets, hg, h0]

/-- Along the ticks of a job `errcode` becomes `EXEC_FAIL` at most once. -/
theorem exec_fail_sets_le_one (fl : Flags) (envs : List (Int × MetaServer)) :
    ∀ g : DdlWorkInfo, exec_fail_sets (add_index_job_trace fl g envs) ≤ 1 := by
  induction envs with
  | nil => intro g; simp [add_index_job_trace, exec_fail_sets]
  | cons e rest ih =>
    intro g
    obtain ⟨now, s⟩ := e
    have ih1 := ih (DDLManager.add_index_global_ddlwork fl now s g).2.1
    obtain ⟨tl, htl⟩ :=
      add_index_job_trace_head fl (DDLManager.add_index_global_ddlwork fl now s g).2.1 rest
    simp only [add_index_job_trace]
    by_cases hf : (DDLManager.add_index_global_ddlwork fl now s g).2.1.errcode = ErrCode.EXEC_FAIL
    · have h0 := exec_fail_sets_failed fl rest _ hf
      rw [htl] at h0 ⊢
      simp only [exec_fail_sets, h0, add_zero]
      split <;> simp
    · rw [htl] at ih1 ⊢
      simp only [exec_fail_sets, hf, and_false, if_false, zero_add]
      exact ih1

/--
Claim C5. Monotone forward path: after an add-index tick `job_state` is either
unchanged or the immediate successor of the current catalog state in the chain
`IS_NONE -> IS_DELETE_ONLY -> IS_WRITE_ONLY -> IS_WRITE_LOCAL -> IS_PUBLIC`;
a tick on a job whose `errcode` is `EXEC_FAIL` changes nothing; a tick at
`IS_PUBLIC` changes nothing; and along any sequence of ticks of a job `errcode`
becomes `EXEC_FAIL` at most once.
-/
theorem add_index_monotone_forward (fl : Flags) (now : Int) (s : MetaServer) (g : DdlWorkInfo) :
    (∀ cur, s.table_manager.get_index_state g.table_id g.index_id = some cur →
      (DDLManager.add_index_global_ddlwork fl now s g).2.1.job_state = g.job_state ∨
      forward_successor cur = some (DDLManager.add_index_global_ddlwork fl now s g).2.1.job_state) ∧
    (g.errcode = ErrCode.EXEC_FAIL →
      (DDLManager.add_index_global_ddlwork fl now s g).2.1 = g ∧
      (DDLManager.add_index_global_ddlwork fl now s g).2.2 = s) ∧
    (s.table_manager.get_index_state g.table_id g.index_id = some IndexState.IS_PUBLIC →
      (DDLManager.add_index_global_ddlwork fl now s g).2.1 = g ∧
      (DDLManager.add_index_global_ddlwork fl now s g).2.2 = s) ∧
    (∀ envs : List (Int × MetaServer), exec_fail_sets (add_index_job_trace fl g envs) ≤ 1) := by
  refine ⟨?_, ?_, ?_, fun envs => exec_fail_sets_le_one fl envs g⟩
  · intro cur hcur
    rcases add_index_job_cases fl now s g with h | ⟨cur1, next, hc, hn, -, h | h⟩ | ⟨-, h⟩
    · left; rw [h]
    · right
      rw [hcur] at hc
      cases hc
      rw [h, hn]
    · right
      rw [hcur] at hc
      cases hc
      rw [h, hn]
    · left; rw [h]
  · intro herr
    rw [add_index_failed_noop fl now s g herr]
    exact ⟨rfl, rfl⟩
  · intro hpub
    unfold DDLManager.add_index_global_ddlwork
    simp only [hpub]
    by_cases herr : g.errcode = ErrCode.EXEC_FAIL <;> simp [herr]

/-- The monotonicity theorem at the scenario where both units are Done. -/
theorem add_index_monotone_forward_witness :
    (DDLManager.add_index_global_ddlwork defaultFlags 100 all_done_server
        (scenario_job IndexState.IS_WRITE_LOCAL)).2.1.job_state
      = (scenario_job IndexState.IS_WRITE_LOCAL).job_state ∨
    forward_successor IndexState.IS_WRITE_LOCAL
      = some (DDLManager.add_index_global_ddlwork defaultFlags 100 all_done_server
          (scenario_job IndexState.IS_WRITE_LOCAL)).2.1.job_state :=
  (add_index_monotone_forward defaultFlags 100 all_done_server
    (scenario_job IndexState.IS_WRITE_LOCAL)).1 IndexState.IS_WRITE_LOCAL (by decide)

/-- A positive answer of `should_change` leaves the policy unchanged and comes from an expired timer. -/
theorem should_change_true_policy (fl : Flags) (now : Int) (p : StatusChangePolicy) (table_id : Int)
    (st : IndexState) (h : (p.should_change fl now table_id st).1 = true) :
    (p.should_change fl now table_id st).2 = p ∧
    ∃ start, AMap.find (table_id, st) p.time_costs_map = some start ∧
      wrap_int32 (5 * fl.ddl_status_update_interval_us) < now - start := by
  unfold StatusChangePolicy.should_change at h ⊢
  rcases hf : AMap.find (table_id, st) p.time_costs_map with _ | start
  · rw [hf] at h; simp at h
  · rw [hf] at h
    simp only [decide_eq_true_eq, TimeCost_get_time] at h
    exact ⟨rfl, start, rfl, h⟩

/-- A drop step whose gate passes sets and publishes `next`. -/
theorem drop_index_step_pass (fl : Flags) (now : Int) (s : MetaServer) (g : DdlWorkInfo)
    (cur next : IndexState) (h : dwell_gate fl now s g.table_id cur = true) :
    DDLManager.drop_index_step fl now s g cur next =
      (0, { g with job_state := next }, published s { g with job_state := next }) := by
  unfold dwell_gate at h
  obtain ⟨hp, -⟩ := should_change_true_policy fl now s.ddl.update_policy g.table_id cur h
  unfold DDLManager.drop_index_step
  rcases hsc : s.ddl.update_policy.should_change fl now g.table_id cur with ⟨b, p⟩
  rw [hsc] at h hp
  simp only at h hp
  subst h hp
  rfl

/-- A drop step whose gate does not pass changes only the policy. -/
theorem drop_index_step_wait (fl : Flags) (now : Int) (s : MetaServer) (g : DdlWorkInfo)
    (cur next : IndexState) (h : dwell_gate fl now s g.table_id cur = false) :
    DDLManager.drop_index_step fl now s g cur next =
      (0, g, { s with ddl := { s.ddl with
        update_policy := (s.ddl.update_policy.should_change fl now g.table_id cur).2 } }) := by
  unfold dwell_gate at h
  unfold DDLManager.drop_index_step
  rcases hsc : s.ddl.update_policy.should_change fl now g.table_id cur with ⟨b, p⟩
  rw [hsc] at h
  simp only at h
  subst h
  rfl

/-- The `IS_NONE` case of the drop path when the gate passes. -/
theorem drop_index_none_pass (fl : Flags) (now : Int) (s : MetaServer) (g : DdlWorkInfo)
    (h : dwell_gate fl now s g.table_id IndexState.IS_NONE = true) :
    (DDLManager.drop_index_none fl now s g).2.1 = { g with deleted := true, errcode := ErrCode.SUCCESS } ∧
    (DDLManager.drop_index_none fl now s g).2.2.raft_pending
      = s.raft_pending ++ drop_cleanup_requests { g with deleted := true, errcode := ErrCode.SUCCESS } ∧
    (DDLManager.drop_index_none fl now s g).2.2.db = s.db := by
  unfold dwell_gate at h
  simp only [DDLManager.drop_index_none]
  rcases hsc : s.ddl.update_policy.should_change fl now g.table_id IndexState.IS_NONE with ⟨b, p⟩
  rw [hsc] at h
  simp only at h
  subst h
  simp [DDLManager.apply_raft, drop_cleanup_requests]

/-- The `IS_NONE` case of the drop path when the gate does not pass. -/
theorem drop_index_none_wait (fl : Flags) (now : Int) (s : MetaServer) (g : DdlWorkInfo)
    (h : dwell_gate fl now s g.table_id IndexState.IS_NONE = false) :
    DDLManager.drop_index_none fl now s g =
      (0, g, { s with ddl := { s.ddl with
        update_policy := (s.ddl.update_policy.should_change fl now g.table_id IndexState.IS_NONE).2 } }) := by
  unfold dwell_gate at h
  simp only [DDLManager.drop_index_none]
  rcases hsc : s.ddl.update_policy.should_change fl now g.table_id IndexState.IS_NONE with ⟨b, p⟩
  rw [hsc] at h
  simp only at h
  subst h
  rfl

/-- A drop tick above `IS_NONE` whose gate passes. -/
theorem drop_index_tick_pass (fl : Flags) (now : Int) (s : MetaServer) (g : DdlWorkInfo)
    (cur next : IndexState)
    (hstate : s.table_manager.get_index_state g.table_id g.index_id = some cur)
    (herr : g.errcode ≠ ErrCode.EXEC_FAIL)
    (hnext : inverse_successor cur = some next)
    (h : dwell_gate fl now s g.table_id cur = true) :
    DDLManager.drop_index_global_ddlwork fl now s g =
      (0, { g with job_state := next }, published s { g with job_state := next }) := by
  unfold DDLManager.drop_index_global_ddlwork
  simp only [hstate, herr, if_false]
  cases cur <;> simp only [inverse_successor, Option.some.injEq, reduceCtorEq] at hnext <;> subst hnext <;>
    exact drop_index_step_pass fl now s g _ _ h

/-- A drop tick whose gate does not pass. -/
theorem drop_index_tick_wait (fl : Flags) (now : Int) (s : MetaServer) (g : DdlWorkInfo)
    (cur : IndexState)
    (hstate : s.table_manager.get_index_state g.table_id g.index_id = some cur)
    (herr : g.errcode ≠ ErrCode.EXEC_FAIL)
    (h : dwell_gate fl now s g.table_id cur = false) :
    DDLManager.drop_index_global_ddlwork fl now s g =
      (0, g, { s with ddl := { s.ddl with
        update_policy := (s.ddl.update_policy.should_change fl now g.table_id cur).2 } }) := by
  unfold DDLManager.drop_index_global_ddlwork
  simp only [hstate, herr, if_false]
  cases cur
  · exact drop_index_none_wait fl now s g h
  all_goals exact drop_index_step_wait fl now s g _ _ h

/-- A drop tick at catalog state `IS_NONE` is the `IS_NONE` case. -/
theorem drop_index_tick_none (fl : Flags) (now : Int) (s : MetaServer) (g : DdlWorkInfo)
    (hstate : s.table_manager.get_index_state g.table_id g.index_id = some IndexState.IS_NONE)
    (herr : g.errcode ≠ ErrCode.EXEC_FAIL) :
    DDLManager.drop_index_global_ddlwork fl now s g = DDLManager.drop_index_none fl now s g := by
  unfold DDLManager.drop_index_global_ddlwork
  simp only [hstate, herr, if_false]


/-- After `update_index_status` the catalog holds the job state of the record. -/
theorem get_index_state_published (t : TableManager) (g : DdlWorkInfo) :
    (t.update_index_status g).get_index_state g.table_id g.index_id = some g.job_state := by
  simp [TableManager.get_index_state, TableManager.update_index_status, AMap.find_set_self]

/-- A drop tick touches neither the `DBManager` nor the region maps. -/
theorem drop_index_tick_db (fl : Flags) (now : Int) (s : MetaServer) (g : DdlWorkInfo) :
    (DDLManager.drop_index_global_ddlwork fl now s g).2.2.db = s.db ∧
    (DDLManager.drop_index_global_ddlwork fl now s g).2.2.ddl.region_ddlwork = s.ddl.region_ddlwork := by
  unfold DDLManager.drop_index_global_ddlwork
  rcases hst : s.table_manager.get_index_state g.table_id g.index_id with _ | cur
  · simp
  · by_cases herr : g.errcode = ErrCode.EXEC_FAIL
    · simp [herr]
    · simp only [herr, if_false]
      cases cur
      · simp only [DDLManager.drop_index_none]
        rcases s.ddl.update_policy.should_change fl now g.table_id IndexState.IS_NONE with ⟨b, p⟩
        cases b <;> simp [DDLManager.apply_raft, DDLManager.update_table_ddl_mem]
      all_goals
        simp only [DDLManager.drop_index_step]
        rcases s.ddl.update_policy.should_change fl now g.table_id _ with ⟨b, p⟩
        cases b <;> simp [DDLManager.update_table_ddl_mem]

/--
Claim C6. Inverse path of `drop_index_global_ddlwork` for a job that has not
failed. With the dwell gate passing, `IS_PUBLIC` goes to `IS_WRITE_ONLY`,
`IS_WRITE_ONLY` to `IS_DELETE_ONLY`, `IS_DELETE_ONLY` to `IS_NONE` (and
`IS_WRITE_LOCAL` to `IS_WRITE_ONLY`), published to the catalog; at `IS_NONE` the
job gets `errcode = SUCCESS` and `deleted = true` and `OP_DELETE_DDLWORK` and
`OP_REMOVE_GLOBAL_INDEX_DATA` are issued. With the gate not passing the job and
the server are unchanged, timers of the policy apart. No tick raises the
visibility state, and the `DBManager` (broadcasts, worker queues) and the region
maps are never touched. From `IS_PUBLIC`, four gate-passing ticks reach
`SUCCESS`, the first three leaving `errcode` unchanged.
-/
theorem drop_index_inverse_path (fl : Flags) (now : Int) (s : MetaServer) (g : DdlWorkInfo) (cur : IndexState)
    (hstate : s.table_manager.get_index_state g.table_id g.index_id = some cur)
    (herr : g.errcode ≠ ErrCode.EXEC_FAIL) :
    -- the gate passes above `IS_NONE`: one inverse step, published to the catalog
    (dwell_gate fl now s g.table_id cur = true → ∀ next, inverse_successor cur = some next →
      (DDLManager.drop_index_global_ddlwork fl now s g).2.1 = { g with job_state := next } ∧
      (DDLManager.drop_index_global_ddlwork fl now s g).2.2.table_manager.get_index_state
        g.table_id g.index_id = some next ∧
      (DDLManager.drop_index_global_ddlwork fl now s g).2.2.raft_pending = s.raft_pending) ∧
    -- the gate passes at `IS_NONE`: success, deletion, the two requests
    (dwell_gate fl now s g.table_id cur = true → cur = IndexState.IS_NONE →
      (DDLManager.drop_index_global_ddlwork fl now s g).2.1
        = { g with deleted := true, errcode := ErrCode.SUCCESS } ∧
      (DDLManager.drop_index_global_ddlwork fl now s g).2.2.raft_pending
        = s.raft_pending ++ drop_cleanup_requests { g with deleted := true, errcode := ErrCode.SUCCESS }) ∧
    -- the gate does not pass: only the timers of the policy may change
    (dwell_gate fl now s g.table_id cur = false →
      (DDLManager.drop_index_global_ddlwork fl now s g).2.1 = g ∧
      (DDLManager.drop_index_global_ddlwork fl now s g).2.2
        = { s with ddl := { s.ddl with
            update_policy := (s.ddl.update_policy.should_change fl now g.table_id cur).2 } }) ∧
    -- no tick raises the state, starts a broadcast or submits region work
    ((DDLManager.drop_index_global_ddlwork fl now s g).2.1.job_state = g.job_state ∨
      visibility_rank (DDLManager.drop_index_global_ddlwork fl now s g).2.1.job_state
        < visibility_rank cur) ∧
    (DDLManager.drop_index_global_ddlwork fl now s g).2.2.db = s.db ∧
    (DDLManager.drop_index_global_ddlwork fl now s g).2.2.ddl.region_ddlwork = s.ddl.region_ddlwork ∧
    -- from `IS_PUBLIC`, four gate-passing ticks reach success, and not fewer
    (cur = IndexState.IS_PUBLIC → g.errcode = ErrCode.IN_PROCESS → ∀ t2 t3 t4 : Int,
      dwell_gate fl now s g.table_id IndexState.IS_PUBLIC = true →
      dwell_gate fl t2 (drop_index_ticks fl [now] (g, s)).2 g.table_id IndexState.IS_WRITE_ONLY = true →
      dwell_gate fl t3 (drop_index_ticks fl [now, t2] (g, s)).2 g.table_id IndexState.IS_DELETE_ONLY = true →
      dwell_gate fl t4 (drop_index_ticks fl [now, t2, t3] (g, s)).2 g.table_id IndexState.IS_NONE = true →
      (drop_index_ticks fl [now] (g, s)).1 = { g with job_state := IndexState.IS_WRITE_ONLY } ∧
      (drop_index_ticks fl [now, t2] (g, s)).1 = { g with job_state := IndexState.IS_DELETE_ONLY } ∧
      (drop_index_ticks fl [now, t2, t3] (g, s)).1 = { g with job_state := IndexState.IS_NONE } ∧
      (drop_index_ticks fl [now, t2, t3, t4] (g, s)).1
        = { g with job_state := IndexState.IS_NONE, deleted := true, errcode := ErrCode.SUCCESS }) := by
  refine ⟨?_, ?_, ?_, ?_, (drop_index_tick_db fl now s g).1, (drop_index_tick_db fl now s g).2, ?_⟩
  · intro hgate next hnext
    rw [drop_index_tick_pass fl now s g cur next hstate herr hnext hgate]
    exact ⟨rfl, get_index_state_published s.table_manager { g with job_state := next }, rfl⟩
  · intro hgate hcur
    subst hcur
    rw [drop_index_tick_none fl now s g hstate herr]
    obtain ⟨h1, h2, -⟩ := drop_index_none_pass fl now s g hgate
    exact ⟨h1, h2⟩
  · intro hgate
    rw [drop_index_tick_wait fl now s g cur hstate herr hgate]
    exact ⟨rfl, rfl⟩
  · by_cases hgate : dwell_gate fl now s g.table_id cur = true
    · cases cur
      · left
        rw [drop_index_tick_none fl now s g hstate herr, (drop_index_none_pass fl now s g hgate).1]
      all_goals
        right
        rw [drop_index_tick_pass fl now s g _ _ hstate herr rfl hgate]
        simp [visibility_rank]
    · left
      rw [drop_index_tick_wait fl now s g cur hstate herr (by simpa using hgate)]
  · intro hcur hin t2 t3 t4 g1 g2 g3 g4
    subst hcur
    have e1 := drop_index_tick_pass fl now s g _ _ hstate herr rfl g1
    have h1 : drop_index_ticks fl [now] (g, s)
        = ({ g with job_state := IndexState.IS_WRITE_ONLY },
           published s { g with job_state := IndexState.IS_WRITE_ONLY }) := by
      simp only [drop_index_ticks, e1]
    rw [h1] at g2
    have e2 := drop_index_tick_pass fl t2 (published s { g with job_state := IndexState.IS_WRITE_ONLY })
      { g with job_state := IndexState.IS_WRITE_ONLY }
      IndexState.IS_WRITE_ONLY IndexState.IS_DELETE_ONLY
      (get_index_state_published s.table_manager { g with job_state := IndexState.IS_WRITE_ONLY })
      herr rfl g2
    have h2 : drop_index_ticks fl [now, t2] (g, s)
        = ({ g with job_state := IndexState.IS_DELETE_ONLY },
           published (published s { g with job_state := IndexState.IS_WRITE_ONLY })
             { g with job_state := IndexState.IS_DELETE_ONLY }) := by
      simp only [drop_index_ticks, e1, e2]
    rw [h2] at g3
    have e3 := drop_index_tick_pass fl t3
      (published (published s { g with job_state := IndexState.IS_WRITE_ONLY })
        { g with job_state := IndexState.IS_DELETE_ONLY })
      { g with job_state := IndexState.IS_DELETE_ONLY }
      IndexState.IS_DELETE_ONLY IndexState.IS_NONE
      (get_index_state_published _ { g with job_state := IndexState.IS_DELETE_ONLY })
      herr rfl g3
    have h3 : drop_index_ticks fl [now, t2, t3] (g, s)
        = ({ g with job_state := IndexState.IS_NONE },
           published (published (published s { g with job_state := IndexState.IS_WRITE_ONLY })
             { g with job_state := IndexState.IS_DELETE_ONLY })
             { g with job_state := IndexState.IS_NONE }) := by
      simp only [drop_index_ticks, e1, e2, e3]
    rw [h3] at g4
    have e4 := drop_index_tick_none fl t4
      (published (published (published s { g with job_state := IndexState.IS_WRITE_ONLY })
        { g with job_state := IndexState.IS_DELETE_ONLY }) { g with job_state := IndexState.IS_NONE })
      { g with job_state := IndexState.IS_NONE }
      (get_index_state_published _ { g with job_state := IndexState.IS_NONE }) herr
    have e5 := (drop_index_none_pass fl t4 _ { g with job_state := IndexState.IS_NONE } g4).1
    refine ⟨by rw [h1], by rw [h2], by rw [h3], ?_⟩
    simp only [drop_index_ticks, e1, e2, e3, e4, e5]


/-- The inverse-path theorem on four ticks of the scenario drop job, each after the dwell time. -/
theorem drop_index_inverse_path_witness :
    (drop_index_ticks defaultFlags [60000000] (drop_job IndexState.IS_PUBLIC, drop_server)).1
      = { drop_job IndexState.IS_PUBLIC with job_state := IndexState.IS_WRITE_ONLY } ∧
    (drop_index_ticks defaultFlags [60000000, 60000001] (drop_job IndexState.IS_PUBLIC, drop_server)).1
      = { drop_job IndexState.IS_PUBLIC with job_state := IndexState.IS_DELETE_ONLY } ∧
    (drop_index_ticks defaultFlags [60000000, 60000001, 60000002]
        (drop_job IndexState.IS_PUBLIC, drop_server)).1
      = { drop_job IndexState.IS_PUBLIC with job_state := IndexState.IS_NONE } ∧
    (drop_index_ticks defaultFlags [60000000, 60000001, 60000002, 60000003]
        (drop_job IndexState.IS_PUBLIC, drop_server)).1
      = { drop_job IndexState.IS_PUBLIC with
          job_state := IndexState.IS_NONE, deleted := true, errcode := ErrCode.SUCCESS } :=
  (drop_index_inverse_path defaultFlags 60000000 drop_server (drop_job IndexState.IS_PUBLIC)
    IndexState.IS_PUBLIC (by decide) (by decide)).2.2.2.2.2.2 rfl rfl 60000001 60000002 60000003
    (by decide) (by decide) (by decide) (by decide)

/--
Claim C7, counterexample. The controller first observes the job in
`IS_WRITE_ONLY` at time 0 (the job stays in that state), the only worker
acknowledges the broadcast, and the tick at time 3 moves the job and the
catalog to `IS_WRITE_LOCAL`, although `3 - 0` is less than `5 * StatusUpdateInterval`.
-/
theorem write_only_left_without_dwell :
    ((write_only_server.run defaultFlags [Step.tick 0 1]).ddl.get_ddl_mem 1).map (fun g => g.job_state)
      = some IndexState.IS_WRITE_ONLY ∧
    (write_only_server.run defaultFlags [Step.tick 0 1]).table_manager.get_index_state 1 10
      = some IndexState.IS_WRITE_ONLY ∧
    ((write_only_server.run defaultFlags barrier_steps).ddl.get_ddl_mem 1).map (fun g => g.job_state)
      = some IndexState.IS_WRITE_LOCAL ∧
    (write_only_server.run defaultFlags barrier_steps).table_manager.get_index_state 1 10
      = some IndexState.IS_WRITE_LOCAL ∧
    ¬ (5 * defaultFlags.ddl_status_update_interval_us ≤ 3 - 0) := by
  decide

/-- A value in the non-negative `int32_t` range is not changed by the wrap-around. -/
theorem wrap_int32_of_range (x : Int) (h0 : 0 ≤ x) (h1 : x < 2 ^ 31) : wrap_int32 x = x := by
  unfold wrap_int32
  norm_num at h1 ⊢
  omega

/-- A dwell-gated advance that changes the record had an expired timer. -/
theorem add_index_advance_dwell (fl : Flags) (now : Int) (s : MetaServer) (g : DdlWorkInfo)
    (cur next : IndexState) (h : (DDLManager.add_index_advance fl now s g cur next).2.1 ≠ g) :
    ∃ start, AMap.find (g.table_id, cur) s.ddl.update_policy.time_costs_map = some start ∧
      wrap_int32 (5 * fl.ddl_status_update_interval_us) < now - start := by
  by_cases hgate : (s.ddl.update_policy.should_change fl now g.table_id cur).1 = true
  · exact (should_change_true_policy fl now s.ddl.update_policy g.table_id cur hgate).2
  · exfalso
    apply h
    unfold DDLManager.add_index_advance
    rcases hsc : s.ddl.update_policy.should_change fl now g.table_id cur with ⟨b, p⟩
    rw [hsc] at hgate
    simp only [Bool.not_eq_true] at hgate
    subst hgate
    rfl

/-- A drop tick that changes the record had an expired timer. -/
theorem drop_index_dwell (fl : Flags) (now : Int) (s : MetaServer) (g : DdlWorkInfo) (cur : IndexState)
    (hstate : s.table_manager.get_index_state g.table_id g.index_id = some cur)
    (h : (DDLManager.drop_index_global_ddlwork fl now s g).2.1 ≠ g) :
    ∃ start, AMap.find (g.table_id, cur) s.ddl.update_policy.time_costs_map = some start ∧
      wrap_int32 (5 * fl.ddl_status_update_interval_us) < now - start := by
  by_cases herr : g.errcode = ErrCode.EXEC_FAIL
  · exfalso; apply h
    unfold DDLManager.drop_index_global_ddlwork
    simp [hstate, herr]
  · by_cases hgate : dwell_gate fl now s g.table_id cur = true
    · exact (should_change_true_policy fl now s.ddl.update_policy g.table_id cur hgate).2
    · exfalso; apply h
      rw [drop_index_tick_wait fl now s g cur hstate herr (by simpa using hgate)]

/--
Claim C7, amended. With the default-sized interval (no `int32_t` overflow of
`5 * interval`): whenever an add-index tick at `IS_NONE` or `IS_DELETE_ONLY`, or
a drop-index tick at any state, changes the job record, the policy holds a
timer for the table and the current catalog state, started by an earlier
`should_change` call, and more than `5 * ddl_status_update_interval_us` has
elapsed since that start.
-/
theorem dwell_gated_transitions (fl : Flags) (now : Int) (s : MetaServer) (g : DdlWorkInfo) (cur : IndexState)
    (hfl : 0 ≤ fl.ddl_status_update_interval_us ∧ 5 * fl.ddl_status_update_interval_us < 2 ^ 31)
    (hstate : s.table_manager.get_index_state g.table_id g.index_id = some cur) :
    ((cur = IndexState.IS_NONE ∨ cur = IndexState.IS_DELETE_ONLY) →
      (DDLManager.add_index_global_ddlwork fl now s g).2.1 ≠ g →
      ∃ start, AMap.find (g.table_id, cur) s.ddl.update_policy.time_costs_map = some start ∧
        5 * fl.ddl_status_update_interval_us < now - start) ∧
    ((DDLManager.drop_index_global_ddlwork fl now s g).2.1 ≠ g →
      ∃ start, AMap.find (g.table_id, cur) s.ddl.update_policy.time_costs_map = some start ∧
        5 * fl.ddl_status_update_interval_us < now - start) := by
  have hw := wrap_int32_of_range (5 * fl.ddl_status_update_interval_us) (by omega) hfl.2
  constructor
  · intro hcur hne
    by_cases herr : g.errcode = ErrCode.EXEC_FAIL
    · exfalso; apply hne
      unfold DDLManager.add_index_global_ddlwork
      simp [hstate, herr]
    · have key : ∃ next, DDLManager.add_index_global_ddlwork fl now s g
          = DDLManager.add_index_advance fl now s g cur next := by
        unfold DDLManager.add_index_global_ddlwork
        rcases hcur with hc | hc <;> subst hc <;> simp only [hstate, herr, if_false] <;> exact ⟨_, rfl⟩
      obtain ⟨next, hk⟩ := key
      rw [hk] at hne
      obtain ⟨start, h1, h2⟩ := add_index_advance_dwell fl now s g cur next hne
      exact ⟨start, h1, by rw [hw] at h2; exact h2⟩
  · intro hne
    obtain ⟨start, h1, h2⟩ := drop_index_dwell fl now s g cur hstate hne
    exact ⟨start, h1, by rw [hw] at h2; exact h2⟩


/-- The dwell theorem at the first tick of the scenario drop job. -/
theorem dwell_gated_transitions_witness :
    ∃ start, AMap.find ((drop_job IndexState.IS_PUBLIC).table_id, IndexState.IS_PUBLIC)
        drop_server.ddl.update_policy.time_costs_map = some start ∧
      5 * defaultFlags.ddl_status_update_interval_us < 60000000 - start :=
  (dwell_gated_transitions defaultFlags 60000000 drop_server (drop_job IndexState.IS_PUBLIC)
    IndexState.IS_PUBLIC (by decide) (by decide)).2 (by decide)

/--
Claim C8, counterexample. The region map of table 1 holds an Idle unit followed
by a DupUniq unit and the pool has no worker; the map exists and the pre-check
passes, yet the tick leaves `errcode = IN_PROCESS`: the traversal returns at
the Idle unit that cannot be admitted and never visits the DupUniq unit.
-/
theorem fatal_unit_missed_behind_idle :
    (∃ e ∈ [scenario_unit 1 DdlWorkStatus.DdlWorkIdle 0, scenario_unit 2 DdlWorkStatus.DdlWorkDupUniq 1],
      e.2.region_info.status = DdlWorkStatus.DdlWorkDupUniq) ∧
    AMap.find 1 fatal_behind_idle_server.ddl.region_ddlwork
      = some [scenario_unit 1 DdlWorkStatus.DdlWorkIdle 0, scenario_unit 2 DdlWorkStatus.DdlWorkDupUniq 1] ∧
    over_region_limit defaultFlags (fatal_behind_idle_server.table_manager.get_region_size 10)
      (fatal_behind_idle_server.ddl.get_doing_work_number 1) = false ∧
    (DDLManager.add_index_global_ddlwork defaultFlags 100 fatal_behind_idle_server
      (scenario_job IndexState.IS_WRITE_LOCAL)).2.1.errcode = ErrCode.IN_PROCESS := by
  decide

/-- When the traversal completes on `pre`, the traversal of `pre ++ rest` continues on `rest` from the context reached. -/
theorem traverse_append_of_completes (fl : Flags) (now table_id : Int) (region_size : Nat)
    (pre rest : List (Int × MemRegionDdlWork)) :
    ∀ c : TraverseCtx, c.rollback = false →
    traverse_completes (add_index_call fl now table_id region_size) c pre = true →
    (traverse_with_early_return (add_index_call fl now table_id region_size) c pre).2.rollback = false ∧
    (traverse_with_early_return (add_index_call fl now table_id region_size) c pre).2.g_ddl_work
      = c.g_ddl_work ∧
    (traverse_with_early_return (add_index_call fl now table_id region_size) c (pre ++ rest)).2
      = (traverse_with_early_return (add_index_call fl now table_id region_size)
          (traverse_with_early_return (add_index_call fl now table_id region_size) c pre).2 rest).2 := by
  induction pre with
  | nil => intro c hrb _; simp [traverse_with_early_return, hrb]
  | cons e pre1 ih =>
    intro c hrb hcomp
    obtain ⟨k, v⟩ := e
    rcases hcall : add_index_call fl now table_id region_size c v with ⟨b, v1, c1⟩
    obtain ⟨hcont, -⟩ := add_index_call_spec fl now table_id region_size c v b v1 c1 hrb hcall
    cases b
    · simp [traverse_completes, hcall] at hcomp
    · obtain ⟨hrb1, hg1⟩ := hcont rfl
      simp only [traverse_completes, hcall] at hcomp
      obtain ⟨i1, i2, i3⟩ := ih c1 hrb1 hcomp
      simp only [List.cons_append, traverse_with_early_return, hcall]
      exact ⟨i1, by rw [i2, hg1], i3⟩

/-- A traversal that starts at a fatal unit rolls the job back. -/
theorem traverse_fatal_head (fl : Flags) (now table_id : Int) (region_size : Nat)
    (k : Int) (u : MemRegionDdlWork) (post : List (Int × MemRegionDdlWork)) (c : TraverseCtx)
    (hrb : c.rollback = false) (hu : fatal_unit fl u) :
    (traverse_with_early_return (add_index_call fl now table_id region_size) c ((k, u) :: post)).2.g_ddl_work
      = { c.g_ddl_work with errcode := ErrCode.EXEC_FAIL } ∧
    (traverse_with_early_return (add_index_call fl now table_id region_size) c ((k, u) :: post)).2.done
      = false := by
  rcases hcall : add_index_call fl now table_id region_size c u with ⟨b, v1, c1⟩
  obtain ⟨-, -, -, hnd, -, hfat, -⟩ := add_index_call_spec fl now table_id region_size c u b v1 c1 hrb hcall
  obtain ⟨hb, hg⟩ := hfat hu
  subst hb
  have hne : u.region_info.status ≠ DdlWorkStatus.DdlWorkDone := by
    intro hd
    rcases hu with h | h | ⟨h, -⟩ <;> rw [h] at hd <;> exact absurd hd (by simp)
  simp only [traverse_with_early_return, hcall]
  exact ⟨hg, hnd hne⟩

/-- The traversal completes on units that are all Done or Doing. -/
theorem traverse_completes_of_done_or_doing (fl : Flags) (now table_id : Int) (region_size : Nat)
    (pre : List (Int × MemRegionDdlWork)) :
    ∀ c : TraverseCtx, c.rollback = false →
    (∀ e ∈ pre, e.2.region_info.status = DdlWorkStatus.DdlWorkDone ∨
      e.2.region_info.status = DdlWorkStatus.DdlWorkDoing) →
    traverse_completes (add_index_call fl now table_id region_size) c pre = true := by
  induction pre with
  | nil => intro c _ _; rfl
  | cons e pre1 ih =>
    intro c hrb hall
    obtain ⟨k, v⟩ := e
    rcases hcall : add_index_call fl now table_id region_size c v with ⟨b, v1, c1⟩
    obtain ⟨hcont, -, hdone, -, -, -, hdoing⟩ :=
      add_index_call_spec fl now table_id region_size c v b v1 c1 hrb hcall
    have hb : b = true := by
      rcases hall (k, v) (List.mem_cons_self _ _) with h | h
      · exact (hdone h).1
      · exact (hdoing h).1
    subst hb
    simp only [traverse_completes, hcall]
    exact ih c1 (hcont rfl).1 (fun e he => hall e (List.mem_cons_of_mem _ he))

/--
Claim C8, amended. In an `IS_WRITE_LOCAL` tick (region map present, pre-check
passing) of a job that has not failed, if a unit with status DupUniq or Error
is reached by the traversal, that is, the callback returned true on every unit
before it, the tick sets `errcode = EXEC_FAIL`; this is the case in particular
when every unit before it is Done or Doing.
-/
theorem data_fatal_rollback_when_reached (fl : Flags) (now : Int) (s : MetaServer) (g : DdlWorkInfo)
    (pre post : List (Int × MemRegionDdlWork)) (k : Int) (u : MemRegionDdlWork)
    (hstate : s.table_manager.get_index_state g.table_id g.index_id = some IndexState.IS_WRITE_LOCAL)
    (herr : g.errcode ≠ ErrCode.EXEC_FAIL)
    (hmap : AMap.find g.table_id s.ddl.region_ddlwork = some (pre ++ (k, u) :: post))
    (hcount : s.ddl.get_doing_work_number g.table_id ≠ -1)
    (hpre : over_region_limit fl (s.table_manager.get_region_size g.index_id)
      (s.ddl.get_doing_work_number g.table_id) = false)
    (hu : u.region_info.status = DdlWorkStatus.DdlWorkDupUniq ∨
      u.region_info.status = DdlWorkStatus.DdlWorkError) :
    (traverse_completes (add_index_call fl now g.table_id (s.table_manager.get_region_size g.index_id))
        { g_ddl_work := g, db := s.db, ddl := s.ddl } pre = true →
      (DDLManager.add_index_global_ddlwork fl now s g).2.1 = { g with errcode := ErrCode.EXEC_FAIL }) ∧
    ((∀ e ∈ pre, e.2.region_info.status = DdlWorkStatus.DdlWorkDone ∨
        e.2.region_info.status = DdlWorkStatus.DdlWorkDoing) →
      (DDLManager.add_index_global_ddlwork fl now s g).2.1 = { g with errcode := ErrCode.EXEC_FAIL }) := by
  have main : traverse_completes
        (add_index_call fl now g.table_id (s.table_manager.get_region_size g.index_id))
        { g_ddl_work := g, db := s.db, ddl := s.ddl } pre = true →
      (DDLManager.add_index_global_ddlwork fl now s g).2.1 = { g with errcode := ErrCode.EXEC_FAIL } := by
    intro hcomp
    rw [add_index_write_local_eq fl now s g hstate herr]
    unfold DDLManager.add_index_write_local
    simp only [hmap, hcount, hpre, if_false, Bool.false_eq_true]
    obtain ⟨a1, a2, a3⟩ := traverse_append_of_completes fl now g.table_id
      (s.table_manager.get_region_size g.index_id) pre ((k, u) :: post)
      { g_ddl_work := g, db := s.db, ddl := s.ddl } rfl hcomp
    have hfat : fatal_unit fl u := by
      rcases hu with h | h
      · exact Or.inl h
      · exact Or.inr (Or.inl h)
    obtain ⟨b1, b2⟩ := traverse_fatal_head fl now g.table_id
      (s.table_manager.get_region_size g.index_id) k u post _ a1 hfat
    rw [← a3, a2] at b1
    rw [← a3] at b2
    rcases htr : traverse_with_early_return
        (add_index_call fl now g.table_id (s.table_manager.get_region_size g.index_id))
        { g_ddl_work := g, db := s.db, ddl := s.ddl } (pre ++ (k, u) :: post) with ⟨region_map1, c⟩
    rw [htr] at b1 b2
    simp only at b1 b2
    simp only [b2, Bool.false_eq_true, if_false]
    exact b1
  exact ⟨main, fun hall => main (traverse_completes_of_done_or_doing fl now g.table_id
    (s.table_manager.get_region_size g.index_id) pre _ rfl hall)⟩


/-- The rollback theorem at the scenario where a Done unit precedes the DupUniq unit. -/
theorem data_fatal_rollback_when_reached_witness :
    (DDLManager.add_index_global_ddlwork defaultFlags 100 fatal_behind_done_server
        (scenario_job IndexState.IS_WRITE_LOCAL)).2.1
      = { scenario_job IndexState.IS_WRITE_LOCAL with errcode := ErrCode.EXEC_FAIL } :=
  (data_fatal_rollback_when_reached defaultFlags 100 fatal_behind_done_server
    (scenario_job IndexState.IS_WRITE_LOCAL) [scenario_unit 1 DdlWorkStatus.DdlWorkDone 1] []
    2 (scenario_unit 2 DdlWorkStatus.DdlWorkDupUniq 1).2
    (by decide) (by decide) (by decide) (by decide) (by decide) (by decide)).2 (by decide)

/-- The return code of `execute_task` tells whether a worker was selected; the retry count is incremented exactly then. -/
theorem execute_task_spec (fl : Flags) (now : Int) (db : DBManager) (w : MemRegionDdlWork) :
    ((DBManager.execute_task fl now db w).1 = 0 ↔ (DBManager.select_instance fl db).1.isSome = true) ∧
    ((DBManager.execute_task fl now db w).1 = 0 →
      (DBManager.execute_task fl now db w).2.1.region_info.retry_time = w.region_info.retry_time + 1) ∧
    ((DBManager.execute_task fl now db w).1 ≠ 0 →
      (DBManager.execute_task fl now db w).2.1.region_info = w.region_info) := by
  unfold DBManager.execute_task
  rcases DBManager.select_instance fl db with ⟨_ | a, db1⟩ <;> simp

/-- The callback on a Fail unit with retries left. -/
theorem add_index_call_retry (fl : Flags) (now table_id : Int) (region_size : Nat) (c : TraverseCtx)
    (w : MemRegionDdlWork) (hrb : c.rollback = false)
    (hs : w.region_info.status = DdlWorkStatus.DdlWorkFail)
    (hr : w.region_info.retry_time < fl.max_ddl_retry_time) :
    (add_index_call fl now table_id region_size c w).2.2.db = (DBManager.execute_task fl now c.db w).2.2 ∧
    (add_index_call fl now table_id region_size c w).2.2.g_ddl_work = c.g_ddl_work ∧
    (add_index_call fl now table_id region_size c w).2.2.rollback = false ∧
    ((DBManager.execute_task fl now c.db w).1 = 0 →
      (add_index_call fl now table_id region_size c w).2.1
        = (DBManager.execute_task fl now c.db w).2.1.set_status DdlWorkStatus.DdlWorkDoing) ∧
    ((DBManager.execute_task fl now c.db w).1 ≠ 0 →
      (add_index_call fl now table_id region_size c w).1 = true ∧
      (add_index_call fl now table_id region_size c w).2.1 = (DBManager.execute_task fl now c.db w).2.1) := by
  rcases he : DBManager.execute_task fl now c.db w with ⟨ret, w1, db1⟩
  rcases hi : c.ddl.increase_doing_work_number table_id with ⟨n, ddl1⟩
  by_cases hret : ret = 0
  · by_cases hov : over_region_limit fl region_size n = true
    · simp [add_index_call, add_index_call_idle, add_index_call_wait, add_index_call_fail,
        add_index_call_rollback, hs, hr, he, hi, hret, hov, hrb]
    · simp [add_index_call, add_index_call_idle, add_index_call_wait, add_index_call_fail,
        add_index_call_rollback, hs, hr, he, hi, hret, hov, hrb]
  · simp [add_index_call, add_index_call_idle, add_index_call_wait, add_index_call_fail,
      add_index_call_rollback, hs, hr, he, hi, hret, hrb]


/--
Claim C9. Retry policy of the `IS_WRITE_LOCAL` callback on a visited unit with
status Fail. With `retry_time < max_ddl_retry_time` the unit is resubmitted
through `execute_task`: when a worker is selected it becomes Doing with
`retry_time + 1`, otherwise it stays as it was, and in both cases the job
record is unchanged and no rollback is raised. With `retry_time >=
max_ddl_retry_time` the callback stops the traversal and sets `errcode =
EXEC_FAIL`. Closed loop with the default flags: a unit whose every attempt is
reported Fail is submitted in each of the ticks 1 to 30, with retry count 1 to
30, the job staying in process; tick 31 submits nothing and rolls the job back.
-/
theorem fail_unit_retry_policy (fl : Flags) (now table_id : Int) (region_size : Nat) (c : TraverseCtx)
    (w : MemRegionDdlWork) (hrb : c.rollback = false)
    (hs : w.region_info.status = DdlWorkStatus.DdlWorkFail) :
    (w.region_info.retry_time < fl.max_ddl_retry_time →
      (add_index_call fl now table_id region_size c w).2.2.g_ddl_work = c.g_ddl_work ∧
      (add_index_call fl now table_id region_size c w).2.2.rollback = false ∧
      (add_index_call fl now table_id region_size c w).2.2.db = (DBManager.execute_task fl now c.db w).2.2 ∧
      ((DBManager.select_instance fl c.db).1.isSome = true →
        (add_index_call fl now table_id region_size c w).2.1
          = (DBManager.execute_task fl now c.db w).2.1.set_status DdlWorkStatus.DdlWorkDoing ∧
        (add_index_call fl now table_id region_size c w).2.1.region_info.status
          = DdlWorkStatus.DdlWorkDoing ∧
        (add_index_call fl now table_id region_size c w).2.1.region_info.retry_time
          = w.region_info.retry_time + 1) ∧
      ((DBManager.select_instance fl c.db).1.isSome = false →
        (add_index_call fl now table_id region_size c w).1 = true ∧
        (add_index_call fl now table_id region_size c w).2.1.region_info = w.region_info)) ∧
    (¬ w.region_info.retry_time < fl.max_ddl_retry_time →
      (add_index_call fl now table_id region_size c w).1 = false ∧
      (add_index_call fl now table_id region_size c w).2.2.g_ddl_work
        = { c.g_ddl_work with errcode := ErrCode.EXEC_FAIL }) ∧
    ((∀ k, k < 30 →
        submitted_retry_time (retry_server.run defaultFlags (retry_rounds k ++ [Step.tick 0 1]))
          = some ((k : Int) + 1) ∧
        job_errcode (retry_server.run defaultFlags (retry_rounds k ++ [Step.tick 0 1]))
          = some ErrCode.IN_PROCESS) ∧
      submitted_retry_time (retry_server.run defaultFlags (retry_rounds 30 ++ [Step.tick 0 1])) = none ∧
      job_errcode (retry_server.run defaultFlags (retry_rounds 30 ++ [Step.tick 0 1]))
        = some ErrCode.EXEC_FAIL) := by
  refine ⟨?_, ?_, ?_⟩
  · intro hr
    obtain ⟨hdb, hg, hroll, hsel, hnone⟩ := add_index_call_retry fl now table_id region_size c w hrb hs hr
    obtain ⟨hiff, hinc, hsame⟩ := execute_task_spec fl now c.db w
    refine ⟨hg, hroll, hdb, ?_, ?_⟩
    · intro hsome
      have h0 := hiff.mpr hsome
      have hw := hsel h0
      refine ⟨hw, ?_, ?_⟩
      · rw [hw]; rfl
      · rw [hw]; exact hinc h0
    · intro hno
      have h0 : (DBManager.execute_task fl now c.db w).1 ≠ 0 := by
        intro h; rw [hiff.mp h] at hno; exact absurd hno (by simp)
      obtain ⟨hb, hw⟩ := hnone h0
      exact ⟨hb, by rw [hw]; exact hsame h0⟩
  · intro hr
    rcases hcall : add_index_call fl now table_id region_size c w with ⟨b, w1, c1⟩
    obtain ⟨-, -, -, -, -, hfat, -⟩ := add_index_call_spec fl now table_id region_size c w b w1 c1 hrb hcall
    exact hfat (Or.inr (Or.inr ⟨hs, hr⟩))
  · set_option maxRecDepth 100000 in decide

/-- The retry theorem at a Fail unit whose retry count has reached the bound. -/
theorem fail_unit_retry_policy_witness :
    (add_index_call defaultFlags 0 1 1
        { g_ddl_work := scenario_job IndexState.IS_WRITE_LOCAL, db := retry_server.db, ddl := retry_server.ddl }
        (scenario_unit 1 DdlWorkStatus.DdlWorkFail 30).2).1 = false ∧
    (add_index_call defaultFlags 0 1 1
        { g_ddl_work := scenario_job IndexState.IS_WRITE_LOCAL, db := retry_server.db, ddl := retry_server.ddl }
        (scenario_unit 1 DdlWorkStatus.DdlWorkFail 30).2).2.2.g_ddl_work
      = { scenario_job IndexState.IS_WRITE_LOCAL with errcode := ErrCode.EXEC_FAIL } :=
  (fail_unit_retry_policy defaultFlags 0 1 1
    { g_ddl_work := scenario_job IndexState.IS_WRITE_LOCAL, db := retry_server.db, ddl := retry_server.ddl }
    (scenario_unit 1 DdlWorkStatus.DdlWorkFail 30).2 rfl rfl).2.1 (by decide)

/--
Claim C10. Evaluation of the code at the failing input: after
`init_global_ddlwork` the unit of region 1 is Idle with `retry_time = 0`; the
job is driven to `IS_WRITE_LOCAL`, and in each of 31 rounds the tick submits
the unit through the Idle branch and the sweeper resets it to Idle after the
heartbeat timeout. The unit ends with `retry_time = 31`, above
`max_ddl_retry_time = 30`, and the job is still in process.
-/
theorem retry_time_exceeds_bound_after_timeouts :
    (region_one initialised_server).map (fun w => (w.status, w.retry_time))
      = some (DdlWorkStatus.DdlWorkIdle, 0) ∧
    (region_one (initialised_server.run defaultFlags (forward_steps ++ timeout_rounds 31))).map
      (fun w => (w.status, w.retry_time)) = some (DdlWorkStatus.DdlWorkIdle, 31) ∧
    ((initialised_server.run defaultFlags (forward_steps ++ timeout_rounds 31)).ddl.get_ddl_mem 1).map
      (fun g => g.errcode) = some ErrCode.IN_PROCESS ∧
    ¬ ((31 : Int) ≤ defaultFlags.max_ddl_retry_time) := by
  set_option maxRecDepth 100000 in decide

/-! ## Worker selection and submission -/

/-- Lookup after an in-place update of the same key. -/
theorem AMap.find_update_self {κ α : Type} [DecidableEq κ] (k : κ) (f : α → α) (m : List (κ × α)) :
    AMap.find k (AMap.update k f m) = (AMap.find k m).map f := by
  induction m with
  | nil => simp [AMap.update, AMap.find]
  | cons e rest ih =>
    obtain ⟨k1, v1⟩ := e
    by_cases h : k1 = k
    · simp [AMap.update, AMap.find, h]
    · simp [AMap.update, AMap.find, h, ih]

/-- Lookup of another key after an in-place update. -/
theorem AMap.find_update_ne {κ α : Type} [DecidableEq κ] (k b : κ) (f : α → α) (m : List (κ × α))
    (h : b ≠ k) : AMap.find b (AMap.update k f m) = AMap.find b m := by
  induction m with
  | nil => simp [AMap.update, AMap.find]
  | cons e rest ih =>
    obtain ⟨k1, v1⟩ := e
    by_cases h1 : k1 = k
    · subst h1
      have h2 : ¬ k1 = b := fun h3 => h h3.symm
      simp [AMap.update, AMap.find, h2]
    · by_cases h2 : k1 = b
      · subst h2; simp [AMap.update, AMap.find, h1]
      · simp [AMap.update, AMap.find, h1, h2, ih]

/-- Lookup of another key after an assignment. -/
theorem AMap.find_set_ne {κ α : Type} [DecidableEq κ] (k b : κ) (v : α) (m : List (κ × α))
    (h : b ≠ k) : AMap.find b (AMap.set k v m) = AMap.find b m := by
  induction m with
  | nil =>
    have h2 : ¬ k = b := fun h3 => h h3.symm
    simp [AMap.set, AMap.find, h2]
  | cons e rest ih =>
    obtain ⟨k1, v1⟩ := e
    by_cases h1 : k1 = k
    · subst h1
      have h2 : ¬ k1 = b := fun h3 => h h3.symm
      simp [AMap.set, AMap.find, h2]
    · by_cases h2 : k1 = b
      · subst h2; simp [AMap.set, AMap.find, h1]
      · simp [AMap.set, AMap.find, h1, h2, ih]

/-- The outcome of the scan of a list of workers: the first eligible one is selected. -/
theorem round_robin_loop_scan (fl : Flags) (db : DBManager) :
    ∀ (k i r : Nat), i + k ≤ db.address_instance_map.length →
      DBManager.round_robin_loop fl (k + r) i db =
        match ((db.address_instance_map.drop i).take k).find? (eligible fl db) with
        | some e => (some e.1, db.selected e.1)
        | none => DBManager.round_robin_loop fl r (i + k) db := by
  intro k
  induction k with
  | zero => intro i r _; simp
  | succ k ih =>
    intro i r hik
    have hi : i < db.address_instance_map.length := by omega
    have hne : ¬ i = db.address_instance_map.length := by omega
    have hdrop : db.address_instance_map.drop i
        = db.address_instance_map[i] :: db.address_instance_map.drop (i + 1) :=
      List.drop_eq_getElem_cons hi
    have hfuel : k + 1 + r = (k + r) + 1 := by omega
    have hstep := ih (i + 1) r (by omega)
    have hidx : i + 1 + k = i + (k + 1) := by omega
    rw [hidx] at hstep
    rcases hcase : db.address_instance_map[i] with ⟨address, inst⟩
    have hget : db.address_instance_map[i]? = some (address, inst) := by
      rw [List.getElem?_eq_getElem hi, hcase]
    rw [hfuel, hdrop, hcase]
    simp only [DBManager.round_robin_loop, hne, if_false, hget, List.take_succ_cons, List.find?_cons]
    by_cases hf : inst.state = InstanceState.FAULTY
    · simp only [hf, if_true]
      rw [hstep]
      simp [eligible, hf]
    · simp only [hf, if_false]
      rcases hq : AMap.find address db.common_task_map with _ | q
      · simp [eligible, hf, hq, AMap.contains, DBManager.selected]
      · by_cases hc : (q.doing_task_map.length : Int) + (q.to_do_task_map.length : Int)
            < fl.baikaldb_max_concurrent
        · have hc2 : (q.to_do_task_map.length : Int) + (q.doing_task_map.length : Int)
              < fl.baikaldb_max_concurrent := by omega
          simp [eligible, hf, hq, AMap.contains, DBManager.selected, hc, hc2]
        · have hc2 : ¬ (q.to_do_task_map.length : Int) + (q.doing_task_map.length : Int)
              < fl.baikaldb_max_concurrent := by omega
          simp only [AMap.contains, hq, Option.isSome_some, Bool.not_true, Bool.false_or,
            hc, decide_False, if_true, Bool.false_eq_true, if_false]
          rw [hstep]
          simp [eligible, hf, hq, hc2]

/-- Without fuel the scan selects nothing. -/
theorem round_robin_loop_zero (fl : Flags) (db : DBManager) (i : Nat) :
    DBManager.round_robin_loop fl 0 i db = (none, db) := rfl

/-- The position of a key lies inside the list. -/
theorem AMap.position_lt {κ α : Type} [DecidableEq κ] (k : κ) (m : List (κ × α)) :
    ∀ i, AMap.position k m = some i → i < m.length := by
  induction m with
  | nil => intro i h; simp [AMap.position] at h
  | cons e rest ih =>
    obtain ⟨k1, v1⟩ := e
    intro i h
    by_cases h1 : k1 = k
    · simp [AMap.position, h1] at h
      subst h; simp
    · simp only [AMap.position, h1, if_false, Option.map_eq_some'] at h
      obtain ⟨j, hj, rfl⟩ := h
      have := ih j hj
      simp; omega

/-- At the end of the pool the scan goes back to its first worker (lines 214-216). -/
theorem round_robin_loop_wrap (fl : Flags) (db : DBManager) (k : Nat) :
    DBManager.round_robin_loop fl (k + 1) db.address_instance_map.length db =
      DBManager.round_robin_loop fl (k + 1) 0 db := by
  by_cases h : db.address_instance_map.length = 0
  · rw [h]
  · have h0 : ¬ 0 = db.address_instance_map.length := fun h1 => h h1.symm
    simp only [DBManager.round_robin_loop, if_true, h0, if_false]

/-- The method `round_robin_select` selects the first eligible worker of the scan order. -/
theorem round_robin_select_scan (fl : Flags) (db : DBManager) :
    DBManager.round_robin_select fl db =
      match (scan_order db).find? (eligible fl db) with
      | some e => (some e.1, db.selected e.1)
      | none => (none, db) := by
  have hall : DBManager.round_robin_loop fl db.address_instance_map.length 0 db =
      match db.address_instance_map.find? (eligible fl db) with
      | some e => (some e.1, db.selected e.1)
      | none => (none, db) := by
    have h := round_robin_loop_scan fl db db.address_instance_map.length 0 0 (by omega)
    simpa [round_robin_loop_zero] using h
  unfold DBManager.round_robin_select scan_order
  rcases hp : AMap.position db.last_rolling_instance db.address_instance_map with _ | i
  · exact hall
  · have hi := AMap.position_lt _ _ i hp
    by_cases hlast : i + 1 = db.address_instance_map.length
    · simp only [hlast, if_true, List.drop_length, List.take_length, List.nil_append]
      exact hall
    · simp only [hlast, if_false]
      have hsplit : db.address_instance_map.length
          = (db.address_instance_map.length - (i + 1)) + (i + 1) := by omega
      have h1 := round_robin_loop_scan fl db (db.address_instance_map.length - (i + 1)) (i + 1) (i + 1)
        (by omega)
      have hback : i + 1 + (db.address_instance_map.length - (i + 1))
          = db.address_instance_map.length := by omega
      rw [← hsplit, hback, round_robin_loop_wrap] at h1
      have h2 := round_robin_loop_scan fl db (i + 1) 0 0 (by omega)
      simp only [Nat.add_zero, List.drop_zero, Nat.zero_add, round_robin_loop_zero] at h2
      rw [h1, h2, List.find?_append]
      have htake : List.take (db.address_instance_map.length - (i + 1))
          (List.drop (i + 1) db.address_instance_map) = List.drop (i + 1) db.address_instance_map := by
        apply List.take_of_length_le
        simp
      rw [htake]
      rcases List.find? (eligible fl db) (List.drop (i + 1) db.address_instance_map) with _ | e
      · simp
      · simp

/-- The scan order visits exactly the workers of the pool. -/
theorem mem_scan_order (db : DBManager) (e : String × InstanceDBStatus) :
    e ∈ scan_order db ↔ e ∈ db.address_instance_map := by
  unfold scan_order
  rcases AMap.position db.last_rolling_instance db.address_instance_map with _ | i
  · simp
  · simp only [List.mem_append]
    constructor
    · rintro (h | h)
      · exact List.mem_of_mem_drop h
      · exact List.mem_of_mem_take h
    · intro h
      rw [← List.take_append_drop (i + 1) db.address_instance_map, List.mem_append] at h
      exact h.symm

/--
Claim C11. The method `round_robin_select` equals the reference definition: it
returns the first eligible worker of the cyclic scan order that starts right
after the last-assigned worker, records it as last-assigned (creating its
queue entry when it had none), and returns no worker exactly when no worker of
the pool is eligible, in which case the manager is unchanged.
-/
theorem round_robin_select_refines_reference (fl : Flags) (db : DBManager) :
    (DBManager.round_robin_select fl db).1 = round_robin_reference fl db ∧
    (∀ a, (DBManager.round_robin_select fl db).1 = some a →
      (DBManager.round_robin_select fl db).2 = db.selected a ∧
      (DBManager.round_robin_select fl db).2.last_rolling_instance = a) ∧
    ((DBManager.round_robin_select fl db).1 = none ↔
      ∀ e ∈ db.address_instance_map, eligible fl db e = false) ∧
    ((DBManager.round_robin_select fl db).1 = none → (DBManager.round_robin_select fl db).2 = db) := by
  rw [round_robin_select_scan]
  unfold round_robin_reference
  rcases hfind : (scan_order db).find? (eligible fl db) with _ | e
  · refine ⟨rfl, ?_, ?_, ?_⟩
    · intro a h; simp at h
    · simp only [true_iff]
      intro e he
      have h := List.find?_eq_none.mp hfind e ((mem_scan_order db e).mpr he)
      simpa using h
    · intro _; rfl
  · refine ⟨rfl, ?_, ?_, ?_⟩
    · intro a h
      simp only [Option.some.injEq] at h
      subst h
      exact ⟨rfl, rfl⟩
    · simp only [false_iff, reduceCtorEq]
      intro h
      have hmem := List.mem_of_find?_eq_some hfind
      have hel := List.find?_some hfind
      rw [h e ((mem_scan_order db e).mp hmem)] at hel
      exact absurd hel (by simp)
    · intro h; simp at h

/-- After its selection a worker has a queue entry. -/
theorem selected_contains (db : DBManager) (a : String) :
    AMap.contains a (db.selected a).common_task_map = true := by
  unfold DBManager.selected
  by_cases h : AMap.contains a db.common_task_map = true
  · simp only [h, if_true]
  · simp only [h, if_false]
    simp [AMap.contains, AMap.find_set_self]

/-- The selection of a worker leaves the queue entries of the other workers as they were. -/
theorem selected_find_ne (db : DBManager) (a b : String) (h : b ≠ a) :
    AMap.find b (db.selected a).common_task_map = AMap.find b db.common_task_map := by
  unfold DBManager.selected
  by_cases h1 : AMap.contains a db.common_task_map = true
  · simp only [h1, if_true]
  · simp only [h1, if_false]
    exact AMap.find_set_ne _ _ _ _ h

/-- The method `execute_task` in terms of the scan: submission to the first eligible worker, or no change. -/
theorem execute_task_scan (fl : Flags) (now : Int) (db : DBManager) (w : MemRegionDdlWork) :
    DBManager.execute_task fl now db w =
      match (scan_order db).find? (eligible fl db) with
      | some e =>
        let work : MemRegionDdlWork :=
          { region_info := { w.region_info with retry_time := w.region_info.retry_time + 1 },
            update_timestamp := now }
        let cm := AMap.update e.1
          (fun q => { q with to_do_task_map := AMap.set (task_id_of w.region_info) work q.to_do_task_map })
          (db.selected e.1).common_task_map
        (0, work, { db.selected e.1 with common_task_map := cm })
      | none => (-1, { w with update_timestamp := now }, db) := by
  unfold DBManager.execute_task DBManager.select_instance
  rw [round_robin_select_scan]
  rcases (scan_order db).find? (eligible fl db) with _ | e
  · rfl
  · simp only [selected_contains, if_true]

/--
Claim C12. The method `execute_task`: when a worker is selected it returns 0,
the retry count of the unit grows by exactly 1, the todo map of the selected
worker holds the unit (with the incremented count) under its task id, and the
queue entry of every other worker is unchanged; when no worker can be selected
it returns -1, the manager (hence every queue) is unchanged and so is the retry
count.
-/
theorem execute_task_submit (fl : Flags) (now : Int) (db : DBManager) (w : MemRegionDdlWork) :
    (∀ a, (DBManager.select_instance fl db).1 = some a →
      (DBManager.execute_task fl now db w).1 = 0 ∧
      (DBManager.execute_task fl now db w).2.1.region_info.retry_time = w.region_info.retry_time + 1 ∧
      (AMap.find a (DBManager.execute_task fl now db w).2.2.common_task_map).bind
          (fun q => AMap.find (task_id_of w.region_info) q.to_do_task_map)
        = some (DBManager.execute_task fl now db w).2.1 ∧
      (∀ b, b ≠ a →
        AMap.find b (DBManager.execute_task fl now db w).2.2.common_task_map
          = AMap.find b db.common_task_map)) ∧
    ((DBManager.select_instance fl db).1 = none →
      (DBManager.execute_task fl now db w).1 = -1 ∧
      (DBManager.execute_task fl now db w).2.2 = db ∧
      (DBManager.execute_task fl now db w).2.1.region_info.retry_time = w.region_info.retry_time ∧
      (DBManager.execute_task fl now db w).2.1.region_info = w.region_info) := by
  rw [execute_task_scan]
  unfold DBManager.select_instance
  rw [round_robin_select_scan]
  rcases (scan_order db).find? (eligible fl db) with _ | e
  · refine ⟨fun a h => by simp at h, fun _ => ⟨rfl, rfl, rfl, rfl⟩⟩
  · refine ⟨?_, fun h => by simp at h⟩
    intro a h
    simp only [Option.some.injEq] at h
    subst h
    refine ⟨rfl, rfl, ?_, ?_⟩
    · simp only [AMap.find_update_self]
      have hc := selected_contains db e.1
      unfold AMap.contains at hc
      rcases hq : AMap.find e.1 (db.selected e.1).common_task_map with _ | q
      · rw [hq] at hc; simp at hc
      · simp [AMap.find_set_self]
    · intro b hb
      simp only [AMap.find_update_ne _ _ _ _ hb]
      exact selected_find_ne db e.1 b hb

/-- Claim C12, witness: with `w1` last assigned the unit of region 7 goes to the todo map of `w2`, and `w1` keeps its queues. -/
theorem execute_task_submit_witness :
    (DBManager.select_instance defaultFlags submit_pool).1 = some "w2" ∧
    (DBManager.execute_task defaultFlags 5 submit_pool (scenario_unit 7 DdlWorkStatus.DdlWorkIdle 0).2).1 = 0 ∧
    AMap.find "w1"
        (DBManager.execute_task defaultFlags 5 submit_pool
          (scenario_unit 7 DdlWorkStatus.DdlWorkIdle 0).2).2.2.common_task_map
      = AMap.find "w1" submit_pool.common_task_map :=
  ⟨by decide,
   ((execute_task_submit defaultFlags 5 submit_pool (scenario_unit 7 DdlWorkStatus.DdlWorkIdle 0).2).1
      "w2" (by decide)).1,
   ((execute_task_submit defaultFlags 5 submit_pool (scenario_unit 7 DdlWorkStatus.DdlWorkIdle 0).2).1
      "w2" (by decide)).2.2.2 "w1" (by decide)⟩

/-! ## Heartbeats: drain and reports -/

/-- Lookup in a concatenation. -/
theorem AMap.find_append {κ α : Type} [DecidableEq κ] (k : κ) (m m1 : List (κ × α)) :
    AMap.find k (m ++ m1) = match AMap.find k m with
      | some v => some v
      | none => AMap.find k m1 := by
  induction m with
  | nil => simp [AMap.find]
  | cons e rest ih =>
    obtain ⟨k1, v1⟩ := e
    by_cases h : k1 = k
    · simp [AMap.find, h]
    · simp [AMap.find, h, ih]

/-- The key of an `insert` is present afterwards. -/
theorem AMap.contains_insert_new_self {κ α : Type} [DecidableEq κ] (k : κ) (v : α) (m : List (κ × α)) :
    AMap.contains k (AMap.insert_new k v m) = true := by
  unfold AMap.insert_new
  by_cases h : AMap.contains k m = true
  · simp only [h, if_true]
  · rw [if_neg h]
    unfold AMap.contains
    rw [AMap.find_append]
    rcases AMap.find k m with _ | x
    · simp [AMap.find]
    · simp

/-- An `insert` keeps the keys that are present. -/
theorem AMap.contains_insert_new_of_contains {κ α : Type} [DecidableEq κ] (k k1 : κ) (v : α)
    (m : List (κ × α)) (h : AMap.contains k m = true) :
    AMap.contains k (AMap.insert_new k1 v m) = true := by
  unfold AMap.insert_new
  by_cases h1 : AMap.contains k1 m = true
  · simp only [h1, if_true, h]
  · rw [if_neg h1]
    unfold AMap.contains at h ⊢
    rw [AMap.find_append]
    rcases hx : AMap.find k m with _ | x
    · rw [hx] at h; simp at h
    · simp

/-- The server after `update_region_ddlwork` of a unit with status Doing: one more pending request. -/
theorem update_region_ddlwork_doing (s : MetaServer) (work : RegionDdlWork)
    (h : work.status = DdlWorkStatus.DdlWorkDoing) :
    DDLManager.update_region_ddlwork s work
      = { s with raft_pending := s.raft_pending ++ [update_request work] } := by
  unfold DDLManager.update_region_ddlwork DDLManager.apply_raft update_request
  simp [h]

/-- The drain loop: one pending request, one assignment and one `insert` into doing per todo entry. -/
theorem drain_to_do_spec (now : Int) (address : String) :
    ∀ (l : List (TaskId × MemRegionDdlWork)) (s : MetaServer)
      (doing : List (TaskId × MemRegionDdlWork)) (response : BaikalHeartBeatResponse),
      DBManager.drain_to_do now address l (s, doing, response) =
        ({ s with raft_pending :=
             s.raft_pending ++ l.map (fun e => update_request (assignment_of address e.2)) },
         l.foldl (fun d e => AMap.insert_new e.1 (drained_unit now address e.2) d) doing,
         { response with region_ddl_works :=
             response.region_ddl_works ++ l.map (fun e => assignment_of address e.2) }) := by
  intro l
  induction l with
  | nil => intro s doing response; simp [DBManager.drain_to_do]
  | cons e rest ih =>
    intro s doing response
    obtain ⟨task_id, w⟩ := e
    simp only [DBManager.drain_to_do]
    rw [update_region_ddlwork_doing _ _ rfl, ih]
    simp [assignment_of, drained_unit]

/-- The keys present before a sequence of `insert` calls are present after it. -/
theorem foldl_insert_new_mono (f : MemRegionDdlWork → MemRegionDdlWork) (k : TaskId) :
    ∀ (l d : List (TaskId × MemRegionDdlWork)), AMap.contains k d = true →
      AMap.contains k (l.foldl (fun d e => AMap.insert_new e.1 (f e.2) d) d) = true := by
  intro l
  induction l with
  | nil => intro d h; simpa using h
  | cons e rest ih =>
    intro d h
    simp only [List.foldl_cons]
    exact ih _ (AMap.contains_insert_new_of_contains _ _ _ _ h)

/-- Every key of a sequence of `insert` calls is present after it. -/
theorem foldl_insert_new_contains (f : MemRegionDdlWork → MemRegionDdlWork) :
    ∀ (l d : List (TaskId × MemRegionDdlWork)), ∀ e ∈ l,
      AMap.contains e.1 (l.foldl (fun d e => AMap.insert_new e.1 (f e.2) d) d) = true := by
  intro l
  induction l with
  | nil => intro d e he; simp at he
  | cons x rest ih =>
    intro d e he
    simp only [List.foldl_cons]
    rcases List.mem_cons.mp he with h | h
    · subst h
      exact foldl_insert_new_mono f _ rest _ (AMap.contains_insert_new_self _ _ _)
    · exact ih _ e h

/-- The drain step on a worker with the queue entry `q`. -/
theorem drain_step_spec (now : Int) (address : String) (s : MetaServer)
    (response : BaikalHeartBeatResponse) (q : CommonTaskMap)
    (hq : AMap.find address s.db.common_task_map = some q) :
    DBManager.drain_step now address s response =
      ({ s with
         raft_pending :=
           s.raft_pending ++ q.to_do_task_map.map (fun e => update_request (assignment_of address e.2))
         db := { s.db with common_task_map :=
                   AMap.update address (fun _ => drained_queue now address q) s.db.common_task_map } },
       { response with region_ddl_works :=
           response.region_ddl_works ++ q.to_do_task_map.map (fun e => assignment_of address e.2) }) := by
  unfold DBManager.drain_step
  simp only [hq]
  rw [drain_to_do_spec]
  rfl

/-- The method `process_common_task_hearbeat` is the drain step followed by the report loop. -/
theorem process_common_task_hearbeat_eq (now : Int) (address : String) (s : MetaServer)
    (request : BaikalHeartBeatRequest) (response : BaikalHeartBeatResponse) :
    DBManager.process_common_task_hearbeat now address s request response
      = drain_then_reports now address s request response := rfl

/--
Claim C15. The drain step of `process_common_task_hearbeat` for a worker with
a queue entry: afterwards its todo map is empty, the response has gained
exactly one assignment per unit that was in todo, each with status Doing and
the address of the worker, every such unit is present in its doing map, and
one `update_region_ddlwork` request (status Doing) per drained unit has been
handed to the consensus log.
-/
theorem drain_hands_out_todo (now : Int) (address : String) (s : MetaServer)
    (request : BaikalHeartBeatRequest) (response : BaikalHeartBeatResponse) (q : CommonTaskMap)
    (hq : AMap.find address s.db.common_task_map = some q) :
    (AMap.find address (DBManager.drain_step now address s response).1.db.common_task_map).map
        (fun d => d.to_do_task_map) = some [] ∧
    (DBManager.drain_step now address s response).2.region_ddl_works
      = response.region_ddl_works ++ q.to_do_task_map.map (fun e => assignment_of address e.2) ∧
    (∀ e ∈ q.to_do_task_map,
      (assignment_of address e.2).status = DdlWorkStatus.DdlWorkDoing ∧
      (assignment_of address e.2).address = address ∧
      task_id_of (assignment_of address e.2) = task_id_of e.2.region_info) ∧
    (∀ e ∈ q.to_do_task_map,
      (AMap.find address (DBManager.drain_step now address s response).1.db.common_task_map).map
        (fun d => AMap.contains e.1 d.doing_task_map) = some true) ∧
    (DBManager.drain_step now address s response).1.raft_pending
      = s.raft_pending ++ q.to_do_task_map.map (fun e => update_request (assignment_of address e.2)) ∧
    (∀ e ∈ q.to_do_task_map,
      (update_request (assignment_of address e.2)).region_ddl_work.map (fun u => u.status)
        = some DdlWorkStatus.DdlWorkDoing) ∧
    DBManager.process_common_task_hearbeat now address s request response
      = (DBManager.apply_reports now (DBManager.drain_step now address s response).1 request,
         (DBManager.drain_step now address s response).2) := by
  rw [drain_step_spec now address s response q hq]
  refine ⟨?_, rfl, fun e _ => ⟨rfl, rfl, rfl⟩, ?_, rfl, fun e _ => rfl, ?_⟩
  · simp [AMap.find_update_self, hq, drained_queue]
  · intro e he
    simp only [AMap.find_update_self, hq, Option.map_some', drained_queue]
    rw [foldl_insert_new_contains (drained_unit now address) q.to_do_task_map q.doing_task_map e he]
  · rw [process_common_task_hearbeat_eq, ← drain_step_spec now address s response q hq]
    rfl

/-- Claim C15, witness: the drain of the two units waiting for `w1`. -/
theorem drain_hands_out_todo_witness :
    AMap.find "w1" drain_server.db.common_task_map = some drain_queue ∧
    (AMap.find "w1" (DBManager.drain_step 5 "w1" drain_server empty_response).1.db.common_task_map).map
        (fun d => d.to_do_task_map) = some [] ∧
    (DBManager.drain_step 5 "w1" drain_server empty_response).2.region_ddl_works
      = empty_response.region_ddl_works
          ++ drain_queue.to_do_task_map.map (fun e => assignment_of "w1" e.2) :=
  ⟨by decide,
   (drain_hands_out_todo 5 "w1" drain_server empty_request empty_response drain_queue (by decide)).1,
   (drain_hands_out_todo 5 "w1" drain_server empty_request empty_response drain_queue (by decide)).2.1⟩

/-- Lookup after an in-place update, for any key. -/
theorem AMap.find_update {κ α : Type} [DecidableEq κ] (k b : κ) (f : α → α) (m : List (κ × α)) :
    AMap.find b (AMap.update k f m) = if b = k then (AMap.find k m).map f else AMap.find b m := by
  by_cases h : b = k
  · subst h; simp [AMap.find_update_self]
  · simp [h, AMap.find_update_ne _ _ _ _ h]

/-- A removed key is not found. -/
theorem AMap.find_erase_self {κ α : Type} [DecidableEq κ] (k : κ) (m : List (κ × α)) :
    AMap.find k (AMap.erase k m) = none := by
  induction m with
  | nil => simp [AMap.erase, AMap.find]
  | cons e rest ih =>
    obtain ⟨k1, v1⟩ := e
    by_cases h : k1 = k
    · simp [AMap.erase, h, ih]
    · simp [AMap.erase, AMap.find, h, ih]

/-- Lookup of another key after a removal. -/
theorem AMap.find_erase_ne {κ α : Type} [DecidableEq κ] (k b : κ) (m : List (κ × α)) (h : b ≠ k) :
    AMap.find b (AMap.erase k m) = AMap.find b m := by
  induction m with
  | nil => simp [AMap.erase, AMap.find]
  | cons e rest ih =>
    obtain ⟨k1, v1⟩ := e
    by_cases h1 : k1 = k
    · subst h1
      have h2 : ¬ k1 = b := fun h3 => h h3.symm
      simp [AMap.erase, AMap.find, h2, ih]
    · by_cases h2 : k1 = b
      · subst h2; simp [AMap.erase, AMap.find, h1]
      · simp [AMap.erase, AMap.find, h1, h2, ih]

/-- The server after `update_region_ddlwork` of a unit whose status is not Doing. -/
theorem update_region_ddlwork_other (s : MetaServer) (work : RegionDdlWork)
    (h : work.status ≠ DdlWorkStatus.DdlWorkDoing) :
    DDLManager.update_region_ddlwork s work
      = { s with ddl := (s.ddl.decrease_doing_work_number work.table_id).2,
                 raft_pending := s.raft_pending ++ [update_request work] } := by
  unfold DDLManager.update_region_ddlwork DDLManager.apply_raft update_request
  simp [h]

/--
Claim C17. One report of a heartbeat; the worker is the one named by the
address of the report. Status Doing: nothing is persisted, every todo map and
the membership of every doing map are unchanged, and only the timestamp of the
reported unit in the doing map of the worker changes. Any other status, the
unit being in the doing map of the worker: the unit is removed from that doing
map, nothing else changes in the queues, and the report is persisted through
`update_region_ddlwork`. Any other status, the unit not being in that doing
map: the server is unchanged.
-/
theorem report_handling (now : Int) (s : MetaServer) (r : RegionDdlWork) :
    (r.status = DdlWorkStatus.DdlWorkDoing →
      (DBManager.process_region_report now s r).raft_pending = s.raft_pending ∧
      (DBManager.process_region_report now s r).ddl = s.ddl ∧
      (DBManager.process_region_report now s r).rocksdb = s.rocksdb ∧
      (∀ b, to_do_of (DBManager.process_region_report now s r) b = to_do_of s b) ∧
      (∀ b t, doing_entry (DBManager.process_region_report now s r) b t =
        (doing_entry s b t).map
          (fun w => if b = r.address ∧ t = task_id_of r then { w with update_timestamp := now } else w))) ∧
    (r.status ≠ DdlWorkStatus.DdlWorkDoing →
      (doing_entry s r.address (task_id_of r)).isSome = true →
      (DBManager.process_region_report now s r).raft_pending = s.raft_pending ++ [update_request r] ∧
      (DBManager.process_region_report now s r).ddl = (s.ddl.decrease_doing_work_number r.table_id).2 ∧
      (∀ b, to_do_of (DBManager.process_region_report now s r) b = to_do_of s b) ∧
      (∀ b t, doing_entry (DBManager.process_region_report now s r) b t =
        if b = r.address ∧ t = task_id_of r then none else doing_entry s b t)) ∧
    (r.status ≠ DdlWorkStatus.DdlWorkDoing →
      (doing_entry s r.address (task_id_of r)).isSome = false →
      DBManager.process_region_report now s r = s) := by
  refine ⟨?_, ?_, ?_⟩
  · intro hst
    unfold DBManager.process_region_report
    rcases hq : AMap.find r.address s.db.common_task_map with _ | q
    · refine ⟨rfl, rfl, rfl, fun b => rfl, ?_⟩
      intro b t
      by_cases hb : b = r.address ∧ t = task_id_of r
      · obtain ⟨hb1, hb2⟩ := hb
        subst hb1
        simp [doing_entry, hq]
      · simp only [hb, if_false]
        simp
    · simp only [hst, if_true]
      refine ⟨trivial, trivial, trivial, ?_, ?_⟩
      · intro b
        simp only [to_do_of, AMap.find_update]
        by_cases hb : b = r.address
        · subst hb; simp [hq]
        · simp [hb]
      · intro b t
        simp only [doing_entry, AMap.find_update]
        by_cases hb : b = r.address
        · subst hb
          simp only [hq, if_true, Option.map_some', Option.some_bind, AMap.find_update, true_and]
          by_cases ht : t = task_id_of r
          · subst ht; simp
          · simp [ht]
        · simp [hb]
  · intro hst hin
    unfold DBManager.process_region_report
    unfold doing_entry at hin
    rcases hq : AMap.find r.address s.db.common_task_map with _ | q
    · rw [hq] at hin; simp at hin
    · rw [hq] at hin
      simp only [Option.some_bind] at hin
      have hc : AMap.contains (task_id_of r) q.doing_task_map = true := hin
      simp only [hst, if_false, hc, if_true]
      rw [update_region_ddlwork_other s r hst]
      refine ⟨rfl, rfl, ?_, ?_⟩
      · intro b
        simp only [to_do_of, AMap.find_update]
        by_cases hb : b = r.address
        · subst hb; simp [hq]
        · simp [hb]
      · intro b t
        simp only [doing_entry, AMap.find_update]
        by_cases hb : b = r.address
        · subst hb
          simp only [hq, if_true, Option.map_some', Option.some_bind, true_and]
          by_cases ht : t = task_id_of r
          · subst ht; simp [AMap.find_erase_self]
          · simp [ht, AMap.find_erase_ne _ _ _ ht]
        · simp [hb]
  · intro hst hin
    unfold DBManager.process_region_report
    unfold doing_entry at hin
    rcases hq : AMap.find r.address s.db.common_task_map with _ | q
    · rfl
    · rw [hq] at hin
      simp only [Option.some_bind] at hin
      have hc : AMap.contains (task_id_of r) q.doing_task_map = false := hin
      simp [hst, hc]

/-- Claim C17, witness: `w1` reports region 1 Done; the unit leaves its doing map and the report is persisted. -/
theorem report_handling_witness :
    (region_report 1 DdlWorkStatus.DdlWorkDone "w1").status ≠ DdlWorkStatus.DdlWorkDoing ∧
    (doing_entry reported_server "w1" (1, 1)).isSome = true ∧
    (DBManager.process_region_report 9 reported_server
        (region_report 1 DdlWorkStatus.DdlWorkDone "w1")).raft_pending
      = reported_server.raft_pending ++ [update_request (region_report 1 DdlWorkStatus.DdlWorkDone "w1")] ∧
    doing_entry (DBManager.process_region_report 9 reported_server
        (region_report 1 DdlWorkStatus.DdlWorkDone "w1")) "w1" (1, 1) = none :=
  ⟨by decide, by decide,
   ((report_handling 9 reported_server (region_report 1 DdlWorkStatus.DdlWorkDone "w1")).2.1
      (by decide) (by decide)).1,
   by
     have h := ((report_handling 9 reported_server (region_report 1 DdlWorkStatus.DdlWorkDone "w1")).2.1
       (by decide) (by decide)).2.2.2 "w1" (1, 1)
     rw [h]
     decide⟩

/-- An in-place update that returns the stored value changes nothing. -/
theorem AMap.update_eq_self {κ α : Type} [DecidableEq κ] (k : κ) (f : α → α) (m : List (κ × α))
    (h : ∀ v, AMap.find k m = some v → f v = v) : AMap.update k f m = m := by
  induction m with
  | nil => simp [AMap.update]
  | cons e rest ih =>
    obtain ⟨k1, v1⟩ := e
    by_cases h1 : k1 = k
    · have h2 := h v1 (by simp [AMap.find, h1])
      simp [AMap.update, h1, h2]
    · have h2 : ∀ v, AMap.find k rest = some v → f v = v := by
        intro v hv
        exact h v (by simpa [AMap.find, h1] using hv)
      simp [AMap.update, h1, ih h2]

/-- One report leaves every todo map as it was. -/
theorem process_region_report_to_do (now : Int) (s : MetaServer) (r : RegionDdlWork) (b : String) :
    to_do_of (DBManager.process_region_report now s r) b = to_do_of s b := by
  unfold DBManager.process_region_report
  rcases hq : AMap.find r.address s.db.common_task_map with _ | q
  · rfl
  · by_cases hst : r.status = DdlWorkStatus.DdlWorkDoing
    · simp only [hst, if_true, to_do_of, AMap.find_update]
      by_cases hb : b = r.address
      · subst hb; simp [hq]
      · simp [hb]
    · by_cases hc : AMap.contains (task_id_of r) q.doing_task_map = true
      · simp only [hst, if_false, hc, if_true]
        rw [update_region_ddlwork_other s r hst]
        simp only [to_do_of, AMap.find_update]
        by_cases hb : b = r.address
        · subst hb; simp [hq]
        · simp [hb]
      · simp [hst, hc]

/-- The report loop leaves every todo map as it was. -/
theorem apply_reports_to_do (now : Int) (request : BaikalHeartBeatRequest) (b : String) :
    ∀ s : MetaServer, to_do_of (DBManager.apply_reports now s request) b = to_do_of s b := by
  unfold DBManager.apply_reports
  induction request.region_ddl_works with
  | nil => intro s; rfl
  | cons r rest ih =>
    intro s
    rw [List.foldl_cons, ih, process_region_report_to_do]

/-- The drain step changes nothing when the sender has no queue entry or an empty todo map. -/
theorem drain_step_noop (now : Int) (address : String) (s : MetaServer)
    (response : BaikalHeartBeatResponse)
    (h : to_do_of s address = none ∨ to_do_of s address = some []) :
    DBManager.drain_step now address s response = (s, response) := by
  unfold to_do_of at h
  unfold DBManager.drain_step
  rcases hq : AMap.find address s.db.common_task_map with _ | q
  · rfl
  · rw [hq] at h
    simp only [Option.map_some', reduceCtorEq, Option.some.injEq, false_or] at h
    simp only [h, DBManager.drain_to_do]
    have hself : AMap.update address
        (fun _ => ({ to_do_task_map := [], doing_task_map := q.doing_task_map } : CommonTaskMap))
        s.db.common_task_map = s.db.common_task_map := by
      apply AMap.update_eq_self
      intro v hv
      rw [hq] at hv
      simp only [Option.some.injEq] at hv
      subst hv
      cases q
      simp only at h
      simp [h]
    rw [hself]

/--
Claim C16, counterexample. Region 1 waits in the todo map of `w1`, whose
heartbeat reports it with status Fail: the source drains first, so the unit
reaches the doing map, is removed again by the report and the report is
persisted, whereas "apply all reports, then drain todo" ignores the report
and leaves the unit in the doing map.
-/
theorem heartbeat_order_differs :
    doing_entry (DBManager.process_common_task_hearbeat 5 "w1" drain_server early_fail_request
      empty_response).1 "w1" (1, 1) = none ∧
    (doing_entry (reports_then_drain 5 "w1" drain_server early_fail_request
      empty_response).1 "w1" (1, 1)).isSome = true ∧
    (DBManager.process_common_task_hearbeat 5 "w1" drain_server early_fail_request
      empty_response).1.raft_pending.length = 3 ∧
    (reports_then_drain 5 "w1" drain_server early_fail_request empty_response).1.raft_pending.length = 2 ∧
    DBManager.process_common_task_hearbeat 5 "w1" drain_server early_fail_request empty_response
      ≠ reports_then_drain 5 "w1" drain_server early_fail_request empty_response := by
  decide

/--
Claim C16, amended. Within a single heartbeat the todo map of the sender is
drained first and the reports are applied afterwards: for every state and
request `process_common_task_hearbeat` yields the queues, persisted updates
and response of "drain todo, then apply all reports". It agrees with "apply
all reports, then drain todo" when the sender has no queue entry or an empty
todo map, and when the request carries no report.
-/
theorem heartbeat_drains_before_reports (now : Int) (address : String) (s : MetaServer)
    (request : BaikalHeartBeatRequest) (response : BaikalHeartBeatResponse) :
    DBManager.process_common_task_hearbeat now address s request response
      = drain_then_reports now address s request response ∧
    (to_do_of s address = none ∨ to_do_of s address = some [] →
      DBManager.process_common_task_hearbeat now address s request response
        = reports_then_drain now address s request response) ∧
    (request.region_ddl_works = [] →
      DBManager.process_common_task_hearbeat now address s request response
        = reports_then_drain now address s request response) := by
  refine ⟨rfl, ?_, ?_⟩
  · intro h
    rw [process_common_task_hearbeat_eq]
    unfold drain_then_reports reports_then_drain
    have h2 : to_do_of (DBManager.apply_reports now s request) address = none ∨
        to_do_of (DBManager.apply_reports now s request) address = some [] := by
      rw [apply_reports_to_do]; exact h
    rw [drain_step_noop now address s response h, drain_step_noop now address _ response h2]
  · intro h
    rw [process_common_task_hearbeat_eq]
    unfold drain_then_reports reports_then_drain DBManager.apply_reports
    rw [h]
    rfl

/-- Claim C16, amended, witness: a heartbeat of `w1` after its todo map has been drained. -/
theorem heartbeat_drains_before_reports_witness :
    to_do_of reported_server "w1" = some [] ∧
    DBManager.process_common_task_hearbeat 9 "w1" reported_server early_fail_request empty_response
      = reports_then_drain 9 "w1" reported_server early_fail_request empty_response :=
  ⟨by decide,
   (heartbeat_drains_before_reports 9 "w1" reported_server early_fail_request empty_response).2.1
     (Or.inr (by decide))⟩

/-- One report leaves the queue entry of every worker it does not name as it was. -/
theorem process_region_report_find_ne (now : Int) (s : MetaServer) (r : RegionDdlWork) (b : String)
    (hb : r.address ≠ b) :
    AMap.find b (DBManager.process_region_report now s r).db.common_task_map
      = AMap.find b s.db.common_task_map := by
  have hb2 : b ≠ r.address := fun h => hb h.symm
  unfold DBManager.process_region_report
  rcases hq : AMap.find r.address s.db.common_task_map with _ | q
  · rfl
  · by_cases hst : r.status = DdlWorkStatus.DdlWorkDoing
    · simp only [hst, if_true, AMap.find_update_ne _ _ _ _ hb2]
    · by_cases hc : AMap.contains (task_id_of r) q.doing_task_map = true
      · simp only [hst, if_false, hc, if_true, AMap.find_update_ne _ _ _ _ hb2]
        rw [update_region_ddlwork_other s r hst]
      · simp [hst, hc]

/-- The report loop leaves the queue entry of every worker that no report names as it was. -/
theorem apply_reports_find_ne (now : Int) (b : String) :
    ∀ (l : List RegionDdlWork) (s : MetaServer), (∀ r ∈ l, r.address ≠ b) →
      AMap.find b (l.foldl (DBManager.process_region_report now) s).db.common_task_map
        = AMap.find b s.db.common_task_map := by
  intro l
  induction l with
  | nil => intro s _; rfl
  | cons r rest ih =>
    intro s h
    rw [List.foldl_cons, ih _ (fun x hx => h x (List.mem_cons_of_mem _ hx)),
      process_region_report_find_ne now s r b (h r (List.mem_cons_self _ _))]

/-- The drain step leaves the queue entry of every worker but the sender as it was. -/
theorem drain_step_find_ne (now : Int) (address : String) (s : MetaServer)
    (response : BaikalHeartBeatResponse) (b : String) (hb : b ≠ address) :
    AMap.find b (DBManager.drain_step now address s response).1.db.common_task_map
      = AMap.find b s.db.common_task_map := by
  rcases hq : AMap.find address s.db.common_task_map with _ | q
  · unfold DBManager.drain_step
    simp only [hq]
  · rw [drain_step_spec now address s response q hq]
    exact AMap.find_update_ne _ _ _ _ hb

/-- One broadcast acknowledgement leaves the queues of the work units as they were. -/
theorem process_broadcast_ack_common (now : Int) (address : String) (s : MetaServer) (i : DdlWorkInfo) :
    (DBManager.process_broadcast_ack now address s i).db.common_task_map = s.db.common_task_map := by
  simp only [DBManager.process_broadcast_ack]
  rcases AMap.find i.table_id s.db.broadcast_task_map with _ | txn
  · rfl
  · simp only
    split_ifs <;> rfl

/-- The broadcast part of a heartbeat leaves the queues of the work units as they were. -/
theorem process_broadcast_task_hearbeat_common (now : Int) (address : String) (s : MetaServer)
    (request : BaikalHeartBeatRequest) (response : BaikalHeartBeatResponse) :
    (DBManager.process_broadcast_task_hearbeat now address s request response).1.db.common_task_map
      = s.db.common_task_map := by
  unfold DBManager.process_broadcast_task_hearbeat
  simp only
  generalize hs1 : ({ s with db := { s.db with broadcast_task_map :=
    (s.db.broadcast_task_map.map
      (fun e => (e.1, DBManager.broadcast_hand_out now address e.2))).map (fun e => (e.1, e.2.1)) } }
    : MetaServer) = s1
  have h1 : s1.db.common_task_map = s.db.common_task_map := by rw [← hs1]
  rw [← h1]
  clear hs1 h1
  induction request.ddl_works generalizing s1 with
  | nil => rfl
  | cons i rest ih =>
    rw [List.foldl_cons, ih, process_broadcast_ack_common]

/--
Claim C18, counterexample. A heartbeat sent by `w1` carries a report whose
address field is `w2`: the report loop looks the unit up in the queues of the
worker named by the report, so region 3 leaves the doing map of `w2`.
-/
theorem heartbeat_changes_other_worker :
    doing_entry two_worker_server "w2" (1, 3)
      = some { region_info := region_report 3 DdlWorkStatus.DdlWorkDoing "w2" } ∧
    doing_entry (DBManager.process_baikal_heartbeat 5 "w1" two_worker_server foreign_report_request
      empty_response).1 "w2" (1, 3) = none ∧
    AMap.find "w2" (DBManager.process_baikal_heartbeat 5 "w1" two_worker_server foreign_report_request
      empty_response).1.db.common_task_map ≠ AMap.find "w2" two_worker_server.db.common_task_map := by
  decide

/--
Claim C18, amended. A heartbeat whose sender address is `a` leaves the todo
and doing queues of every other worker `b` unchanged provided no report of the
request carries the address `b`: the drain acts on the queues of the sender,
each report on the queues of the worker named by its address field.
-/
theorem heartbeat_frame (now : Int) (a b : String) (s : MetaServer)
    (request : BaikalHeartBeatRequest) (response : BaikalHeartBeatResponse)
    (hb : b ≠ a) (hreports : ∀ r ∈ request.region_ddl_works, r.address ≠ b) :
    AMap.find b (DBManager.process_baikal_heartbeat now a s request response).1.db.common_task_map
      = AMap.find b s.db.common_task_map := by
  unfold DBManager.process_baikal_heartbeat
  by_cases hcan : request.can_do_ddlwork = true
  · simp only [hcan, Bool.not_true, Bool.false_eq_true, if_false]
    rw [process_broadcast_task_hearbeat_common, process_common_task_hearbeat_eq]
    unfold drain_then_reports DBManager.apply_reports
    simp only
    rw [apply_reports_find_ne now b _ _ hreports, drain_step_find_ne _ _ _ _ _ hb]
    rfl
  · simp [hcan]

/-- Claim C18, amended, witness: the report of `w1` about its own unit leaves the queues of `w2` alone. -/
theorem heartbeat_frame_witness :
    AMap.find "w2" (DBManager.process_baikal_heartbeat 5 "w1" two_worker_server early_fail_request
      empty_response).1.db.common_task_map = AMap.find "w2" two_worker_server.db.common_task_map :=
  heartbeat_frame 5 "w1" "w2" two_worker_server early_fail_request empty_response (by decide) (by decide)

/-! ## Broadcast acknowledgements and the sweeper -/

/-- The barrier result after `set_txn_ready(table_id, success)` when the table has a barrier record. -/
theorem set_txn_ready_result (d : DDLManager) (table_id : Int) (success : Bool)
    (h : d.exist_wait_txn_info table_id = true) :
    (d.set_txn_ready table_id success).is_txn_done table_id = true ∧
    (d.set_txn_ready table_id success).is_txn_success table_id = success := by
  unfold DDLManager.exist_wait_txn_info AMap.contains at h
  unfold DDLManager.set_txn_ready DDLManager.is_txn_done DDLManager.is_txn_success
  simp only [AMap.find_update_self]
  rcases hw : AMap.find table_id d.wait_txns with _ | w
  · rw [hw] at h; simp at h
  · simp

/--
Claim C19, counterexample. The task of table 1 has `number = 0` (its only
worker was swept), and `w1` acknowledges with status Doing: the branch of
lines 142-153 ends with `continue`, so after the acknowledgement `number` is 0,
the task is still in the broadcast map and no barrier result is recorded.
-/
theorem doing_ack_keeps_finished_task :
    (broadcast_task broadcast_swept_server 1).map (fun t => t.number) = some 0 ∧
    (broadcast_task (DBManager.process_broadcast_task_hearbeat 300000003 "w1" broadcast_swept_server
        doing_ack_request empty_response).1 1).map (fun t => t.number) = some 0 ∧
    (DBManager.process_broadcast_task_hearbeat 300000003 "w1" broadcast_swept_server
        doing_ack_request empty_response).1.ddl.is_txn_done 1 = false := by
  decide

/--
Claim C19, amended. One acknowledgement of worker `address` for the task `txn`
of its table. Status Done, the worker in the doing map: the worker leaves the
doing map and `number` decreases by exactly 1. Status Done, the worker not in
the doing map: neither map nor `number` changes. In both cases (and for a
status other than Doing, Done and Fail) when `number` is 0 after that the task
is removed from the broadcast map and `set_txn_ready(true)` is recorded, and
the same is done by `update_txn_ready` when it finds `number = 0`. An
acknowledgement with status Doing never removes the task, whatever `number` is.
-/
theorem broadcast_ack_handling (now : Int) (address : String) (s : MetaServer) (i : DdlWorkInfo)
    (txn : BroadcastTask) (hfind : broadcast_task s i.table_id = some txn) :
    (i.status = DdlWorkStatus.DdlWorkDone → AMap.contains address txn.doing_task_map = true →
      (txn.number - 1 ≠ 0 →
        broadcast_task (DBManager.process_broadcast_ack now address s i) i.table_id
          = some { txn with number := txn.number - 1,
                            doing_task_map := AMap.erase address txn.doing_task_map } ∧
        (DBManager.process_broadcast_ack now address s i).ddl = s.ddl) ∧
      (txn.number - 1 = 0 →
        broadcast_task (DBManager.process_broadcast_ack now address s i) i.table_id = none ∧
        (DBManager.process_broadcast_ack now address s i).ddl
          = s.ddl.set_txn_ready txn.work.table_id true)) ∧
    (i.status = DdlWorkStatus.DdlWorkDone → AMap.contains address txn.doing_task_map = false →
      (txn.number ≠ 0 → DBManager.process_broadcast_ack now address s i = s) ∧
      (txn.number = 0 →
        broadcast_task (DBManager.process_broadcast_ack now address s i) i.table_id = none ∧
        (DBManager.process_broadcast_ack now address s i).ddl
          = s.ddl.set_txn_ready txn.work.table_id true)) ∧
    (i.status ≠ DdlWorkStatus.DdlWorkDoing → i.status ≠ DdlWorkStatus.DdlWorkDone →
      i.status ≠ DdlWorkStatus.DdlWorkFail → txn.number = 0 →
        broadcast_task (DBManager.process_broadcast_ack now address s i) i.table_id = none ∧
        (DBManager.process_broadcast_ack now address s i).ddl
          = s.ddl.set_txn_ready txn.work.table_id true) ∧
    (txn.number = 0 →
      broadcast_task (DBManager.update_txn_ready s i.table_id) i.table_id = none ∧
      (DBManager.update_txn_ready s i.table_id).ddl = s.ddl.set_txn_ready i.table_id true) ∧
    (i.status = DdlWorkStatus.DdlWorkDoing →
      (broadcast_task (DBManager.process_broadcast_ack now address s i) i.table_id).map
        (fun t => t.number) = some txn.number) := by
  unfold broadcast_task at hfind
  refine ⟨?_, ?_, ?_, ?_, ?_⟩
  · intro hst hc
    constructor
    · intro hn
      simp only [DBManager.process_broadcast_ack, hfind, hst, hc, broadcast_task]
      simp [hn, AMap.find_update_self, hfind]
    · intro hn
      simp only [DBManager.process_broadcast_ack, hfind, hst, hc, broadcast_task]
      simp [hn, AMap.find_erase_self]
  · intro hst hc
    constructor
    · intro hn
      simp only [DBManager.process_broadcast_ack, hfind, hst, hc]
      simp [hn]
    · intro hn
      simp only [DBManager.process_broadcast_ack, hfind, hst, hc, broadcast_task]
      simp [hn, AMap.find_erase_self]
  · intro hst1 hst2 hf hn
    simp only [DBManager.process_broadcast_ack, hfind, hst1, hst2, broadcast_task]
    simp only [hf, if_false, hn, if_true]
    exact ⟨AMap.find_erase_self _ _, trivial⟩
  · intro hn
    simp only [DBManager.update_txn_ready, hfind, hn, broadcast_task]
    simp [AMap.find_erase_self]
  · intro hst
    simp only [DBManager.process_broadcast_ack, hfind, hst, broadcast_task]
    simp only [if_true, AMap.find_update_self, hfind, Option.map_some']
    split_ifs <;> rfl

/-- Claim C19, amended, witness: the Done acknowledgement of the only worker of the barrier of table 1. -/
theorem broadcast_ack_handling_witness :
    broadcast_task barrier_fetched_server 1 = some barrier_fetched_task ∧
    broadcast_task (DBManager.process_broadcast_ack 2 "w1" barrier_fetched_server
      { scenario_job IndexState.IS_WRITE_ONLY with status := DdlWorkStatus.DdlWorkDone }) 1 = none ∧
    (DBManager.process_broadcast_ack 2 "w1" barrier_fetched_server
      { scenario_job IndexState.IS_WRITE_ONLY with status := DdlWorkStatus.DdlWorkDone }).ddl
      = barrier_fetched_server.ddl.set_txn_ready 1 true :=
  ⟨by decide,
   ((broadcast_ack_handling 2 "w1" barrier_fetched_server
      { scenario_job IndexState.IS_WRITE_ONLY with status := DdlWorkStatus.DdlWorkDone }
      barrier_fetched_task (by decide)).1 (by decide) (by decide)).2 (by decide)⟩

/-- Two `with_log` steps are one. -/
theorem with_log_with_log (s : MetaServer) (m1 m2 : List (Int × MemDdlInfo))
    (r1 r2 : List MetaManagerRequest) :
    (s.with_log m1 r1).with_log m2 r2 = s.with_log m2 (r1 ++ r2) := by
  simp [MetaServer.with_log]

/-- The method `update_region_ddlwork` changes the job counters and appends one request. -/
theorem update_region_ddlwork_shape (s : MetaServer) (work : RegionDdlWork) :
    ∃ mem, DDLManager.update_region_ddlwork s work = s.with_log mem [update_request work] := by
  by_cases h : work.status = DdlWorkStatus.DdlWorkDoing
  · exact ⟨s.ddl.table_ddl_mem, by rw [update_region_ddlwork_doing s work h]; rfl⟩
  · refine ⟨(s.ddl.decrease_doing_work_number work.table_id).2.table_ddl_mem, ?_⟩
    rw [update_region_ddlwork_other s work h]
    unfold DDLManager.decrease_doing_work_number MetaServer.with_log
    rcases AMap.find work.table_id s.ddl.table_ddl_mem with _ | m <;> rfl

/-- The lambda `re_launch_task_func`: one Idle request per entry. -/
theorem re_launch_task_func_shape :
    ∀ (l : List (TaskId × MemRegionDdlWork)) (s : MetaServer),
      ∃ mem, DBManager.re_launch_task_func l s = s.with_log mem (l.map idle_request) := by
  intro l
  induction l with
  | nil => intro s; exact ⟨s.ddl.table_ddl_mem, by simp [DBManager.re_launch_task_func, MetaServer.with_log]⟩
  | cons e rest ih =>
    intro s
    obtain ⟨task_id, w⟩ := e
    obtain ⟨m1, h1⟩ := update_region_ddlwork_shape s
      { w.region_info with status := DdlWorkStatus.DdlWorkIdle }
    obtain ⟨m2, h2⟩ := ih (s.with_log m1
      [update_request { w.region_info with status := DdlWorkStatus.DdlWorkIdle }])
    refine ⟨m2, ?_⟩
    simp only [DBManager.re_launch_task_func]
    rw [h1, h2, with_log_with_log]
    rfl

/-- The lambda `traverse_func`: the timed-out entries are erased, one Idle request for each. -/
theorem traverse_func_shape (fl : Flags) (now : Int) :
    ∀ (l : List (TaskId × MemRegionDdlWork)) (s : MetaServer),
      ∃ mem, DBManager.traverse_func fl now l s =
        (l.filter (fun e => !task_timeout fl now e),
         s.with_log mem ((l.filter (task_timeout fl now)).map idle_request)) := by
  intro l
  induction l with
  | nil => intro s; exact ⟨s.ddl.table_ddl_mem, by simp [DBManager.traverse_func, MetaServer.with_log]⟩
  | cons e rest ih =>
    intro s
    obtain ⟨task_id, w⟩ := e
    by_cases ht : wrap_int32 (fl.baikal_heartbeat_interval_us * 20) < now - w.update_timestamp
    · obtain ⟨m1, h1⟩ := update_region_ddlwork_shape s
        { w.region_info with status := DdlWorkStatus.DdlWorkIdle }
      obtain ⟨m2, h2⟩ := ih (s.with_log m1
        [update_request { w.region_info with status := DdlWorkStatus.DdlWorkIdle }])
      refine ⟨m2, ?_⟩
      simp only [DBManager.traverse_func, ht, if_true]
      rw [h1, h2, with_log_with_log]
      simp [task_timeout, ht, idle_request]
    · obtain ⟨m2, h2⟩ := ih s
      refine ⟨m2, ?_⟩
      simp only [DBManager.traverse_func, ht, if_false]
      rw [h2]
      simp [task_timeout, ht]

/-- The timeout sweep over the workers: the queues are filtered, the Idle requests are issued in order. -/
theorem sweep_common_tasks_shape (fl : Flags) (now : Int) :
    ∀ (cm : List (String × CommonTaskMap)) (s : MetaServer),
      ∃ mem, DBManager.sweep_common_tasks fl now cm s =
        (cm.map (fun e => (e.1, timeout_swept fl now e.2)),
         s.with_log mem (cm.map (fun e => timeout_requests fl now e.2)).flatten) := by
  intro cm
  induction cm with
  | nil => intro s; exact ⟨s.ddl.table_ddl_mem, by simp [DBManager.sweep_common_tasks, MetaServer.with_log]⟩
  | cons e rest ih =>
    intro s
    obtain ⟨address, q⟩ := e
    obtain ⟨m1, h1⟩ := traverse_func_shape fl now q.to_do_task_map s
    obtain ⟨m2, h2⟩ := traverse_func_shape fl now q.doing_task_map
      (s.with_log m1 ((q.to_do_task_map.filter (task_timeout fl now)).map idle_request))
    obtain ⟨m3, h3⟩ := ih ((s.with_log m1
      ((q.to_do_task_map.filter (task_timeout fl now)).map idle_request)).with_log m2
      ((q.doing_task_map.filter (task_timeout fl now)).map idle_request))
    refine ⟨m3, ?_⟩
    simp only [DBManager.sweep_common_tasks]
    rw [h1]
    simp only
    rw [h2]
    simp only
    rw [h3, with_log_with_log, with_log_with_log]
    simp [timeout_swept, timeout_requests]

/-- Lookup after a map over the values. -/
theorem AMap.find_map_values {κ α : Type} [DecidableEq κ] (k : κ) (g : α → α) (m : List (κ × α)) :
    AMap.find k (m.map (fun e => (e.1, g e.2))) = (AMap.find k m).map g := by
  induction m with
  | nil => simp [AMap.find]
  | cons e rest ih =>
    obtain ⟨k1, v1⟩ := e
    by_cases h : k1 = k
    · simp [AMap.find, h]
    · simp [AMap.find, h, ih]

/-- The treatment of one faulty worker: its queues are emptied, its units go back to Idle, the broadcast tasks drop it. -/
theorem sweep_faulty_db_shape (s : MetaServer) (faulty_db : String) :
    ∃ mem, DBManager.sweep_faulty_db s faulty_db =
      (s.with_log mem (faulty_requests s faulty_db)).with_queues
        (AMap.update faulty_db (fun _ => { to_do_task_map := [], doing_task_map := [] })
          s.db.common_task_map)
        (s.db.broadcast_task_map.map (fun e => (e.1, e.2.drop_worker faulty_db))) := by
  unfold DBManager.sweep_faulty_db faulty_requests
  rcases hq : AMap.find faulty_db s.db.common_task_map with _ | q
  · refine ⟨s.ddl.table_ddl_mem, ?_⟩
    have hself : AMap.update faulty_db
        (fun _ => ({ to_do_task_map := [], doing_task_map := [] } : CommonTaskMap))
        s.db.common_task_map = s.db.common_task_map := by
      apply AMap.update_eq_self
      intro v hv
      rw [hq] at hv
      simp at hv
    rw [hself]
    simp [MetaServer.with_log, MetaServer.with_queues, BroadcastTask.drop_worker]
  · obtain ⟨m1, h1⟩ := re_launch_task_func_shape q.to_do_task_map s
    obtain ⟨m2, h2⟩ := re_launch_task_func_shape q.doing_task_map
      (s.with_log m1 (q.to_do_task_map.map idle_request))
    refine ⟨m2, ?_⟩
    simp only
    rw [h1, h2, with_log_with_log]
    simp [MetaServer.with_log, MetaServer.with_queues, BroadcastTask.drop_worker]

/-- The first half of a sweeper pass: timeouts of the work units and of the broadcast tasks, faulty workers marked. -/
theorem init_pass_shape (fl : Flags) (now : Int) (s : MetaServer) :
    ∃ mem, DBManager.init_pass fl now s =
      (DBManager.get_faulty_baikaldb fl now s.db.address_instance_map).1.foldl DBManager.sweep_faulty_db
        { (s.with_log mem (s.db.common_task_map.map (fun e => timeout_requests fl now e.2)).flatten) with
          db := { s.db with
            common_task_map := s.db.common_task_map.map (fun e => (e.1, timeout_swept fl now e.2))
            broadcast_task_map :=
              s.db.broadcast_task_map.map (fun e => (e.1, DBManager.sweep_broadcast_task fl now e.2))
            address_instance_map :=
              (DBManager.get_faulty_baikaldb fl now s.db.address_instance_map).2 } } := by
  obtain ⟨mem, h⟩ := sweep_common_tasks_shape fl now s.db.common_task_map s
  refine ⟨mem, ?_⟩
  unfold DBManager.init_pass
  rw [h]
  rfl

/-- The sweep of one broadcast task: the silent workers leave both maps, `number` decreases by the entries removed. -/
theorem sweep_broadcast_task_spec (fl : Flags) (now : Int) (t : BroadcastTask) :
    DBManager.sweep_broadcast_task fl now t =
      { t with
        number := t.number - ((t.doing_task_map.filter (txn_timeout fl now)).length : Int)
                    - ((t.to_do_task_map.filter (txn_timeout fl now)).length : Int)
        to_do_task_map := t.to_do_task_map.filter (fun e => !txn_timeout fl now e)
        doing_task_map := t.doing_task_map.filter (fun e => !txn_timeout fl now e) } := rfl

/-- The sweep of a broadcast task all of whose participants are silent leaves a task that waits for nobody. -/
theorem sweep_broadcast_task_all_silent (fl : Flags) (now : Int) (t : BroadcastTask)
    (hnum : t.number = (t.to_do_task_map.length : Int) + (t.doing_task_map.length : Int))
    (htodo : ∀ e ∈ t.to_do_task_map, txn_timeout fl now e = true)
    (hdoing : ∀ e ∈ t.doing_task_map, txn_timeout fl now e = true) :
    DBManager.sweep_broadcast_task fl now t = t.emptied := by
  rw [sweep_broadcast_task_spec]
  have h1 : t.to_do_task_map.filter (txn_timeout fl now) = t.to_do_task_map :=
    List.filter_eq_self.mpr htodo
  have h2 : t.doing_task_map.filter (txn_timeout fl now) = t.doing_task_map :=
    List.filter_eq_self.mpr hdoing
  have h3 : t.to_do_task_map.filter (fun e => !txn_timeout fl now e) = [] := by
    apply List.filter_eq_nil_iff.mpr
    intro e he; simp [htodo e he]
  have h4 : t.doing_task_map.filter (fun e => !txn_timeout fl now e) = [] := by
    apply List.filter_eq_nil_iff.mpr
    intro e he; simp [hdoing e he]
  rw [h1, h2, h3, h4]
  unfold BroadcastTask.emptied
  congr 1
  omega

/-- A task that waits for nobody is not changed when a faulty worker is dropped. -/
theorem drop_worker_emptied (t : BroadcastTask) (faulty_db : String) :
    t.emptied.drop_worker faulty_db = t.emptied := by
  simp [BroadcastTask.drop_worker, BroadcastTask.emptied, AMap.erase_count, AMap.contains, AMap.find,
    AMap.erase]

/-- The treatment of the faulty workers keeps a task that waits for nobody, and the barrier records. -/
theorem sweep_faulty_dbs_emptied (table_id : Int) (t : BroadcastTask) :
    ∀ (l : List String) (s : MetaServer), broadcast_task s table_id = some t.emptied →
      broadcast_task (l.foldl DBManager.sweep_faulty_db s) table_id = some t.emptied ∧
      (l.foldl DBManager.sweep_faulty_db s).ddl.wait_txns = s.ddl.wait_txns := by
  intro l
  induction l with
  | nil => intro s h; exact ⟨h, rfl⟩
  | cons f rest ih =>
    intro s h
    obtain ⟨mem, hs⟩ := sweep_faulty_db_shape s f
    have h1 : broadcast_task (DBManager.sweep_faulty_db s f) table_id = some t.emptied := by
      rw [hs]
      unfold broadcast_task at h ⊢
      simp only [MetaServer.with_queues]
      rw [AMap.find_map_values table_id (BroadcastTask.drop_worker f), h]
      simp [drop_worker_emptied]
    have h2 := ih (DBManager.sweep_faulty_db s f) h1
    rw [List.foldl_cons]
    refine ⟨h2.1, ?_⟩
    rw [h2.2, hs]
    rfl

/--
Claim C20, counterexample. The broadcast of table 1 is started at time 0 and
fetched by its only participant `w1` at time 1; `w1` keeps sending heartbeats
without any acknowledgement, and the sweeper removes it from the task for
being silent beyond `30 * heartbeat`. The removal leaves `number = 0`, and the
next tick (`update_txn_ready`) records the barrier as done and successful and
moves the job to `IS_WRITE_LOCAL`.
-/
theorem silent_worker_counts_as_success :
    (broadcast_task (write_only_server.run defaultFlags
        [Step.tick 0 1, Step.heartbeat 1 "w1" empty_request,
         Step.heartbeat 300000001 "w1" empty_request]) 1).map
      (fun t => (t.number, t.doing_task_map.map Prod.fst)) = some (1, ["w1"]) ∧
    (broadcast_task (write_only_server.run defaultFlags
        [Step.tick 0 1, Step.heartbeat 1 "w1" empty_request,
         Step.heartbeat 300000001 "w1" empty_request, Step.sweep 300000002]) 1).map
      (fun t => (t.number, t.doing_task_map.map Prod.fst)) = some (0, []) ∧
    (DBManager.update_txn_ready (write_only_server.run defaultFlags
        [Step.tick 0 1, Step.heartbeat 1 "w1" empty_request,
         Step.heartbeat 300000001 "w1" empty_request, Step.sweep 300000002]) 1).ddl.is_txn_success 1
      = true ∧
    ((write_only_server.run defaultFlags
        [Step.tick 0 1, Step.heartbeat 1 "w1" empty_request,
         Step.heartbeat 300000001 "w1" empty_request, Step.sweep 300000002,
         Step.tick 300000003 1]).ddl.get_ddl_mem 1).map (fun g => (g.job_state, g.errcode))
      = some (IndexState.IS_WRITE_LOCAL, ErrCode.IN_PROCESS) := by
  decide

/--
Claim C20, amended. The sweeper removes the workers of a broadcast task that
are silent beyond `30 * heartbeat` and decreases `number` by the number of
entries removed; a removed worker no longer counts. When every remaining
participant of the task of a table is removed in this way, `number` is 0 after
the sweeper pass, and the next `update_txn_ready` removes the task and records
the barrier of the table as done and successful.
-/
theorem silent_workers_release_barrier (fl : Flags) (now : Int) (s : MetaServer) (table_id : Int)
    (t : BroadcastTask) (hfind : broadcast_task s table_id = some t)
    (hnum : t.number = (t.to_do_task_map.length : Int) + (t.doing_task_map.length : Int))
    (htodo : ∀ e ∈ t.to_do_task_map, txn_timeout fl now e = true)
    (hdoing : ∀ e ∈ t.doing_task_map, txn_timeout fl now e = true)
    (hrec : s.ddl.exist_wait_txn_info table_id = true) :
    (DBManager.sweep_broadcast_task fl now t).number
      = t.number - ((t.doing_task_map.filter (txn_timeout fl now)).length : Int)
          - ((t.to_do_task_map.filter (txn_timeout fl now)).length : Int) ∧
    broadcast_task (DBManager.init_pass fl now s) table_id = some t.emptied ∧
    broadcast_task (DBManager.update_txn_ready (DBManager.init_pass fl now s) table_id) table_id = none ∧
    (DBManager.update_txn_ready (DBManager.init_pass fl now s) table_id).ddl.is_txn_done table_id = true ∧
    (DBManager.update_txn_ready (DBManager.init_pass fl now s) table_id).ddl.is_txn_success table_id
      = true := by
  obtain ⟨mem, hpass⟩ := init_pass_shape fl now s
  have hstart : broadcast_task
      ({ (s.with_log mem (s.db.common_task_map.map (fun e => timeout_requests fl now e.2)).flatten) with
          db := { s.db with
            common_task_map := s.db.common_task_map.map (fun e => (e.1, timeout_swept fl now e.2))
            broadcast_task_map :=
              s.db.broadcast_task_map.map (fun e => (e.1, DBManager.sweep_broadcast_task fl now e.2))
            address_instance_map :=
              (DBManager.get_faulty_baikaldb fl now s.db.address_instance_map).2 } } : MetaServer)
      table_id = some t.emptied := by
    unfold broadcast_task at hfind ⊢
    simp only
    rw [AMap.find_map_values table_id (DBManager.sweep_broadcast_task fl now), hfind]
    simp [sweep_broadcast_task_all_silent fl now t hnum htodo hdoing]
  have hswept := sweep_faulty_dbs_emptied table_id t
    (DBManager.get_faulty_baikaldb fl now s.db.address_instance_map).1 _ hstart
  rw [← hpass] at hswept
  obtain ⟨hb, hw⟩ := hswept
  have hrec2 : (DBManager.init_pass fl now s).ddl.exist_wait_txn_info table_id = true := by
    unfold DDLManager.exist_wait_txn_info at hrec ⊢
    rw [hw]
    exact hrec
  have hready : DBManager.update_txn_ready (DBManager.init_pass fl now s) table_id =
      { DBManager.init_pass fl now s with
        db := { (DBManager.init_pass fl now s).db with
                broadcast_task_map :=
                  AMap.erase table_id (DBManager.init_pass fl now s).db.broadcast_task_map }
        ddl := (DBManager.init_pass fl now s).ddl.set_txn_ready table_id true } := by
    unfold broadcast_task at hb
    simp [DBManager.update_txn_ready, hb, BroadcastTask.emptied]
  refine ⟨by rw [sweep_broadcast_task_spec], hb, ?_, ?_, ?_⟩
  · rw [hready]
    exact AMap.find_erase_self _ _
  · rw [hready]
    exact (set_txn_ready_result _ table_id true hrec2).1
  · rw [hready]
    exact (set_txn_ready_result _ table_id true hrec2).2

/-- Claim C20, amended, witness: the barrier of table 1 after its only participant `w1` has fallen silent. -/
theorem silent_workers_release_barrier_witness :
    broadcast_task barrier_fetched_server 1 = some barrier_fetched_task ∧
    (DBManager.update_txn_ready (DBManager.init_pass defaultFlags 300000002 barrier_fetched_server) 1
      ).ddl.is_txn_success 1 = true :=
  ⟨by decide,
   (silent_workers_release_barrier defaultFlags 300000002 barrier_fetched_server 1 barrier_fetched_task
      (by decide) (by decide) (by decide) (by decide) (by decide)).2.2.2.2⟩

/-! ## The concurrency cap -/

/-- A value found under a key is an entry of the list. -/
theorem AMap.mem_of_find {κ α : Type} [DecidableEq κ] (k : κ) (v : α) (m : List (κ × α))
    (h : AMap.find k m = some v) : (k, v) ∈ m := by
  induction m with
  | nil => simp [AMap.find] at h
  | cons e rest ih =>
    obtain ⟨k1, v1⟩ := e
    by_cases h1 : k1 = k
    · simp [AMap.find, h1] at h
      subst h1; subst h
      exact List.mem_cons_self _ _
    · simp only [AMap.find, h1, if_false] at h
      exact List.mem_cons_of_mem _ (ih h)

/-- A property of all entries survives an in-place update whose result has the property. -/
theorem AMap.forall_mem_update {κ α : Type} [DecidableEq κ] (P : κ × α → Prop) (k : κ) (f : α → α)
    (m : List (κ × α)) (hm : ∀ e ∈ m, P e) (hf : ∀ v, AMap.find k m = some v → P (k, f v)) :
    ∀ e ∈ AMap.update k f m, P e := by
  induction m with
  | nil => intro e he; simp [AMap.update] at he
  | cons x rest ih =>
    obtain ⟨k1, v1⟩ := x
    by_cases h1 : k1 = k
    · subst h1
      intro e he
      simp only [AMap.update, if_true, List.mem_cons] at he
      rcases he with he | he
      · subst he
        exact hf v1 (by simp [AMap.find])
      · exact hm e (List.mem_cons_of_mem _ he)
    · intro e he
      simp only [AMap.update, h1, if_false, List.mem_cons] at he
      rcases he with he | he
      · subst he
        exact hm _ (List.mem_cons_self _ _)
      · refine ih (fun e he => hm e (List.mem_cons_of_mem _ he)) ?_ e he
        intro v hv
        exact hf v (by simpa [AMap.find, h1] using hv)

/-- A property of all entries survives an assignment of a value that has the property. -/
theorem AMap.forall_mem_set {κ α : Type} [DecidableEq κ] (P : κ × α → Prop) (k : κ) (v : α)
    (m : List (κ × α)) (hm : ∀ e ∈ m, P e) (hv : P (k, v)) :
    ∀ e ∈ AMap.set k v m, P e := by
  induction m with
  | nil =>
    intro e he
    simp only [AMap.set, List.mem_singleton] at he
    subst he; exact hv
  | cons x rest ih =>
    obtain ⟨k1, v1⟩ := x
    by_cases h1 : k1 = k
    · subst h1
      intro e he
      simp only [AMap.set, if_true, List.mem_cons] at he
      rcases he with he | he
      · subst he; exact hv
      · exact hm e (List.mem_cons_of_mem _ he)
    · intro e he
      simp only [AMap.set, h1, if_false, List.mem_cons] at he
      rcases he with he | he
      · subst he
        exact hm _ (List.mem_cons_self _ _)
      · exact ih (fun e he => hm e (List.mem_cons_of_mem _ he)) e he

/-- An assignment adds at most one entry. -/
theorem AMap.length_set_le {κ α : Type} [DecidableEq κ] (k : κ) (v : α) (m : List (κ × α)) :
    (AMap.set k v m).length ≤ m.length + 1 := by
  induction m with
  | nil => simp [AMap.set]
  | cons x rest ih =>
    obtain ⟨k1, v1⟩ := x
    by_cases h1 : k1 = k
    · simp [AMap.set, h1]
    · simp [AMap.set, h1]; omega

/-- An in-place update keeps the number of entries. -/
theorem AMap.length_update {κ α : Type} [DecidableEq κ] (k : κ) (f : α → α) (m : List (κ × α)) :
    (AMap.update k f m).length = m.length := by
  induction m with
  | nil => simp [AMap.update]
  | cons x rest ih =>
    obtain ⟨k1, v1⟩ := x
    by_cases h1 : k1 = k
    · simp [AMap.update, h1]
    · simp [AMap.update, h1, ih]

/-- A removal does not add entries. -/
theorem AMap.length_erase_le {κ α : Type} [DecidableEq κ] (k : κ) (m : List (κ × α)) :
    (AMap.erase k m).length ≤ m.length := by
  induction m with
  | nil => simp [AMap.erase]
  | cons x rest ih =>
    obtain ⟨k1, v1⟩ := x
    by_cases h1 : k1 = k
    · simp [AMap.erase, h1]; omega
    · simp [AMap.erase, h1]; omega

/-- An `insert` adds at most one entry. -/
theorem AMap.length_insert_new_le {κ α : Type} [DecidableEq κ] (k : κ) (v : α) (m : List (κ × α)) :
    (AMap.insert_new k v m).length ≤ m.length + 1 := by
  unfold AMap.insert_new
  split_ifs <;> simp

/-- The drain loop adds at most one doing entry per todo entry. -/
theorem foldl_insert_new_length (f : MemRegionDdlWork → MemRegionDdlWork) :
    ∀ (l d : List (TaskId × MemRegionDdlWork)),
      (l.foldl (fun d e => AMap.insert_new e.1 (f e.2) d) d).length ≤ d.length + l.length := by
  intro l
  induction l with
  | nil => intro d; simp
  | cons x rest ih =>
    intro d
    simp only [List.foldl_cons, List.length_cons]
    have h1 := ih (AMap.insert_new x.1 (f x.2) d)
    have h2 := AMap.length_insert_new_le x.1 (f x.2) d
    omega

/-- The concurrency cap in terms of the load of each worker. -/
theorem concurrency_cap_iff (fl : Flags) (db : DBManager) :
    concurrency_cap fl db ↔ ∀ e ∈ db.common_task_map, e.2.load ≤ fl.baikaldb_max_concurrent :=
  Iff.rfl

/-- The cap survives an in-place update of a queue entry that does not increase its load. -/
theorem cap_update_le (fl : Flags) (cm : List (String × CommonTaskMap)) (k : String)
    (f : CommonTaskMap → CommonTaskMap)
    (hcap : ∀ e ∈ cm, e.2.load ≤ fl.baikaldb_max_concurrent)
    (hf : ∀ q, AMap.find k cm = some q → (f q).load ≤ q.load) :
    ∀ e ∈ AMap.update k f cm, e.2.load ≤ fl.baikaldb_max_concurrent := by
  apply AMap.forall_mem_update (fun e => e.2.load ≤ fl.baikaldb_max_concurrent) k f cm hcap
  intro q hq
  have h1 := hcap _ (AMap.mem_of_find k q cm hq)
  have h2 := hf q hq
  simp only at h1 ⊢
  omega

/-- One report keeps the cap. -/
theorem process_region_report_cap (fl : Flags) (now : Int) (s : MetaServer) (r : RegionDdlWork)
    (hcap : concurrency_cap fl s.db) :
    concurrency_cap fl (DBManager.process_region_report now s r).db := by
  rw [concurrency_cap_iff] at hcap ⊢
  unfold DBManager.process_region_report
  rcases hq : AMap.find r.address s.db.common_task_map with _ | q
  · exact hcap
  · by_cases hst : r.status = DdlWorkStatus.DdlWorkDoing
    · simp only [hst, if_true]
      apply cap_update_le fl _ _ _ hcap
      intro q1 _
      simp [CommonTaskMap.load, AMap.length_update]
    · by_cases hc : AMap.contains (task_id_of r) q.doing_task_map = true
      · simp only [hst, if_false, hc, if_true]
        rw [update_region_ddlwork_other s r hst]
        apply cap_update_le fl _ _ _ hcap
        intro q1 _
        have := AMap.length_erase_le (task_id_of r) q1.doing_task_map
        simp only [CommonTaskMap.load]
        omega
      · simp only [hst, if_false, hc]
        exact hcap

/-- The report loop keeps the cap. -/
theorem apply_reports_cap (fl : Flags) (now : Int) (request : BaikalHeartBeatRequest) :
    ∀ s : MetaServer, concurrency_cap fl s.db →
      concurrency_cap fl (DBManager.apply_reports now s request).db := by
  unfold DBManager.apply_reports
  induction request.region_ddl_works with
  | nil => intro s h; exact h
  | cons r rest ih =>
    intro s h
    rw [List.foldl_cons]
    exact ih _ (process_region_report_cap fl now s r h)

/-- The drain step keeps the cap. -/
theorem drain_step_cap (fl : Flags) (now : Int) (address : String) (s : MetaServer)
    (response : BaikalHeartBeatResponse) (hcap : concurrency_cap fl s.db) :
    concurrency_cap fl (DBManager.drain_step now address s response).1.db := by
  rcases hq : AMap.find address s.db.common_task_map with _ | q
  · unfold DBManager.drain_step
    simp only [hq]
    exact hcap
  · rw [drain_step_spec now address s response q hq]
    rw [concurrency_cap_iff] at hcap ⊢
    apply cap_update_le fl _ _ _ hcap
    intro q1 hq1
    rw [hq] at hq1
    simp only [Option.some.injEq] at hq1
    subst hq1
    have := foldl_insert_new_length (drained_unit now address) q.to_do_task_map q.doing_task_map
    simp only [CommonTaskMap.load, drained_queue, List.length_nil]
    omega

/-- A whole heartbeat keeps the cap. -/
theorem process_baikal_heartbeat_cap (fl : Flags) (now : Int) (address : String) (s : MetaServer)
    (request : BaikalHeartBeatRequest) (response : BaikalHeartBeatResponse)
    (hcap : concurrency_cap fl s.db) :
    concurrency_cap fl (DBManager.process_baikal_heartbeat now address s request response).1.db := by
  unfold DBManager.process_baikal_heartbeat
  by_cases hcan : request.can_do_ddlwork = true
  · simp only [hcan, Bool.not_true, Bool.false_eq_true, if_false]
    have h1 : concurrency_cap fl
        (DBManager.process_common_task_hearbeat now address
          { s with db := DBManager.update_baikaldb_info now s.db address request.physical_room }
          request response).1.db := by
      rw [process_common_task_hearbeat_eq]
      unfold drain_then_reports
      apply apply_reports_cap
      apply drain_step_cap
      exact hcap
    unfold concurrency_cap at h1 ⊢
    rw [process_broadcast_task_hearbeat_common]
    exact h1
  · simp only [hcan, Bool.not_false, if_true]
    exact hcap

/-- The treatment of the faulty workers keeps the cap. -/
theorem sweep_faulty_dbs_cap (fl : Flags) :
    ∀ (l : List String) (s : MetaServer), concurrency_cap fl s.db →
      concurrency_cap fl (l.foldl DBManager.sweep_faulty_db s).db := by
  intro l
  induction l with
  | nil => intro s h; exact h
  | cons f rest ih =>
    intro s h
    rw [List.foldl_cons]
    apply ih
    obtain ⟨mem, hs⟩ := sweep_faulty_db_shape s f
    rw [hs, concurrency_cap_iff] at *
    apply cap_update_le fl _ _ _ h
    intro q _
    simp only [CommonTaskMap.load, List.length_nil]
    have h1 : (0 : Int) ≤ (q.to_do_task_map.length : Int) := Int.natCast_nonneg _
    have h2 : (0 : Int) ≤ (q.doing_task_map.length : Int) := Int.natCast_nonneg _
    omega

/-- A sweeper pass keeps the cap. -/
theorem init_pass_cap (fl : Flags) (now : Int) (s : MetaServer) (hcap : concurrency_cap fl s.db) :
    concurrency_cap fl (DBManager.init_pass fl now s).db := by
  obtain ⟨mem, hpass⟩ := init_pass_shape fl now s
  rw [hpass]
  apply sweep_faulty_dbs_cap
  rw [concurrency_cap_iff] at hcap ⊢
  intro e he
  simp only [List.mem_map] at he
  obtain ⟨x, hx, rfl⟩ := he
  have h1 := hcap x hx
  have h2 := List.length_filter_le (fun e => !task_timeout fl now e) x.2.to_do_task_map
  have h3 := List.length_filter_le (fun e => !task_timeout fl now e) x.2.doing_task_map
  simp only [CommonTaskMap.load, timeout_swept] at h1 ⊢
  omega

/-- The method `execute_task` keeps the cap when `MaxConcurrent` is at least 1. -/
theorem execute_task_cap (fl : Flags) (now : Int) (db : DBManager) (w : MemRegionDdlWork)
    (hmax : 1 ≤ fl.baikaldb_max_concurrent) (hcap : concurrency_cap fl db) :
    concurrency_cap fl (DBManager.execute_task fl now db w).2.2 := by
  rw [execute_task_scan]
  rcases hfind : (scan_order db).find? (eligible fl db) with _ | e
  · exact hcap
  · have hel := List.find?_some hfind
    rw [concurrency_cap_iff] at hcap ⊢
    simp only
    apply AMap.forall_mem_update (fun x : String × CommonTaskMap => x.2.load ≤ fl.baikaldb_max_concurrent)
    · unfold DBManager.selected
      by_cases hc : AMap.contains e.1 db.common_task_map = true
      · simp only [hc, if_true]
        exact hcap
      · simp only [hc, if_false]
        apply AMap.forall_mem_set (fun x : String × CommonTaskMap => x.2.load ≤ fl.baikaldb_max_concurrent) _ _ _ hcap
        simp only [CommonTaskMap.load, List.length_nil]
        omega
    · intro q hq
      have hlen := AMap.length_set_le (task_id_of w.region_info)
        ({ region_info := { w.region_info with retry_time := w.region_info.retry_time + 1 },
           update_timestamp := now } : MemRegionDdlWork) q.to_do_task_map
      unfold DBManager.selected at hq
      by_cases hc : AMap.contains e.1 db.common_task_map = true
      · rw [if_pos hc] at hq
        unfold eligible at hel
        rw [hq] at hel
        simp only [Bool.and_eq_true, decide_eq_true_eq] at hel
        simp only [CommonTaskMap.load]
        dsimp only at hlen ⊢
        omega
      · rw [if_neg hc, AMap.find_set_self] at hq
        simp only [Option.some.injEq] at hq
        subst hq
        simp only [CommonTaskMap.load]
        dsimp only at hlen ⊢
        simp only [List.length_nil] at hlen ⊢
        omega

/-- The method `restore_task` keeps the cap when the worker recorded in the unit is below `MaxConcurrent`. -/
theorem restore_task_cap_of_room (fl : Flags) (now : Int) (db : DBManager) (r : RegionDdlWork)
    (hcap : concurrency_cap fl db)
    (hroom : match AMap.find r.address db.common_task_map with
      | some q => q.load < fl.baikaldb_max_concurrent
      | none => 1 ≤ fl.baikaldb_max_concurrent) :
    concurrency_cap fl (DBManager.restore_task now db r).2 := by
  rw [concurrency_cap_iff] at hcap ⊢
  unfold DBManager.restore_task
  rcases hq : AMap.find r.address db.common_task_map with _ | q
  · rw [hq] at hroom
    simp only [AMap.contains, hq, Option.isSome_none, Bool.false_eq_true, if_false]
    apply AMap.forall_mem_set (fun x : String × CommonTaskMap => x.2.load ≤ fl.baikaldb_max_concurrent) _ _ _ hcap
    simp only [CommonTaskMap.load, List.length_singleton, List.length_nil]
    omega
  · rw [hq] at hroom
    simp only [AMap.contains, hq, Option.isSome_some, if_true]
    apply AMap.forall_mem_update (fun x : String × CommonTaskMap => x.2.load ≤ fl.baikaldb_max_concurrent) _ _ _ hcap
    intro q1 hq1
    rw [hq] at hq1
    simp only [Option.some.injEq] at hq1
    subst hq1
    have hlen := AMap.length_set_le (task_id_of r)
      ({ region_info := r, update_timestamp := now } : MemRegionDdlWork) q.doing_task_map
    simp only [CommonTaskMap.load] at hroom ⊢
    omega

/--
Claim C13, counterexample. The worker `w1` holds `MaxConcurrent = 10` units,
so the cap holds; `restore_task` of an eleventh unit that names `w1` stores
it in the doing map of `w1` without consulting the cap, and the cap is broken.
-/
theorem restore_task_breaks_cap :
    concurrency_cap defaultFlags full_worker_db ∧
    ¬ concurrency_cap defaultFlags
        (DBManager.restore_task 5 full_worker_db (region_report 10 DdlWorkStatus.DdlWorkDoing "w1")).2 ∧
    (AMap.find "w1"
        (DBManager.restore_task 5 full_worker_db
          (region_report 10 DdlWorkStatus.DdlWorkDoing "w1")).2.common_task_map).map
      (fun q => q.doing_task_map.length) = some 11 := by
  unfold concurrency_cap
  decide

/--
Claim C13, amended. With `MaxConcurrent >= 1`, the predicate "every worker
holds at most `MaxConcurrent` units in todo and doing" is preserved by
`execute_task`, by heartbeat processing (drain and reports) and by a sweeper
pass. The method `restore_task` does not consult the cap: it preserves the
predicate when the worker recorded in the unit is below `MaxConcurrent`.
-/
theorem concurrency_cap_preserved (fl : Flags) (s : MetaServer)
    (hmax : 1 ≤ fl.baikaldb_max_concurrent) (hcap : concurrency_cap fl s.db) :
    (∀ now w, concurrency_cap fl (DBManager.execute_task fl now s.db w).2.2) ∧
    (∀ now address request response,
      concurrency_cap fl (DBManager.process_common_task_hearbeat now address s request response).1.db) ∧
    (∀ now address request response,
      concurrency_cap fl (DBManager.process_baikal_heartbeat now address s request response).1.db) ∧
    (∀ now, concurrency_cap fl (DBManager.init_pass fl now s).db) ∧
    (∀ now r,
      (match AMap.find r.address s.db.common_task_map with
        | some q => q.load < fl.baikaldb_max_concurrent
        | none => 1 ≤ fl.baikaldb_max_concurrent) →
      concurrency_cap fl (DBManager.restore_task now s.db r).2) := by
  refine ⟨?_, ?_, ?_, ?_, ?_⟩
  · intro now w
    exact execute_task_cap fl now s.db w hmax hcap
  · intro now address request response
    rw [process_common_task_hearbeat_eq]
    unfold drain_then_reports
    exact apply_reports_cap fl now request _ (drain_step_cap fl now address s response hcap)
  · intro now address request response
    exact process_baikal_heartbeat_cap fl now address s request response hcap
  · intro now
    exact init_pass_cap fl now s hcap
  · intro now r hroom
    exact restore_task_cap_of_room fl now s.db r hcap hroom

/-- Claim C13, amended, witness: a sweeper pass on the server whose worker `w1` holds two units. -/
theorem concurrency_cap_preserved_witness :
    (1 : Int) ≤ defaultFlags.baikaldb_max_concurrent ∧
    concurrency_cap defaultFlags drain_server.db ∧
    concurrency_cap defaultFlags (DBManager.init_pass defaultFlags 300000002 drain_server).db :=
  ⟨by decide, by unfold concurrency_cap; decide,
   (concurrency_cap_preserved defaultFlags drain_server (by decide)
      (by unfold concurrency_cap; decide)).2.2.2.1 300000002⟩

/-! ## Queue disjointness -/

/-- The entries under a key after an assignment. -/
theorem AMap.key_count_set_le {κ α : Type} [DecidableEq κ] (k t : κ) (v : α) (m : List (κ × α)) :
    AMap.key_count t (AMap.set k v m) ≤ AMap.key_count t m + (if k = t then 1 else 0) := by
  induction m with
  | nil => simp [AMap.set, AMap.key_count]
  | cons x rest ih =>
    obtain ⟨k1, v1⟩ := x
    by_cases h1 : k1 = k
    · simp [AMap.set, AMap.key_count, h1]
    · simp only [AMap.set, h1, if_false, AMap.key_count]
      omega

/-- An in-place update keeps the number of entries under each key. -/
theorem AMap.key_count_update {κ α : Type} [DecidableEq κ] (k t : κ) (f : α → α) (m : List (κ × α)) :
    AMap.key_count t (AMap.update k f m) = AMap.key_count t m := by
  induction m with
  | nil => simp [AMap.update]
  | cons x rest ih =>
    obtain ⟨k1, v1⟩ := x
    by_cases h1 : k1 = k
    · simp [AMap.update, AMap.key_count, h1]
    · simp [AMap.update, AMap.key_count, h1, ih]

/-- The entries under a key after a removal. -/
theorem AMap.key_count_erase {κ α : Type} [DecidableEq κ] (k t : κ) (m : List (κ × α)) :
    AMap.key_count t (AMap.erase k m) = if t = k then 0 else AMap.key_count t m := by
  induction m with
  | nil => simp [AMap.erase, AMap.key_count]
  | cons x rest ih =>
    obtain ⟨k1, v1⟩ := x
    by_cases h1 : k1 = k
    · subst h1
      by_cases h2 : t = k1
      · subst h2; simp [AMap.erase, ih]
      · have h3 : ¬ k1 = t := fun h => h2 h.symm
        simp [AMap.erase, ih, h2, AMap.key_count, h3]
    · by_cases h2 : t = k
      · subst h2
        simp [AMap.erase, h1, ih, AMap.key_count]
      · simp [AMap.erase, h1, ih, h2, AMap.key_count]

/-- A key that is present has an entry. -/
theorem AMap.key_count_pos_of_contains {κ α : Type} [DecidableEq κ] (k : κ) (m : List (κ × α))
    (h : AMap.contains k m = true) : 0 < AMap.key_count k m := by
  induction m with
  | nil => simp [AMap.contains, AMap.find] at h
  | cons x rest ih =>
    obtain ⟨k1, v1⟩ := x
    by_cases h1 : k1 = k
    · simp [AMap.key_count, h1]
    · simp only [AMap.contains, AMap.find, h1, if_false] at h
      have := ih h
      simp only [AMap.key_count]
      omega

/-- The entries of a concatenation. -/
theorem AMap.key_count_append {κ α : Type} [DecidableEq κ] (t : κ) (m m1 : List (κ × α)) :
    AMap.key_count t (m ++ m1) = AMap.key_count t m + AMap.key_count t m1 := by
  induction m with
  | nil => simp [AMap.key_count]
  | cons x rest ih =>
    obtain ⟨k1, v1⟩ := x
    show AMap.key_count t ((k1, v1) :: (rest ++ m1)) = _
    simp only [AMap.key_count, ih]
    omega

/-- The entries under a key after an `insert`. -/
theorem AMap.key_count_insert_new_le {κ α : Type} [DecidableEq κ] (k t : κ) (v : α)
    (m : List (κ × α)) :
    AMap.key_count t (AMap.insert_new k v m) ≤ AMap.key_count t m + (if k = t then 1 else 0) := by
  unfold AMap.insert_new
  by_cases h : AMap.contains k m = true
  · rw [if_pos h]; omega
  · rw [if_neg h, AMap.key_count_append]
    simp [AMap.key_count]

/-- The entries under a key, split by a test. -/
theorem AMap.key_count_filter_add {κ α : Type} [DecidableEq κ] (t : κ) (p : κ × α → Bool)
    (m : List (κ × α)) :
    AMap.key_count t (m.filter (fun e => !p e)) + AMap.key_count t (m.filter p)
      = AMap.key_count t m := by
  induction m with
  | nil => simp [AMap.key_count]
  | cons x rest ih =>
    obtain ⟨k1, v1⟩ := x
    by_cases hp : p (k1, v1) = true
    · simp only [List.filter_cons, hp, Bool.not_true, Bool.false_eq_true, if_false, if_true,
        AMap.key_count]
      omega
    · simp only [Bool.not_eq_true] at hp
      simp only [List.filter_cons, hp, Bool.not_false, Bool.false_eq_true, if_false, if_true,
        AMap.key_count]
      omega

/-- A filter does not add entries under a key. -/
theorem AMap.key_count_filter_le {κ α : Type} [DecidableEq κ] (t : κ) (p : κ × α → Bool)
    (m : List (κ × α)) : AMap.key_count t (m.filter p) ≤ AMap.key_count t m := by
  have := AMap.key_count_filter_add t p m
  omega

/-- The members of a list after an assignment. -/
theorem AMap.mem_set {κ α : Type} [DecidableEq κ] (k : κ) (v : α) (m : List (κ × α)) :
    ∀ e ∈ AMap.set k v m, e = (k, v) ∨ e ∈ m := by
  intro e he
  exact AMap.forall_mem_set (fun x => x = (k, v) ∨ x ∈ m) k v m (fun x hx => Or.inr hx) (Or.inl rfl)
    e he

/-- The members of a list after an `insert`. -/
theorem AMap.mem_insert_new {κ α : Type} [DecidableEq κ] (k : κ) (v : α) (m : List (κ × α)) :
    ∀ e ∈ AMap.insert_new k v m, e = (k, v) ∨ e ∈ m := by
  intro e he
  unfold AMap.insert_new at he
  by_cases h : AMap.contains k m = true
  · rw [if_pos h] at he; exact Or.inr he
  · rw [if_neg h] at he
    rcases List.mem_append.mp he with h1 | h1
    · exact Or.inr h1
    · simp only [List.mem_singleton] at h1
      exact Or.inl h1

/-- The members of a list after a removal. -/
theorem AMap.mem_of_mem_erase {κ α : Type} [DecidableEq κ] (k : κ) (m : List (κ × α)) :
    ∀ e ∈ AMap.erase k m, e ∈ m := by
  induction m with
  | nil => intro e he; simp [AMap.erase] at he
  | cons x rest ih =>
    obtain ⟨k1, v1⟩ := x
    intro e he
    by_cases h1 : k1 = k
    · simp only [AMap.erase, h1, if_true] at he
      exact List.mem_cons_of_mem _ (ih e he)
    · simp only [AMap.erase, h1, if_false, List.mem_cons] at he
      rcases he with he | he
      · subst he; exact List.mem_cons_self _ _
      · exact List.mem_cons_of_mem _ (ih e he)

/-- The members of a list after an in-place update. -/
theorem AMap.mem_update {κ α : Type} [DecidableEq κ] (k : κ) (f : α → α) (m : List (κ × α)) :
    ∀ e ∈ AMap.update k f m, e ∈ m ∨ ∃ v, (k, v) ∈ m ∧ e = (k, f v) := by
  intro e he
  exact AMap.forall_mem_update (fun x => x ∈ m ∨ ∃ v, (k, v) ∈ m ∧ x = (k, f v)) k f m
    (fun x hx => Or.inl hx) (fun v hv => Or.inr ⟨v, AMap.mem_of_find k v m hv, rfl⟩) e he

/-- The slots of `t` after an in-place update of the queue entry of a worker. -/
theorem queue_count_update (t : TaskId) (a : String) (f : CommonTaskMap → CommonTaskMap)
    (cm : List (String × CommonTaskMap)) (q : CommonTaskMap) (hq : AMap.find a cm = some q) :
    queue_count t (AMap.update a f cm) + q.slots t = queue_count t cm + (f q).slots t := by
  induction cm with
  | nil => simp [AMap.find] at hq
  | cons x rest ih =>
    obtain ⟨k1, v1⟩ := x
    by_cases h1 : k1 = a
    · simp only [AMap.find, h1, if_true, Option.some.injEq] at hq
      subst hq
      simp only [AMap.update, h1, if_true, queue_count, List.map_cons, List.sum_cons]
      omega
    · simp only [AMap.find, h1, if_false] at hq
      have := ih hq
      simp only [AMap.update, h1, if_false, queue_count, List.map_cons, List.sum_cons] at this ⊢
      omega

/-- An in-place update of a worker without queue entry changes nothing. -/
theorem AMap.update_of_find_none {κ α : Type} [DecidableEq κ] (k : κ) (f : α → α) (m : List (κ × α))
    (h : AMap.find k m = none) : AMap.update k f m = m := by
  apply AMap.update_eq_self
  intro v hv
  rw [h] at hv
  simp at hv

/-- The slots of `t` after the creation or replacement of a queue entry. -/
theorem queue_count_set_le (t : TaskId) (a : String) (q : CommonTaskMap)
    (cm : List (String × CommonTaskMap)) :
    queue_count t (AMap.set a q cm) ≤ queue_count t cm + q.slots t := by
  induction cm with
  | nil => simp [AMap.set, queue_count]
  | cons x rest ih =>
    obtain ⟨k1, v1⟩ := x
    by_cases h1 : k1 = a
    · simp only [AMap.set, h1, if_true, queue_count, List.map_cons, List.sum_cons]
      omega
    · simp only [AMap.set, h1, if_false, queue_count, List.map_cons, List.sum_cons] at ih ⊢
      omega

/-- The slots of `t` when every queue entry is replaced by one that holds `t` no more often. -/
theorem queue_count_map_le (t : TaskId) (g : CommonTaskMap → CommonTaskMap)
    (cm : List (String × CommonTaskMap))
    (hg : ∀ e ∈ cm, (g e.2).slots t ≤ e.2.slots t) :
    queue_count t (cm.map (fun e => (e.1, g e.2))) ≤ queue_count t cm := by
  induction cm with
  | nil => simp [queue_count]
  | cons x rest ih =>
    have h1 := hg x (List.mem_cons_self _ _)
    have h2 := ih (fun e he => hg e (List.mem_cons_of_mem _ he))
    simp only [queue_count, List.map_cons, List.sum_cons] at h2 ⊢
    omega

/-- The pending claims of two logs add up. -/
theorem pending_claims_append (t : TaskId) (l1 l2 : List MetaManagerRequest) :
    pending_claims t (l1 ++ l2) = pending_claims t l1 + pending_claims t l2 := by
  simp [pending_claims]

/-- A unit claims at most once. -/
theorem unit_claim_le_one (t : TaskId) (w : RegionDdlWork) : unit_claim t w ≤ 1 := by
  unfold unit_claim
  split_ifs <;> omega

/-- A unit whose status is neither Idle nor Fail claims nothing. -/
theorem unit_claim_of_status (t : TaskId) (w : RegionDdlWork)
    (h1 : w.status ≠ DdlWorkStatus.DdlWorkIdle) (h2 : w.status ≠ DdlWorkStatus.DdlWorkFail) :
    unit_claim t w = 0 := by
  simp [unit_claim, h1, h2]

/-- The claim of a unit with status Idle or Fail. -/
theorem unit_claim_of_admissible (t : TaskId) (w : RegionDdlWork)
    (h : w.status = DdlWorkStatus.DdlWorkIdle ∨ w.status = DdlWorkStatus.DdlWorkFail) :
    unit_claim t w = if task_id_of w = t then 1 else 0 := by
  simp [unit_claim, h]

/-- The claim of an update request is the claim of its unit. -/
theorem request_claim_update_request (t : TaskId) (w : RegionDdlWork) :
    request_claim t (update_request w) = unit_claim t w := by
  simp [request_claim, update_request]

/-- The units in memory that may be submitted, after the replacement of the region map of a table. -/
theorem memory_claims_update (t : TaskId) (table_id : Int)
    (rd : List (Int × List (Int × MemRegionDdlWork))) (m m1 : List (Int × MemRegionDdlWork))
    (hm : AMap.find table_id rd = some m) :
    memory_claims t (AMap.update table_id (fun _ => m1) rd) + region_map_claims t m
      = memory_claims t rd + region_map_claims t m1 := by
  induction rd with
  | nil => simp [AMap.find] at hm
  | cons x rest ih =>
    obtain ⟨k1, v1⟩ := x
    by_cases h1 : k1 = table_id
    · simp only [AMap.find, h1, if_true, Option.some.injEq] at hm
      subst hm
      simp only [AMap.update, h1, if_true, memory_claims, List.map_cons, List.sum_cons]
      omega
    · simp only [AMap.find, h1, if_false] at hm
      have := ih hm
      simp only [AMap.update, h1, if_false, memory_claims, List.map_cons, List.sum_cons] at this ⊢
      omega

/-- The units of a region map that may be submitted, after a unit is stored in it. -/
theorem region_map_claims_set_le (t : TaskId) (region_id : Int) (w : MemRegionDdlWork)
    (m : List (Int × MemRegionDdlWork)) :
    region_map_claims t (AMap.set region_id w m) ≤ region_map_claims t m + unit_claim t w.region_info := by
  induction m with
  | nil => simp [AMap.set, region_map_claims]
  | cons x rest ih =>
    obtain ⟨k1, v1⟩ := x
    by_cases h1 : k1 = region_id
    · simp only [AMap.set, h1, if_true, region_map_claims, List.map_cons, List.sum_cons]
      omega
    · simp only [AMap.set, h1, if_false, region_map_claims, List.map_cons, List.sum_cons] at ih ⊢
      omega

/-- The units in memory that may be submitted, after the removal of the region maps of a table. -/
theorem memory_claims_erase_le (t : TaskId) (table_id : Int)
    (rd : List (Int × List (Int × MemRegionDdlWork))) :
    memory_claims t (AMap.erase table_id rd) ≤ memory_claims t rd := by
  induction rd with
  | nil => simp [AMap.erase, memory_claims]
  | cons x rest ih =>
    obtain ⟨k1, v1⟩ := x
    by_cases h1 : k1 = table_id
    · simp only [AMap.erase, h1, if_true, memory_claims, List.map_cons, List.sum_cons] at ih ⊢
      omega
    · simp only [AMap.erase, h1, if_false, memory_claims, List.map_cons, List.sum_cons] at ih ⊢
      omega

/-- The method `execute_task` in terms of the scan, with the stored unit and the queue assignment named. -/
theorem execute_task_push (fl : Flags) (now : Int) (db : DBManager) (w : MemRegionDdlWork) :
    DBManager.execute_task fl now db w =
      match (scan_order db).find? (eligible fl db) with
      | some e =>
        (0, DBManager.submitted now w,
         { db.selected e.1 with
           common_task_map := AMap.update e.1
             (CommonTaskMap.push (task_id_of w.region_info) (DBManager.submitted now w))
             (db.selected e.1).common_task_map })
      | none => (-1, { w with update_timestamp := now }, db) := by
  rw [execute_task_scan]
  rfl

/-- The effect of `execute_task` on the queues: at most one more slot, for the task id of the unit. -/
theorem execute_task_effect (fl : Flags) (now : Int) (db : DBManager) (w : MemRegionDdlWork)
    (hk : queue_keys_ok db.common_task_map) :
    ((DBManager.execute_task fl now db w).1 = 0 ∧
      (DBManager.execute_task fl now db w).2.1.region_info
        = { w.region_info with retry_time := w.region_info.retry_time + 1 } ∧
      queue_keys_ok (DBManager.execute_task fl now db w).2.2.common_task_map ∧
      ∀ t, queue_count t (DBManager.execute_task fl now db w).2.2.common_task_map
        ≤ queue_count t db.common_task_map + (if task_id_of w.region_info = t then 1 else 0)) ∨
    ((DBManager.execute_task fl now db w).1 ≠ 0 ∧
      (DBManager.execute_task fl now db w).2.1.region_info = w.region_info ∧
      (DBManager.execute_task fl now db w).2.2 = db) := by
  rw [execute_task_push]
  rcases hfind : (scan_order db).find? (eligible fl db) with _ | e
  · right
    refine ⟨?_, rfl, rfl⟩
    simp
  · left
    have hsel_ok : queue_keys_ok (db.selected e.1).common_task_map := by
      unfold DBManager.selected
      by_cases hc : AMap.contains e.1 db.common_task_map = true
      · rw [if_pos hc]; exact hk
      · rw [if_neg hc]
        apply AMap.forall_mem_set (fun x : String × CommonTaskMap =>
          (∀ y ∈ x.2.to_do_task_map, task_id_of y.2.region_info = y.1) ∧
          (∀ y ∈ x.2.doing_task_map, task_id_of y.2.region_info = y.1)) _ _ _ hk
        simp
    have hsel_count : ∀ t, queue_count t (db.selected e.1).common_task_map
        ≤ queue_count t db.common_task_map := by
      intro t
      unfold DBManager.selected
      by_cases hc : AMap.contains e.1 db.common_task_map = true
      · rw [if_pos hc]
      · rw [if_neg hc]
        have := queue_count_set_le t e.1 {} db.common_task_map
        simpa [CommonTaskMap.slots, AMap.key_count] using this
    refine ⟨rfl, rfl, ?_, ?_⟩
    · simp only
      apply AMap.forall_mem_update (fun x : String × CommonTaskMap =>
          (∀ y ∈ x.2.to_do_task_map, task_id_of y.2.region_info = y.1) ∧
          (∀ y ∈ x.2.doing_task_map, task_id_of y.2.region_info = y.1)) _ _ _ hsel_ok
      intro q hq
      have hq_ok := hsel_ok _ (AMap.mem_of_find _ _ _ hq)
      refine ⟨?_, hq_ok.2⟩
      intro y hy
      rcases AMap.mem_set _ _ _ y hy with h | h
      · subst h; rfl
      · exact hq_ok.1 y h
    · intro t
      simp only
      have hc := selected_contains db e.1
      unfold AMap.contains at hc
      rcases hq : AMap.find e.1 (db.selected e.1).common_task_map with _ | q
      · rw [hq] at hc; simp at hc
      · have h1 := queue_count_update t e.1
          (CommonTaskMap.push (task_id_of w.region_info) (DBManager.submitted now w))
          (db.selected e.1).common_task_map q hq
        have h2 := AMap.key_count_set_le (task_id_of w.region_info) t
          (DBManager.submitted now w) q.to_do_task_map
        have h3 := hsel_count t
        simp only [CommonTaskMap.slots, CommonTaskMap.push] at h1
        omega

/-- The counter of submitted units is kept apart from the region maps. -/
theorem increase_doing_work_number_region (d : DDLManager) (table_id : Int) :
    (d.increase_doing_work_number table_id).2.region_ddlwork = d.region_ddlwork := by
  unfold DDLManager.increase_doing_work_number
  rcases AMap.find table_id d.table_ddl_mem with _ | m <;> rfl

/-- The admission stage of the callback trades the claim of an Idle unit for at most one queue slot. -/
theorem idle_stage_load (fl : Flags) (now table_id : Int) (region_size : Nat) (c : TraverseCtx)
    (w : MemRegionDdlWork) (hk : queue_keys_ok c.db.common_task_map) :
    queue_keys_ok (add_index_call_idle fl now table_id region_size c w).2.2.db.common_task_map ∧
    (add_index_call_idle fl now table_id region_size c w).2.2.ddl.region_ddlwork
      = c.ddl.region_ddlwork ∧
    ∀ t, queue_count t (add_index_call_idle fl now table_id region_size c w).2.2.db.common_task_map
        + unit_claim t (add_index_call_idle fl now table_id region_size c w).2.1.region_info
      ≤ queue_count t c.db.common_task_map + unit_claim t w.region_info := by
  unfold add_index_call_idle
  by_cases hst : w.region_info.status = DdlWorkStatus.DdlWorkIdle
  · simp only [hst, if_true]
    rcases execute_task_effect fl now c.db w hk with ⟨h0, hw, hok, hcount⟩ | ⟨h0, hw, hdb⟩
    · rcases hex : DBManager.execute_task fl now c.db w with ⟨ret, w1, db1⟩
      rw [hex] at h0 hw hok hcount
      simp only at h0 hw hok hcount
      simp only [h0, if_true]
      rcases hinc : c.ddl.increase_doing_work_number table_id with ⟨n, ddl1⟩
      have hreg : ddl1.region_ddlwork = c.ddl.region_ddlwork := by
        have := increase_doing_work_number_region c.ddl table_id
        rw [hinc] at this; exact this
      have hclaim : ∀ t, unit_claim t (w1.set_status DdlWorkStatus.DdlWorkDoing).region_info = 0 := by
        intro t
        apply unit_claim_of_status <;> simp [MemRegionDdlWork.set_status]
      have hbound : ∀ t, queue_count t db1.common_task_map ≤
          queue_count t c.db.common_task_map + unit_claim t w.region_info := by
        intro t
        rw [unit_claim_of_admissible t w.region_info (Or.inl hst)]
        exact hcount t
      simp only
      split_ifs
      · exact ⟨hok, hreg, fun t => by rw [hclaim]; exact hbound t⟩
      · exact ⟨hok, hreg, fun t => by rw [hclaim]; exact hbound t⟩
      · exact ⟨hok, hreg, fun t => by rw [hclaim]; exact hbound t⟩
    · rcases hex : DBManager.execute_task fl now c.db w with ⟨ret, w1, db1⟩
      rw [hex] at h0 hw hdb
      simp only at h0 hw hdb
      simp only [h0, if_false]
      subst hdb
      refine ⟨hk, by first | rfl | trivial, fun t => ?_⟩
      rw [hw]
  · simp only [hst, if_false]
    exact ⟨hk, by first | rfl | trivial, fun t => le_refl _⟩

/-- The retry stage of the callback trades the claim of a Fail unit for at most one queue slot. -/
theorem fail_stage_load (fl : Flags) (now table_id : Int) (region_size : Nat) (c : TraverseCtx)
    (w : MemRegionDdlWork) (hk : queue_keys_ok c.db.common_task_map) :
    queue_keys_ok (add_index_call_fail fl now table_id region_size c w).2.2.db.common_task_map ∧
    (add_index_call_fail fl now table_id region_size c w).2.2.ddl.region_ddlwork
      = c.ddl.region_ddlwork ∧
    ∀ t, queue_count t (add_index_call_fail fl now table_id region_size c w).2.2.db.common_task_map
        + unit_claim t (add_index_call_fail fl now table_id region_size c w).2.1.region_info
      ≤ queue_count t c.db.common_task_map + unit_claim t w.region_info := by
  unfold add_index_call_fail
  by_cases hst : w.region_info.status = DdlWorkStatus.DdlWorkFail
  · simp only [hst, if_true]
    by_cases hretry : w.region_info.retry_time < fl.max_ddl_retry_time
    · simp only [hretry, if_true]
      rcases execute_task_effect fl now c.db w hk with ⟨h0, hw, hok, hcount⟩ | ⟨h0, hw, hdb⟩
      · rcases hex : DBManager.execute_task fl now c.db w with ⟨ret, w1, db1⟩
        rw [hex] at h0 hw hok hcount
        simp only at h0 hw hok hcount
        simp only [h0, if_true]
        rcases hinc : c.ddl.increase_doing_work_number table_id with ⟨n, ddl1⟩
        have hreg : ddl1.region_ddlwork = c.ddl.region_ddlwork := by
          have := increase_doing_work_number_region c.ddl table_id
          rw [hinc] at this; exact this
        have hclaim : ∀ t, unit_claim t (w1.set_status DdlWorkStatus.DdlWorkDoing).region_info = 0 := by
          intro t
          apply unit_claim_of_status <;> simp [MemRegionDdlWork.set_status]
        have hbound : ∀ t, queue_count t db1.common_task_map ≤
            queue_count t c.db.common_task_map + unit_claim t w.region_info := by
          intro t
          rw [unit_claim_of_admissible t w.region_info (Or.inr hst)]
          exact hcount t
        simp only
        split_ifs
        · exact ⟨hok, hreg, fun t => by rw [hclaim]; exact hbound t⟩
        · exact ⟨hok, hreg, fun t => by rw [hclaim]; exact hbound t⟩
      · rcases hex : DBManager.execute_task fl now c.db w with ⟨ret, w1, db1⟩
        rw [hex] at h0 hw hdb
        simp only at h0 hw hdb
        simp only [h0, if_false]
        subst hdb
        refine ⟨hk, by first | rfl | trivial, fun t => ?_⟩
        rw [hw]
    · simp only [hretry, if_false]
      exact ⟨hk, by first | rfl | trivial, fun t => le_refl _⟩
  · simp only [hst, if_false]
    split_ifs
    · exact ⟨hk, rfl, fun t => le_refl _⟩
    · exact ⟨hk, rfl, fun t => le_refl _⟩

/-- One call of the callback trades the claim of the unit for at most one queue slot. -/
theorem add_index_call_load (fl : Flags) (now table_id : Int) (region_size : Nat) (c : TraverseCtx)
    (w : MemRegionDdlWork) (hk : queue_keys_ok c.db.common_task_map) :
    queue_keys_ok (add_index_call fl now table_id region_size c w).2.2.db.common_task_map ∧
    (add_index_call fl now table_id region_size c w).2.2.ddl.region_ddlwork = c.ddl.region_ddlwork ∧
    ∀ t, queue_count t (add_index_call fl now table_id region_size c w).2.2.db.common_task_map
        + unit_claim t (add_index_call fl now table_id region_size c w).2.1.region_info
      ≤ queue_count t c.db.common_task_map + unit_claim t w.region_info := by
  obtain ⟨hk1, hr1, hc1⟩ := idle_stage_load fl now table_id region_size c w hk
  unfold add_index_call
  rcases h1 : add_index_call_idle fl now table_id region_size c w with ⟨b1, w1, c1⟩
  rw [h1] at hk1 hr1 hc1
  simp only at hk1 hr1 hc1
  cases b1 with
  | false => exact ⟨hk1, hr1, hc1⟩
  | true =>
    simp only
    have hwait := wait_stage_spec c1 w1
    have hk1' : queue_keys_ok (add_index_call_wait c1 w1).db.common_task_map := by
      rw [hwait.2.2.1]; exact hk1
    obtain ⟨hk2, hr2, hc2⟩ := fail_stage_load fl now table_id region_size
      (add_index_call_wait c1 w1) w1 hk1'
    rcases h2 : add_index_call_fail fl now table_id region_size (add_index_call_wait c1 w1) w1
      with ⟨b2, w2, c2⟩
    rw [h2] at hk2 hr2 hc2
    simp only at hk2 hr2 hc2
    rw [hwait.2.2.1] at hc2
    rw [hwait.2.2.2.1] at hr2
    cases b2 with
    | false =>
      simp only
      exact ⟨hk2, hr2.trans hr1, fun t => le_trans (hc2 t) (hc1 t)⟩
    | true =>
      simp only
      unfold add_index_call_rollback
      split_ifs
      · exact ⟨hk2, hr2.trans hr1, fun t => le_trans (hc2 t) (hc1 t)⟩
      · exact ⟨hk2, hr2.trans hr1, fun t => le_trans (hc2 t) (hc1 t)⟩

/-- The traversal of a region map trades claims of its units for at most as many queue slots. -/
theorem traverse_add_index_load (fl : Flags) (now table_id : Int) (region_size : Nat) :
    ∀ (l : List (Int × MemRegionDdlWork)) (c : TraverseCtx), queue_keys_ok c.db.common_task_map →
      queue_keys_ok (traverse_with_early_return (add_index_call fl now table_id region_size) c l
        ).2.db.common_task_map ∧
      (traverse_with_early_return (add_index_call fl now table_id region_size) c l).2.ddl.region_ddlwork
        = c.ddl.region_ddlwork ∧
      ∀ t, queue_count t (traverse_with_early_return (add_index_call fl now table_id region_size) c l
            ).2.db.common_task_map
          + region_map_claims t
              (traverse_with_early_return (add_index_call fl now table_id region_size) c l).1
        ≤ queue_count t c.db.common_task_map + region_map_claims t l := by
  intro l
  induction l with
  | nil => intro c hk; exact ⟨hk, rfl, fun t => le_refl _⟩
  | cons x rest ih =>
    intro c hk
    obtain ⟨k, w⟩ := x
    obtain ⟨hk1, hr1, hc1⟩ := add_index_call_load fl now table_id region_size c w hk
    simp only [traverse_with_early_return]
    rcases h1 : add_index_call fl now table_id region_size c w with ⟨b1, w1, c1⟩
    rw [h1] at hk1 hr1 hc1
    simp only at hk1 hr1 hc1
    cases b1 with
    | false =>
      simp only
      refine ⟨hk1, hr1, fun t => ?_⟩
      have := hc1 t
      simp only [region_map_claims, List.map_cons, List.sum_cons] at this ⊢
      omega
    | true =>
      simp only
      obtain ⟨hk2, hr2, hc2⟩ := ih c1 hk1
      refine ⟨hk2, hr2.trans hr1, fun t => ?_⟩
      have h3 := hc1 t
      have h4 := hc2 t
      simp only [region_map_claims, List.map_cons, List.sum_cons] at h3 h4 ⊢
      omega

/-- The job record is kept apart from the region maps. -/
theorem update_table_ddl_mem_region (d : DDLManager) (g : DdlWorkInfo) :
    (d.update_table_ddl_mem g).region_ddlwork = d.region_ddlwork := rfl

/-- A step that leaves the queues, the region maps and the pending log alone is safe. -/
theorem safe_step_of_same (s s1 : MetaServer)
    (h1 : s1.db.common_task_map = s.db.common_task_map)
    (h2 : s1.ddl.region_ddlwork = s.ddl.region_ddlwork)
    (h3 : s1.raft_pending = s.raft_pending) : safe_step s s1 := by
  intro hk
  unfold task_load
  rw [h1, h2, h3]
  exact ⟨hk, fun t => le_refl _⟩

/-- The case `IS_WRITE_LOCAL` of an add-index tick is safe. -/
theorem add_index_write_local_safe (fl : Flags) (now : Int) (s : MetaServer) (g : DdlWorkInfo)
    (region_size : Nat) :
    safe_step s (DDLManager.add_index_write_local fl now s g region_size).2.2 := by
  simp only [DDLManager.add_index_write_local]
  rcases hm : AMap.find g.table_id s.ddl.region_ddlwork with _ | region_map
  · exact safe_step_of_same s s rfl rfl rfl
  · simp only
    by_cases h1 : s.ddl.get_doing_work_number g.table_id = -1
    · rw [if_pos h1]
      exact safe_step_of_same s s rfl rfl rfl
    · rw [if_neg h1]
      by_cases h2 : over_region_limit fl region_size (s.ddl.get_doing_work_number g.table_id) = true
      · rw [if_pos h2]
        exact safe_step_of_same s s rfl rfl rfl
      · rw [if_neg h2]
        intro hk
        obtain ⟨hk1, hr1, hc1⟩ := traverse_add_index_load fl now g.table_id region_size region_map
          { g_ddl_work := g, db := s.db, ddl := s.ddl } hk
        rcases htr : traverse_with_early_return (add_index_call fl now g.table_id region_size)
          { g_ddl_work := g, db := s.db, ddl := s.ddl } region_map with ⟨region_map1, c⟩
        rw [htr] at hk1 hr1 hc1
        simp only at hk1 hr1 hc1
        simp only
        have hload : ∀ t, queue_count t c.db.common_task_map
            + memory_claims t (AMap.update g.table_id (fun _ => region_map1) c.ddl.region_ddlwork)
            ≤ queue_count t s.db.common_task_map + memory_claims t s.ddl.region_ddlwork := by
          intro t
          rw [hr1]
          have h1 := memory_claims_update t g.table_id s.ddl.region_ddlwork region_map region_map1 hm
          have h2 := hc1 t
          omega
        by_cases hd : c.done = true
        · rw [if_pos hd]
          refine ⟨hk1, fun t => ?_⟩
          have := hload t
          simp only [task_load, update_table_ddl_mem_region]
          omega
        · rw [if_neg hd]
          refine ⟨hk1, fun t => ?_⟩
          have := hload t
          simp only [task_load]
          omega

/-- A step that leaves the queues and the region maps alone and adds no claiming request is safe. -/
theorem safe_step_of_log (s s1 : MetaServer)
    (h1 : s1.db.common_task_map = s.db.common_task_map)
    (h2 : s1.ddl.region_ddlwork = s.ddl.region_ddlwork)
    (h3 : ∀ t, pending_claims t s1.raft_pending ≤ pending_claims t s.raft_pending) :
    safe_step s s1 := by
  intro hk
  unfold task_load
  rw [h1, h2]
  refine ⟨hk, fun t => ?_⟩
  have := h3 t
  omega

/-- Safe steps compose. -/
theorem safe_step_trans (s s1 s2 : MetaServer) (h1 : safe_step s s1) (h2 : safe_step s1 s2) :
    safe_step s s2 := by
  intro hk
  obtain ⟨hk1, hl1⟩ := h1 hk
  obtain ⟨hk2, hl2⟩ := h2 hk1
  exact ⟨hk2, fun t => le_trans (hl2 t) (hl1 t)⟩

/-- The method `update_txn_ready` touches the broadcast map and the barrier records only. -/
theorem update_txn_ready_same (s : MetaServer) (table_id : Int) :
    (DBManager.update_txn_ready s table_id).db.common_task_map = s.db.common_task_map ∧
    (DBManager.update_txn_ready s table_id).ddl.region_ddlwork = s.ddl.region_ddlwork ∧
    (DBManager.update_txn_ready s table_id).raft_pending = s.raft_pending := by
  unfold DBManager.update_txn_ready
  rcases AMap.find table_id s.db.broadcast_task_map with _ | task
  · exact ⟨rfl, rfl, rfl⟩
  · simp only
    split_ifs
    · exact ⟨rfl, rfl, rfl⟩
    · exact ⟨rfl, rfl, rfl⟩

/-- The case `IS_WRITE_ONLY` of an add-index tick is safe. -/
theorem add_index_write_only_safe (now : Int) (s : MetaServer) (g : DdlWorkInfo) :
    safe_step s (DDLManager.add_index_write_only now s g).2.2 := by
  obtain ⟨h1, h2, h3⟩ := update_txn_ready_same s g.table_id
  simp only [DDLManager.add_index_write_only]
  split_ifs
  · exact safe_step_of_same _ _ rfl rfl rfl
  · exact safe_step_of_same _ _ h1 h2 h3
  · exact safe_step_of_same _ _ h1 h2 h3
  · exact safe_step_of_same _ _ h1 h2 h3

/-- A dwell-gated advance of an add-index tick is safe. -/
theorem add_index_advance_safe (fl : Flags) (now : Int) (s : MetaServer) (g : DdlWorkInfo)
    (current_state next : IndexState) :
    safe_step s (DDLManager.add_index_advance fl now s g current_state next).2.2 := by
  unfold DDLManager.add_index_advance
  rcases s.ddl.update_policy.should_change fl now g.table_id current_state with ⟨b, p⟩
  cases b <;> exact safe_step_of_same _ _ rfl rfl rfl

/-- An add-index tick is safe. -/
theorem add_index_global_ddlwork_safe (fl : Flags) (now : Int) (s : MetaServer) (g : DdlWorkInfo) :
    safe_step s (DDLManager.add_index_global_ddlwork fl now s g).2.2 := by
  unfold DDLManager.add_index_global_ddlwork
  rcases s.table_manager.get_index_state g.table_id g.index_id with _ | current_state
  · exact safe_step_of_same _ _ rfl rfl rfl
  · simp only
    by_cases herr : g.errcode = ErrCode.EXEC_FAIL
    · rw [if_pos herr]
      exact safe_step_of_same _ _ rfl rfl rfl
    · rw [if_neg herr]
      cases current_state with
      | IS_NONE => exact add_index_advance_safe fl now s g _ _
      | IS_DELETE_ONLY => exact add_index_advance_safe fl now s g _ _
      | IS_WRITE_ONLY => exact add_index_write_only_safe now s g
      | IS_WRITE_LOCAL => exact add_index_write_local_safe fl now s g _
      | IS_PUBLIC => exact safe_step_of_same _ _ rfl rfl rfl

/-- A dwell-gated step of a drop-index tick is safe. -/
theorem drop_index_step_safe (fl : Flags) (now : Int) (s : MetaServer) (g : DdlWorkInfo)
    (current_state next : IndexState) :
    safe_step s (DDLManager.drop_index_step fl now s g current_state next).2.2 := by
  unfold DDLManager.drop_index_step
  rcases s.ddl.update_policy.should_change fl now g.table_id current_state with ⟨b, p⟩
  cases b <;> exact safe_step_of_same _ _ rfl rfl rfl

/-- The case `IS_NONE` of a drop-index tick is safe. -/
theorem drop_index_none_safe (fl : Flags) (now : Int) (s : MetaServer) (g : DdlWorkInfo) :
    safe_step s (DDLManager.drop_index_none fl now s g).2.2 := by
  simp only [DDLManager.drop_index_none]
  rcases s.ddl.update_policy.should_change fl now g.table_id IndexState.IS_NONE with ⟨b, p⟩
  cases b with
  | false => exact safe_step_of_same _ _ rfl rfl rfl
  | true =>
    refine safe_step_of_log _ _ ?_ ?_ ?_
    · rfl
    · rfl
    · intro t
      simp [DDLManager.apply_raft, pending_claims, request_claim]

/-- A drop-index tick is safe. -/
theorem drop_index_global_ddlwork_safe (fl : Flags) (now : Int) (s : MetaServer) (g : DdlWorkInfo) :
    safe_step s (DDLManager.drop_index_global_ddlwork fl now s g).2.2 := by
  unfold DDLManager.drop_index_global_ddlwork
  rcases s.table_manager.get_index_state g.table_id g.index_id with _ | current_state
  · exact safe_step_of_same _ _ rfl rfl rfl
  · simp only
    by_cases herr : g.errcode = ErrCode.EXEC_FAIL
    · rw [if_pos herr]
      exact safe_step_of_same _ _ rfl rfl rfl
    · rw [if_neg herr]
      cases current_state with
      | IS_NONE => exact drop_index_none_safe fl now s g
      | IS_DELETE_ONLY => exact drop_index_step_safe fl now s g _ _
      | IS_WRITE_ONLY => exact drop_index_step_safe fl now s g _ _
      | IS_WRITE_LOCAL => exact drop_index_step_safe fl now s g _ _
      | IS_PUBLIC => exact drop_index_step_safe fl now s g _ _

/-- A controller visit of a job is safe. -/
theorem work_one_safe (fl : Flags) (now : Int) (s : MetaServer) (table_id : Int) :
    safe_step s (DDLManager.work_one fl now s table_id) := by
  unfold DDLManager.work_one
  rcases AMap.find table_id s.ddl.table_ddl_mem with _ | mem
  · exact safe_step_of_same _ _ rfl rfl rfl
  · simp only
    by_cases hend : mem.work_info.errcode = ErrCode.SUCCESS ∨ mem.work_info.errcode = ErrCode.EXEC_FAIL
    · rw [if_pos hend]
      have hlog : ∀ t, pending_claims t (s.raft_pending ++
          [({ op_type := OpType.OP_DELETE_DDLWORK, ddlwork_info := some mem.work_info,
              region_ddl_work := none, global_ddl_table_id := 0 } : MetaManagerRequest)])
          ≤ pending_claims t s.raft_pending := by
        intro t
        simp [pending_claims, request_claim]
      split_ifs
      · exact safe_step_of_log _ _ rfl rfl hlog
      · exact safe_step_of_log _ _ rfl rfl hlog
    · rw [if_neg hend]
      by_cases hsus : mem.work_info.suspend = true
      · rw [if_pos hsus]
        exact safe_step_of_same _ _ rfl rfl rfl
      · rw [if_neg hsus]
        cases hop : mem.work_info.op_type with
        | OP_DROP_INDEX => exact drop_index_global_ddlwork_safe fl now s mem.work_info
        | OP_ADD_INDEX => exact add_index_global_ddlwork_safe fl now s mem.work_info
        | OP_UPDATE_GLOBAL_REGION_DDL_WORK => exact safe_step_of_same _ _ rfl rfl rfl
        | OP_DELETE_DDLWORK => exact safe_step_of_same _ _ rfl rfl rfl
        | OP_SUSPEND_DDL_WORK => exact safe_step_of_same _ _ rfl rfl rfl
        | OP_RESTART_DDL_WORK => exact safe_step_of_same _ _ rfl rfl rfl
        | OP_REMOVE_GLOBAL_INDEX_DATA => exact safe_step_of_same _ _ rfl rfl rfl

/-- The slots of `t` after an in-place update of a queue entry, with the slots of the entry before and after given. -/
theorem queue_count_update_eq (t : TaskId) (a : String) (f : CommonTaskMap → CommonTaskMap)
    (cm : List (String × CommonTaskMap)) (q : CommonTaskMap) (n0 n1 : Nat)
    (hq : AMap.find a cm = some q) (h0 : q.slots t = n0) (h1 : (f q).slots t = n1) :
    queue_count t (AMap.update a f cm) + n0 = queue_count t cm + n1 := by
  rw [← h0, ← h1]
  exact queue_count_update t a f cm q hq

/-- The counter of submitted units is kept apart from the region maps. -/
theorem decrease_doing_work_number_region (d : DDLManager) (table_id : Int) :
    (d.decrease_doing_work_number table_id).2.region_ddlwork = d.region_ddlwork := by
  unfold DDLManager.decrease_doing_work_number
  rcases AMap.find table_id d.table_ddl_mem with _ | m <;> rfl

/-- The entries of the doing map after the drain loop come from the doing map or from the todo map. -/
theorem foldl_insert_new_mem (f : MemRegionDdlWork → MemRegionDdlWork) :
    ∀ (l d : List (TaskId × MemRegionDdlWork)),
      ∀ x ∈ l.foldl (fun d e => AMap.insert_new e.1 (f e.2) d) d,
        x ∈ d ∨ ∃ e ∈ l, x = (e.1, f e.2) := by
  intro l
  induction l with
  | nil => intro d x hx; exact Or.inl hx
  | cons y rest ih =>
    intro d x hx
    simp only [List.foldl_cons] at hx
    rcases ih _ x hx with h | ⟨e, he, hxe⟩
    · rcases AMap.mem_insert_new _ _ _ x h with h1 | h1
      · exact Or.inr ⟨y, List.mem_cons_self _ _, h1⟩
      · exact Or.inl h1
    · exact Or.inr ⟨e, List.mem_cons_of_mem _ he, hxe⟩

/-- The drain loop adds at most one doing entry under `t` per todo entry under `t`. -/
theorem foldl_insert_new_key_count (f : MemRegionDdlWork → MemRegionDdlWork) (t : TaskId) :
    ∀ (l d : List (TaskId × MemRegionDdlWork)),
      AMap.key_count t (l.foldl (fun d e => AMap.insert_new e.1 (f e.2) d) d)
        ≤ AMap.key_count t d + AMap.key_count t l := by
  intro l
  induction l with
  | nil => intro d; simp [AMap.key_count]
  | cons y rest ih =>
    intro d
    obtain ⟨k, w⟩ := y
    simp only [List.foldl_cons, AMap.key_count]
    have h1 := ih (AMap.insert_new k (f w) d)
    have h2 := AMap.key_count_insert_new_le k t (f w) d
    omega

/-- The requests of the drain loop claim nothing: their units have status Doing. -/
theorem pending_claims_assignments (t : TaskId) (address : String)
    (l : List (TaskId × MemRegionDdlWork)) :
    pending_claims t (l.map (fun e => update_request (assignment_of address e.2))) = 0 := by
  induction l with
  | nil => simp [pending_claims]
  | cons y rest ih =>
    simp only [pending_claims, List.map_cons, List.sum_cons] at ih ⊢
    rw [ih, request_claim_update_request, unit_claim_of_status]
    · simp [assignment_of]
    · simp [assignment_of]

/-- The drain step is safe. -/
theorem drain_step_safe (now : Int) (address : String) (s : MetaServer)
    (response : BaikalHeartBeatResponse) :
    safe_step s (DBManager.drain_step now address s response).1 := by
  rcases hq : AMap.find address s.db.common_task_map with _ | q
  · unfold DBManager.drain_step
    simp only [hq]
    exact safe_step_of_same _ _ rfl rfl rfl
  · rw [drain_step_spec now address s response q hq]
    intro hk
    have hq_ok := hk _ (AMap.mem_of_find _ _ _ hq)
    constructor
    · simp only
      apply AMap.forall_mem_update (fun x : String × CommonTaskMap =>
          (∀ y ∈ x.2.to_do_task_map, task_id_of y.2.region_info = y.1) ∧
          (∀ y ∈ x.2.doing_task_map, task_id_of y.2.region_info = y.1)) _ _ _ hk
      intro q1 _
      refine ⟨by simp [drained_queue], ?_⟩
      intro y hy
      simp only [drained_queue] at hy
      rcases foldl_insert_new_mem (drained_unit now address) _ _ y hy with h | ⟨e, he, hye⟩
      · exact hq_ok.2 y h
      · subst hye
        exact hq_ok.1 e he
    · intro t
      have h2 := foldl_insert_new_key_count (drained_unit now address) t q.to_do_task_map
        q.doing_task_map
      have h1 := queue_count_update_eq t address (fun _ => drained_queue now address q)
        s.db.common_task_map q
        (AMap.key_count t q.to_do_task_map + AMap.key_count t q.doing_task_map)
        (AMap.key_count t (q.to_do_task_map.foldl
          (fun d e => AMap.insert_new e.1 (drained_unit now address e.2) d) q.doing_task_map))
        hq rfl (by simp [CommonTaskMap.slots, drained_queue, AMap.key_count])
      simp only [task_load, pending_claims_append, pending_claims_assignments]
      omega

/-- One report is safe. -/
theorem process_region_report_safe (now : Int) (s : MetaServer) (r : RegionDdlWork) :
    safe_step s (DBManager.process_region_report now s r) := by
  unfold DBManager.process_region_report
  rcases hq : AMap.find r.address s.db.common_task_map with _ | q
  · exact safe_step_of_same _ _ rfl rfl rfl
  · by_cases hst : r.status = DdlWorkStatus.DdlWorkDoing
    · simp only [hst, if_true]
      intro hk
      constructor
      · simp only
        apply AMap.forall_mem_update (fun x : String × CommonTaskMap =>
            (∀ y ∈ x.2.to_do_task_map, task_id_of y.2.region_info = y.1) ∧
            (∀ y ∈ x.2.doing_task_map, task_id_of y.2.region_info = y.1)) _ _ _ hk
        intro q1 hq1
        have hq_ok := hk _ (AMap.mem_of_find _ _ _ hq1)
        refine ⟨hq_ok.1, ?_⟩
        intro y hy
        rcases AMap.mem_update _ _ _ y hy with h | ⟨v, hv, hyv⟩
        · exact hq_ok.2 y h
        · subst hyv
          exact hq_ok.2 (_, v) hv
      · intro t
        have h1 := queue_count_update_eq t r.address
          (fun q => { q with doing_task_map := AMap.update (task_id_of r) (fun w => { w with update_timestamp := now }) q.doing_task_map })
          s.db.common_task_map q (q.slots t) (q.slots t) hq rfl
          (by simp [CommonTaskMap.slots, AMap.key_count_update])
        simp only [task_load]
        omega
    · by_cases hc : AMap.contains (task_id_of r) q.doing_task_map = true
      · simp only [hst, if_false, hc, if_true]
        rw [update_region_ddlwork_other s r hst]
        intro hk
        constructor
        · simp only
          apply AMap.forall_mem_update (fun x : String × CommonTaskMap =>
              (∀ y ∈ x.2.to_do_task_map, task_id_of y.2.region_info = y.1) ∧
              (∀ y ∈ x.2.doing_task_map, task_id_of y.2.region_info = y.1)) _ _ _ hk
          intro q1 hq1
          have hq_ok := hk _ (AMap.mem_of_find _ _ _ hq1)
          exact ⟨hq_ok.1, fun y hy => hq_ok.2 y (AMap.mem_of_mem_erase _ _ y hy)⟩
        · intro t
          have h2 := AMap.key_count_pos_of_contains _ _ hc
          have hp : pending_claims t (s.raft_pending ++ [update_request r])
              = pending_claims t s.raft_pending + unit_claim t r := by
            rw [pending_claims_append]
            simp [pending_claims, request_claim_update_request]
          simp only [task_load, hp, decrease_doing_work_number_region]
          by_cases ht : t = task_id_of r
          · subst ht
            have h3 := unit_claim_le_one (task_id_of r) r
            have h1 := queue_count_update_eq (task_id_of r) r.address
              (fun q => { q with doing_task_map := AMap.erase (task_id_of r) q.doing_task_map })
              s.db.common_task_map q
              (AMap.key_count (task_id_of r) q.to_do_task_map
                + AMap.key_count (task_id_of r) q.doing_task_map)
              (AMap.key_count (task_id_of r) q.to_do_task_map)
              hq rfl (by simp [CommonTaskMap.slots, AMap.key_count_erase])
            omega
          · have h3 : unit_claim t r = 0 := by
              unfold unit_claim
              have : ¬ task_id_of r = t := fun h => ht h.symm
              simp [this]
            have h1 := queue_count_update_eq t r.address
              (fun q => { q with doing_task_map := AMap.erase (task_id_of r) q.doing_task_map })
              s.db.common_task_map q (q.slots t) (q.slots t)
              hq rfl (by simp [CommonTaskMap.slots, AMap.key_count_erase, ht])
            omega
      · simp only [hst, if_false, hc]
        exact safe_step_of_same _ _ rfl rfl rfl

/-- The report loop is safe. -/
theorem apply_reports_safe (now : Int) (request : BaikalHeartBeatRequest) :
    ∀ s : MetaServer, safe_step s (DBManager.apply_reports now s request) := by
  unfold DBManager.apply_reports
  induction request.region_ddl_works with
  | nil => intro s; exact safe_step_of_same _ _ rfl rfl rfl
  | cons r rest ih =>
    intro s
    rw [List.foldl_cons]
    exact safe_step_trans _ _ _ (process_region_report_safe now s r) (ih _)

/-- One broadcast acknowledgement leaves the queues, the region maps and the pending log alone. -/
theorem process_broadcast_ack_same (now : Int) (address : String) (s : MetaServer) (i : DdlWorkInfo) :
    (DBManager.process_broadcast_ack now address s i).db.common_task_map = s.db.common_task_map ∧
    (DBManager.process_broadcast_ack now address s i).ddl.region_ddlwork = s.ddl.region_ddlwork ∧
    (DBManager.process_broadcast_ack now address s i).raft_pending = s.raft_pending := by
  simp only [DBManager.process_broadcast_ack]
  rcases AMap.find i.table_id s.db.broadcast_task_map with _ | txn
  · exact ⟨rfl, rfl, rfl⟩
  · simp only
    split_ifs <;> exact ⟨rfl, rfl, rfl⟩

/-- The broadcast part of a heartbeat is safe. -/
theorem process_broadcast_task_hearbeat_safe (now : Int) (address : String) (s : MetaServer)
    (request : BaikalHeartBeatRequest) (response : BaikalHeartBeatResponse) :
    safe_step s (DBManager.process_broadcast_task_hearbeat now address s request response).1 := by
  unfold DBManager.process_broadcast_task_hearbeat
  simp only
  generalize hs1 : ({ s with db := { s.db with broadcast_task_map :=
    (s.db.broadcast_task_map.map
      (fun e => (e.1, DBManager.broadcast_hand_out now address e.2))).map (fun e => (e.1, e.2.1)) } }
    : MetaServer) = s1
  have h1 : safe_step s s1 := by
    rw [← hs1]
    exact safe_step_of_same _ _ rfl rfl rfl
  apply safe_step_trans _ _ _ h1
  clear hs1 h1
  induction request.ddl_works generalizing s1 with
  | nil => exact safe_step_of_same _ _ rfl rfl rfl
  | cons i rest ih =>
    rw [List.foldl_cons]
    obtain ⟨h1, h2, h3⟩ := process_broadcast_ack_same now address s1 i
    exact safe_step_trans _ _ _ (safe_step_of_same _ _ h1 h2 h3) (ih _)

/-- A whole heartbeat is safe. -/
theorem process_baikal_heartbeat_safe (now : Int) (address : String) (s : MetaServer)
    (request : BaikalHeartBeatRequest) (response : BaikalHeartBeatResponse) :
    safe_step s (DBManager.process_baikal_heartbeat now address s request response).1 := by
  unfold DBManager.process_baikal_heartbeat
  by_cases hcan : request.can_do_ddlwork = true
  · simp only [hcan, Bool.not_true, Bool.false_eq_true, if_false]
    have h1 : safe_step s
        { s with db := DBManager.update_baikaldb_info now s.db address request.physical_room } :=
      safe_step_of_same _ _ rfl rfl rfl
    have h2 : safe_step
        { s with db := DBManager.update_baikaldb_info now s.db address request.physical_room }
        (DBManager.process_common_task_hearbeat now address
          { s with db := DBManager.update_baikaldb_info now s.db address request.physical_room }
          request response).1 := by
      rw [process_common_task_hearbeat_eq]
      unfold drain_then_reports
      exact safe_step_trans _ _ _ (drain_step_safe now address _ response)
        (apply_reports_safe now request _)
    exact safe_step_trans _ _ _ h1
      (safe_step_trans _ _ _ h2 (process_broadcast_task_hearbeat_safe now address _ request _))
  · simp only [hcan, Bool.not_false, if_true]
    exact safe_step_of_same _ _ rfl rfl rfl

/-- The Idle requests for a list of queue entries claim once per entry stored under `t`. -/
theorem pending_claims_idle_requests (t : TaskId) (l : List (TaskId × MemRegionDdlWork))
    (hl : ∀ x ∈ l, task_id_of x.2.region_info = x.1) :
    pending_claims t (l.map idle_request) = AMap.key_count t l := by
  induction l with
  | nil => simp [pending_claims, AMap.key_count]
  | cons y rest ih =>
    obtain ⟨k, w⟩ := y
    have h1 := ih (fun x hx => hl x (List.mem_cons_of_mem _ hx))
    have h2 : task_id_of w.region_info = k := hl (k, w) (List.mem_cons_self _ _)
    simp only [pending_claims, List.map_cons, List.sum_cons, AMap.key_count] at h1 ⊢
    rw [h1]
    have h3 : request_claim t (idle_request (k, w)) = if k = t then 1 else 0 := by
      unfold idle_request
      rw [request_claim_update_request, unit_claim_of_admissible _ _ (Or.inl rfl)]
      have : task_id_of { w.region_info with status := DdlWorkStatus.DdlWorkIdle } = k := h2
      rw [this]
    rw [h3]

/-- A filter keeps the queue-key property. -/
theorem keys_filter (p : TaskId × MemRegionDdlWork → Bool) (l : List (TaskId × MemRegionDdlWork))
    (hl : ∀ x ∈ l, task_id_of x.2.region_info = x.1) :
    ∀ x ∈ l.filter p, task_id_of x.2.region_info = x.1 :=
  fun x hx => hl x (List.mem_of_mem_filter hx)

/-- The timeout sweep of one worker trades each removed slot for one Idle request. -/
theorem timeout_swept_slots (fl : Flags) (now : Int) (t : TaskId) (q : CommonTaskMap)
    (hq : (∀ x ∈ q.to_do_task_map, task_id_of x.2.region_info = x.1) ∧
          (∀ x ∈ q.doing_task_map, task_id_of x.2.region_info = x.1)) :
    (timeout_swept fl now q).slots t + pending_claims t (timeout_requests fl now q) = q.slots t := by
  unfold timeout_swept timeout_requests CommonTaskMap.slots
  rw [pending_claims_append,
    pending_claims_idle_requests t _ (keys_filter _ _ hq.1),
    pending_claims_idle_requests t _ (keys_filter _ _ hq.2)]
  have h1 := AMap.key_count_filter_add t (task_timeout fl now) q.to_do_task_map
  have h2 := AMap.key_count_filter_add t (task_timeout fl now) q.doing_task_map
  simp only
  omega

/-- The timeout sweep over all workers trades each removed slot for one Idle request. -/
theorem timeout_sweep_count (fl : Flags) (now : Int) (t : TaskId) :
    ∀ cm : List (String × CommonTaskMap), queue_keys_ok cm →
      queue_count t (cm.map (fun e => (e.1, timeout_swept fl now e.2)))
        + pending_claims t (cm.map (fun e => timeout_requests fl now e.2)).flatten
        = queue_count t cm := by
  intro cm
  induction cm with
  | nil => intro _; simp [queue_count, pending_claims]
  | cons x rest ih =>
    intro hk
    have h1 := ih (fun e he => hk e (List.mem_cons_of_mem _ he))
    have h2 := timeout_swept_slots fl now t x.2 (hk x (List.mem_cons_self _ _))
    simp only [queue_count, List.map_cons, List.sum_cons, List.flatten_cons, pending_claims_append]
      at h1 ⊢
    omega

/-- The treatment of one faulty worker is safe. -/
theorem sweep_faulty_db_safe (s : MetaServer) (faulty_db : String) :
    safe_step s (DBManager.sweep_faulty_db s faulty_db) := by
  obtain ⟨mem, hs⟩ := sweep_faulty_db_shape s faulty_db
  rw [hs]
  intro hk
  constructor
  · simp only [MetaServer.with_queues, MetaServer.with_log]
    apply AMap.forall_mem_update (fun x : String × CommonTaskMap =>
        (∀ y ∈ x.2.to_do_task_map, task_id_of y.2.region_info = y.1) ∧
        (∀ y ∈ x.2.doing_task_map, task_id_of y.2.region_info = y.1)) _ _ _ hk
    intro q _
    simp
  · intro t
    simp only [task_load, MetaServer.with_queues, MetaServer.with_log, pending_claims_append]
    unfold faulty_requests
    rcases hq : AMap.find faulty_db s.db.common_task_map with _ | q
    · rw [AMap.update_of_find_none _ _ _ hq]
      simp [pending_claims]
    · have hq_ok := hk _ (AMap.mem_of_find _ _ _ hq)
      dsimp only at hq_ok
      have h1 := queue_count_update_eq t faulty_db
        (fun _ => ({ to_do_task_map := [], doing_task_map := [] } : CommonTaskMap))
        s.db.common_task_map q
        (AMap.key_count t q.to_do_task_map + AMap.key_count t q.doing_task_map) 0 hq rfl
        (by simp [CommonTaskMap.slots, AMap.key_count])
      simp only
      rw [pending_claims_append, pending_claims_idle_requests t _ hq_ok.1,
        pending_claims_idle_requests t _ hq_ok.2]
      omega

/-- The treatment of the faulty workers is safe. -/
theorem sweep_faulty_dbs_safe :
    ∀ (l : List String) (s : MetaServer), safe_step s (l.foldl DBManager.sweep_faulty_db s) := by
  intro l
  induction l with
  | nil => intro s; exact safe_step_of_same _ _ rfl rfl rfl
  | cons f rest ih =>
    intro s
    rw [List.foldl_cons]
    exact safe_step_trans _ _ _ (sweep_faulty_db_safe s f) (ih _)

/-- A sweeper pass is safe. -/
theorem init_pass_safe (fl : Flags) (now : Int) (s : MetaServer) :
    safe_step s (DBManager.init_pass fl now s) := by
  obtain ⟨mem, hpass⟩ := init_pass_shape fl now s
  rw [hpass]
  refine safe_step_trans _ _ _ ?_ (sweep_faulty_dbs_safe _ _)
  intro hk
  constructor
  · intro e he
    simp only [List.mem_map] at he
    obtain ⟨x, hx, rfl⟩ := he
    have := hk x hx
    exact ⟨keys_filter _ _ this.1, keys_filter _ _ this.2⟩
  · intro t
    have h1 := timeout_sweep_count fl now t s.db.common_task_map hk
    simp only [task_load, MetaServer.with_log, pending_claims_append]
    omega

/-- The applied region update is safe: the claim of the request becomes the claim of the stored unit. -/
theorem update_global_ddlwork_region_info_load (s : MetaServer) (work : RegionDdlWork) (t : TaskId) :
    (DDLManager.update_global_ddlwork_region_info s work).2.db.common_task_map = s.db.common_task_map ∧
    (DDLManager.update_global_ddlwork_region_info s work).2.raft_pending = s.raft_pending ∧
    memory_claims t (DDLManager.update_global_ddlwork_region_info s work).2.ddl.region_ddlwork
      ≤ memory_claims t s.ddl.region_ddlwork + unit_claim t work := by
  unfold DDLManager.update_global_ddlwork_region_info
  rcases hput : s.rocksdb.put_region work with ⟨ret, m⟩
  rcases hm : AMap.find work.table_id s.ddl.region_ddlwork with _ | region_map
  · simp only
    split_ifs
    · exact ⟨rfl, rfl, Nat.le_add_right _ _⟩
    · exact ⟨rfl, rfl, Nat.le_add_right _ _⟩
  · have h1 := memory_claims_update t work.table_id s.ddl.region_ddlwork region_map
      (AMap.set work.region_id { region_info := work } region_map) hm
    have h2 := region_map_claims_set_le t work.region_id { region_info := work } region_map
    simp only at h2 ⊢
    split_ifs
    · refine ⟨rfl, rfl, ?_⟩
      simp only
      omega
    · refine ⟨rfl, rfl, ?_⟩
      simp only
      omega

/-- The applied suspend or restart leaves the queues, the region maps and the pending log alone. -/
theorem update_ddl_status_same (s : MetaServer) (is_suspend : Bool) (table_id : Int) :
    (DDLManager.update_ddl_status s is_suspend table_id).2.db.common_task_map = s.db.common_task_map ∧
    (DDLManager.update_ddl_status s is_suspend table_id).2.ddl.region_ddlwork = s.ddl.region_ddlwork ∧
    (DDLManager.update_ddl_status s is_suspend table_id).2.raft_pending = s.raft_pending := by
  unfold DDLManager.update_ddl_status
  rcases s.ddl.get_ddl_mem table_id with _ | mem_info
  · exact ⟨rfl, rfl, rfl⟩
  · simp only
    rcases s.rocksdb.put_ddlwork_key table_id { mem_info with suspend := is_suspend } with ⟨ret, m⟩
    simp only
    split_ifs
    · exact ⟨rfl, rfl, rfl⟩
    · exact ⟨rfl, rfl, rfl⟩

/-- The slots of `t` after the queues of a finished job are cleared. -/
theorem clear_task_count (db : DBManager) (table_id : Int) (t : TaskId) :
    queue_count t (db.clear_task table_id).common_task_map ≤ queue_count t db.common_task_map := by
  unfold DBManager.clear_task
  simp only
  apply queue_count_map_le t
    (fun q => ({ to_do_task_map := q.to_do_task_map.filter (fun e => !decide (e.1.1 = table_id)),
                 doing_task_map := q.doing_task_map.filter (fun e => !decide (e.1.1 = table_id)) }
               : CommonTaskMap))
  intro e _
  have h1 := AMap.key_count_filter_le t (fun e : TaskId × MemRegionDdlWork => !decide (e.1.1 = table_id))
    e.2.to_do_task_map
  have h2 := AMap.key_count_filter_le t (fun e : TaskId × MemRegionDdlWork => !decide (e.1.1 = table_id))
    e.2.doing_task_map
  simp only [CommonTaskMap.slots]
  omega

/-- The applied deletion of a job is safe. -/
theorem delete_ddlwork_safe (s : MetaServer) (request : MetaManagerRequest) :
    safe_step s (DDLManager.delete_ddlwork s request) := by
  intro hk
  obtain ⟨table_id, hdel⟩ : ∃ table_id, DDLManager.delete_ddlwork s request =
      { (DDLManager.delete_global_ddlwork_info
          (DDLManager.delete_global_ddlwork_region_info s table_id) table_id).2 with
        db := (DDLManager.delete_global_ddlwork_info
          (DDLManager.delete_global_ddlwork_region_info s table_id) table_id).2.db.clear_task table_id } :=
    ⟨_, rfl⟩
  rw [hdel]
  have hsame : (DDLManager.delete_global_ddlwork_info
      (DDLManager.delete_global_ddlwork_region_info s table_id) table_id).2.db = s.db ∧
      (DDLManager.delete_global_ddlwork_info
        (DDLManager.delete_global_ddlwork_region_info s table_id) table_id).2.ddl.region_ddlwork
        = AMap.erase table_id s.ddl.region_ddlwork ∧
      (DDLManager.delete_global_ddlwork_info
        (DDLManager.delete_global_ddlwork_region_info s table_id) table_id).2.raft_pending
        = s.raft_pending := by
    unfold DDLManager.delete_global_ddlwork_info DDLManager.delete_global_ddlwork_region_info
    simp only
    split_ifs <;> exact ⟨rfl, rfl, rfl⟩
  obtain ⟨h1, h2, h3⟩ := hsame
  simp only
  constructor
  · rw [h1]
    unfold DBManager.clear_task
    intro e he
    simp only [List.mem_map] at he
    obtain ⟨x, hx, rfl⟩ := he
    have := hk x hx
    exact ⟨keys_filter _ _ this.1, keys_filter _ _ this.2⟩
  · intro t
    simp only [task_load]
    rw [h1, h2, h3]
    have h4 := clear_task_count s.db table_id t
    have h5 := memory_claims_erase_le t table_id s.ddl.region_ddlwork
    omega

/-- The delivery of the oldest pending request is safe. -/
theorem on_apply_safe (s : MetaServer) : safe_step s s.on_apply := by
  unfold MetaServer.on_apply
  rcases hp : s.raft_pending with _ | ⟨request, rest⟩
  · exact safe_step_of_same _ _ rfl rfl rfl
  · simp only
    have hdrop : ∀ t, pending_claims t s.raft_pending = request_claim t request + pending_claims t rest := by
      intro t
      rw [hp]
      simp [pending_claims]
    have hpop : safe_step s { s with raft_pending := rest } := by
      refine safe_step_of_log _ _ rfl rfl ?_
      intro t
      rw [hdrop t]
      simp
    cases hop : request.op_type with
    | OP_DELETE_DDLWORK =>
      simp only
      exact safe_step_trans _ _ _ hpop (delete_ddlwork_safe _ request)
    | OP_UPDATE_GLOBAL_REGION_DDL_WORK =>
      simp only [DDLManager.raft_update_info, hop]
      intro hk
      constructor
      · rw [(update_global_ddlwork_region_info_load { s with raft_pending := rest }
          (request.region_ddl_work.getD RegionDdlWork.unset) (0, 0)).1]
        exact hk
      · intro t
        obtain ⟨h1, h2, h3⟩ := update_global_ddlwork_region_info_load { s with raft_pending := rest }
          (request.region_ddl_work.getD RegionDdlWork.unset) t
        simp only [task_load]
        rw [h1, h2, hdrop t]
        have h4 : request_claim t request
            = unit_claim t (request.region_ddl_work.getD RegionDdlWork.unset) := by
          simp [request_claim, hop]
        simp only at h3 ⊢
        omega
    | OP_SUSPEND_DDL_WORK =>
      simp only [DDLManager.raft_update_info, hop]
      obtain ⟨h1, h2, h3⟩ := update_ddl_status_same { s with raft_pending := rest } true
        request.global_ddl_table_id
      exact safe_step_trans _ _ _ hpop (safe_step_of_same _ _ h1 h2 h3)
    | OP_RESTART_DDL_WORK =>
      simp only [DDLManager.raft_update_info, hop]
      obtain ⟨h1, h2, h3⟩ := update_ddl_status_same { s with raft_pending := rest } false
        request.global_ddl_table_id
      exact safe_step_trans _ _ _ hpop (safe_step_of_same _ _ h1 h2 h3)
    | OP_ADD_INDEX => exact hpop
    | OP_DROP_INDEX => exact hpop
    | OP_REMOVE_GLOBAL_INDEX_DATA => exact hpop

/-- Every event is safe. -/
theorem step_safe (fl : Flags) (s : MetaServer) (e : Step) : safe_step s (s.step fl e) := by
  cases e with
  | tick now table_id => exact work_one_safe fl now s table_id
  | heartbeat now address request =>
    exact process_baikal_heartbeat_safe now address s request _
  | sweep now => exact init_pass_safe fl now s
  | apply => exact on_apply_safe s

/-- Every run is safe. -/
theorem run_safe (fl : Flags) :
    ∀ (steps : List Step) (s : MetaServer), safe_step s (s.run fl steps) := by
  intro steps
  induction steps with
  | nil => intro s; exact safe_step_of_same _ _ rfl rfl rfl
  | cons e rest ih =>
    intro s
    unfold MetaServer.run
    rw [List.foldl_cons]
    exact safe_step_trans _ _ _ (step_safe fl s e) (ih _)

/-- An assignment keeps the keys of a map unique. -/
theorem AMap.key_count_set_unique {κ α : Type} [DecidableEq κ] (k : κ) (v : α) (m : List (κ × α))
    (h : ∀ t, AMap.key_count t m ≤ 1) : ∀ t, AMap.key_count t (AMap.set k v m) ≤ 1 := by
  induction m with
  | nil => intro t; simp only [AMap.set, AMap.key_count]; split_ifs <;> omega
  | cons x rest ih =>
    obtain ⟨k1, v1⟩ := x
    intro t
    have hrest : ∀ t, AMap.key_count t rest ≤ 1 := by
      intro t
      have := h t
      simp only [AMap.key_count] at this
      omega
    by_cases h1 : k1 = k
    · have := h t
      simpa [AMap.set, h1, AMap.key_count] using this
    · simp only [AMap.set, h1, if_false, AMap.key_count]
      by_cases h2 : k1 = t
      · have h3 := h t
        have h4 := AMap.key_count_set_le k t v rest
        have h5 : ¬ k = t := fun h6 => h1 (h2.trans h6.symm)
        simp only [AMap.key_count, h2, if_true] at h3
        simp only [h2, if_true, h5, if_false] at h4 ⊢
        omega
      · have := ih hrest t
        simp only [h2, if_false]
        omega

/-- In a region map whose entries are stored under their region id, the claims for `t` are entries under the region id of `t`. -/
theorem region_map_claims_le_key_count (t : TaskId) (m : List (Int × MemRegionDdlWork))
    (h : ∀ e ∈ m, e.2.region_info.region_id = e.1) :
    region_map_claims t m ≤ AMap.key_count t.2 m := by
  induction m with
  | nil => simp [region_map_claims, AMap.key_count]
  | cons x rest ih =>
    obtain ⟨k, w⟩ := x
    have h1 := ih (fun e he => h e (List.mem_cons_of_mem _ he))
    have h2 : w.region_info.region_id = k := h (k, w) (List.mem_cons_self _ _)
    have h3 : unit_claim t w.region_info ≤ if k = t.2 then 1 else 0 := by
      unfold unit_claim task_id_of
      by_cases hk : k = t.2
      · simp only [hk, if_true]
        split_ifs <;> omega
      · have : ¬ (w.region_info.table_id, w.region_info.region_id) = t := by
          intro h4
          apply hk
          rw [← h2, ← h4]
        simp [this, hk]
    simp only [region_map_claims, List.map_cons, List.sum_cons, AMap.key_count] at h1 ⊢
    omega

/-- The loop of `init_global_ddlwork` builds a region map with unique keys whose entries are stored under their region id. -/
theorem init_region_works_keys (table_id index_id : Int) (region_partition_map : List (Int × Int)) :
    ∀ (l : List RegionInfo) (m : List (Int × MemRegionDdlWork)) (rocks : MetaRocksdb),
      (∀ t, AMap.key_count t m ≤ 1) → (∀ e ∈ m, e.2.region_info.region_id = e.1) →
      (∀ t, AMap.key_count t
        (DDLManager.init_region_works table_id index_id region_partition_map l (m, rocks)).2.1 ≤ 1) ∧
      (∀ e ∈ (DDLManager.init_region_works table_id index_id region_partition_map l (m, rocks)).2.1,
        e.2.region_info.region_id = e.1) := by
  intro l
  induction l with
  | nil => intro m rocks h1 h2; exact ⟨h1, h2⟩
  | cons region_info rest ih =>
    intro m rocks h1 h2
    simp only [DDLManager.init_region_works]
    have hu := AMap.key_count_set_unique region_info.region_id
      ({ region_info :=
          { RegionDdlWork.unset with
            table_id := table_id, region_id := region_info.region_id,
            start_key := region_info.start_key, end_key := region_info.end_key,
            status := DdlWorkStatus.DdlWorkIdle, index_id := index_id,
            partition_id := (AMap.find region_info.region_id region_partition_map).getD 0 } }
        : MemRegionDdlWork) m h1
    have hm := AMap.forall_mem_set
      (fun e : Int × MemRegionDdlWork => e.2.region_info.region_id = e.1) region_info.region_id
      ({ region_info :=
          { RegionDdlWork.unset with
            table_id := table_id, region_id := region_info.region_id,
            start_key := region_info.start_key, end_key := region_info.end_key,
            status := DdlWorkStatus.DdlWorkIdle, index_id := index_id,
            partition_id := (AMap.find region_info.region_id region_partition_map).getD 0 } }
        : MemRegionDdlWork) m h2 rfl
    rcases hput : rocks.put_region
        { RegionDdlWork.unset with
          table_id := table_id, region_id := region_info.region_id,
          start_key := region_info.start_key, end_key := region_info.end_key,
          status := DdlWorkStatus.DdlWorkIdle, index_id := index_id,
          partition_id := (AMap.find region_info.region_id region_partition_map).getD 0 } with ⟨ret, m1⟩
    simp only
    by_cases hret : ret = 0
    · rw [if_pos hret]
      exact ih _ _ hu hm
    · rw [if_neg hret]
      exact ⟨hu, hm⟩

/-- The queues of a server whose queues are all empty hold no task id. -/
theorem queue_count_empty (t : TaskId) (cm : List (String × CommonTaskMap))
    (h : ∀ e ∈ cm, e.2.to_do_task_map = [] ∧ e.2.doing_task_map = []) : queue_count t cm = 0 := by
  induction cm with
  | nil => simp [queue_count]
  | cons x rest ih =>
    have h1 := ih (fun e he => h e (List.mem_cons_of_mem _ he))
    have h2 := h x (List.mem_cons_self _ _)
    simp only [queue_count, List.map_cons, List.sum_cons, CommonTaskMap.slots, h2.1, h2.2,
      AMap.key_count] at h1 ⊢
    omega

/-- After `init_global_ddlwork` on a server without work every task id has load at most 1. -/
theorem init_global_ddlwork_load (s0 : MetaServer) (table_id index_id : Int)
    (partition_regions : List (Int × List Int)) (region_infos : List RegionInfo) (h0 : no_work s0) :
    queue_keys_ok
      (DDLManager.init_global_ddlwork s0 table_id index_id partition_regions region_infos
        ).2.db.common_task_map ∧
    ∀ t, task_load t
      (DDLManager.init_global_ddlwork s0 table_id index_id partition_regions region_infos).2 ≤ 1 := by
  obtain ⟨hq, hr, hp⟩ := h0
  have hkeys : queue_keys_ok s0.db.common_task_map := by
    intro e he
    have := hq e he
    rw [this.1, this.2]
    simp
  have hzero : ∀ t, task_load t s0 = 0 := by
    intro t
    simp [task_load, queue_count_empty t _ hq, hr, hp, memory_claims, pending_claims]
  unfold DDLManager.init_global_ddlwork
  by_cases hc : AMap.contains table_id s0.ddl.table_ddl_mem = true
  · rw [if_pos hc]
    exact ⟨hkeys, fun t => by rw [hzero t]; omega⟩
  · rw [if_neg hc]
    simp only
    rcases hput : s0.rocksdb.put_ddlwork
        { DdlWorkInfo.unset with table_id := table_id, op_type := OpType.OP_ADD_INDEX,
                                 index_id := index_id, errcode := ErrCode.IN_PROCESS, global := true }
      with ⟨ret, m⟩
    simp only
    by_cases hret : ret = 0
    · rw [if_pos hret]
      obtain ⟨hu, hm⟩ := init_region_works_keys table_id index_id
        (DDLManager.region_partition_map partition_regions)
        region_infos [] m (fun t => by simp [AMap.key_count]) (fun e he => by simp at he)
      rcases hinit : DDLManager.init_region_works table_id index_id
          (DDLManager.region_partition_map partition_regions)
          region_infos ([], m) with ⟨ret1, region_map, m1⟩
      rw [hinit] at hu hm
      simp only [hinit] at hu hm ⊢
      refine ⟨hkeys, fun t => ?_⟩
      have h1 := region_map_claims_le_key_count t region_map hm
      have h2 := hu t.2
      simp only [task_load, queue_count_empty t _ hq, hr, hp, AMap.set, memory_claims, pending_claims,
        List.map_cons, List.map_nil, List.sum_cons, List.sum_nil]
      omega
    · rw [if_neg hret]
      refine ⟨hkeys, fun t => ?_⟩
      simp [task_load, queue_count_empty t _ hq, hr, hp, memory_claims, pending_claims]

/-- The slots of `t` in the queues of one worker are among the slots of all workers. -/
theorem slots_le_queue_count (t : TaskId) (cm : List (String × CommonTaskMap)) (a : String)
    (q : CommonTaskMap) (h : AMap.find a cm = some q) : q.slots t ≤ queue_count t cm := by
  induction cm with
  | nil => simp [AMap.find] at h
  | cons x rest ih =>
    obtain ⟨k1, v1⟩ := x
    by_cases h1 : k1 = a
    · simp only [AMap.find, h1, if_true, Option.some.injEq] at h
      subst h
      simp only [queue_count, List.map_cons, List.sum_cons]
      omega
    · simp only [AMap.find, h1, if_false] at h
      have := ih h
      simp only [queue_count, List.map_cons, List.sum_cons] at this ⊢
      omega

/-- The slots of `t` in the queues of two workers are among the slots of all workers. -/
theorem slots_add_le_queue_count (t : TaskId) (cm : List (String × CommonTaskMap)) (a b : String)
    (qa qb : CommonTaskMap) (hab : a ≠ b) (ha : AMap.find a cm = some qa)
    (hb : AMap.find b cm = some qb) : qa.slots t + qb.slots t ≤ queue_count t cm := by
  induction cm with
  | nil => simp [AMap.find] at ha
  | cons x rest ih =>
    obtain ⟨k1, v1⟩ := x
    by_cases h1 : k1 = a
    · have h2 : ¬ k1 = b := fun h => hab (h1.symm.trans h)
      simp only [AMap.find, h1, if_true, Option.some.injEq] at ha
      simp only [AMap.find, h2, if_false] at hb
      subst ha
      have := slots_le_queue_count t rest b qb hb
      simp only [queue_count, List.map_cons, List.sum_cons] at this ⊢
      omega
    · simp only [AMap.find, h1, if_false] at ha
      by_cases h2 : k1 = b
      · simp only [AMap.find, h2, if_true, Option.some.injEq] at hb
        subst hb
        have := slots_le_queue_count t rest a qa ha
        simp only [queue_count, List.map_cons, List.sum_cons] at this ⊢
        omega
      · simp only [AMap.find, h2, if_false] at hb
        have := ih ha hb
        simp only [queue_count, List.map_cons, List.sum_cons] at this ⊢
        omega

/-- A worker that holds `t` has a slot for it. -/
theorem slots_pos_of_holds (t : TaskId) (q : CommonTaskMap) (h : q.holds t = true) : 0 < q.slots t := by
  unfold CommonTaskMap.holds at h
  unfold CommonTaskMap.slots
  rcases Bool.or_eq_true_iff.mp h with h1 | h1
  · have := AMap.key_count_pos_of_contains _ _ h1
    omega
  · have := AMap.key_count_pos_of_contains _ _ h1
    omega

/-- Queues in which every task id has at most one slot are disjoint. -/
theorem queues_disjoint_of_count (cm : List (String × CommonTaskMap))
    (h : ∀ t, queue_count t cm ≤ 1) : queues_disjoint cm := by
  intro t a b qa qb hab ha hb hboth
  have h1 := slots_add_le_queue_count t cm a b qa qb hab ha hb
  have h2 := slots_pos_of_holds t qa hboth.1
  have h3 := slots_pos_of_holds t qb hboth.2
  have h4 := h t
  omega

/--
Claim C14. Queue disjointness: in every state reached from a freshly
initialised job (`init_global_ddlwork` on a server with empty queues, no unit
in memory and an empty pending log) by any sequence of controller ticks,
heartbeats with arbitrary contents, sweeper passes and deliveries of pending
requests, every task id has at most one queue slot over all workers; in
particular it is in the todo-or-doing queues of at most one worker.
-/
theorem queue_disjointness (fl : Flags) (s0 : MetaServer) (table_id index_id : Int)
    (partition_regions : List (Int × List Int)) (region_infos : List RegionInfo)
    (steps : List Step) (h0 : no_work s0) :
    (∀ t, queue_count t
      ((DDLManager.init_global_ddlwork s0 table_id index_id partition_regions region_infos).2.run fl
        steps).db.common_task_map ≤ 1) ∧
    queues_disjoint
      ((DDLManager.init_global_ddlwork s0 table_id index_id partition_regions region_infos).2.run fl
        steps).db.common_task_map := by
  obtain ⟨hk, hload⟩ := init_global_ddlwork_load s0 table_id index_id partition_regions region_infos h0
  obtain ⟨_, hrun⟩ := run_safe fl steps _ hk
  have hcount : ∀ t, queue_count t
      ((DDLManager.init_global_ddlwork s0 table_id index_id partition_regions region_infos).2.run fl
        steps).db.common_task_map ≤ 1 := by
    intro t
    have h1 := hrun t
    have h2 := hload t
    unfold task_load at h1 h2
    omega
  exact ⟨hcount, queues_disjoint_of_count _ hcount⟩

/-- Claim C14, witness: the run of the scenario from the fresh server. -/
theorem queue_disjointness_witness :
    no_work fresh_server ∧
    queues_disjoint
      ((DDLManager.init_global_ddlwork fresh_server 1 10 [(0, [1])]
          [{ region_id := 1, start_key := "", end_key := "" }]).2.run defaultFlags
        disjointness_steps).db.common_task_map :=
  ⟨⟨by simp [fresh_server], rfl, rfl⟩,
   (queue_disjointness defaultFlags fresh_server 1 10 [(0, [1])]
      [{ region_id := 1, start_key := "", end_key := "" }] disjointness_steps
      ⟨by simp [fresh_server], rfl, rfl⟩).2⟩

/-! ## The sweeper: timeouts and faulty workers -/

/-- The addresses returned by `get_faulty_baikaldb` are those of the workers that pass the faulty test. -/
theorem get_faulty_baikaldb_fst (fl : Flags) (now : Int) :
    ∀ m : List (String × InstanceDBStatus),
      (DBManager.get_faulty_baikaldb fl now m).1 = (m.filter (faulty_worker fl now)).map Prod.fst := by
  intro m
  induction m with
  | nil => simp [DBManager.get_faulty_baikaldb]
  | cons e rest ih =>
    obtain ⟨address, inst⟩ := e
    by_cases h20 : wrap_int32 (fl.baikal_heartbeat_interval_us * 20) < now - inst.timestamp
    · by_cases h90 : wrap_int32 (fl.baikal_heartbeat_interval_us * 90) < now - inst.timestamp
      · simp [DBManager.get_faulty_baikaldb, faulty_worker, h20, h90, ih]
      · simp [DBManager.get_faulty_baikaldb, faulty_worker, h20, h90, ih]
    · simp [DBManager.get_faulty_baikaldb, faulty_worker, h20, ih]

/-- The treatment of the faulty workers keeps a property of the queues that the empty queues have. -/
theorem sweep_faulty_dbs_queues (P : CommonTaskMap → Prop)
    (hP : P { to_do_task_map := [], doing_task_map := [] }) :
    ∀ (l : List String) (s : MetaServer), (∀ e ∈ s.db.common_task_map, P e.2) →
      ∀ e ∈ (l.foldl DBManager.sweep_faulty_db s).db.common_task_map, P e.2 := by
  intro l
  induction l with
  | nil => intro s h; exact h
  | cons f rest ih =>
    intro s h
    obtain ⟨mem, hs⟩ := sweep_faulty_db_shape s f
    simp only [List.foldl_cons]
    apply ih
    rw [hs]
    exact AMap.forall_mem_update (fun e => P e.2) f _ _ h (fun _ _ => hP)

/-- The treatment of the faulty workers only appends to the pending log. -/
theorem sweep_faulty_dbs_log :
    ∀ (l : List String) (s : MetaServer),
      ∃ more, (l.foldl DBManager.sweep_faulty_db s).raft_pending = s.raft_pending ++ more := by
  intro l
  induction l with
  | nil => intro s; exact ⟨[], by simp⟩
  | cons f rest ih =>
    intro s
    obtain ⟨mem, hs⟩ := sweep_faulty_db_shape s f
    obtain ⟨more, hm⟩ := ih (DBManager.sweep_faulty_db s f)
    refine ⟨faulty_requests s f ++ more, ?_⟩
    simp only [List.foldl_cons]
    rw [hm, hs]
    simp [MetaServer.with_log, MetaServer.with_queues]

/-- The treatment of the faulty workers leaves the queues of every other worker as they are. -/
theorem sweep_faulty_dbs_find_ne (a : String) :
    ∀ (l : List String) (s : MetaServer), a ∉ l →
      AMap.find a (l.foldl DBManager.sweep_faulty_db s).db.common_task_map
        = AMap.find a s.db.common_task_map := by
  intro l
  induction l with
  | nil => intro s _; rfl
  | cons f rest ih =>
    intro s h
    obtain ⟨mem, hs⟩ := sweep_faulty_db_shape s f
    simp only [List.mem_cons, not_or] at h
    simp only [List.foldl_cons]
    rw [ih _ h.2, hs]
    exact AMap.find_update_ne f a _ _ h.1

/-- Without overflow of `interval * 20`, the timeout test of the sweeper is `interval * 20 < age`. -/
theorem task_timeout_iff (fl : Flags) (now : Int) (e : TaskId × MemRegionDdlWork)
    (hfl : 0 ≤ fl.baikal_heartbeat_interval_us ∧ fl.baikal_heartbeat_interval_us * 20 < 2 ^ 31) :
    task_timeout fl now e = true ↔ 20 * fl.baikal_heartbeat_interval_us < now - e.2.update_timestamp := by
  unfold task_timeout
  rw [wrap_int32_of_range _ (by omega) hfl.2]
  simp only [decide_eq_true_eq]
  constructor <;> intro h <;> omega

/-- The entries kept by the timeout sweep are those whose age is at most `20 * interval`. -/
theorem timeout_swept_eq (fl : Flags) (now : Int) (q : CommonTaskMap)
    (hfl : 0 ≤ fl.baikal_heartbeat_interval_us ∧ fl.baikal_heartbeat_interval_us * 20 < 2 ^ 31) :
    timeout_swept fl now q =
      { to_do_task_map := q.to_do_task_map.filter
          (fun x => decide (now - x.2.update_timestamp ≤ 20 * fl.baikal_heartbeat_interval_us)),
        doing_task_map := q.doing_task_map.filter
          (fun x => decide (now - x.2.update_timestamp ≤ 20 * fl.baikal_heartbeat_interval_us)) } := by
  have hfun : (fun e : TaskId × MemRegionDdlWork => !task_timeout fl now e)
      = (fun x => decide (now - x.2.update_timestamp ≤ 20 * fl.baikal_heartbeat_interval_us)) := by
    funext e
    have h := task_timeout_iff fl now e hfl
    by_cases ht : task_timeout fl now e = true
    · have := h.1 ht
      simp only [ht, Bool.not_true]
      symm
      simp only [decide_eq_false_iff_not]
      omega
    · have h2 : ¬ 20 * fl.baikal_heartbeat_interval_us < now - e.2.update_timestamp := fun h3 => ht (h.2 h3)
      simp only [Bool.not_eq_true] at ht
      simp only [ht, Bool.not_false]
      symm
      simp only [decide_eq_true_eq]
      omega
  unfold timeout_swept
  rw [hfun]

/--
Claim C21. One sweeper pass at time `now` (the heartbeat interval being non
negative and `interval * 20` fitting `int32_t`): afterwards no todo or doing
map of any worker holds an entry older than `20 * interval`; for every entry of
a todo or doing map that was older than that, the request that stores the unit
with status Idle has been handed to the consensus log by
`update_region_ddlwork`; and the queues of a worker that is not faulty (every
record of it was seen within `20 * interval`) are its former queues restricted
to the entries of age at most `20 * interval`, each left as it was.
-/
theorem sweeper_timeout (fl : Flags) (now : Int) (s : MetaServer)
    (hfl : 0 ≤ fl.baikal_heartbeat_interval_us ∧ fl.baikal_heartbeat_interval_us * 20 < 2 ^ 31) :
    (∀ e ∈ (DBManager.init_pass fl now s).db.common_task_map,
      (∀ x ∈ e.2.to_do_task_map, now - x.2.update_timestamp ≤ 20 * fl.baikal_heartbeat_interval_us) ∧
      (∀ x ∈ e.2.doing_task_map, now - x.2.update_timestamp ≤ 20 * fl.baikal_heartbeat_interval_us)) ∧
    (∀ e ∈ s.db.common_task_map, ∀ x ∈ e.2.to_do_task_map ++ e.2.doing_task_map,
      20 * fl.baikal_heartbeat_interval_us < now - x.2.update_timestamp →
      update_request { x.2.region_info with status := DdlWorkStatus.DdlWorkIdle }
        ∈ (DBManager.init_pass fl now s).raft_pending) ∧
    (∀ address q, AMap.find address s.db.common_task_map = some q →
      (∀ inst, (address, inst) ∈ s.db.address_instance_map →
        now - inst.timestamp ≤ 20 * fl.baikal_heartbeat_interval_us) →
      AMap.find address (DBManager.init_pass fl now s).db.common_task_map =
        some { to_do_task_map := q.to_do_task_map.filter
                 (fun x => decide (now - x.2.update_timestamp ≤ 20 * fl.baikal_heartbeat_interval_us)),
               doing_task_map := q.doing_task_map.filter
                 (fun x => decide (now - x.2.update_timestamp ≤ 20 * fl.baikal_heartbeat_interval_us)) }) := by
  obtain ⟨mem, hpass⟩ := init_pass_shape fl now s
  refine ⟨?_, ?_, ?_⟩
  · rw [hpass]
    apply sweep_faulty_dbs_queues
      (fun q => (∀ x ∈ q.to_do_task_map, now - x.2.update_timestamp ≤ 20 * fl.baikal_heartbeat_interval_us) ∧
        (∀ x ∈ q.doing_task_map, now - x.2.update_timestamp ≤ 20 * fl.baikal_heartbeat_interval_us))
    · exact ⟨fun x hx => by simp at hx, fun x hx => by simp at hx⟩
    · intro e he
      simp only [List.mem_map] at he
      obtain ⟨e0, _, rfl⟩ := he
      simp only [timeout_swept_eq fl now e0.2 hfl]
      constructor
      · intro x hx
        simpa using (List.mem_filter.1 hx).2
      · intro x hx
        simpa using (List.mem_filter.1 hx).2
  · intro e he x hx hage
    obtain ⟨more, hlog⟩ := sweep_faulty_dbs_log
      (DBManager.get_faulty_baikaldb fl now s.db.address_instance_map).1
      { (s.with_log mem (s.db.common_task_map.map (fun e => timeout_requests fl now e.2)).flatten) with
        db := { s.db with
          common_task_map := s.db.common_task_map.map (fun e => (e.1, timeout_swept fl now e.2))
          broadcast_task_map :=
            s.db.broadcast_task_map.map (fun e => (e.1, DBManager.sweep_broadcast_task fl now e.2))
          address_instance_map :=
            (DBManager.get_faulty_baikaldb fl now s.db.address_instance_map).2 } }
    rw [hpass, hlog]
    have ht : task_timeout fl now x = true := (task_timeout_iff fl now x hfl).2 hage
    have hreq : idle_request x ∈ timeout_requests fl now e.2 := by
      unfold timeout_requests
      rcases List.mem_append.1 hx with h1 | h1
      · exact List.mem_append_left _ (List.mem_map_of_mem _ (List.mem_filter.2 ⟨h1, ht⟩))
      · exact List.mem_append_right _ (List.mem_map_of_mem _ (List.mem_filter.2 ⟨h1, ht⟩))
    apply List.mem_append_left
    simp only [MetaServer.with_log]
    apply List.mem_append_right
    simp only [List.mem_flatten, List.mem_map]
    exact ⟨timeout_requests fl now e.2, ⟨e, he, rfl⟩, hreq⟩
  · intro address q hq hseen
    have hnot : address ∉ (DBManager.get_faulty_baikaldb fl now s.db.address_instance_map).1 := by
      rw [get_faulty_baikaldb_fst]
      intro hmem
      simp only [List.mem_map, List.mem_filter] at hmem
      obtain ⟨e, ⟨he, hf⟩, rfl⟩ := hmem
      have := hseen e.2 he
      unfold faulty_worker at hf
      rw [wrap_int32_of_range _ (by omega) hfl.2] at hf
      simp only [decide_eq_true_eq] at hf
      omega
    rw [hpass, sweep_faulty_dbs_find_ne address _ _ hnot]
    simp only
    rw [AMap.find_map_values address (timeout_swept fl now) s.db.common_task_map, hq]
    simp only [Option.map_some', timeout_swept_eq fl now q hfl]

/-- Claim C21, witness: the sweeper pass of the scenario at time 300000000. -/
theorem sweeper_timeout_witness :
    (0 ≤ defaultFlags.baikal_heartbeat_interval_us ∧ defaultFlags.baikal_heartbeat_interval_us * 20 < 2 ^ 31) ∧
    AMap.find "w1" (DBManager.init_pass defaultFlags 300000000 sweeper_server).db.common_task_map
      = some { to_do_task_map := [], doing_task_map := [queued_unit 2 "w1" 250000000] } ∧
    update_request { (queued_unit 1 "w1" 0).2.region_info with status := DdlWorkStatus.DdlWorkIdle }
      ∈ (DBManager.init_pass defaultFlags 300000000 sweeper_server).raft_pending :=
  ⟨by decide,
   ((sweeper_timeout defaultFlags 300000000 sweeper_server (by decide)).2.2 "w1"
      { to_do_task_map := [queued_unit 1 "w1" 0], doing_task_map := [queued_unit 2 "w1" 250000000] }
      (by decide)
      (by
        intro inst h
        have h1 : inst = { room := "", state := InstanceState.NORMAL, timestamp := 290000000 } := by
          simpa [sweeper_server] using h
        subst h1
        decide)),
   (sweeper_timeout defaultFlags 300000000 sweeper_server (by decide)).2.1
      ("w1", { to_do_task_map := [queued_unit 1 "w1" 0], doing_task_map := [queued_unit 2 "w1" 250000000] })
      (by decide) (queued_unit 1 "w1" 0) (by decide) (by decide)⟩

/-- Lookup after the removal of a key. -/
theorem AMap.find_erase {κ α : Type} [DecidableEq κ] (k b : κ) (m : List (κ × α)) :
    AMap.find b (AMap.erase k m) = if b = k then none else AMap.find b m := by
  by_cases h : b = k
  · subst h; simp [AMap.find_erase_self]
  · simp [h, AMap.find_erase_ne k b m h]

/-- The worker map left by `get_faulty_baikaldb`: the dead workers are erased, the faulty ones marked. -/
theorem get_faulty_baikaldb_snd (fl : Flags) (now : Int) :
    ∀ m : List (String × InstanceDBStatus),
      (DBManager.get_faulty_baikaldb fl now m).2
        = (m.filter (fun e => !(faulty_worker fl now e && dead_worker fl now e))).map
            (fun e => if faulty_worker fl now e = true
                      then (e.1, { e.2 with state := InstanceState.FAULTY }) else e) := by
  intro m
  induction m with
  | nil => simp [DBManager.get_faulty_baikaldb]
  | cons e rest ih =>
    obtain ⟨address, inst⟩ := e
    by_cases h20 : wrap_int32 (fl.baikal_heartbeat_interval_us * 20) < now - inst.timestamp
    · by_cases h90 : wrap_int32 (fl.baikal_heartbeat_interval_us * 90) < now - inst.timestamp
      · simp [DBManager.get_faulty_baikaldb, faulty_worker, dead_worker, h20, h90, ih]
      · simp [DBManager.get_faulty_baikaldb, faulty_worker, dead_worker, h20, h90, ih]
    · simp [DBManager.get_faulty_baikaldb, faulty_worker, dead_worker, h20, ih]

/-- The treatment of the faulty workers leaves the worker map as it is. -/
theorem sweep_faulty_dbs_instances :
    ∀ (l : List String) (s : MetaServer),
      (l.foldl DBManager.sweep_faulty_db s).db.address_instance_map = s.db.address_instance_map := by
  intro l
  induction l with
  | nil => intro s; rfl
  | cons f rest ih =>
    intro s
    obtain ⟨mem, hs⟩ := sweep_faulty_db_shape s f
    simp only [List.foldl_cons]
    rw [ih, hs]
    rfl

/-- After the treatment of the faulty workers, the queues of a treated worker are empty. -/
theorem sweep_faulty_dbs_find_mem (f : String) :
    ∀ (l : List String) (s : MetaServer), f ∈ l →
      AMap.find f (l.foldl DBManager.sweep_faulty_db s).db.common_task_map
        = (AMap.find f s.db.common_task_map).map
            (fun _ => ({ to_do_task_map := [], doing_task_map := [] } : CommonTaskMap)) := by
  intro l
  induction l with
  | nil => intro s h; simp at h
  | cons g rest ih =>
    intro s h
    obtain ⟨mem, hs⟩ := sweep_faulty_db_shape s g
    have h1 : AMap.find f (DBManager.sweep_faulty_db s g).db.common_task_map
        = if f = g then (AMap.find g s.db.common_task_map).map
            (fun _ => ({ to_do_task_map := [], doing_task_map := [] } : CommonTaskMap))
          else AMap.find f s.db.common_task_map := by
      rw [hs]
      exact AMap.find_update g f _ _
    simp only [List.foldl_cons]
    by_cases hfg : f = g
    · subst hfg
      rw [if_pos rfl] at h1
      by_cases hr : f ∈ rest
      · rw [ih _ hr, h1, Option.map_map]
        rfl
      · rw [sweep_faulty_dbs_find_ne f rest _ hr, h1]
    · rw [if_neg hfg] at h1
      have hr : f ∈ rest := by
        rcases List.mem_cons.1 h with h2 | h2
        · exact absurd h2 hfg
        · exact h2
      rw [ih _ hr, h1]

/-- The treatment of the faulty workers hands an Idle request to the log for every unit a treated worker held. -/
theorem sweep_faulty_dbs_requests (f : String) (q : CommonTaskMap) :
    ∀ (l : List String) (s : MetaServer), f ∈ l → AMap.find f s.db.common_task_map = some q →
      ∀ x ∈ q.to_do_task_map ++ q.doing_task_map,
        idle_request x ∈ (l.foldl DBManager.sweep_faulty_db s).raft_pending := by
  intro l
  induction l with
  | nil => intro s h; simp at h
  | cons g rest ih =>
    intro s h hq x hx
    obtain ⟨mem, hs⟩ := sweep_faulty_db_shape s g
    simp only [List.foldl_cons]
    by_cases hfg : f = g
    · subst hfg
      obtain ⟨more, hm⟩ := sweep_faulty_dbs_log rest (DBManager.sweep_faulty_db s f)
      rw [hm]
      apply List.mem_append_left
      rw [hs]
      simp only [MetaServer.with_queues, MetaServer.with_log]
      apply List.mem_append_right
      unfold faulty_requests
      rw [hq]
      simp only
      rcases List.mem_append.1 hx with h1 | h1
      · exact List.mem_append_left _ (List.mem_map_of_mem _ h1)
      · exact List.mem_append_right _ (List.mem_map_of_mem _ h1)
    · have hr : f ∈ rest := by
        rcases List.mem_cons.1 h with h2 | h2
        · exact absurd h2 hfg
        · exact h2
      apply ih _ hr _ x hx
      rw [hs]
      simp only [MetaServer.with_queues, MetaServer.with_log]
      rw [AMap.find_update_ne g f _ _ hfg]
      exact hq

/-- A broadcast task that does not wait for a worker still does not after another worker is dropped. -/
theorem drop_worker_absent (f g : String) (t : BroadcastTask)
    (h : AMap.contains f t.to_do_task_map = false ∧ AMap.contains f t.doing_task_map = false) :
    AMap.contains f (t.drop_worker g).to_do_task_map = false ∧
    AMap.contains f (t.drop_worker g).doing_task_map = false := by
  unfold AMap.contains at h ⊢
  simp only [BroadcastTask.drop_worker, AMap.find_erase]
  by_cases hfg : f = g
  · simp [hfg]
  · simp only [if_neg hfg]
    exact h

/-- A worker dropped from a broadcast task is in none of its maps. -/
theorem drop_worker_self (f : String) (t : BroadcastTask) :
    AMap.contains f (t.drop_worker f).to_do_task_map = false ∧
    AMap.contains f (t.drop_worker f).doing_task_map = false := by
  unfold AMap.contains
  simp [BroadcastTask.drop_worker, AMap.find_erase_self]

/-- The treatment of the faulty workers keeps a worker absent from every broadcast task. -/
theorem sweep_faulty_dbs_absent (f : String) :
    ∀ (l : List String) (s : MetaServer),
      (∀ e ∈ s.db.broadcast_task_map,
        AMap.contains f e.2.to_do_task_map = false ∧ AMap.contains f e.2.doing_task_map = false) →
      ∀ e ∈ (l.foldl DBManager.sweep_faulty_db s).db.broadcast_task_map,
        AMap.contains f e.2.to_do_task_map = false ∧ AMap.contains f e.2.doing_task_map = false := by
  intro l
  induction l with
  | nil => intro s h; exact h
  | cons g rest ih =>
    intro s h
    obtain ⟨mem, hs⟩ := sweep_faulty_db_shape s g
    simp only [List.foldl_cons]
    apply ih
    rw [hs]
    intro e he
    simp only [MetaServer.with_queues, List.mem_map] at he
    obtain ⟨e0, he0, rfl⟩ := he
    exact drop_worker_absent f g e0.2 (h e0 he0)

/-- After the treatment of the faulty workers, a treated worker is in no broadcast task. -/
theorem sweep_faulty_dbs_dropped (f : String) :
    ∀ (l : List String) (s : MetaServer), f ∈ l →
      ∀ e ∈ (l.foldl DBManager.sweep_faulty_db s).db.broadcast_task_map,
        AMap.contains f e.2.to_do_task_map = false ∧ AMap.contains f e.2.doing_task_map = false := by
  intro l
  induction l with
  | nil => intro s h; simp at h
  | cons g rest ih =>
    intro s h
    obtain ⟨mem, hs⟩ := sweep_faulty_db_shape s g
    simp only [List.foldl_cons]
    by_cases hfg : f = g
    · subst hfg
      apply sweep_faulty_dbs_absent
      rw [hs]
      intro e he
      simp only [MetaServer.with_queues, List.mem_map] at he
      obtain ⟨e0, _, rfl⟩ := he
      exact drop_worker_self f e0.2
    · have hr : f ∈ rest := by
        rcases List.mem_cons.1 h with h2 | h2
        · exact absurd h2 hfg
        · exact h2
      exact ih _ hr

/-- Without overflow of `interval * 20`, the faulty test is `20 * interval < now - last_seen`. -/
theorem faulty_worker_eq (fl : Flags) (now : Int) (e : String × InstanceDBStatus)
    (hfl : 0 ≤ fl.baikal_heartbeat_interval_us ∧ fl.baikal_heartbeat_interval_us * 90 < 2 ^ 31) :
    faulty_worker fl now e = decide (20 * fl.baikal_heartbeat_interval_us < now - e.2.timestamp) := by
  unfold faulty_worker
  rw [wrap_int32_of_range _ (by omega) (by omega)]
  exact decide_eq_decide.2 (by constructor <;> intro h <;> omega)

/-- Without overflow of `interval * 90`, the eviction test is `90 * interval < now - last_seen`. -/
theorem dead_worker_eq (fl : Flags) (now : Int) (e : String × InstanceDBStatus)
    (hfl : 0 ≤ fl.baikal_heartbeat_interval_us ∧ fl.baikal_heartbeat_interval_us * 90 < 2 ^ 31) :
    dead_worker fl now e = decide (90 * fl.baikal_heartbeat_interval_us < now - e.2.timestamp) := by
  unfold dead_worker
  rw [wrap_int32_of_range _ (by omega) hfl.2]
  exact decide_eq_decide.2 (by constructor <;> intro h <;> omega)

/-- A worker stays in the worker map exactly when it was seen within `90 * interval`. -/
theorem kept_worker_eq (fl : Flags) (now : Int) (e : String × InstanceDBStatus)
    (hfl : 0 ≤ fl.baikal_heartbeat_interval_us ∧ fl.baikal_heartbeat_interval_us * 90 < 2 ^ 31) :
    (!(faulty_worker fl now e && dead_worker fl now e))
      = decide (now - e.2.timestamp ≤ 90 * fl.baikal_heartbeat_interval_us) := by
  rw [faulty_worker_eq fl now e hfl, dead_worker_eq fl now e hfl]
  by_cases h : now - e.2.timestamp ≤ 90 * fl.baikal_heartbeat_interval_us
  · have h2 : ¬ 90 * fl.baikal_heartbeat_interval_us < now - e.2.timestamp := by omega
    simp [h, h2]
  · have h2 : 90 * fl.baikal_heartbeat_interval_us < now - e.2.timestamp := by omega
    have h3 : 20 * fl.baikal_heartbeat_interval_us < now - e.2.timestamp := by omega
    simp only [h2, h3, h, decide_True, decide_False, Bool.and_self, Bool.not_true]

/--
Claim C22. Faulty detection at time `now` (the heartbeat interval being non
negative and `interval * 90` fitting `int32_t`). `get_faulty_baikaldb` returns
exactly the workers with `now - last_seen > 20 * interval`; the worker map it
leaves holds exactly the workers with `now - last_seen <= 90 * interval`, those
beyond `20 * interval` marked Faulty and the others as they were; this is the
worker map after the sweeper pass. For every returned worker, evicted or not,
after the pass its queue entry (if it had one) has empty todo and doing maps,
the request storing status Idle has been handed to the consensus log for every
unit these maps held, and no broadcast task holds the worker.
-/
theorem faulty_detection (fl : Flags) (now : Int) (s : MetaServer)
    (hfl : 0 ≤ fl.baikal_heartbeat_interval_us ∧ fl.baikal_heartbeat_interval_us * 90 < 2 ^ 31) :
    (DBManager.get_faulty_baikaldb fl now s.db.address_instance_map).1
      = (s.db.address_instance_map.filter
          (fun e => decide (20 * fl.baikal_heartbeat_interval_us < now - e.2.timestamp))).map Prod.fst ∧
    (DBManager.get_faulty_baikaldb fl now s.db.address_instance_map).2
      = (s.db.address_instance_map.filter
          (fun e => decide (now - e.2.timestamp ≤ 90 * fl.baikal_heartbeat_interval_us))).map
          (fun e => if 20 * fl.baikal_heartbeat_interval_us < now - e.2.timestamp
                    then (e.1, { e.2 with state := InstanceState.FAULTY }) else e) ∧
    (DBManager.init_pass fl now s).db.address_instance_map
      = (DBManager.get_faulty_baikaldb fl now s.db.address_instance_map).2 ∧
    ∀ f ∈ (DBManager.get_faulty_baikaldb fl now s.db.address_instance_map).1,
      AMap.find f (DBManager.init_pass fl now s).db.common_task_map
        = (AMap.find f s.db.common_task_map).map
            (fun _ => ({ to_do_task_map := [], doing_task_map := [] } : CommonTaskMap)) ∧
      (∀ q, AMap.find f s.db.common_task_map = some q →
        ∀ x ∈ q.to_do_task_map ++ q.doing_task_map,
          update_request { x.2.region_info with status := DdlWorkStatus.DdlWorkIdle }
            ∈ (DBManager.init_pass fl now s).raft_pending) ∧
      (∀ e ∈ (DBManager.init_pass fl now s).db.broadcast_task_map,
        AMap.contains f e.2.to_do_task_map = false ∧ AMap.contains f e.2.doing_task_map = false) := by
  obtain ⟨mem, hpass⟩ := init_pass_shape fl now s
  have hf : faulty_worker fl now
      = fun e => decide (20 * fl.baikal_heartbeat_interval_us < now - e.2.timestamp) :=
    funext (fun e => faulty_worker_eq fl now e hfl)
  have hk : (fun e => !(faulty_worker fl now e && dead_worker fl now e))
      = fun e => decide (now - e.2.timestamp ≤ 90 * fl.baikal_heartbeat_interval_us) :=
    funext (fun e => kept_worker_eq fl now e hfl)
  refine ⟨?_, ?_, ?_, ?_⟩
  · rw [get_faulty_baikaldb_fst, hf]
  · rw [get_faulty_baikaldb_snd, hk]
    apply List.map_congr_left
    intro e _
    rw [faulty_worker_eq fl now e hfl]
    simp only [decide_eq_true_eq]
  · rw [hpass, sweep_faulty_dbs_instances]
  · intro f hmem
    refine ⟨?_, ?_, ?_⟩
    · rw [hpass, sweep_faulty_dbs_find_mem f _ _ hmem]
      simp only
      rw [AMap.find_map_values f (timeout_swept fl now) s.db.common_task_map, Option.map_map]
      rfl
    · intro q hq x hx
      by_cases ht : task_timeout fl now x = true
      · obtain ⟨more, hlog⟩ := sweep_faulty_dbs_log
          (DBManager.get_faulty_baikaldb fl now s.db.address_instance_map).1
          { (s.with_log mem (s.db.common_task_map.map (fun e => timeout_requests fl now e.2)).flatten) with
            db := { s.db with
              common_task_map := s.db.common_task_map.map (fun e => (e.1, timeout_swept fl now e.2))
              broadcast_task_map :=
                s.db.broadcast_task_map.map (fun e => (e.1, DBManager.sweep_broadcast_task fl now e.2))
              address_instance_map :=
                (DBManager.get_faulty_baikaldb fl now s.db.address_instance_map).2 } }
        rw [hpass, hlog]
        have hreq : idle_request x ∈ timeout_requests fl now q := by
          unfold timeout_requests
          rcases List.mem_append.1 hx with h1 | h1
          · exact List.mem_append_left _ (List.mem_map_of_mem _ (List.mem_filter.2 ⟨h1, ht⟩))
          · exact List.mem_append_right _ (List.mem_map_of_mem _ (List.mem_filter.2 ⟨h1, ht⟩))
        apply List.mem_append_left
        simp only [MetaServer.with_log]
        apply List.mem_append_right
        simp only [List.mem_flatten, List.mem_map]
        exact ⟨timeout_requests fl now q, ⟨(f, q), AMap.mem_of_find f q _ hq, rfl⟩, hreq⟩
      · rw [hpass]
        apply sweep_faulty_dbs_requests f (timeout_swept fl now q) _ _ hmem
        · simp only
          rw [AMap.find_map_values f (timeout_swept fl now) s.db.common_task_map, hq]
          rfl
        · unfold timeout_swept
          simp only [Bool.not_eq_true] at ht
          rcases List.mem_append.1 hx with h1 | h1
          · exact List.mem_append_left _ (List.mem_filter.2 ⟨h1, by simp [ht]⟩)
          · exact List.mem_append_right _ (List.mem_filter.2 ⟨h1, by simp [ht]⟩)
    · rw [hpass]
      exact sweep_faulty_dbs_dropped f _ _ hmem

/-- Claim C22, witness: at time 300000000 `w2` (seen at 0) is marked Faulty and `w3` (seen at -700000000) is evicted; the queues of both are emptied. -/
theorem faulty_detection_witness :
    (0 ≤ defaultFlags.baikal_heartbeat_interval_us ∧ defaultFlags.baikal_heartbeat_interval_us * 90 < 2 ^ 31) ∧
    (DBManager.get_faulty_baikaldb defaultFlags 300000000 sweeper_server.db.address_instance_map).1
      = ["w2", "w3"] ∧
    AMap.find "w3" (DBManager.init_pass defaultFlags 300000000 sweeper_server).db.common_task_map
      = some { to_do_task_map := [], doing_task_map := [] } ∧
    update_request { (queued_unit 4 "w3" 280000000).2.region_info with status := DdlWorkStatus.DdlWorkIdle }
      ∈ (DBManager.init_pass defaultFlags 300000000 sweeper_server).raft_pending :=
  ⟨by decide,
   (faulty_detection defaultFlags 300000000 sweeper_server (by decide)).1,
   ((faulty_detection defaultFlags 300000000 sweeper_server (by decide)).2.2.2 "w3" (by decide)).1,
   ((faulty_detection defaultFlags 300000000 sweeper_server (by decide)).2.2.2 "w3" (by decide)).2.1
      { to_do_task_map := [], doing_task_map := [queued_unit 4 "w3" 280000000] } (by decide)
      (queued_unit 4 "w3" 280000000) (by decide)⟩

/-! ## Leader takeover -/

/-- When the recorded worker has a queue entry, `restore_task` assigns the unit in its doing map and leaves its todo map. -/
theorem restore_task_known_worker (now : Int) (db : DBManager) (r : RegionDdlWork) (q : CommonTaskMap)
    (hq : AMap.find r.address db.common_task_map = some q) :
    AMap.find r.address (DBManager.restore_task now db r).2.common_task_map
      = some { q with doing_task_map := AMap.set (task_id_of r) (restored_unit now r) q.doing_task_map } := by
  have hc : AMap.contains r.address db.common_task_map = true := by
    unfold AMap.contains; rw [hq]; rfl
  unfold DBManager.restore_task
  simp only [hc, if_true]
  rw [AMap.find_update_self, hq]
  rfl

/--
Claim C23. Evaluation of `restore_task` on a fresh leader, for every unit `r`
and time `now`: the queue entry of `r.address` is created from the local `map`
of line 385, so the unit is stored in the todo map of the worker, and the doing
map of the worker is empty.
-/
theorem restore_task_fresh_leader_todo (now : Int) (r : RegionDdlWork) :
    (DBManager.restore_task now {} r).1 = 0 ∧
    AMap.find r.address (DBManager.restore_task now {} r).2.common_task_map
      = some { to_do_task_map := [(task_id_of r, restored_unit now r)], doing_task_map := [] } ∧
    ((AMap.find r.address (DBManager.restore_task now {} r).2.common_task_map).bind
      (fun q => AMap.find (task_id_of r) q.doing_task_map)) = none ∧
    ((AMap.find r.address (DBManager.restore_task now {} r).2.common_task_map).bind
      (fun q => AMap.find (task_id_of r) q.to_do_task_map)) = some (restored_unit now r) := by
  simp [DBManager.restore_task, AMap.contains, AMap.find, AMap.set, restored_unit]

/-- The job record of a table after the counter of a table has been increased. -/
theorem increase_doing_work_number_find (d : DDLManager) (t t1 : Int) :
    AMap.find t (d.increase_doing_work_number t1).2.table_ddl_mem
      = if t = t1 then (AMap.find t d.table_ddl_mem).map
          (fun m => { m with doing_work_number := m.doing_work_number + 1 })
        else AMap.find t d.table_ddl_mem := by
  unfold DDLManager.increase_doing_work_number
  rcases h : AMap.find t1 d.table_ddl_mem with _ | m
  · by_cases ht : t = t1
    · subst ht; simp [h]
    · simp [ht]
  · simp only
    rw [AMap.find_update t1 t]
    by_cases ht : t = t1
    · subst ht; rfl
    · simp [ht]

/-- The lookups of lines 770, 990 and 1018 for a table without region map leave a null pointer, and the next `on_leader_start` does not return. -/
theorem on_leader_start_null_entry :
    (DDLManager.update_global_ddlwork_region_info {} round_trip_unit).2.ddl.region_ddlwork_null = [1] ∧
    DDLManager.on_leader_start 100
      (DDLManager.update_global_ddlwork_region_info {} round_trip_unit).2 = none ∧
    (DDLManager.get_global_ddlwork_info {} 1).2.region_ddlwork_null = [1] ∧
    (DDLManager.add_index_write_local defaultFlags 100 {} (scenario_job IndexState.IS_WRITE_LOCAL)
      1).2.2.ddl.region_ddlwork_null = [1] ∧
    DDLManager.on_leader_start 200
      (DDLManager.add_index_write_local defaultFlags 100 {} (scenario_job IndexState.IS_WRITE_LOCAL)
        1).2.2 = none := by
  decide

/--
Claim C25. Evaluation of one `IS_WRITE_LOCAL` tick at the failing input: all 22
units are Idle before the tick, and after it 21 of them are Doing, one more than
`max_task_number = 20`; the counter of the job is 21, within the region limit 22.
-/
theorem batch_limit_exceeded_by_tick :
    (AMap.find 1 batch_server.ddl.region_ddlwork).map (status_count DdlWorkStatus.DdlWorkIdle) = some 22 ∧
    max_task_number = 20 ∧
    status_count DdlWorkStatus.DdlWorkDoing batch_region_map = 21 ∧
    status_count DdlWorkStatus.DdlWorkIdle batch_region_map = 1 ∧
    ¬ (status_count DdlWorkStatus.DdlWorkDoing batch_region_map ≤ max_task_number) ∧
    (DDLManager.add_index_global_ddlwork defaultFlags 100 batch_server
      (scenario_job IndexState.IS_WRITE_LOCAL)).2.2.ddl.get_doing_work_number 1 = 21 ∧
    over_region_limit defaultFlags (batch_server.table_manager.get_region_size 10) 21 = false := by
  set_option maxRecDepth 100000 in decide

/-- A key present in a map is present after an assignment. -/
theorem AMap.contains_set_of_contains {κ α : Type} [DecidableEq κ] (k t : κ) (v : α) (m : List (κ × α))
    (h : AMap.contains t m = true) : AMap.contains t (AMap.set k v m) = true := by
  unfold AMap.contains at h ⊢
  by_cases hk : t = k
  · subst hk; rw [AMap.find_set_self]; rfl
  · rw [AMap.find_set_ne k t v m hk]; exact h

/-- A unit waiting in the todo map of a worker is still there after a later submission. -/
theorem execute_task_keeps_to_do (fl : Flags) (now : Int) (t : TaskId) (a : String)
    (db : DBManager) (w : MemRegionDdlWork) (h : in_to_do t a db) :
    in_to_do t a (DBManager.execute_task fl now db w).2.2 := by
  rw [execute_task_push]
  rcases (scan_order db).find? (eligible fl db) with _ | e
  · exact h
  · obtain ⟨q, hq, hc⟩ := h
    have hsel : AMap.find a (db.selected e.1).common_task_map = some q := by
      by_cases hae : a = e.1
      · have hcon : AMap.contains e.1 db.common_task_map = true := by
          unfold AMap.contains; rw [← hae, hq]; rfl
        unfold DBManager.selected
        simp only [hcon, if_true]
        exact hq
      · rw [selected_find_ne db e.1 a hae]; exact hq
    unfold in_to_do
    simp only
    rw [AMap.find_update e.1 a]
    by_cases hae : a = e.1
    · subst hae
      rw [if_pos rfl, hsel]
      exact ⟨_, rfl, AMap.contains_set_of_contains _ _ _ _ hc⟩
    · rw [if_neg hae, hsel]
      exact ⟨q, rfl, hc⟩

/-- A successful submission puts the unit in the todo map of the first eligible worker of the scan. -/
theorem execute_task_in_to_do (fl : Flags) (now : Int) (db : DBManager) (w : MemRegionDdlWork)
    (e : String × InstanceDBStatus) (he : (scan_order db).find? (eligible fl db) = some e) :
    DBManager.execute_task fl now db w
      = (0, DBManager.submitted now w, (DBManager.execute_task fl now db w).2.2) ∧
    in_to_do (task_id_of w.region_info) e.1 (DBManager.execute_task fl now db w).2.2 := by
  rw [execute_task_push, he]
  refine ⟨rfl, ?_⟩
  have hc := selected_contains db e.1
  unfold AMap.contains at hc
  rcases hq : AMap.find e.1 (db.selected e.1).common_task_map with _ | q
  · rw [hq] at hc; simp at hc
  · unfold in_to_do
    simp only
    rw [AMap.find_update_self, hq]
    refine ⟨_, rfl, ?_⟩
    unfold AMap.contains CommonTaskMap.push
    simp only
    rw [AMap.find_set_self]; rfl

/-- The admission stage of the callback keeps a property of the scheduler that submissions keep, and the region maps. -/
theorem idle_stage_inv (fl : Flags) (now table_id : Int) (region_size : Nat) (P : DBManager → Prop)
    (hP : ∀ db w, P db → P (DBManager.execute_task fl now db w).2.2)
    (c : TraverseCtx) (w : MemRegionDdlWork) (h : P c.db) :
    P (add_index_call_idle fl now table_id region_size c w).2.2.db ∧
    (add_index_call_idle fl now table_id region_size c w).2.2.ddl.region_ddlwork
      = c.ddl.region_ddlwork := by
  unfold add_index_call_idle
  by_cases hst : w.region_info.status = DdlWorkStatus.DdlWorkIdle
  · rw [if_pos hst]
    have hdb := hP c.db w h
    have hreg := increase_doing_work_number_region c.ddl table_id
    simp only
    by_cases hret : (DBManager.execute_task fl now c.db w).1 = 0
    · rw [if_pos hret]
      by_cases hover : over_region_limit fl region_size
          (c.ddl.increase_doing_work_number table_id).1 = true
      · rw [if_pos hover]; exact ⟨hdb, hreg⟩
      · rw [if_neg hover]
        by_cases hmax : max_task_number < c.current_task_number + 1
        · rw [if_pos hmax]; exact ⟨hdb, hreg⟩
        · rw [if_neg hmax]; exact ⟨hdb, hreg⟩
    · rw [if_neg hret]; exact ⟨hdb, rfl⟩
  · rw [if_neg hst]; exact ⟨h, rfl⟩

/-- The retry stage of the callback keeps a property of the scheduler that submissions keep, and the region maps. -/
theorem fail_stage_inv (fl : Flags) (now table_id : Int) (region_size : Nat) (P : DBManager → Prop)
    (hP : ∀ db w, P db → P (DBManager.execute_task fl now db w).2.2)
    (c : TraverseCtx) (w : MemRegionDdlWork) (h : P c.db) :
    P (add_index_call_fail fl now table_id region_size c w).2.2.db ∧
    (add_index_call_fail fl now table_id region_size c w).2.2.ddl.region_ddlwork
      = c.ddl.region_ddlwork := by
  unfold add_index_call_fail
  by_cases hst : w.region_info.status = DdlWorkStatus.DdlWorkFail
  · rw [if_pos hst]
    by_cases hretry : w.region_info.retry_time < fl.max_ddl_retry_time
    · rw [if_pos hretry]
      have hdb := hP c.db w h
      have hreg := increase_doing_work_number_region c.ddl table_id
      simp only
      by_cases hret : (DBManager.execute_task fl now c.db w).1 = 0
      · rw [if_pos hret]
        by_cases hover : over_region_limit fl region_size
            (c.ddl.increase_doing_work_number table_id).1 = true
        · rw [if_pos hover]; exact ⟨hdb, hreg⟩
        · rw [if_neg hover]; exact ⟨hdb, hreg⟩
      · rw [if_neg hret]; exact ⟨hdb, rfl⟩
    · rw [if_neg hretry]; exact ⟨h, rfl⟩
  · rw [if_neg hst]
    by_cases hfat : w.region_info.status = DdlWorkStatus.DdlWorkDupUniq
        ∨ w.region_info.status = DdlWorkStatus.DdlWorkError
    · rw [if_pos hfat]; exact ⟨h, rfl⟩
    · rw [if_neg hfat]; exact ⟨h, rfl⟩

/-- One call of the callback keeps a property of the scheduler that submissions keep, and the region maps. -/
theorem add_index_call_inv (fl : Flags) (now table_id : Int) (region_size : Nat) (P : DBManager → Prop)
    (hP : ∀ db w, P db → P (DBManager.execute_task fl now db w).2.2)
    (c : TraverseCtx) (w : MemRegionDdlWork) (h : P c.db) :
    P (add_index_call fl now table_id region_size c w).2.2.db ∧
    (add_index_call fl now table_id region_size c w).2.2.ddl.region_ddlwork = c.ddl.region_ddlwork := by
  obtain ⟨h1, r1⟩ := idle_stage_inv fl now table_id region_size P hP c w h
  unfold add_index_call
  rcases hi : add_index_call_idle fl now table_id region_size c w with ⟨b1, w1, c1⟩
  rw [hi] at h1 r1
  simp only at h1 r1
  cases b1 with
  | false => exact ⟨h1, r1⟩
  | true =>
    simp only
    have hw := wait_stage_spec c1 w1
    have h2 : P (add_index_call_wait c1 w1).db := by rw [hw.2.2.1]; exact h1
    obtain ⟨h3, r3⟩ := fail_stage_inv fl now table_id region_size P hP (add_index_call_wait c1 w1) w1 h2
    rcases hf : add_index_call_fail fl now table_id region_size (add_index_call_wait c1 w1) w1
      with ⟨b2, w2, c2⟩
    rw [hf] at h3 r3
    simp only at h3 r3
    have r4 : c2.ddl.region_ddlwork = c.ddl.region_ddlwork := by
      rw [r3, hw.2.2.2.1, r1]
    cases b2 with
    | false => exact ⟨h3, r4⟩
    | true =>
      simp only
      unfold add_index_call_rollback
      by_cases hrb : c2.rollback = true
      · rw [if_pos hrb]; exact ⟨h3, r4⟩
      · rw [if_neg hrb]; exact ⟨h3, r4⟩

/-- The traversal keeps a property of the scheduler that submissions keep, and the region maps. -/
theorem traverse_add_index_inv (fl : Flags) (now table_id : Int) (region_size : Nat) (P : DBManager → Prop)
    (hP : ∀ db w, P db → P (DBManager.execute_task fl now db w).2.2) :
    ∀ (l : List (Int × MemRegionDdlWork)) (c : TraverseCtx), P c.db →
      P (traverse_with_early_return (add_index_call fl now table_id region_size) c l).2.db ∧
      (traverse_with_early_return (add_index_call fl now table_id region_size) c l).2.ddl.region_ddlwork
        = c.ddl.region_ddlwork := by
  intro l
  induction l with
  | nil => intro c h; exact ⟨h, rfl⟩
  | cons x rest ih =>
    intro c h
    obtain ⟨k, w⟩ := x
    obtain ⟨h1, r1⟩ := add_index_call_inv fl now table_id region_size P hP c w h
    simp only [traverse_with_early_return]
    rcases hc : add_index_call fl now table_id region_size c w with ⟨b1, w1, c1⟩
    rw [hc] at h1 r1
    simp only at h1 r1
    cases b1 with
    | false => exact ⟨h1, r1⟩
    | true =>
      simp only
      obtain ⟨h2, r2⟩ := ih c1 h1
      exact ⟨h2, by rw [r2, r1]⟩

/-- The callback on a unit that is Done or Doing: only the wait stage acts, the traversal goes on. -/
theorem add_index_call_settled (fl : Flags) (now table_id : Int) (region_size : Nat) (c : TraverseCtx)
    (w : MemRegionDdlWork) (hrb : c.rollback = false)
    (hs : w.region_info.status = DdlWorkStatus.DdlWorkDone ∨
      w.region_info.status = DdlWorkStatus.DdlWorkDoing) :
    add_index_call fl now table_id region_size c w = (true, w, add_index_call_wait c w) := by
  have hi : add_index_call_idle fl now table_id region_size c w = (true, w, c) := by
    unfold add_index_call_idle
    rw [if_neg (by rcases hs with h | h <;> rw [h] <;> simp)]
  have hf : add_index_call_fail fl now table_id region_size (add_index_call_wait c w) w
      = (true, w, add_index_call_wait c w) := by
    unfold add_index_call_fail
    rw [if_neg (by rcases hs with h | h <;> rw [h] <;> simp),
      if_neg (by rcases hs with h | h <;> rw [h] <;> simp)]
  have hr : (add_index_call_wait c w).rollback = false := by
    rw [(wait_stage_spec c w).2.1]; exact hrb
  unfold add_index_call
  rw [hi]
  simp only
  rw [hf]
  simp only
  unfold add_index_call_rollback
  rw [if_neg (by rw [hr]; simp)]

/-- The traversal passes over a prefix of units that are Done or Doing without touching the scheduler. -/
theorem traverse_settled_prefix (fl : Flags) (now table_id : Int) (region_size : Nat) :
    ∀ (pre : List (Int × MemRegionDdlWork)) (c : TraverseCtx), c.rollback = false →
      (∀ e ∈ pre, e.2.region_info.status = DdlWorkStatus.DdlWorkDone ∨
        e.2.region_info.status = DdlWorkStatus.DdlWorkDoing) →
      ∀ rest, ∃ c1 : TraverseCtx, c1.rollback = false ∧ c1.db = c.db ∧
        traverse_with_early_return (add_index_call fl now table_id region_size) c (pre ++ rest)
          = (pre ++ (traverse_with_early_return (add_index_call fl now table_id region_size) c1 rest).1,
             (traverse_with_early_return (add_index_call fl now table_id region_size) c1 rest).2) := by
  intro pre
  induction pre with
  | nil => intro c hrb _ rest; exact ⟨c, hrb, rfl, rfl⟩
  | cons x pre ih =>
    intro c hrb hpre rest
    obtain ⟨k, w⟩ := x
    have hw := wait_stage_spec c w
    have hcall := add_index_call_settled fl now table_id region_size c w hrb
      (hpre (k, w) (List.mem_cons_self _ _))
    obtain ⟨c1, hrb1, hdb1, htr⟩ := ih (add_index_call_wait c w) (by rw [hw.2.1]; exact hrb)
      (fun e he => hpre e (List.mem_cons_of_mem _ he)) rest
    refine ⟨c1, hrb1, by rw [hdb1, hw.2.2.1], ?_⟩
    have happ : (k, w) :: pre ++ rest = (k, w) :: (pre ++ rest) := rfl
    rw [happ]
    simp only [traverse_with_early_return, hcall]
    rw [htr]
    rfl

/-- The admission stage on an Idle unit whose submission succeeds: the unit becomes Doing. -/
theorem idle_stage_admitted (fl : Flags) (now table_id : Int) (region_size : Nat) (c : TraverseCtx)
    (w : MemRegionDdlWork) (db1 : DBManager)
    (hidle : w.region_info.status = DdlWorkStatus.DdlWorkIdle)
    (hex : DBManager.execute_task fl now c.db w = (0, DBManager.submitted now w, db1)) :
    ∃ b c1, add_index_call_idle fl now table_id region_size c w
        = (b, (DBManager.submitted now w).set_status DdlWorkStatus.DdlWorkDoing, c1) ∧
      c1.db = db1 ∧ c1.rollback = c.rollback := by
  unfold add_index_call_idle
  rw [if_pos hidle]
  simp only
  rw [hex]
  simp only
  rw [if_pos trivial]
  by_cases hover : over_region_limit fl region_size
      (c.ddl.increase_doing_work_number table_id).1 = true
  · rw [if_pos hover]; exact ⟨_, _, rfl, rfl, rfl⟩
  · rw [if_neg hover]
    by_cases hmax : max_task_number < c.current_task_number + 1
    · rw [if_pos hmax]; exact ⟨_, _, rfl, rfl, rfl⟩
    · rw [if_neg hmax]; exact ⟨_, _, rfl, rfl, rfl⟩

/-- The callback on an Idle unit whose submission succeeds: the unit becomes Doing, whether or not the traversal goes on. -/
theorem add_index_call_admitted (fl : Flags) (now table_id : Int) (region_size : Nat) (c : TraverseCtx)
    (w : MemRegionDdlWork) (db1 : DBManager) (hrb : c.rollback = false)
    (hidle : w.region_info.status = DdlWorkStatus.DdlWorkIdle)
    (hex : DBManager.execute_task fl now c.db w = (0, DBManager.submitted now w, db1)) :
    ∃ b c1, add_index_call fl now table_id region_size c w
        = (b, (DBManager.submitted now w).set_status DdlWorkStatus.DdlWorkDoing, c1) ∧
      c1.db = db1 := by
  obtain ⟨b, c1, hi, hdb, hrb1⟩ := idle_stage_admitted fl now table_id region_size c w db1 hidle hex
  unfold add_index_call
  rw [hi]
  cases b with
  | false => exact ⟨false, c1, rfl, hdb⟩
  | true =>
    simp only
    have hw := wait_stage_spec c1 ((DBManager.submitted now w).set_status DdlWorkStatus.DdlWorkDoing)
    have hf : add_index_call_fail fl now table_id region_size
        (add_index_call_wait c1 ((DBManager.submitted now w).set_status DdlWorkStatus.DdlWorkDoing))
        ((DBManager.submitted now w).set_status DdlWorkStatus.DdlWorkDoing)
        = (true, (DBManager.submitted now w).set_status DdlWorkStatus.DdlWorkDoing,
           add_index_call_wait c1 ((DBManager.submitted now w).set_status DdlWorkStatus.DdlWorkDoing)) := by
      unfold add_index_call_fail
      rw [if_neg (by simp [MemRegionDdlWork.set_status]),
        if_neg (by simp [MemRegionDdlWork.set_status])]
    rw [hf]
    simp only
    unfold add_index_call_rollback
    rw [if_neg (by rw [hw.2.1, hrb1, hrb]; simp)]
    exact ⟨true, _, rfl, by rw [hw.2.2.1, hdb]⟩

/-- The traversal admits the first Idle unit when only settled units are ahead of it and a worker is eligible. -/
theorem traverse_admits_first_idle (fl : Flags) (now table_id : Int) (region_size : Nat)
    (pre post : List (Int × MemRegionDdlWork)) (k : Int) (w : MemRegionDdlWork) (c : TraverseCtx)
    (e : String × InstanceDBStatus) (hrb : c.rollback = false)
    (hpre : ∀ x ∈ pre, x.2.region_info.status = DdlWorkStatus.DdlWorkDone ∨
      x.2.region_info.status = DdlWorkStatus.DdlWorkDoing)
    (hidle : w.region_info.status = DdlWorkStatus.DdlWorkIdle)
    (he : (scan_order c.db).find? (eligible fl c.db) = some e) :
    (∃ post1, (traverse_with_early_return (add_index_call fl now table_id region_size) c
        (pre ++ (k, w) :: post)).1
      = pre ++ (k, (DBManager.submitted now w).set_status DdlWorkStatus.DdlWorkDoing) :: post1) ∧
    in_to_do (task_id_of w.region_info) e.1
      (traverse_with_early_return (add_index_call fl now table_id region_size) c
        (pre ++ (k, w) :: post)).2.db := by
  obtain ⟨c1, hrb1, hdb1, htr⟩ :=
    traverse_settled_prefix fl now table_id region_size pre c hrb hpre ((k, w) :: post)
  rw [← hdb1] at he
  obtain ⟨hex, hin⟩ := execute_task_in_to_do fl now c1.db w e he
  obtain ⟨b, c2, hcall, hdb2⟩ := add_index_call_admitted fl now table_id region_size c1 w _ hrb1 hidle hex
  rw [htr]
  simp only [traverse_with_early_return, hcall]
  cases b with
  | false =>
    simp only
    exact ⟨⟨post, rfl⟩, by rw [hdb2]; exact hin⟩
  | true =>
    simp only
    refine ⟨⟨_, rfl⟩, ?_⟩
    exact (traverse_add_index_inv fl now table_id region_size
      (in_to_do (task_id_of w.region_info) e.1)
      (fun db w1 h => execute_task_keeps_to_do fl now _ _ db w1 h) post c2
      (by rw [hdb2]; exact hin)).1

/--
Claim C26, counterexample. First scenario: the tick starts with region 2 Idle
and the worker `w1` one unit below `MaxConcurrent`; the traversal first retries
the Fail unit of region 1, which takes the last slot of `w1`, then finds no
worker for region 2 and stops: no Idle unit has become Doing and the counter,
10, is below the limit 22. Second scenario: a DupUniq unit ahead of the Idle
unit rolls the job back before the Idle unit is visited, with an idle worker
and counter 0.
-/
theorem tick_without_progress :
    ((AMap.find 1 retry_first_server.ddl.region_ddlwork).getD []).map (fun e => e.2.region_info.status)
      = [DdlWorkStatus.DdlWorkFail, DdlWorkStatus.DdlWorkIdle] ++ List.replicate 9 DdlWorkStatus.DdlWorkDoing ∧
    round_robin_reference defaultFlags retry_first_server.db = some "w1" ∧
    over_region_limit defaultFlags (retry_first_server.table_manager.get_region_size 10)
      (retry_first_server.ddl.get_doing_work_number 1) = false ∧
    statuses_after_tick retry_first_server
      = [DdlWorkStatus.DdlWorkDoing, DdlWorkStatus.DdlWorkIdle] ++ List.replicate 9 DdlWorkStatus.DdlWorkDoing ∧
    (DDLManager.add_index_global_ddlwork defaultFlags 100 retry_first_server
      (scenario_job IndexState.IS_WRITE_LOCAL)).2.2.ddl.get_doing_work_number 1 = 10 ∧
    region_limit defaultFlags (retry_first_server.table_manager.get_region_size 10) = 22 ∧
    round_robin_reference defaultFlags fatal_first_server.db = some "w1" ∧
    statuses_after_tick fatal_first_server = [DdlWorkStatus.DdlWorkDupUniq, DdlWorkStatus.DdlWorkIdle] ∧
    (DDLManager.add_index_global_ddlwork defaultFlags 100 fatal_first_server
      (scenario_job IndexState.IS_WRITE_LOCAL)).2.2.ddl.get_doing_work_number 1 = 0 ∧
    region_limit defaultFlags (fatal_first_server.table_manager.get_region_size 10) = 2 := by
  set_option maxRecDepth 100000 in decide

/--
Claim C26, amended. An `IS_WRITE_LOCAL` tick of an in-process add-index job
whose region map holds an Idle unit with only Done or Doing units ahead of it in
traversal order, while some worker of the pool is eligible (not Faulty, and
without queue entry or below `MaxConcurrent`): either the counter is already
over the region limit and the tick stops at the pre-check, or after the tick
that unit is Doing in the region map, with one more attempt counted, and its
task id is in the todo map of a worker.
-/
theorem idle_unit_admitted (fl : Flags) (now : Int) (s : MetaServer) (g : DdlWorkInfo)
    (pre post : List (Int × MemRegionDdlWork)) (k : Int) (w : MemRegionDdlWork)
    (hstate : s.table_manager.get_index_state g.table_id g.index_id = some IndexState.IS_WRITE_LOCAL)
    (herr : g.errcode = ErrCode.IN_PROCESS)
    (hmap : AMap.find g.table_id s.ddl.region_ddlwork = some (pre ++ (k, w) :: post))
    (hcount : s.ddl.get_doing_work_number g.table_id ≠ -1)
    (hpre : ∀ x ∈ pre, x.2.region_info.status = DdlWorkStatus.DdlWorkDone ∨
      x.2.region_info.status = DdlWorkStatus.DdlWorkDoing)
    (hidle : w.region_info.status = DdlWorkStatus.DdlWorkIdle)
    (helig : ∃ e ∈ s.db.address_instance_map, eligible fl s.db e = true) :
    over_region_limit fl (s.table_manager.get_region_size g.index_id)
      (s.ddl.get_doing_work_number g.table_id) = true ∨
    ((∃ post1, AMap.find g.table_id (DDLManager.add_index_global_ddlwork fl now s g).2.2.ddl.region_ddlwork
        = some (pre ++ (k, (DBManager.submitted now w).set_status DdlWorkStatus.DdlWorkDoing) :: post1)) ∧
     ∃ address q,
       AMap.find address (DDLManager.add_index_global_ddlwork fl now s g).2.2.db.common_task_map = some q ∧
       AMap.contains (task_id_of w.region_info) q.to_do_task_map = true) := by
  by_cases hover : over_region_limit fl (s.table_manager.get_region_size g.index_id)
      (s.ddl.get_doing_work_number g.table_id) = true
  · exact Or.inl hover
  · right
    obtain ⟨e, he⟩ : ∃ e, (scan_order s.db).find? (eligible fl s.db) = some e := by
      obtain ⟨e0, hmem, hel⟩ := helig
      have hsome : ((scan_order s.db).find? (eligible fl s.db)).isSome = true := by
        rw [List.find?_isSome]
        exact ⟨e0, (mem_scan_order s.db e0).2 hmem, hel⟩
      exact Option.isSome_iff_exists.1 hsome
    obtain ⟨⟨post1, hlist⟩, hin⟩ := traverse_admits_first_idle fl now g.table_id
      (s.table_manager.get_region_size g.index_id) pre post k w
      { g_ddl_work := g, db := s.db, ddl := s.ddl } e rfl hpre hidle he
    have hreg := (traverse_add_index_inv fl now g.table_id (s.table_manager.get_region_size g.index_id)
      (fun _ => True) (fun _ _ _ => trivial) (pre ++ (k, w) :: post)
      { g_ddl_work := g, db := s.db, ddl := s.ddl } trivial).2
    have hdone : ¬ (traverse_with_early_return
        (add_index_call fl now g.table_id (s.table_manager.get_region_size g.index_id))
        { g_ddl_work := g, db := s.db, ddl := s.ddl } (pre ++ (k, w) :: post)).2.done = true := by
      intro hd
      have hall := ((traverse_add_index_spec fl now g.table_id (s.table_manager.get_region_size g.index_id)
        (pre ++ (k, w) :: post) { g_ddl_work := g, db := s.db, ddl := s.ddl } rfl).2.1 hd).2
      have := hall (k, w) (by simp)
      rw [hidle] at this
      exact absurd this (by simp)
    rw [add_index_write_local_eq fl now s g hstate (by rw [herr]; simp)]
    unfold DDLManager.add_index_write_local
    simp only [hmap, hcount, hover, Bool.false_eq_true, if_false]
    rcases htr : traverse_with_early_return
        (add_index_call fl now g.table_id (s.table_manager.get_region_size g.index_id))
        { g_ddl_work := g, db := s.db, ddl := s.ddl } (pre ++ (k, w) :: post) with ⟨region_map1, c⟩
    rw [htr] at hlist hin hreg hdone
    simp only at hlist hin hreg hdone
    simp only [hdone, Bool.false_eq_true, if_false]
    refine ⟨⟨post1, ?_⟩, ?_⟩
    · rw [hreg, AMap.find_update_self, hmap, hlist]
      rfl
    · obtain ⟨q, hq, hc⟩ := hin
      exact ⟨e.1, q, hq, hc⟩

/-- Claim C26, amended, witness: the first tick of the scenario with four Idle units and the worker `w1` makes region 1 Doing. -/
theorem idle_unit_admitted_witness :
    (∃ e ∈ ratio_cap_server.db.address_instance_map, eligible defaultFlags ratio_cap_server.db e = true) ∧
    ((∃ post1, AMap.find 1 (DDLManager.add_index_global_ddlwork defaultFlags 100 ratio_cap_server
        (scenario_job IndexState.IS_WRITE_LOCAL)).2.2.ddl.region_ddlwork
        = some ([] ++ (1, (DBManager.submitted 100 (scenario_unit 1 DdlWorkStatus.DdlWorkIdle 0).2).set_status
            DdlWorkStatus.DdlWorkDoing) :: post1)) ∧
     ∃ address q,
       AMap.find address (DDLManager.add_index_global_ddlwork defaultFlags 100 ratio_cap_server
         (scenario_job IndexState.IS_WRITE_LOCAL)).2.2.db.common_task_map = some q ∧
       AMap.contains (task_id_of (scenario_unit 1 DdlWorkStatus.DdlWorkIdle 0).2.region_info)
         q.to_do_task_map = true) :=
  ⟨⟨("w1", { room := "", state := InstanceState.NORMAL, timestamp := 0 }), by decide, by decide⟩,
   (idle_unit_admitted defaultFlags 100 ratio_cap_server (scenario_job IndexState.IS_WRITE_LOCAL) []
      [scenario_unit 2 DdlWorkStatus.DdlWorkIdle 0, scenario_unit 3 DdlWorkStatus.DdlWorkIdle 0,
       scenario_unit 4 DdlWorkStatus.DdlWorkIdle 0] 1 (scenario_unit 1 DdlWorkStatus.DdlWorkIdle 0).2
      (by decide) (by decide) (by decide) (by decide) (by intro x hx; simp at hx) (by decide)
      ⟨("w1", { room := "", state := InstanceState.NORMAL, timestamp := 0 }), by decide, by decide⟩
    ).resolve_left (by decide)⟩

/-! ## Suspension -/

/-- The jobs copied by the first loop of `work` are not suspended. -/
theorem work_collect_not_suspended :
    ∀ (l : List (Int × MemDdlInfo)) (s : MetaServer) (temp : List (Int × MemDdlInfo)),
      (∀ e ∈ temp, e.2.work_info.suspend = false) →
      ∀ e ∈ (DDLManager.work_collect l s temp).2, e.2.work_info.suspend = false := by
  intro l
  induction l with
  | nil => intro s temp h; exact h
  | cons x rest ih =>
    intro s temp h
    obtain ⟨k, mem⟩ := x
    unfold DDLManager.work_collect
    by_cases hfin : mem.work_info.errcode = ErrCode.SUCCESS ∨ mem.work_info.errcode = ErrCode.EXEC_FAIL
    · rw [if_pos hfin]
      exact ih _ temp h
    · rw [if_neg hfin]
      by_cases hs : mem.work_info.suspend = true
      · rw [if_pos hs]
        exact ih s temp h
      · rw [if_neg hs]
        apply ih
        intro e he
        rcases AMap.mem_insert_new k mem temp e he with h1 | h1
        · subst h1; simpa using hs
        · exact h e h1

/-- The first loop of `work` over jobs that are all suspended and in process does nothing. -/
theorem work_collect_all_suspended :
    ∀ (l : List (Int × MemDdlInfo)) (s : MetaServer) (temp : List (Int × MemDdlInfo)),
      (∀ e ∈ l, e.2.work_info.suspend = true ∧ e.2.work_info.errcode = ErrCode.IN_PROCESS) →
      DDLManager.work_collect l s temp = (s, temp) := by
  intro l
  induction l with
  | nil => intro s temp _; rfl
  | cons x rest ih =>
    intro s temp h
    obtain ⟨k, mem⟩ := x
    have hx := h (k, mem) (List.mem_cons_self _ _)
    unfold DDLManager.work_collect
    rw [if_neg (by rw [hx.2]; simp), if_pos hx.1]
    exact ih s temp (fun e he => h e (List.mem_cons_of_mem _ he))

/-- Storing the record of another table leaves the job record of table `t`. -/
theorem update_table_ddl_mem_find_ne (d : DDLManager) (g : DdlWorkInfo) (t : Int) (h : t ≠ g.table_id) :
    AMap.find t (d.update_table_ddl_mem g).table_ddl_mem = AMap.find t d.table_ddl_mem := by
  unfold DDLManager.update_table_ddl_mem
  exact AMap.find_update_ne g.table_id t _ _ h

/-- The admission stage for table `table_id` leaves the job record of another table `t` and the copied job. -/
theorem idle_stage_frame (fl : Flags) (now table_id : Int) (region_size : Nat) (t : Int)
    (hne : t ≠ table_id) (c : TraverseCtx) (w : MemRegionDdlWork) :
    AMap.find t (add_index_call_idle fl now table_id region_size c w).2.2.ddl.table_ddl_mem
      = AMap.find t c.ddl.table_ddl_mem ∧
    (add_index_call_idle fl now table_id region_size c w).2.2.g_ddl_work = c.g_ddl_work := by
  have hinc : AMap.find t (c.ddl.increase_doing_work_number table_id).2.table_ddl_mem
      = AMap.find t c.ddl.table_ddl_mem := by
    rw [increase_doing_work_number_find, if_neg hne]
  unfold add_index_call_idle
  by_cases hst : w.region_info.status = DdlWorkStatus.DdlWorkIdle
  · rw [if_pos hst]
    simp only
    by_cases hret : (DBManager.execute_task fl now c.db w).1 = 0
    · rw [if_pos hret]
      by_cases hover : over_region_limit fl region_size
          (c.ddl.increase_doing_work_number table_id).1 = true
      · rw [if_pos hover]; exact ⟨hinc, rfl⟩
      · rw [if_neg hover]
        by_cases hmax : max_task_number < c.current_task_number + 1
        · rw [if_pos hmax]; exact ⟨hinc, rfl⟩
        · rw [if_neg hmax]; exact ⟨hinc, rfl⟩
    · rw [if_neg hret]; exact ⟨rfl, rfl⟩
  · rw [if_neg hst]; exact ⟨rfl, rfl⟩

/-- The retry stage for table `table_id` leaves the job record of another table `t` and the copied job. -/
theorem fail_stage_frame (fl : Flags) (now table_id : Int) (region_size : Nat) (t : Int)
    (hne : t ≠ table_id) (c : TraverseCtx) (w : MemRegionDdlWork) :
    AMap.find t (add_index_call_fail fl now table_id region_size c w).2.2.ddl.table_ddl_mem
      = AMap.find t c.ddl.table_ddl_mem ∧
    (add_index_call_fail fl now table_id region_size c w).2.2.g_ddl_work = c.g_ddl_work := by
  have hinc : AMap.find t (c.ddl.increase_doing_work_number table_id).2.table_ddl_mem
      = AMap.find t c.ddl.table_ddl_mem := by
    rw [increase_doing_work_number_find, if_neg hne]
  unfold add_index_call_fail
  by_cases hst : w.region_info.status = DdlWorkStatus.DdlWorkFail
  · rw [if_pos hst]
    by_cases hretry : w.region_info.retry_time < fl.max_ddl_retry_time
    · rw [if_pos hretry]
      simp only
      by_cases hret : (DBManager.execute_task fl now c.db w).1 = 0
      · rw [if_pos hret]
        by_cases hover : over_region_limit fl region_size
            (c.ddl.increase_doing_work_number table_id).1 = true
        · rw [if_pos hover]; exact ⟨hinc, rfl⟩
        · rw [if_neg hover]; exact ⟨hinc, rfl⟩
      · rw [if_neg hret]; exact ⟨rfl, rfl⟩
    · rw [if_neg hretry]; exact ⟨rfl, rfl⟩
  · rw [if_neg hst]
    by_cases hfat : w.region_info.status = DdlWorkStatus.DdlWorkDupUniq
        ∨ w.region_info.status = DdlWorkStatus.DdlWorkError
    · rw [if_pos hfat]; exact ⟨rfl, rfl⟩
    · rw [if_neg hfat]; exact ⟨rfl, rfl⟩

/-- One call of the callback for the job of table `table_id` leaves the job record of another table `t`. -/
theorem add_index_call_frame (fl : Flags) (now table_id : Int) (region_size : Nat) (t : Int)
    (hne : t ≠ table_id) (c : TraverseCtx) (w : MemRegionDdlWork)
    (hg : c.g_ddl_work.table_id = table_id) :
    AMap.find t (add_index_call fl now table_id region_size c w).2.2.ddl.table_ddl_mem
      = AMap.find t c.ddl.table_ddl_mem ∧
    (add_index_call fl now table_id region_size c w).2.2.g_ddl_work.table_id = table_id := by
  obtain ⟨h1, g1⟩ := idle_stage_frame fl now table_id region_size t hne c w
  unfold add_index_call
  rcases hi : add_index_call_idle fl now table_id region_size c w with ⟨b1, w1, c1⟩
  rw [hi] at h1 g1
  simp only at h1 g1
  cases b1 with
  | false => exact ⟨h1, by rw [g1]; exact hg⟩
  | true =>
    simp only
    have hw := wait_stage_spec c1 w1
    obtain ⟨h3, g3⟩ := fail_stage_frame fl now table_id region_size t hne (add_index_call_wait c1 w1) w1
    rcases hf : add_index_call_fail fl now table_id region_size (add_index_call_wait c1 w1) w1
      with ⟨b2, w2, c2⟩
    rw [hf] at h3 g3
    simp only at h3 g3
    have h4 : AMap.find t c2.ddl.table_ddl_mem = AMap.find t c.ddl.table_ddl_mem := by
      rw [h3, hw.2.2.2.1, h1]
    have g4 : c2.g_ddl_work.table_id = table_id := by
      rw [g3, hw.1, g1]; exact hg
    cases b2 with
    | false => exact ⟨h4, g4⟩
    | true =>
      simp only
      unfold add_index_call_rollback
      by_cases hrb : c2.rollback = true
      · rw [if_pos hrb]
        simp only
        refine ⟨?_, g4⟩
        have := update_table_ddl_mem_find_ne c2.ddl { c2.g_ddl_work with errcode := ErrCode.EXEC_FAIL } t
          (by simp only; rw [g4]; exact hne)
        rw [← h4]
        exact this
      · rw [if_neg hrb]; exact ⟨h4, g4⟩

/-- The traversal for the job of table `table_id` leaves the job record of another table `t`. -/
theorem traverse_add_index_frame (fl : Flags) (now table_id : Int) (region_size : Nat) (t : Int)
    (hne : t ≠ table_id) :
    ∀ (l : List (Int × MemRegionDdlWork)) (c : TraverseCtx), c.g_ddl_work.table_id = table_id →
      AMap.find t (traverse_with_early_return (add_index_call fl now table_id region_size) c l
        ).2.ddl.table_ddl_mem = AMap.find t c.ddl.table_ddl_mem ∧
      (traverse_with_early_return (add_index_call fl now table_id region_size) c l
        ).2.g_ddl_work.table_id = table_id := by
  intro l
  induction l with
  | nil => intro c hg; exact ⟨rfl, hg⟩
  | cons x rest ih =>
    intro c hg
    obtain ⟨k, w⟩ := x
    obtain ⟨h1, g1⟩ := add_index_call_frame fl now table_id region_size t hne c w hg
    simp only [traverse_with_early_return]
    rcases hc : add_index_call fl now table_id region_size c w with ⟨b1, w1, c1⟩
    rw [hc] at h1 g1
    simp only at h1 g1
    cases b1 with
    | false => exact ⟨h1, g1⟩
    | true =>
      simp only
      obtain ⟨h2, g2⟩ := ih c1 g1
      exact ⟨by rw [h2, h1], g2⟩

/-- Storing the record of another table leaves the memory of table `t`. -/
theorem update_table_ddl_mem_view (d : DDLManager) (g : DdlWorkInfo) (t : Int) (h : t ≠ g.table_id) :
    job_view t (d.update_table_ddl_mem g) = job_view t d := by
  unfold job_view
  rw [update_table_ddl_mem_find_ne d g t h]
  rfl

/-- The method `update_txn_ready` leaves the job records and the region maps. -/
theorem update_txn_ready_view (s : MetaServer) (table_id t : Int) :
    job_view t (DBManager.update_txn_ready s table_id).ddl = job_view t s.ddl := by
  unfold DBManager.update_txn_ready
  rcases AMap.find table_id s.db.broadcast_task_map with _ | task
  · rfl
  · by_cases h : task.number = 0
    · simp only [h, if_true]; rfl
    · simp only [h, if_false]

/-- A dwell-gated advance of the job of another table leaves the memory of table `t`. -/
theorem add_index_advance_view (fl : Flags) (now : Int) (s : MetaServer) (g : DdlWorkInfo)
    (cur next : IndexState) (t : Int) (hne : t ≠ g.table_id) :
    job_view t (DDLManager.add_index_advance fl now s g cur next).2.2.ddl = job_view t s.ddl := by
  unfold DDLManager.add_index_advance
  rcases s.ddl.update_policy.should_change fl now g.table_id cur with ⟨b, p⟩
  cases b
  · rfl
  · simp only
    rw [update_table_ddl_mem_view _ _ t (by simpa using hne)]
    rfl

/-- The `IS_WRITE_ONLY` case for the job of another table leaves the memory of table `t`. -/
theorem add_index_write_only_view (now : Int) (s : MetaServer) (g : DdlWorkInfo) (t : Int)
    (hne : t ≠ g.table_id) :
    job_view t (DDLManager.add_index_write_only now s g).2.2.ddl = job_view t s.ddl := by
  have hready := update_txn_ready_view s g.table_id t
  unfold DDLManager.add_index_write_only
  by_cases hex : s.ddl.exist_wait_txn_info g.table_id = true
  · simp only [hex, Bool.not_true, Bool.false_eq_true, if_false]
    by_cases hd : (DBManager.update_txn_ready s g.table_id).ddl.is_txn_done g.table_id = true
    · simp only [hd, if_true]
      by_cases hs : (DBManager.update_txn_ready s g.table_id).ddl.is_txn_success g.table_id = true
      · simp only [hs, if_true]
        rw [← hready, ← update_table_ddl_mem_view (DBManager.update_txn_ready s g.table_id).ddl
          { g with job_state := IndexState.IS_WRITE_LOCAL } t (by simpa using hne)]
        rfl
      · simp only [hs, Bool.false_eq_true, if_false]
        rw [← hready, ← update_table_ddl_mem_view (DBManager.update_txn_ready s g.table_id).ddl
          { g with errcode := ErrCode.EXEC_FAIL } t (by simpa using hne)]
        rfl
    · simp only [hd, Bool.false_eq_true, if_false]
      exact hready
  · simp only [Bool.not_eq_true] at hex
    simp only [hex, Bool.not_false, if_true]
    rfl

/-- The `IS_WRITE_LOCAL` case for the job of another table leaves the memory of table `t`. -/
theorem add_index_write_local_view (fl : Flags) (now : Int) (s : MetaServer) (g : DdlWorkInfo)
    (region_size : Nat) (t : Int) (hne : t ≠ g.table_id) :
    job_view t (DDLManager.add_index_write_local fl now s g region_size).2.2.ddl = job_view t s.ddl := by
  rcases hmap : AMap.find g.table_id s.ddl.region_ddlwork with _ | region_map
  · simp only [DDLManager.add_index_write_local, hmap]
    rfl
  · simp only [DDLManager.add_index_write_local, hmap]
    by_cases h1 : s.ddl.get_doing_work_number g.table_id = -1
    · rw [if_pos h1]
    · rw [if_neg h1]
      by_cases h2 : over_region_limit fl region_size (s.ddl.get_doing_work_number g.table_id) = true
      · rw [if_pos h2]
      · rw [if_neg h2]
        obtain ⟨hmem, hg⟩ := traverse_add_index_frame fl now g.table_id region_size t hne region_map
          { g_ddl_work := g, db := s.db, ddl := s.ddl } rfl
        have hreg := (traverse_add_index_inv fl now g.table_id region_size
          (fun _ => True) (fun _ _ _ => trivial) region_map
          { g_ddl_work := g, db := s.db, ddl := s.ddl } trivial).2
        rcases htr : traverse_with_early_return (add_index_call fl now g.table_id region_size)
          { g_ddl_work := g, db := s.db, ddl := s.ddl } region_map with ⟨region_map1, c⟩
        rw [htr] at hmem hg hreg
        simp only at hmem hg hreg ⊢
        have hview : job_view t
            { c.ddl with region_ddlwork :=
                AMap.update g.table_id (fun _ => region_map1) c.ddl.region_ddlwork }
            = job_view t s.ddl := by
          unfold job_view
          simp only
          rw [hmem, hreg, AMap.find_update_ne g.table_id t _ _ hne]
        by_cases hdone : c.done = true
        · rw [if_pos hdone]
          simp only
          rw [update_table_ddl_mem_view _ _ t (by simp only; rw [hg]; exact hne)]
          exact hview
        · rw [if_neg hdone]
          exact hview

/-- The add-index step for the job of another table leaves the memory of table `t`. -/
theorem add_index_global_ddlwork_view (fl : Flags) (now : Int) (s : MetaServer) (g : DdlWorkInfo)
    (t : Int) (hne : t ≠ g.table_id) :
    job_view t (DDLManager.add_index_global_ddlwork fl now s g).2.2.ddl = job_view t s.ddl := by
  unfold DDLManager.add_index_global_ddlwork
  rcases s.table_manager.get_index_state g.table_id g.index_id with _ | cur
  · rfl
  · simp only
    by_cases herr : g.errcode = ErrCode.EXEC_FAIL
    · rw [if_pos herr]
    · rw [if_neg herr]
      cases cur with
      | IS_NONE => exact add_index_advance_view fl now s g _ _ t hne
      | IS_DELETE_ONLY => exact add_index_advance_view fl now s g _ _ t hne
      | IS_WRITE_ONLY => exact add_index_write_only_view now s g t hne
      | IS_WRITE_LOCAL => exact add_index_write_local_view fl now s g _ t hne
      | IS_PUBLIC => rfl

/-- A dwell-gated drop step of the job of another table leaves the memory of table `t`. -/
theorem drop_index_step_view (fl : Flags) (now : Int) (s : MetaServer) (g : DdlWorkInfo)
    (cur next : IndexState) (t : Int) (hne : t ≠ g.table_id) :
    job_view t (DDLManager.drop_index_step fl now s g cur next).2.2.ddl = job_view t s.ddl := by
  unfold DDLManager.drop_index_step
  rcases s.ddl.update_policy.should_change fl now g.table_id cur with ⟨b, p⟩
  cases b
  · rfl
  · simp only
    rw [update_table_ddl_mem_view _ _ t (by simpa using hne)]
    rfl

/-- The last drop step of the job of another table leaves the memory of table `t`. -/
theorem drop_index_none_view (fl : Flags) (now : Int) (s : MetaServer) (g : DdlWorkInfo)
    (t : Int) (hne : t ≠ g.table_id) :
    job_view t (DDLManager.drop_index_none fl now s g).2.2.ddl = job_view t s.ddl := by
  unfold DDLManager.drop_index_none
  simp only
  rcases s.ddl.update_policy.should_change fl now g.table_id IndexState.IS_NONE with ⟨b, p⟩
  cases b
  · rfl
  · simp only
    rw [update_table_ddl_mem_view _ _ t (by simpa using hne)]
    rfl

/-- The drop-index step for the job of another table leaves the memory of table `t`. -/
theorem drop_index_global_ddlwork_view (fl : Flags) (now : Int) (s : MetaServer) (g : DdlWorkInfo)
    (t : Int) (hne : t ≠ g.table_id) :
    job_view t (DDLManager.drop_index_global_ddlwork fl now s g).2.2.ddl = job_view t s.ddl := by
  unfold DDLManager.drop_index_global_ddlwork
  rcases s.table_manager.get_index_state g.table_id g.index_id with _ | cur
  · rfl
  · simp only
    by_cases herr : g.errcode = ErrCode.EXEC_FAIL
    · rw [if_pos herr]
    · rw [if_neg herr]
      cases cur with
      | IS_NONE => exact drop_index_none_view fl now s g t hne
      | IS_DELETE_ONLY => exact drop_index_step_view fl now s g _ _ t hne
      | IS_WRITE_ONLY => exact drop_index_step_view fl now s g _ _ t hne
      | IS_WRITE_LOCAL => exact drop_index_step_view fl now s g _ _ t hne
      | IS_PUBLIC => exact drop_index_step_view fl now s g _ _ t hne

/-- The second loop of `work` over jobs of other tables leaves the memory of table `t`. -/
theorem work_dispatch_view (fl : Flags) (now : Int) (t : Int) :
    ∀ (temp : List (Int × MemDdlInfo)) (s : MetaServer),
      (∀ e ∈ temp, t ≠ e.2.work_info.table_id) →
      job_view t (DDLManager.work_dispatch fl now temp s).ddl = job_view t s.ddl := by
  intro temp
  induction temp with
  | nil => intro s _; rfl
  | cons x rest ih =>
    intro s h
    obtain ⟨k, mem⟩ := x
    have hne : t ≠ mem.work_info.table_id := h (k, mem) (List.mem_cons_self _ _)
    unfold DDLManager.work_dispatch
    simp only
    rw [ih _ (fun e he => h e (List.mem_cons_of_mem _ he))]
    cases hop : mem.work_info.op_type with
    | OP_ADD_INDEX => exact add_index_global_ddlwork_view fl now s mem.work_info t hne
    | OP_DROP_INDEX => exact drop_index_global_ddlwork_view fl now s mem.work_info t hne
    | OP_UPDATE_GLOBAL_REGION_DDL_WORK => rfl
    | OP_DELETE_DDLWORK => rfl
    | OP_SUSPEND_DDL_WORK => rfl
    | OP_RESTART_DDL_WORK => rfl
    | OP_REMOVE_GLOBAL_INDEX_DATA => rfl

/-- The first loop of `work` leaves the `DDLManager` and the scheduler, and copies only jobs of the job table. -/
theorem work_collect_frame :
    ∀ (l : List (Int × MemDdlInfo)) (s : MetaServer) (temp : List (Int × MemDdlInfo)),
      (DDLManager.work_collect l s temp).1.ddl = s.ddl ∧
      (DDLManager.work_collect l s temp).1.db = s.db ∧
      ∀ e ∈ (DDLManager.work_collect l s temp).2, e ∈ temp ∨ e ∈ l := by
  intro l
  induction l with
  | nil => intro s temp; exact ⟨rfl, rfl, fun e he => Or.inl he⟩
  | cons x rest ih =>
    intro s temp
    obtain ⟨k, mem⟩ := x
    unfold DDLManager.work_collect
    by_cases hfin : mem.work_info.errcode = ErrCode.SUCCESS ∨ mem.work_info.errcode = ErrCode.EXEC_FAIL
    · rw [if_pos hfin]
      simp only
      by_cases hdrop : mem.work_info.errcode = ErrCode.EXEC_FAIL ∧
          mem.work_info.op_type = OpType.OP_ADD_INDEX
      · rw [if_pos hdrop]
        obtain ⟨h1, h2, h3⟩ := ih
          { (DDLManager.apply_raft s
              { op_type := OpType.OP_DELETE_DDLWORK, ddlwork_info := some mem.work_info,
                region_ddl_work := none, global_ddl_table_id := 0 }) with
            table_manager := (DDLManager.apply_raft s
              { op_type := OpType.OP_DELETE_DDLWORK, ddlwork_info := some mem.work_info,
                region_ddl_work := none, global_ddl_table_id := 0 }).table_manager.drop_index_request
                  mem.work_info } temp
        refine ⟨h1, h2, fun e he => ?_⟩
        rcases h3 e he with h | h
        · exact Or.inl h
        · exact Or.inr (List.mem_cons_of_mem _ h)
      · rw [if_neg hdrop]
        obtain ⟨h1, h2, h3⟩ := ih (DDLManager.apply_raft s
              { op_type := OpType.OP_DELETE_DDLWORK, ddlwork_info := some mem.work_info,
                region_ddl_work := none, global_ddl_table_id := 0 }) temp
        refine ⟨h1, h2, fun e he => ?_⟩
        rcases h3 e he with h | h
        · exact Or.inl h
        · exact Or.inr (List.mem_cons_of_mem _ h)
    · rw [if_neg hfin]
      by_cases hs : mem.work_info.suspend = true
      · rw [if_pos hs]
        obtain ⟨h1, h2, h3⟩ := ih s temp
        refine ⟨h1, h2, fun e he => ?_⟩
        rcases h3 e he with h | h
        · exact Or.inl h
        · exact Or.inr (List.mem_cons_of_mem _ h)
      · rw [if_neg hs]
        obtain ⟨h1, h2, h3⟩ := ih s (AMap.insert_new k mem temp)
        refine ⟨h1, h2, fun e he => ?_⟩
        rcases h3 e he with h | h
        · rcases AMap.mem_insert_new k mem temp e h with h4 | h4
          · subst h4; exact Or.inr (List.mem_cons_self _ _)
          · exact Or.inl h4
        · exact Or.inr (List.mem_cons_of_mem _ h)

/-- Two updates of the same key are one update with the composed function. -/
theorem AMap.update_update {κ α : Type} [DecidableEq κ] (k : κ) (f g : α → α) (m : List (κ × α)) :
    AMap.update k f (AMap.update k g m) = AMap.update k (fun v => f (g v)) m := by
  induction m with
  | nil => rfl
  | cons x rest ih =>
    obtain ⟨k1, v1⟩ := x
    by_cases h : k1 = k
    · simp [AMap.update, h]
    · simp [AMap.update, h, ih]

/-- The memory after `update_ddl_status` on an existing job: the record with the flag is stored; the scheduler is not touched. -/
theorem update_ddl_status_memory (s : MetaServer) (b : Bool) (t : Int) (mem : MemDdlInfo)
    (hjob : AMap.find t s.ddl.table_ddl_mem = some mem) :
    (DDLManager.update_ddl_status s b t).2.ddl
      = s.ddl.update_table_ddl_mem { mem.work_info with suspend := b } ∧
    (DDLManager.update_ddl_status s b t).2.db = s.db ∧
    (DDLManager.update_ddl_status s b t).2.table_manager = s.table_manager ∧
    (DDLManager.update_ddl_status s b t).2.raft_pending = s.raft_pending := by
  have hget : s.ddl.get_ddl_mem t = some mem.work_info := by
    unfold DDLManager.get_ddl_mem; rw [hjob]; rfl
  unfold DDLManager.update_ddl_status
  rw [hget]
  simp only
  unfold MetaRocksdb.put_ddlwork_key
  by_cases hw : s.rocksdb.writable = true
  · simp [hw]
  · simp [hw]

/--
Claim C27. Suspension, for a job `mem` stored under table id `t`. When the job
is suspended and in process: the visit of the job by the controller loop leaves
the server as it is; no job copied for the step loop of a cycle is suspended, so
neither step runs for it; a cycle over a job table whose jobs are all suspended
and in process leaves the whole server, worker queues included, unchanged; and
in any cycle, the jobs being stored under their table ids and `t` naming this
job only, the record of the job (job state, errcode, counter) and its region
map are unchanged. `update_ddl_status` on the job stores the record with the
new flag and nothing else: the other jobs, the region maps and the scheduler
are unchanged; suspend followed by restart gives back the memory of a job that
was not suspended; and for a table without job it returns 0 and changes nothing.
-/
theorem suspension_frame (fl : Flags) (now : Int) (s : MetaServer) (t : Int) (mem : MemDdlInfo)
    (hjob : AMap.find t s.ddl.table_ddl_mem = some mem) :
    (mem.work_info.suspend = true → mem.work_info.errcode = ErrCode.IN_PROCESS →
      DDLManager.work_one fl now s t = s ∧
      (∀ e ∈ (DDLManager.work_collect s.ddl.table_ddl_mem s []).2, e.2.work_info.suspend = false) ∧
      ((∀ e ∈ s.ddl.table_ddl_mem,
          e.2.work_info.suspend = true ∧ e.2.work_info.errcode = ErrCode.IN_PROCESS) →
        DDLManager.work_body fl now s = s) ∧
      ((∀ e ∈ s.ddl.table_ddl_mem, e.2.work_info.table_id = e.1) →
        (∀ e ∈ s.ddl.table_ddl_mem, e.1 = t → e.2 = mem) →
        job_view t (DDLManager.work_body fl now s).ddl = (some mem, AMap.find t s.ddl.region_ddlwork))) ∧
    (mem.work_info.table_id = t → ∀ b : Bool,
      AMap.find t (DDLManager.update_ddl_status s b t).2.ddl.table_ddl_mem
        = some { mem with work_info := { mem.work_info with suspend := b } } ∧
      (∀ t1, t1 ≠ t → AMap.find t1 (DDLManager.update_ddl_status s b t).2.ddl.table_ddl_mem
        = AMap.find t1 s.ddl.table_ddl_mem) ∧
      (DDLManager.update_ddl_status s b t).2.ddl.region_ddlwork = s.ddl.region_ddlwork ∧
      (DDLManager.update_ddl_status s b t).2.db = s.db) ∧
    (mem.work_info.table_id = t → mem.work_info.suspend = false →
      (DDLManager.update_ddl_status (DDLManager.update_ddl_status s true t).2 false t).2.ddl = s.ddl ∧
      (DDLManager.update_ddl_status (DDLManager.update_ddl_status s true t).2 false t).2.db = s.db) ∧
    (∀ (b : Bool) (t1 : Int), s.ddl.get_ddl_mem t1 = none →
      DDLManager.update_ddl_status s b t1 = (0, s)) := by
  refine ⟨?_, ?_, ?_, ?_⟩
  · intro hsus herr
    refine ⟨?_, ?_, ?_, ?_⟩
    · unfold DDLManager.work_one
      rw [hjob]
      simp only
      rw [if_neg (by rw [herr]; simp), if_pos hsus]
    · exact work_collect_not_suspended _ s [] (fun e he => by simp at he)
    · intro hall
      unfold DDLManager.work_body
      rw [work_collect_all_suspended _ s [] hall]
      rfl
    · intro hkeys honly
      obtain ⟨hddl, _, hmem⟩ := work_collect_frame s.ddl.table_ddl_mem s []
      have hnot := work_collect_not_suspended s.ddl.table_ddl_mem s [] (fun e he => by simp at he)
      unfold DDLManager.work_body
      rcases hcol : DDLManager.work_collect s.ddl.table_ddl_mem s [] with ⟨s1, temp⟩
      rw [hcol] at hddl hmem hnot
      simp only at hddl hmem hnot ⊢
      rw [work_dispatch_view fl now t temp s1, hddl]
      · unfold job_view; rw [hjob]
      · intro e he heq
        rcases hmem e he with h | h
        · simp at h
        · have hk := hkeys e h
          have he2 := honly e h (by rw [← hk, ← heq])
          have := hnot e he
          rw [he2, hsus] at this
          exact absurd this (by simp)
  · intro hkey b
    obtain ⟨hddl, hdb, _, _⟩ := update_ddl_status_memory s b t mem hjob
    rw [hddl, hdb]
    refine ⟨?_, ?_, rfl, rfl⟩
    · unfold DDLManager.update_table_ddl_mem
      simp only [hkey]
      rw [AMap.find_update_self, hjob]
      rfl
    · intro t1 hne
      exact update_table_ddl_mem_find_ne s.ddl _ t1 (by simp only; rw [hkey]; exact hne)
  · intro hkey hsus
    obtain ⟨hddl, hdb, _, _⟩ := update_ddl_status_memory s true t mem hjob
    have hjob1 : AMap.find t (DDLManager.update_ddl_status s true t).2.ddl.table_ddl_mem
        = some { mem with work_info := { mem.work_info with suspend := true } } := by
      rw [hddl]
      unfold DDLManager.update_table_ddl_mem
      simp only [hkey]
      rw [AMap.find_update_self, hjob]
      rfl
    obtain ⟨hddl2, hdb2, _, _⟩ := update_ddl_status_memory (DDLManager.update_ddl_status s true t).2
      false t _ hjob1
    rw [hddl2, hdb2, hdb, hddl]
    refine ⟨?_, rfl⟩
    unfold DDLManager.update_table_ddl_mem
    simp only [hkey]
    rw [AMap.update_update]
    rw [AMap.update_eq_self]
    intro v hv
    rw [hjob] at hv
    injection hv with hv
    subst hv
    obtain ⟨w, n⟩ := mem
    obtain ⟨a1, a2, a3, a4, a5, a6, a7, a8, a9⟩ := w
    simp only at hsus hkey
    subst hsus
    subst hkey
    rfl
  · intro b t1 hnone
    unfold DDLManager.update_ddl_status
    rw [hnone]

/-- Claim C27, witness: the suspended job of the scenario is not advanced by a cycle although its unit is Idle and a worker is free. -/
theorem suspension_frame_witness :
    AMap.find 1 suspended_server.ddl.table_ddl_mem
      = some { work_info := { scenario_job IndexState.IS_WRITE_LOCAL with suspend := true } } ∧
    DDLManager.work_one defaultFlags 100 suspended_server 1 = suspended_server ∧
    DDLManager.work_body defaultFlags 100 suspended_server = suspended_server :=
  ⟨by decide,
   ((suspension_frame defaultFlags 100 suspended_server 1
      { work_info := { scenario_job IndexState.IS_WRITE_LOCAL with suspend := true } } (by decide)).1
      rfl rfl).1,
   ((suspension_frame defaultFlags 100 suspended_server 1
      { work_info := { scenario_job IndexState.IS_WRITE_LOCAL with suspend := true } } (by decide)).1
      rfl rfl).2.2.1 (by decide)⟩

/-! ## Job creation and the meta store -/

/-- Lookup after an assignment. -/
theorem AMap.find_set {κ α : Type} [DecidableEq κ] (k b : κ) (v : α) (m : List (κ × α)) :
    AMap.find b (AMap.set k v m) = if b = k then some v else AMap.find b m := by
  by_cases h : b = k
  · subst h; rw [if_pos rfl, AMap.find_set_self]
  · rw [if_neg h, AMap.find_set_ne k b v m h]

/-- The inner loop of lines 470-473: the regions of one partition are assigned that partition. -/
theorem partition_loop_find (p id : Int) :
    ∀ (rs : List Int) (m : List (Int × Int)),
      AMap.find id (rs.foldl (fun m1 region_id => AMap.set region_id p m1) m)
        = if id ∈ rs then some p else AMap.find id m := by
  intro rs
  induction rs with
  | nil => intro m; simp
  | cons r rest ih =>
    intro m
    simp only [List.foldl_cons]
    rw [ih, AMap.find_set]
    by_cases h1 : id ∈ rest
    · simp [h1]
    · by_cases h2 : id = r
      · simp [h2]
      · simp [h1, h2]

/-- A region listed in the partitions, and only under partition `p`, is recorded with partition `p`. -/
theorem region_partition_loop_find (p id : Int) :
    ∀ (pr : List (Int × List Int)) (m : List (Int × Int)),
      (∀ e ∈ pr, id ∈ e.2 → e.1 = p) →
      AMap.find id (pr.foldl (fun m partition_region =>
          partition_region.2.foldl (fun m1 region_id => AMap.set region_id partition_region.1 m1) m) m)
        = if ∃ e ∈ pr, id ∈ e.2 then some p else AMap.find id m := by
  intro pr
  induction pr with
  | nil => intro m _; simp
  | cons x rest ih =>
    intro m h
    simp only [List.foldl_cons]
    rw [ih _ (fun e he => h e (List.mem_cons_of_mem _ he)), partition_loop_find]
    by_cases h1 : ∃ e ∈ rest, id ∈ e.2
    · have h2 : ∃ e ∈ x :: rest, id ∈ e.2 := by
        obtain ⟨e, he, hid⟩ := h1
        exact ⟨e, List.mem_cons_of_mem _ he, hid⟩
      rw [if_pos h1, if_pos h2]
    · rw [if_neg h1]
      by_cases h3 : id ∈ x.2
      · have h2 : ∃ e ∈ x :: rest, id ∈ e.2 := ⟨x, List.mem_cons_self _ _, h3⟩
        rw [if_pos h3, if_pos h2, h x (List.mem_cons_self _ _) h3]
      · have h2 : ¬ ∃ e ∈ x :: rest, id ∈ e.2 := by
          rintro ⟨e, he, hid⟩
          rcases List.mem_cons.1 he with h4 | h4
          · subst h4; exact h3 hid
          · exact h1 ⟨e, h4, hid⟩
        rw [if_neg h3, if_neg h2]

/-- The partition of a region that is listed under exactly one partition. -/
theorem partition_of_listed (partition_regions : List (Int × List Int)) (p id : Int)
    (hin : ∃ e ∈ partition_regions, id ∈ e.2)
    (hone : ∀ e ∈ partition_regions, id ∈ e.2 → e.1 = p) :
    partition_of partition_regions id = p := by
  unfold partition_of DDLManager.region_partition_map
  rw [region_partition_loop_find p id partition_regions [] hone, if_pos hin]
  rfl

/-- One round of the loop of `init_global_ddlwork`: the unit of the region is stored in memory, then written to the store. -/
theorem init_region_works_cons (table_id index_id : Int) (region_partition_map : List (Int × Int))
    (region_info : RegionInfo) (rest : List RegionInfo) (region_map : List (Int × MemRegionDdlWork))
    (m : MetaRocksdb) :
    DDLManager.init_region_works table_id index_id region_partition_map (region_info :: rest) (region_map, m)
      = match m.put_region (initial_unit table_id index_id
          ((AMap.find region_info.region_id region_partition_map).getD 0) region_info).region_info with
        | (ret, m1) =>
          if ret = 0 then
            DDLManager.init_region_works table_id index_id region_partition_map rest
              (AMap.set region_info.region_id (initial_unit table_id index_id
                ((AMap.find region_info.region_id region_partition_map).getD 0) region_info) region_map, m1)
          else
            (-1, AMap.set region_info.region_id (initial_unit table_id index_id
                ((AMap.find region_info.region_id region_partition_map).getD 0) region_info) region_map, m) :=
  rfl

/-- The loop of `init_global_ddlwork` over the region infos: where the entries of the region map come from. -/
theorem init_region_works_units (table_id index_id : Int) (region_partition_map : List (Int × Int)) :
    ∀ (l : List RegionInfo) (region_map : List (Int × MemRegionDdlWork)) (m : MetaRocksdb),
      (∀ e ∈ (DDLManager.init_region_works table_id index_id region_partition_map l (region_map, m)).2.1,
        e ∈ region_map ∨ ∃ info ∈ l, e = (info.region_id,
          initial_unit table_id index_id ((AMap.find info.region_id region_partition_map).getD 0) info)) ∧
      (∀ k, AMap.contains k region_map = true → AMap.contains k
        (DDLManager.init_region_works table_id index_id region_partition_map l (region_map, m)).2.1 = true) ∧
      ((DDLManager.init_region_works table_id index_id region_partition_map l (region_map, m)).1 = 0 →
        ∀ info ∈ l, AMap.contains info.region_id
          (DDLManager.init_region_works table_id index_id region_partition_map l (region_map, m)).2.1
            = true) := by
  intro l
  induction l with
  | nil =>
    intro region_map m
    exact ⟨fun e he => Or.inl he, fun k hk => hk, fun _ info hinfo => by simp at hinfo⟩
  | cons region_info rest ih =>
    intro region_map m
    have hset : ∀ e ∈ AMap.set region_info.region_id
        (initial_unit table_id index_id ((AMap.find region_info.region_id region_partition_map).getD 0)
          region_info) region_map,
        e ∈ region_map ∨ ∃ info ∈ region_info :: rest, e = (info.region_id,
          initial_unit table_id index_id ((AMap.find info.region_id region_partition_map).getD 0) info) := by
      intro e he
      rcases AMap.mem_set _ _ _ e he with h | h
      · exact Or.inr ⟨region_info, List.mem_cons_self _ _, h⟩
      · exact Or.inl h
    have hself : AMap.contains region_info.region_id (AMap.set region_info.region_id
        (initial_unit table_id index_id ((AMap.find region_info.region_id region_partition_map).getD 0)
          region_info) region_map) = true := by
      unfold AMap.contains; rw [AMap.find_set_self]; rfl
    rw [init_region_works_cons]
    rcases m.put_region (initial_unit table_id index_id
        ((AMap.find region_info.region_id region_partition_map).getD 0) region_info).region_info
      with ⟨ret, m1⟩
    simp only
    by_cases hret : ret = 0
    · rw [if_pos hret]
      obtain ⟨h1, h2, h3⟩ := ih (AMap.set region_info.region_id
        (initial_unit table_id index_id ((AMap.find region_info.region_id region_partition_map).getD 0)
          region_info) region_map) m1
      refine ⟨?_, ?_, ?_⟩
      · intro e he
        rcases h1 e he with h | ⟨info, hinfo, h⟩
        · exact hset e h
        · exact Or.inr ⟨info, List.mem_cons_of_mem _ hinfo, h⟩
      · intro k hk
        exact h2 k (AMap.contains_set_of_contains _ _ _ _ hk)
      · intro hret0 info hinfo
        rcases List.mem_cons.1 hinfo with h | h
        · subst h; exact h2 _ hself
        · exact h3 hret0 info h
    · rw [if_neg hret]
      refine ⟨?_, ?_, ?_⟩
      · intro e he
        exact hset e he
      · intro k hk
        exact AMap.contains_set_of_contains _ _ _ _ hk
      · intro h0
        exact absurd h0 (by simp)

/-- A job appended to a job table without job for the table is found under the table id. -/
theorem find_appended_job (table_id : Int) (mem : List (Int × MemDdlInfo)) (job : MemDdlInfo)
    (h : AMap.contains table_id mem = false) :
    AMap.find table_id (mem ++ [(table_id, job)]) = some job := by
  unfold AMap.contains at h
  rw [AMap.find_append]
  rcases hf : AMap.find table_id mem with _ | v
  · simp [AMap.find]
  · rw [hf] at h; simp at h

/-- The method `init_del_global_ddlwork` for a table without job: the job is recorded in memory, then written. -/
theorem init_del_global_ddlwork_new (s : MetaServer) (table_id index_id : Int)
    (hc : AMap.contains table_id s.ddl.table_ddl_mem = false) :
    DDLManager.init_del_global_ddlwork s table_id index_id
      = match s.rocksdb.put_ddlwork (initial_job table_id index_id OpType.OP_DROP_INDEX).work_info with
        | (ret, m) =>
          if ret = 0 then
            (0, { s.with_job table_id (initial_job table_id index_id OpType.OP_DROP_INDEX) with rocksdb := m })
          else (-1, s.with_job table_id (initial_job table_id index_id OpType.OP_DROP_INDEX)) := by
  unfold DDLManager.init_del_global_ddlwork
  rw [if_neg (by rw [hc]; simp)]
  rfl

/-- The method `init_global_ddlwork` for a table without job: the job is recorded in memory and written, then the units. -/
theorem init_global_ddlwork_new (s : MetaServer) (table_id index_id : Int)
    (partition_regions : List (Int × List Int)) (region_infos : List RegionInfo)
    (hc : AMap.contains table_id s.ddl.table_ddl_mem = false) :
    DDLManager.init_global_ddlwork s table_id index_id partition_regions region_infos
      = match s.rocksdb.put_ddlwork (initial_job table_id index_id OpType.OP_ADD_INDEX).work_info with
        | (ret, m) =>
          if ret = 0 then
            match DDLManager.init_region_works table_id index_id
                (DDLManager.region_partition_map partition_regions) region_infos ([], m) with
            | (ret1, region_map, m1) =>
              (ret1, ((s.with_job table_id (initial_job table_id index_id OpType.OP_ADD_INDEX)).with_region_map
                table_id region_map).with_store m1)
          else (-1, s.with_job table_id (initial_job table_id index_id OpType.OP_ADD_INDEX)) := by
  unfold DDLManager.init_global_ddlwork
  rw [if_neg (by rw [hc]; simp)]
  rfl

/-- A writable meta store accepts the job row: `put_meta_info` returns 0 and the row is stored under the table id. -/
theorem put_ddlwork_writable (m : MetaRocksdb) (work : DdlWorkInfo) (hw : m.writable = true) :
    ∃ m1, m.put_ddlwork work = (0, m1) ∧ m1.writable = true ∧
      AMap.find work.table_id m1.ddlwork = some work := by
  unfold MetaRocksdb.put_ddlwork
  rw [if_pos hw]
  exact ⟨_, rfl, hw, AMap.find_set_self _ _ _⟩

/-- On a writable meta store the loop of `init_global_ddlwork` writes every unit and returns 0; the job rows are left. -/
theorem init_region_works_writable (table_id index_id : Int) (region_partition_map : List (Int × Int)) :
    ∀ (l : List RegionInfo) (region_map : List (Int × MemRegionDdlWork)) (m : MetaRocksdb),
      m.writable = true →
      (DDLManager.init_region_works table_id index_id region_partition_map l (region_map, m)).1 = 0 ∧
      (DDLManager.init_region_works table_id index_id region_partition_map l (region_map, m)).2.2.ddlwork
        = m.ddlwork := by
  intro l
  induction l with
  | nil => intro region_map m _; exact ⟨rfl, rfl⟩
  | cons region_info rest ih =>
    intro region_map m hw
    unfold DDLManager.init_region_works MetaRocksdb.put_region
    simp only [hw, if_true]
    exact ih _ _ rfl

/--
Claim C28. One job per table. When a job already exists for `table_id`,
`init_global_ddlwork` and `init_del_global_ddlwork` return -1 and leave the
whole server (job table, region maps, meta store) unchanged. Otherwise, when
the call returns 0: the job is recorded in process with the op type of the call
and the given index id; `init_del_global_ddlwork` leaves the region maps; and
`init_global_ddlwork` records a region map for the table that holds exactly one
unit per region info, each made of the table, index and region ids, the keys of
the region and its recorded partition, with status Idle, `retry_time` 0 and an
empty address. The recorded partition of a region listed under exactly one
partition is that partition. And both calls do return 0 for a table without
job when the meta store accepts the writes, the job row being then in the meta
store under the table id.
-/
theorem one_job_per_table (s : MetaServer) (table_id index_id : Int)
    (partition_regions : List (Int × List Int)) (region_infos : List RegionInfo) :
    (AMap.contains table_id s.ddl.table_ddl_mem = true →
      DDLManager.init_global_ddlwork s table_id index_id partition_regions region_infos = (-1, s) ∧
      DDLManager.init_del_global_ddlwork s table_id index_id = (-1, s)) ∧
    (AMap.contains table_id s.ddl.table_ddl_mem = false →
      ((DDLManager.init_del_global_ddlwork s table_id index_id).1 = 0 →
        AMap.find table_id (DDLManager.init_del_global_ddlwork s table_id index_id).2.ddl.table_ddl_mem
          = some (initial_job table_id index_id OpType.OP_DROP_INDEX) ∧
        (DDLManager.init_del_global_ddlwork s table_id index_id).2.ddl.region_ddlwork
          = s.ddl.region_ddlwork) ∧
      ((DDLManager.init_global_ddlwork s table_id index_id partition_regions region_infos).1 = 0 →
        AMap.find table_id (DDLManager.init_global_ddlwork s table_id index_id partition_regions
            region_infos).2.ddl.table_ddl_mem
          = some (initial_job table_id index_id OpType.OP_ADD_INDEX) ∧
        ∃ region_map,
          AMap.find table_id (DDLManager.init_global_ddlwork s table_id index_id partition_regions
            region_infos).2.ddl.region_ddlwork = some region_map ∧
          (∀ info ∈ region_infos, AMap.key_count info.region_id region_map = 1) ∧
          (∀ e ∈ region_map, ∃ info ∈ region_infos, e = (info.region_id,
            initial_unit table_id index_id (partition_of partition_regions info.region_id) info)) ∧
          (∀ e ∈ region_map, e.2.region_info.status = DdlWorkStatus.DdlWorkIdle ∧
            e.2.region_info.retry_time = 0 ∧ e.2.region_info.address = "") ∧
          (∀ (region_id p : Int), (∃ e ∈ partition_regions, region_id ∈ e.2) →
            (∀ e ∈ partition_regions, region_id ∈ e.2 → e.1 = p) →
            partition_of partition_regions region_id = p))) ∧
    (AMap.contains table_id s.ddl.table_ddl_mem = false → s.rocksdb.writable = true →
      (DDLManager.init_del_global_ddlwork s table_id index_id).1 = 0 ∧
      AMap.find table_id (DDLManager.init_del_global_ddlwork s table_id index_id).2.rocksdb.ddlwork
        = some (initial_job table_id index_id OpType.OP_DROP_INDEX).work_info ∧
      (DDLManager.init_global_ddlwork s table_id index_id partition_regions region_infos).1 = 0 ∧
      AMap.find table_id (DDLManager.init_global_ddlwork s table_id index_id partition_regions
          region_infos).2.rocksdb.ddlwork
        = some (initial_job table_id index_id OpType.OP_ADD_INDEX).work_info) := by
  refine ⟨?_, ?_, ?_⟩
  · intro hc
    unfold DDLManager.init_global_ddlwork DDLManager.init_del_global_ddlwork
    rw [if_pos hc, if_pos hc]
    exact ⟨rfl, rfl⟩
  · intro hc
    constructor
    · intro hret
      rw [init_del_global_ddlwork_new s table_id index_id hc] at hret ⊢
      rcases hput : s.rocksdb.put_ddlwork (initial_job table_id index_id OpType.OP_DROP_INDEX).work_info
        with ⟨ret, m⟩
      rw [hput] at hret
      simp only at hret ⊢
      by_cases hr : ret = 0
      · rw [if_pos hr]
        exact ⟨find_appended_job table_id _ _ hc, rfl⟩
      · rw [if_neg hr] at hret
        exact absurd hret (by simp)
    · intro hret
      rw [init_global_ddlwork_new s table_id index_id partition_regions region_infos hc] at hret ⊢
      rcases hput : s.rocksdb.put_ddlwork (initial_job table_id index_id OpType.OP_ADD_INDEX).work_info
        with ⟨ret, m⟩
      rw [hput] at hret
      simp only at hret ⊢
      by_cases hr : ret = 0
      · rw [if_pos hr] at hret ⊢
        obtain ⟨hu, _⟩ := init_region_works_keys table_id index_id
          (DDLManager.region_partition_map partition_regions) region_infos [] m
          (fun t => by simp [AMap.key_count]) (fun e he => by simp at he)
        obtain ⟨h1, _, h3⟩ := init_region_works_units table_id index_id
          (DDLManager.region_partition_map partition_regions) region_infos [] m
        rcases hinit : DDLManager.init_region_works table_id index_id
          (DDLManager.region_partition_map partition_regions) region_infos ([], m)
          with ⟨ret1, region_map, m1⟩
        rw [hinit] at hret hu h1 h3
        simp only at hret hu h1 h3 ⊢
        refine ⟨find_appended_job table_id _ _ hc, region_map, AMap.find_set_self _ _ _, ?_, ?_, ?_, ?_⟩
        · intro info hinfo
          have hpos := AMap.key_count_pos_of_contains _ _ (h3 hret info hinfo)
          have hle := hu info.region_id
          exact le_antisymm hle hpos
        · intro e he
          rcases h1 e he with h | h
          · simp at h
          · exact h
        · intro e he
          rcases h1 e he with h | ⟨info, _, h⟩
          · simp at h
          · subst h
            exact ⟨rfl, rfl, rfl⟩
        · intro region_id p hin hone
          exact partition_of_listed partition_regions p region_id hin hone
      · rw [if_neg hr] at hret
        exact absurd hret (by simp)
  · intro hc hw
    obtain ⟨m1, hput1, _, hrow1⟩ := put_ddlwork_writable s.rocksdb
      (initial_job table_id index_id OpType.OP_DROP_INDEX).work_info hw
    obtain ⟨m2, hput2, hw2, hrow2⟩ := put_ddlwork_writable s.rocksdb
      (initial_job table_id index_id OpType.OP_ADD_INDEX).work_info hw
    obtain ⟨hret, hrows⟩ := init_region_works_writable table_id index_id
      (DDLManager.region_partition_map partition_regions) region_infos [] m2 hw2
    refine ⟨?_, ?_, ?_, ?_⟩
    · rw [init_del_global_ddlwork_new s table_id index_id hc, hput1]
      rfl
    · rw [init_del_global_ddlwork_new s table_id index_id hc, hput1]
      exact hrow1
    · rw [init_global_ddlwork_new s table_id index_id partition_regions region_infos hc, hput2]
      exact hret
    · rw [init_global_ddlwork_new s table_id index_id partition_regions region_infos hc, hput2]
      simp only [if_true, MetaServer.with_store]
      rw [hrows]
      exact hrow2

/--
Claim C28, witness: on a fresh server the creation of the drop-index job of
table 1 returns 0 and records the job, and so does the creation of the
add-index job; a second creation for the same table is rejected.
-/
theorem one_job_per_table_witness :
    AMap.contains 1 fresh_server.ddl.table_ddl_mem = false ∧
    fresh_server.rocksdb.writable = true ∧
    (DDLManager.init_del_global_ddlwork fresh_server 1 10).1 = 0 ∧
    AMap.find 1 (DDLManager.init_del_global_ddlwork fresh_server 1 10).2.ddl.table_ddl_mem
      = some (initial_job 1 10 OpType.OP_DROP_INDEX) ∧
    AMap.find 1 (DDLManager.init_global_ddlwork fresh_server 1 10 [(0, [1, 2]), (1, [3])]
        creation_regions).2.ddl.table_ddl_mem
      = some (initial_job 1 10 OpType.OP_ADD_INDEX) ∧
    DDLManager.init_del_global_ddlwork
        (DDLManager.init_del_global_ddlwork fresh_server 1 10).2 1 10
      = (-1, (DDLManager.init_del_global_ddlwork fresh_server 1 10).2) ∧
    DDLManager.init_del_global_ddlwork
        (DDLManager.init_global_ddlwork fresh_server 1 10 [(0, [1, 2]), (1, [3])] creation_regions).2 1 10
      = (-1, (DDLManager.init_global_ddlwork fresh_server 1 10 [(0, [1, 2]), (1, [3])] creation_regions).2) :=
  ⟨by decide, by decide,
   ((one_job_per_table fresh_server 1 10 [(0, [1, 2]), (1, [3])] creation_regions).2.2
      (by decide) (by decide)).1,
   (((one_job_per_table fresh_server 1 10 [(0, [1, 2]), (1, [3])] creation_regions).2.1 (by decide)).1
      ((one_job_per_table fresh_server 1 10 [(0, [1, 2]), (1, [3])] creation_regions).2.2
        (by decide) (by decide)).1).1,
   (((one_job_per_table fresh_server 1 10 [(0, [1, 2]), (1, [3])] creation_regions).2.1 (by decide)).2
      ((one_job_per_table fresh_server 1 10 [(0, [1, 2]), (1, [3])] creation_regions).2.2
        (by decide) (by decide)).2.2.1).1,
   ((one_job_per_table (DDLManager.init_del_global_ddlwork fresh_server 1 10).2
      1 10 [] []).1 (by decide)).2,
   ((one_job_per_table
      (DDLManager.init_global_ddlwork fresh_server 1 10 [(0, [1, 2]), (1, [3])] creation_regions).2
      1 10 [] []).1 (by decide)).2⟩

/--
Claim C29, counterexample. With a meta store on which every write fails, the
three calls return -1 and the memory has changed: after
`init_del_global_ddlwork` and `init_global_ddlwork` on a server without job the
job table holds the job of table 1; after `update_global_ddlwork_region_info`
on the initialised server the region map of table 1 holds the Done unit. The
meta store is as before.
-/
theorem failed_write_changes_memory :
    (DDLManager.init_del_global_ddlwork fresh_server.read_only 1 10).1 = -1 ∧
    fresh_server.read_only.ddl.table_ddl_mem = [] ∧
    (DDLManager.init_del_global_ddlwork fresh_server.read_only 1 10).2.ddl.table_ddl_mem
      = [(1, initial_job 1 10 OpType.OP_DROP_INDEX)] ∧
    (DDLManager.init_global_ddlwork fresh_server.read_only 1 10 [(0, [1])]
      [{ region_id := 1, start_key := "", end_key := "" }]).1 = -1 ∧
    (DDLManager.init_global_ddlwork fresh_server.read_only 1 10 [(0, [1])]
      [{ region_id := 1, start_key := "", end_key := "" }]).2.ddl.table_ddl_mem
      = [(1, initial_job 1 10 OpType.OP_ADD_INDEX)] ∧
    (DDLManager.update_global_ddlwork_region_info initialised_server.read_only done_report).1 = -1 ∧
    (AMap.find 1 initialised_server.read_only.ddl.region_ddlwork).map
      (fun m => m.map (fun e => e.2.region_info.status)) = some [DdlWorkStatus.DdlWorkIdle] ∧
    (AMap.find 1 (DDLManager.update_global_ddlwork_region_info initialised_server.read_only
      done_report).2.ddl.region_ddlwork).map
      (fun m => m.map (fun e => e.2.region_info.status)) = some [DdlWorkStatus.DdlWorkDone] ∧
    (DDLManager.update_global_ddlwork_region_info initialised_server.read_only done_report).2.rocksdb
      = initialised_server.read_only.rocksdb ∧
    (DDLManager.init_del_global_ddlwork fresh_server.read_only 1 10).2.rocksdb
      = fresh_server.read_only.rocksdb := by
  decide

/--
Claim C29, amended. When the meta store rejects the write, each of the three
calls returns -1 and leaves the meta store as it was, but the memory has
already been updated: after `init_global_ddlwork` and `init_del_global_ddlwork`
for a table without job the server is the former one with the new job appended
to the job table; after `update_global_ddlwork_region_info` the job table is as
before and the region map of the table, if there is one, holds the unit of the
request. The memory equals its former value only when the table has no region
map, apart from the null entry that the lookup `_region_ddlwork[table_id]`
leaves for the table.
-/
theorem failed_write_keeps_store (s : MetaServer) (table_id index_id : Int)
    (partition_regions : List (Int × List Int)) (region_infos : List RegionInfo) (work : RegionDdlWork)
    (hw : s.rocksdb.writable = false) :
    (AMap.contains table_id s.ddl.table_ddl_mem = false →
      DDLManager.init_global_ddlwork s table_id index_id partition_regions region_infos
        = (-1, s.with_job table_id (initial_job table_id index_id OpType.OP_ADD_INDEX)) ∧
      DDLManager.init_del_global_ddlwork s table_id index_id
        = (-1, s.with_job table_id (initial_job table_id index_id OpType.OP_DROP_INDEX)) ∧
      ∀ job, (s.with_job table_id job).rocksdb = s.rocksdb ∧
        (s.with_job table_id job).ddl.region_ddlwork = s.ddl.region_ddlwork ∧
        AMap.find table_id (s.with_job table_id job).ddl.table_ddl_mem = some job ∧
        AMap.find table_id s.ddl.table_ddl_mem = none) ∧
    (DDLManager.update_global_ddlwork_region_info s work).1 = -1 ∧
    (DDLManager.update_global_ddlwork_region_info s work).2.rocksdb = s.rocksdb ∧
    (DDLManager.update_global_ddlwork_region_info s work).2.ddl.table_ddl_mem = s.ddl.table_ddl_mem ∧
    (∀ region_map, AMap.find work.table_id s.ddl.region_ddlwork = some region_map →
      AMap.find work.table_id (DDLManager.update_global_ddlwork_region_info s work).2.ddl.region_ddlwork
        = some (AMap.set work.region_id { region_info := work } region_map)) ∧
    (AMap.find work.table_id s.ddl.region_ddlwork = none →
      (DDLManager.update_global_ddlwork_region_info s work).2 = s.with_null_entry work.table_id ∧
      (s.with_null_entry work.table_id).ddl.region_ddlwork = s.ddl.region_ddlwork ∧
      (s.with_null_entry work.table_id).ddl.table_ddl_mem = s.ddl.table_ddl_mem ∧
      (s.with_null_entry work.table_id).db = s.db ∧
      (s.with_null_entry work.table_id).rocksdb = s.rocksdb ∧
      (s.with_null_entry work.table_id).raft_pending = s.raft_pending) := by
  have hput : ∀ w, s.rocksdb.put_ddlwork w = (-1, s.rocksdb) := by
    intro w; unfold MetaRocksdb.put_ddlwork; simp [hw]
  have hputr : s.rocksdb.put_region work = (-1, s.rocksdb) := by
    unfold MetaRocksdb.put_region; simp [hw]
  refine ⟨?_, ?_, ?_, ?_, ?_, ?_⟩
  · intro hc
    refine ⟨?_, ?_, ?_⟩
    · rw [init_global_ddlwork_new s table_id index_id partition_regions region_infos hc, hput]
      rfl
    · rw [init_del_global_ddlwork_new s table_id index_id hc, hput]
      rfl
    · intro job
      refine ⟨rfl, rfl, find_appended_job table_id _ _ hc, ?_⟩
      unfold AMap.contains at hc
      rcases hf : AMap.find table_id s.ddl.table_ddl_mem with _ | v
      · rfl
      · rw [hf] at hc; simp at hc
  · unfold DDLManager.update_global_ddlwork_region_info
    rw [hputr]
    rfl
  · unfold DDLManager.update_global_ddlwork_region_info
    rw [hputr]
    rfl
  · unfold DDLManager.update_global_ddlwork_region_info
    rw [hputr]
    simp only
    rcases AMap.find work.table_id s.ddl.region_ddlwork with _ | region_map <;> rfl
  · intro region_map hmap
    unfold DDLManager.update_global_ddlwork_region_info
    rw [hputr, hmap]
    simp only
    rw [if_neg (by simp)]
    simp only
    rw [AMap.find_update_self, hmap]
    rfl
  · intro hmap
    refine ⟨?_, rfl, rfl, rfl, rfl, rfl⟩
    unfold DDLManager.update_global_ddlwork_region_info
    rw [hputr, hmap]
    rfl

/-- Claim C29, amended, witness: the failed creation of the job of table 1 on a server whose store rejects writes. -/
theorem failed_write_keeps_store_witness :
    fresh_server.read_only.rocksdb.writable = false ∧
    DDLManager.init_del_global_ddlwork fresh_server.read_only 1 10
      = (-1, fresh_server.read_only.with_job 1 (initial_job 1 10 OpType.OP_DROP_INDEX)) :=
  ⟨rfl,
   ((failed_write_keeps_store fresh_server.read_only 1 10 [] [] done_report rfl).1 (by decide)).2.1⟩

/-! ## Keys of the meta store and the range delete -/

/-- The order of two keys with a common prefix is the order of the remainders. -/
theorem bytes_lt_append_left (p x y : List Nat) : bytes_lt (p ++ x) (p ++ y) = bytes_lt x y := by
  induction p with
  | nil => rfl
  | cons a p ih => simp [bytes_lt, ih]

/-- No key is below the empty key. -/
theorem bytes_lt_nil (x : List Nat) : bytes_lt x [] = false := by
  cases x <;> rfl

/-- The order of two keys that start with blocks of the same length. -/
theorem bytes_lt_blocks :
    ∀ (x y u v : List Nat), x.length = y.length →
      bytes_lt (x ++ u) (y ++ v) = (bytes_lt x y || (decide (x = y) && bytes_lt u v)) := by
  intro x
  induction x with
  | nil =>
    intro y u v h
    have hy : y = [] := List.length_eq_zero.1 h.symm
    subst hy
    simp [bytes_lt_nil]
  | cons a x ih =>
    intro y u v h
    cases y with
    | nil => simp at h
    | cons b y =>
      have hl : x.length = y.length := by simpa using h
      have ih1 := ih y u v hl
      have e1 : bytes_lt (a :: x ++ u) (b :: y ++ v)
          = (decide (a < b) || (decide (a = b) && bytes_lt (x ++ u) (y ++ v))) := rfl
      have e2 : bytes_lt (a :: x) (b :: y) = (decide (a < b) || (decide (a = b) && bytes_lt x y)) := rfl
      rw [e1, e2, ih1]
      by_cases hab : a = b
      · subst hab
        simp
      · by_cases hlt : a < b
        · simp [hlt]
        · simp [hlt, hab]

/-- The eight bytes of an id, written out. -/
theorem int64_bytes_eq (id : Int) :
    int64_bytes id =
      [to_size_t id % 256, to_size_t id / 256 % 256, to_size_t id / 65536 % 256,
       to_size_t id / 16777216 % 256, to_size_t id / 4294967296 % 256,
       to_size_t id / 1099511627776 % 256, to_size_t id / 281474976710656 % 256,
       to_size_t id / 72057594037927936 % 256] := by
  have hr : List.range 8 = [0, 1, 2, 3, 4, 5, 6, 7] := by decide
  unfold int64_bytes
  rw [hr]
  norm_num

/-- An id has eight bytes. -/
theorem int64_bytes_length (id : Int) : (int64_bytes id).length = 8 := by
  rw [int64_bytes_eq]; rfl

/-- The value converted to `size_t` is below `2 ^ 64`. -/
theorem to_size_t_lt (x : Int) : to_size_t x < 2 ^ 64 := by
  unfold to_size_t
  omega

/-- The bytes determine the id among the 64-bit integers. -/
theorem int64_bytes_inj (a b : Int) (ha : -2 ^ 63 ≤ a ∧ a < 2 ^ 63) (hb : -2 ^ 63 ≤ b ∧ b < 2 ^ 63)
    (h : int64_bytes a = int64_bytes b) : a = b := by
  rw [int64_bytes_eq, int64_bytes_eq] at h
  have hla := to_size_t_lt a
  have hlb := to_size_t_lt b
  simp only [List.cons.injEq, and_true] at h
  obtain ⟨h0, h1, h2, h3, h4, h5, h6, h7⟩ := h
  have heq : to_size_t a = to_size_t b := by omega
  unfold to_size_t at heq
  omega

/-- The id whose bytes are all `0xFF` is -1. -/
theorem int64_bytes_all_ff (r : Int) (hr : -2 ^ 63 ≤ r ∧ r < 2 ^ 63) :
    int64_bytes r = List.replicate 8 255 ↔ r = -1 := by
  constructor
  · intro h
    have hm : int64_bytes (-1) = List.replicate 8 255 := by decide
    exact int64_bytes_inj r (-1) hr (by norm_num) (by rw [h, hm])
  · intro h
    subst h
    decide

/-- A block of bytes is below the block of `0xFF` bytes of the same length exactly when it differs from it. -/
theorem bytes_lt_all_ff :
    ∀ x : List Nat, (∀ b ∈ x, b ≤ 255) →
      bytes_lt x (List.replicate x.length 255) = !decide (x = List.replicate x.length 255) := by
  intro x
  induction x with
  | nil => intro _; rfl
  | cons a x ih =>
    intro h
    have ha : a ≤ 255 := h a (List.mem_cons_self _ _)
    have ih1 := ih (fun b hb => h b (List.mem_cons_of_mem _ hb))
    simp only [List.length_cons, List.replicate_succ, bytes_lt, ih1, List.cons.injEq]
    by_cases h255 : a = 255
    · subst h255; simp
    · have hlt : a < 255 := by omega
      simp [hlt, h255]

/-- Every byte of an id is at most `0xFF`. -/
theorem int64_bytes_le (id : Int) : ∀ b ∈ int64_bytes id, b ≤ 255 := by
  intro b hb
  unfold int64_bytes at hb
  simp only [List.mem_map] at hb
  obtain ⟨i, _, rfl⟩ := hb
  have := Nat.mod_lt (to_size_t id / 256 ^ i) (by norm_num : 0 < 256)
  omega

/-- No key is below itself. -/
theorem bytes_lt_irrefl (x : List Nat) : bytes_lt x x = false := by
  induction x with
  | nil => rfl
  | cons a x ih => simp [bytes_lt, ih]

/--
The range test of the row of region `r` of table `t1` against the range removed
for table `t`, for 64-bit ids: the row is in the range exactly when the tables
agree and the region id is not -1.
-/
theorem region_row_in_range_eq (schema_identify identify : List Nat) (t t1 r : Int)
    (ht : -2 ^ 63 ≤ t ∧ t < 2 ^ 63) (ht1 : -2 ^ 63 ≤ t1 ∧ t1 < 2 ^ 63)
    (hr : -2 ^ 63 ≤ r ∧ r < 2 ^ 63) :
    region_row_in_range schema_identify identify t (t1, r) = (decide (t1 = t) && !decide (r = -1)) := by
  have hk1 : construct_global_ddl_key schema_identify identify [t]
      = (schema_identify ++ identify) ++ (int64_bytes t ++ []) := by
    simp [construct_global_ddl_key]
  have hk2 : construct_global_ddl_key schema_identify identify [t1, r]
      = (schema_identify ++ identify) ++ (int64_bytes t1 ++ int64_bytes r) := by
    simp [construct_global_ddl_key]
  have hend : construct_global_ddl_key schema_identify identify [t] ++ List.replicate 8 255
      = (schema_identify ++ identify) ++ (int64_bytes t ++ List.replicate 8 255) := by
    simp [construct_global_ddl_key]
  have hlen : (int64_bytes t1).length = (int64_bytes t).length := by
    rw [int64_bytes_length, int64_bytes_length]
  have hff : bytes_lt (int64_bytes r) (List.replicate 8 255) = !decide (r = -1) := by
    have h := bytes_lt_all_ff (int64_bytes r) (int64_bytes_le r)
    rw [int64_bytes_length] at h
    rw [h]
    congr 1
    exact decide_eq_decide.2 (int64_bytes_all_ff r hr)
  unfold region_row_in_range region_range key_in_range
  simp only
  rw [hend, hk1, hk2, bytes_lt_append_left, bytes_lt_append_left,
    bytes_lt_blocks _ _ _ _ hlen, bytes_lt_blocks _ _ _ _ hlen, bytes_lt_nil, hff]
  by_cases heq : t1 = t
  · subst heq
    simp [bytes_lt_irrefl]
  · have hne : ¬ int64_bytes t1 = int64_bytes t := fun h => heq (int64_bytes_inj t1 t ht1 ht h)
    simp [heq, hne]

/-- For every pair of identifiers, the key of region -1 of a table is the end key of the range removed for the table. -/
theorem region_minus_one_key (schema_identify identify : List Nat) (t : Int) :
    construct_global_ddl_key schema_identify identify [t, -1]
      = (region_range schema_identify identify t).2 := by
  have hm : int64_bytes (-1) = List.replicate 8 255 := by decide
  simp [construct_global_ddl_key, region_range, hm]

/--
Claim C30, counterexample. The key of region -1 of table 1 is the end key of
the range removed for table 1, so it is outside the half-open range although
the table ids agree; the range delete of table 1 removes the row of region 2
and leaves the row of region -1 in the store.
-/
theorem region_minus_one_outside_range :
    construct_global_ddl_key SCHEMA_IDENTIFY GLOBAL_DDLWORK_REGION_IDENTIFY [1, -1]
      = (region_range SCHEMA_IDENTIFY GLOBAL_DDLWORK_REGION_IDENTIFY 1).2 ∧
    region_row_in_range SCHEMA_IDENTIFY GLOBAL_DDLWORK_REGION_IDENTIFY 1 (1, -1) = false ∧
    region_row_in_range SCHEMA_IDENTIFY GLOBAL_DDLWORK_REGION_IDENTIFY 1 (1, 2) = true ∧
    (DDLManager.delete_global_ddlwork_region_info
      { rocksdb := { region_ddlwork := [((1, -1), region_report (-1) DdlWorkStatus.DdlWorkDone "w1"),
                                        ((1, 2), region_report 2 DdlWorkStatus.DdlWorkDone "w1")] } }
      1).rocksdb.region_ddlwork
      = [((1, -1), region_report (-1) DdlWorkStatus.DdlWorkDone "w1")] := by
  decide

/--
Claim C30, amended. With `K(ids) = construct_global_ddl_key(identify, ids)`,
`begin = K(t)` and `end = begin` followed by eight `0xFF` bytes, for all 64-bit
table ids `t`, `t1` and every 64-bit region id `r`: the key `K(t1, r)` lies in
the half-open bytewise range `[begin, end)` if and only if `t1 = t` and
`r` is not -1 (whose key is `end` itself). So for region ids other than -1 the
key is in the range exactly when the tables agree, and on a writable store
whose rows have 64-bit ids and no region id -1 the range delete removes every
region row of table `t` and no region row of another table.
-/
theorem range_delete_covers_table (schema_identify identify : List Nat) (t t1 r : Int)
    (ht : -2 ^ 63 ≤ t ∧ t < 2 ^ 63) (ht1 : -2 ^ 63 ≤ t1 ∧ t1 < 2 ^ 63)
    (hr : -2 ^ 63 ≤ r ∧ r < 2 ^ 63) :
    (region_row_in_range schema_identify identify t (t1, r) = true ↔ (t1 = t ∧ r ≠ -1)) ∧
    (r ≠ -1 → (region_row_in_range schema_identify identify t (t1, r) = true ↔ t1 = t)) ∧
    (∀ s : MetaServer, s.rocksdb.writable = true →
      (∀ e ∈ s.rocksdb.region_ddlwork, (-2 ^ 63 ≤ e.1.1 ∧ e.1.1 < 2 ^ 63) ∧
        (-2 ^ 63 ≤ e.1.2 ∧ e.1.2 < 2 ^ 63) ∧ e.1.2 ≠ -1) →
      (DDLManager.delete_global_ddlwork_region_info s t).rocksdb.region_ddlwork
        = s.rocksdb.region_ddlwork.filter (fun e => !decide (e.1.1 = t))) := by
  have hiff : region_row_in_range schema_identify identify t (t1, r) = true ↔ (t1 = t ∧ r ≠ -1) := by
    rw [region_row_in_range_eq schema_identify identify t t1 r ht ht1 hr]
    simp
  refine ⟨hiff, ?_, ?_⟩
  · intro hne
    rw [hiff]
    exact ⟨fun h => h.1, fun h => ⟨h, hne⟩⟩
  · intro s hw hrows
    unfold DDLManager.delete_global_ddlwork_region_info
    simp only [hw, if_true]
    apply List.filter_congr
    intro e he
    obtain ⟨h1, h2, h3⟩ := hrows e he
    rw [region_row_in_range_eq _ _ t e.1.1 e.1.2 ht h1 h2]
    simp [h3]

/-- Claim C30, amended, witness: the rows of tables 1 and 2 under the range delete of table 1. -/
theorem range_delete_covers_table_witness :
    (-2 ^ 63 ≤ (1 : Int) ∧ (1 : Int) < 2 ^ 63) ∧
    (region_row_in_range SCHEMA_IDENTIFY GLOBAL_DDLWORK_REGION_IDENTIFY 1 (1, 7) = true ↔ (1 : Int) = 1) ∧
    (region_row_in_range SCHEMA_IDENTIFY GLOBAL_DDLWORK_REGION_IDENTIFY 1 (2, 7) = true ↔ (2 : Int) = 1) :=
  ⟨by decide,
   (range_delete_covers_table SCHEMA_IDENTIFY GLOBAL_DDLWORK_REGION_IDENTIFY 1 1 7
      (by decide) (by decide) (by decide)).2.1 (by decide),
   (range_delete_covers_table SCHEMA_IDENTIFY GLOBAL_DDLWORK_REGION_IDENTIFY 1 2 7
      (by decide) (by decide) (by decide)).2.1 (by decide)⟩

/-! ## Idempotence of the applied operations -/

/-- Assigning the same value twice is assigning it once. -/
theorem AMap.set_set {κ α : Type} [DecidableEq κ] (k : κ) (v : α) (m : List (κ × α)) :
    AMap.set k v (AMap.set k v m) = AMap.set k v m := by
  induction m with
  | nil => simp [AMap.set]
  | cons x rest ih =>
    obtain ⟨k1, v1⟩ := x
    by_cases h : k1 = k
    · simp [AMap.set, h]
    · simp [AMap.set, h, ih]

/-- Erasing a key twice is erasing it once. -/
theorem AMap.erase_erase {κ α : Type} [DecidableEq κ] (k : κ) (m : List (κ × α)) :
    AMap.erase k (AMap.erase k m) = AMap.erase k m := by
  induction m with
  | nil => simp [AMap.erase]
  | cons x rest ih =>
    obtain ⟨k1, v1⟩ := x
    by_cases h : k1 = k
    · simp [AMap.erase, h, ih]
    · simp [AMap.erase, h, ih]

/-- The lookup `_region_ddlwork[table_id]` keeps the region maps. -/
theorem index_region_ddlwork_maps (d : DDLManager) (t : Int) :
    (d.index_region_ddlwork t).region_ddlwork = d.region_ddlwork := rfl

/-- The lookup `_region_ddlwork[table_id]`, made twice, leaves what one lookup leaves. -/
theorem index_region_ddlwork_twice (d : DDLManager) (t : Int) :
    (d.index_region_ddlwork t).index_region_ddlwork t = d.index_region_ddlwork t := by
  unfold DDLManager.index_region_ddlwork
  by_cases h : (AMap.contains t d.region_ddlwork || decide (t ∈ d.region_ddlwork_null)) = true
  · simp only [h, if_true]
  · simp only [h, Bool.false_eq_true, if_false]
    simp

/-- Dropping the null pointer of a table twice is dropping it once. -/
theorem drop_null_entry_twice (d : DDLManager) (t : Int) :
    (d.drop_null_entry t).drop_null_entry t = d.drop_null_entry t := by
  unfold DDLManager.drop_null_entry
  simp [List.filter_filter]

/-- The applied update of a unit, applied twice, gives the state of one application. -/
theorem update_global_ddlwork_region_info_twice (s : MetaServer) (work : RegionDdlWork) :
    (DDLManager.update_global_ddlwork_region_info
      (DDLManager.update_global_ddlwork_region_info s work).2 work).2
      = (DDLManager.update_global_ddlwork_region_info s work).2 := by
  unfold DDLManager.update_global_ddlwork_region_info MetaRocksdb.put_region
  rcases hmap : AMap.find work.table_id s.ddl.region_ddlwork with _ | region_map
  · by_cases hw : s.rocksdb.writable = true
    · simp [hw, hmap, AMap.set_set, index_region_ddlwork_maps, index_region_ddlwork_twice]
    · simp [hw, hmap, index_region_ddlwork_maps, index_region_ddlwork_twice]
  · by_cases hw : s.rocksdb.writable = true
    · simp [hw, hmap, AMap.find_update_self, AMap.set_set, AMap.update_update]
    · simp [hw, hmap, AMap.find_update_self, AMap.set_set, AMap.update_update]

/-- The job record read after the record of a job has been stored. -/
theorem get_ddl_mem_update_table_ddl_mem (d : DDLManager) (g : DdlWorkInfo) (t : Int) :
    (d.update_table_ddl_mem g).get_ddl_mem t
      = if t = g.table_id then (d.get_ddl_mem t).map (fun _ => g) else d.get_ddl_mem t := by
  unfold DDLManager.update_table_ddl_mem DDLManager.get_ddl_mem
  simp only
  rw [AMap.find_update]
  by_cases h : t = g.table_id
  · subst h
    simp only [if_true]
    rcases AMap.find g.table_id d.table_ddl_mem with _ | m <;> rfl
  · simp only [h, if_false]

/-- Storing the record of a job twice is storing it once. -/
theorem update_table_ddl_mem_twice (d : DDLManager) (g : DdlWorkInfo) :
    (d.update_table_ddl_mem g).update_table_ddl_mem g = d.update_table_ddl_mem g := by
  unfold DDLManager.update_table_ddl_mem
  simp only [AMap.update_update]

/-- The applied suspend or restart, applied twice, gives the state of one application. -/
theorem update_ddl_status_twice (s : MetaServer) (b : Bool) (t : Int) :
    (DDLManager.update_ddl_status (DDLManager.update_ddl_status s b t).2 b t).2
      = (DDLManager.update_ddl_status s b t).2 := by
  rcases hget : s.ddl.get_ddl_mem t with _ | w
  · have h1 : DDLManager.update_ddl_status s b t = (0, s) := by
      unfold DDLManager.update_ddl_status; rw [hget]
    rw [h1]
    simp only
    rw [h1]
  · have hget2 : ∃ x : DdlWorkInfo, (s.ddl.update_table_ddl_mem { w with suspend := b }).get_ddl_mem t
        = some x ∧ ({ x with suspend := b } : DdlWorkInfo) = { w with suspend := b } := by
      rw [get_ddl_mem_update_table_ddl_mem, hget]
      by_cases h : t = w.table_id
      · exact ⟨{ w with suspend := b }, by simp [h], rfl⟩
      · exact ⟨w, by simp [h], rfl⟩
    obtain ⟨x, hx, hxe⟩ := hget2
    by_cases hw : s.rocksdb.writable = true
    · have h1 : (DDLManager.update_ddl_status s b t).2
          = { s with ddl := s.ddl.update_table_ddl_mem { w with suspend := b },
                     rocksdb := { s.rocksdb with
                       ddlwork := AMap.set t { w with suspend := b } s.rocksdb.ddlwork } } := by
        unfold DDLManager.update_ddl_status MetaRocksdb.put_ddlwork_key
        rw [hget]
        simp [hw]
      rw [h1]
      unfold DDLManager.update_ddl_status MetaRocksdb.put_ddlwork_key
      simp only [hx, hxe, hw, if_true, update_table_ddl_mem_twice, AMap.set_set]
    · have h1 : (DDLManager.update_ddl_status s b t).2
          = { s with ddl := s.ddl.update_table_ddl_mem { w with suspend := b } } := by
        unfold DDLManager.update_ddl_status MetaRocksdb.put_ddlwork_key
        rw [hget]
        simp [hw]
      rw [h1]
      unfold DDLManager.update_ddl_status MetaRocksdb.put_ddlwork_key
      simp [hx, hxe, hw, update_table_ddl_mem_twice]

/-- Clearing the queued work of a table twice is clearing it once. -/
theorem clear_task_twice (db : DBManager) (t : Int) :
    (db.clear_task t).clear_task t = db.clear_task t := by
  unfold DBManager.clear_task
  simp [List.map_map, Function.comp, List.filter_filter]

/-- The applied deletion of a job, applied twice, gives the state of one application. -/
theorem delete_ddlwork_twice (s : MetaServer) (request : MetaManagerRequest) :
    DDLManager.delete_ddlwork (DDLManager.delete_ddlwork s request) request
      = DDLManager.delete_ddlwork s request := by
  unfold DDLManager.delete_ddlwork DDLManager.delete_global_ddlwork_info
    DDLManager.delete_global_ddlwork_region_info StatusChangePolicy.clear
  by_cases hw : s.rocksdb.writable = true
  · simp [hw, AMap.erase_erase, List.filter_filter, clear_task_twice, DDLManager.drop_null_entry]
  · simp [hw, AMap.erase_erase, List.filter_filter, clear_task_twice, DDLManager.drop_null_entry]

/--
C31: applying an update of a unit, a suspend or a restart through
`raft_update_info` twice, or a deletion through `delete_ddlwork` twice, gives
the same in-memory maps and the same meta-store contents as applying it once
(every other operation type leaves `raft_update_info` without effect).
-/
theorem applied_ops_idempotent (s : MetaServer) (request : MetaManagerRequest) :
    DDLManager.raft_update_info (DDLManager.raft_update_info s request) request
        = DDLManager.raft_update_info s request
      ∧ DDLManager.delete_ddlwork (DDLManager.delete_ddlwork s request) request
        = DDLManager.delete_ddlwork s request := by
  refine ⟨?_, delete_ddlwork_twice s request⟩
  unfold DDLManager.raft_update_info
  cases hop : request.op_type <;> simp only
  · exact update_global_ddlwork_region_info_twice s _
  · exact update_ddl_status_twice s true _
  · exact update_ddl_status_twice s false _

/-! ## Round trip through the meta store -/

/-- The unit of a region after one row has been loaded. -/
theorem load_region_ddl_snapshot_lookup (d : DDLManager) (w : RegionDdlWork) (t r : Int) :
    (DDLManager.load_region_ddl_snapshot d (some w)).2.region_lookup t r
      = if t = w.table_id ∧ r = w.region_id then some w else d.region_lookup t r := by
  unfold DDLManager.load_region_ddl_snapshot DDLManager.region_lookup
  simp only
  rw [AMap.find_update]
  by_cases ht : t = w.table_id
  · subst ht
    simp only [if_true, true_and]
    rcases hf : AMap.find w.table_id d.region_ddlwork with _ | rm
    · simp only [AMap.find_set_self, Option.map_some', AMap.find_set]
      by_cases hr : r = w.region_id
      · simp [hr, AMap.find]
      · simp [hr, AMap.find]
    · simp only [hf, Option.map_some', AMap.find_set]
      by_cases hr : r = w.region_id
      · simp [hr]
      · simp [hr]
  · simp only [ht, if_false, false_and]
    rcases hf : AMap.find w.table_id d.region_ddlwork with _ | rm
    · simp only
      rw [AMap.find_set_ne _ _ _ _ ht]
    · simp only

/-- A key that is not among the keys of a map is not found. -/
theorem AMap.find_of_not_mem_keys {κ α : Type} [DecidableEq κ] (k : κ) (m : List (κ × α))
    (h : k ∉ m.map Prod.fst) : AMap.find k m = none := by
  induction m with
  | nil => rfl
  | cons x rest ih =>
    obtain ⟨k1, v1⟩ := x
    simp only [List.map_cons, List.mem_cons, not_or] at h
    simp only [AMap.find]
    rw [if_neg (fun e => h.1 e.symm)]
    exact ih h.2

/-- The keys of a map after an assignment. -/
theorem AMap.mem_keys_set {κ α : Type} [DecidableEq κ] (k x : κ) (v : α) (m : List (κ × α)) :
    x ∈ (AMap.set k v m).map Prod.fst ↔ x = k ∨ x ∈ m.map Prod.fst := by
  induction m with
  | nil => simp [AMap.set]
  | cons y rest ih =>
    obtain ⟨k1, v1⟩ := y
    by_cases h : k1 = k
    · subst h
      simp [AMap.set]
    · simp only [AMap.set, if_neg h, List.map_cons, List.mem_cons, ih]
      tauto

/-- An assignment keeps the keys of a map without repetition. -/
theorem AMap.nodup_keys_set {κ α : Type} [DecidableEq κ] (k : κ) (v : α) (m : List (κ × α))
    (h : (m.map Prod.fst).Nodup) : ((AMap.set k v m).map Prod.fst).Nodup := by
  induction m with
  | nil => simp [AMap.set]
  | cons y rest ih =>
    obtain ⟨k1, v1⟩ := y
    simp only [List.map_cons, List.nodup_cons] at h
    by_cases h1 : k1 = k
    · subst h1
      simp only [AMap.set, if_true, List.map_cons, List.nodup_cons]
      exact h
    · simp only [AMap.set, if_neg h1, List.map_cons, List.nodup_cons, AMap.mem_keys_set]
      exact ⟨fun hc => hc.elim h1 h.1, ih h.2⟩

/-- The unit of a region after the rows of a store with distinct, well-formed keys have been loaded. -/
theorem load_region_rows_lookup (t r : Int) :
    ∀ (rows : List ((Int × Int) × RegionDdlWork)) (d : DDLManager),
      (∀ e ∈ rows, e.1 = (e.2.table_id, e.2.region_id)) → (rows.map Prod.fst).Nodup →
      (DDLManager.load_region_rows d rows).region_lookup t r
        = (AMap.find (t, r) rows).or (d.region_lookup t r) := by
  intro rows
  induction rows with
  | nil => intro d _ _; rfl
  | cons x rest ih =>
    obtain ⟨k, w⟩ := x
    intro d hk hn
    have hkw : k = (w.table_id, w.region_id) := hk (k, w) (List.mem_cons_self _ _)
    simp only [List.map_cons, List.nodup_cons] at hn
    have e1 : DDLManager.load_region_rows d ((k, w) :: rest)
        = DDLManager.load_region_rows (DDLManager.load_region_ddl_snapshot d (some w)).2 rest := rfl
    rw [e1, ih _ (fun e he => hk e (List.mem_cons_of_mem _ he)) hn.2,
      load_region_ddl_snapshot_lookup]
    simp only [AMap.find]
    by_cases h : k = (t, r)
    · rw [if_pos h]
      have h2 : t = w.table_id ∧ r = w.region_id := by
        rw [hkw] at h
        simp only [Prod.mk.injEq] at h
        exact ⟨h.1.symm, h.2.symm⟩
      rw [if_pos h2, AMap.find_of_not_mem_keys _ _ (h ▸ hn.1)]
      rfl
    · rw [if_neg h]
      have h2 : ¬ (t = w.table_id ∧ r = w.region_id) := by
        intro hc
        apply h
        rw [hkw, hc.1, hc.2]
      rw [if_neg h2]

/-- The region maps rebuilt from a store with distinct, well-formed keys hold exactly its rows. -/
theorem rehydrate_lookup (rows : List ((Int × Int) × RegionDdlWork))
    (hk : ∀ e ∈ rows, e.1 = (e.2.table_id, e.2.region_id)) (hn : (rows.map Prod.fst).Nodup)
    (t r : Int) :
    (DDLManager.rehydrate rows).region_lookup t r = AMap.find (t, r) rows := by
  unfold DDLManager.rehydrate
  rw [load_region_rows_lookup t r rows {} hk hn]
  have h0 : DDLManager.region_lookup {} t r = none := rfl
  rw [h0]
  rcases AMap.find (t, r) rows with _ | w <;> rfl

/-- One applied update of a unit whose table has an in-memory region map, on a writable store. -/
theorem update_global_ddlwork_region_info_known (s : MetaServer) (work : RegionDdlWork)
    (region_map : List (Int × MemRegionDdlWork))
    (hw : s.rocksdb.writable = true)
    (hmap : AMap.find work.table_id s.ddl.region_ddlwork = some region_map) :
    (DDLManager.update_global_ddlwork_region_info s work).2.ddl.region_ddlwork
        = AMap.update work.table_id
            (fun _ => AMap.set work.region_id { region_info := work } region_map)
            s.ddl.region_ddlwork
      ∧ (DDLManager.update_global_ddlwork_region_info s work).2.rocksdb.region_ddlwork
        = AMap.set (work.table_id, work.region_id) work s.rocksdb.region_ddlwork
      ∧ (DDLManager.update_global_ddlwork_region_info s work).2.rocksdb.writable = true := by
  unfold DDLManager.update_global_ddlwork_region_info MetaRocksdb.put_region
  simp [hw, hmap]

/-- The agreement of the store rows with the in-memory units is kept by one applied update. -/
theorem update_global_ddlwork_region_info_agrees (s : MetaServer) (work : RegionDdlWork)
    (hw : s.rocksdb.writable = true)
    (hk : s.rocksdb.region_rows_keyed)
    (hn : (s.rocksdb.region_ddlwork.map Prod.fst).Nodup)
    (hagree : ∀ t r, AMap.find (t, r) s.rocksdb.region_ddlwork = s.ddl.region_lookup t r)
    (hmap : (AMap.find work.table_id s.ddl.region_ddlwork).isSome = true) :
    (DDLManager.update_global_ddlwork_region_info s work).2.rocksdb.writable = true
      ∧ (DDLManager.update_global_ddlwork_region_info s work).2.rocksdb.region_rows_keyed
      ∧ ((DDLManager.update_global_ddlwork_region_info s work).2.rocksdb.region_ddlwork.map
          Prod.fst).Nodup
      ∧ (∀ t r, AMap.find (t, r)
            (DDLManager.update_global_ddlwork_region_info s work).2.rocksdb.region_ddlwork
          = (DDLManager.update_global_ddlwork_region_info s work).2.ddl.region_lookup t r)
      ∧ (∀ t, (AMap.find t s.ddl.region_ddlwork).isSome = true →
          (AMap.find t
            (DDLManager.update_global_ddlwork_region_info s work).2.ddl.region_ddlwork).isSome
            = true) := by
  rcases hf : AMap.find work.table_id s.ddl.region_ddlwork with _ | region_map
  · rw [hf] at hmap; exact absurd hmap (by simp)
  obtain ⟨hmem, hrows, hwr⟩ := update_global_ddlwork_region_info_known s work region_map hw hf
  unfold MetaRocksdb.region_rows_keyed
  rw [hmem, hrows]
  refine ⟨hwr, ?_, ?_, ?_, ?_⟩
  · exact AMap.forall_mem_set
      (fun e : (Int × Int) × RegionDdlWork => e.1 = (e.2.table_id, e.2.region_id)) _ _ _ hk rfl
  · exact AMap.nodup_keys_set _ _ _ hn
  · intro t r
    simp only [DDLManager.region_lookup, hmem]
    rw [AMap.find_set, AMap.find_update]
    by_cases ht : t = work.table_id
    · subst ht
      simp only [if_true, hf, Option.map_some', AMap.find_set]
      by_cases hr : r = work.region_id
      · simp [hr]
      · have h1 := hagree work.table_id r
        simp only [DDLManager.region_lookup, hf] at h1
        simp [hr, h1]
    · have h1 := hagree t r
      simp only [DDLManager.region_lookup] at h1
      simp [ht, h1]
  · intro t ht
    rw [AMap.find_update]
    by_cases h : t = work.table_id
    · rw [if_pos h, ← h]
      rcases hx : AMap.find t s.ddl.region_ddlwork with _ | x
      · rw [hx] at ht; exact absurd ht (by simp)
      · rfl
    · rw [if_neg h]; exact ht

/--
C32, counterexample: on the server without any job, the applied update of a
unit of table 1 leaves the in-memory region maps empty (the table has no
region map) and writes the row to the meta store, so the region maps rebuilt
from the store hold table 1 with region 1 and differ from the in-memory ones.
-/
theorem round_trip_unknown_table :
    (DDLManager.update_global_ddlwork_region_info {} round_trip_unit).2.ddl.region_ddlwork = []
      ∧ (DDLManager.rehydrate
          (DDLManager.update_global_ddlwork_region_info {} round_trip_unit).2.rocksdb.region_ddlwork).region_ddlwork
        = [(1, [(1, { region_info := round_trip_unit })])]
      ∧ (DDLManager.rehydrate
          (DDLManager.update_global_ddlwork_region_info {} round_trip_unit).2.rocksdb.region_ddlwork).region_lookup 1 1
        ≠ (DDLManager.update_global_ddlwork_region_info {} round_trip_unit).2.ddl.region_lookup 1 1 := by
  decide

/-- The tables with a region map after one row has been loaded. -/
theorem load_region_ddl_snapshot_tables (d : DDLManager) (w : RegionDdlWork) (t : Int) :
    (DDLManager.load_region_ddl_snapshot d (some w)).2.has_region_map t
      = (decide (w.table_id = t) || d.has_region_map t) := by
  unfold DDLManager.load_region_ddl_snapshot DDLManager.has_region_map
  simp only
  rw [AMap.find_update]
  by_cases ht : t = w.table_id
  · subst ht
    simp only [if_true, decide_True, Bool.true_or]
    rcases hf : AMap.find w.table_id d.region_ddlwork with _ | rm
    · simp only [AMap.find_set_self, Option.map_some', Option.isSome_some]
    · simp only [hf, Option.map_some', Option.isSome_some]
  · have ht2 : ¬ w.table_id = t := fun e => ht e.symm
    simp only [ht, if_false, ht2, decide_False, Bool.false_or]
    rcases hf : AMap.find w.table_id d.region_ddlwork with _ | rm
    · simp only
      rw [AMap.find_set_ne _ _ _ _ ht]
    · simp only

/-- The tables with a region map after the rows of a store have been loaded. -/
theorem load_region_rows_tables (t : Int) :
    ∀ (rows : List ((Int × Int) × RegionDdlWork)) (d : DDLManager),
      (DDLManager.load_region_rows d rows).has_region_map t
        = (d.has_region_map t || MetaRocksdb.has_region_row rows t) := by
  intro rows
  induction rows with
  | nil => intro d; simp [DDLManager.load_region_rows, MetaRocksdb.has_region_row]
  | cons x rest ih =>
    intro d
    have e1 : DDLManager.load_region_rows d (x :: rest)
        = DDLManager.load_region_rows (DDLManager.load_region_ddl_snapshot d (some x.2)).2 rest := rfl
    rw [e1, ih, load_region_ddl_snapshot_tables]
    simp only [MetaRocksdb.has_region_row, List.any_cons]
    cases decide (x.2.table_id = t) <;> cases d.has_region_map t <;> rfl

/-- The rebuilt region maps hold exactly the tables that have a region row. -/
theorem rehydrate_tables (rows : List ((Int × Int) × RegionDdlWork)) (t : Int) :
    (DDLManager.rehydrate rows).has_region_map t = MetaRocksdb.has_region_row rows t := by
  unfold DDLManager.rehydrate
  rw [load_region_rows_tables]
  rfl

/-- The tables with a region row after a row has been written under its own key. -/
theorem has_region_row_set (w : RegionDdlWork) (t : Int) :
    ∀ (rows : List ((Int × Int) × RegionDdlWork)),
      (∀ e ∈ rows, e.1 = (e.2.table_id, e.2.region_id)) →
      MetaRocksdb.has_region_row (AMap.set (w.table_id, w.region_id) w rows) t
        = (decide (w.table_id = t) || MetaRocksdb.has_region_row rows t) := by
  intro rows
  induction rows with
  | nil => intro _; simp [AMap.set, MetaRocksdb.has_region_row]
  | cons x rest ih =>
    intro hk
    obtain ⟨k1, v1⟩ := x
    have hk1 : k1 = (v1.table_id, v1.region_id) := hk (k1, v1) (List.mem_cons_self _ _)
    have ih1 := ih (fun e he => hk e (List.mem_cons_of_mem _ he))
    unfold MetaRocksdb.has_region_row at ih1 ⊢
    by_cases h : k1 = (w.table_id, w.region_id)
    · have hv : v1.table_id = w.table_id := by
        rw [hk1] at h
        exact (Prod.mk.inj h).1
      simp only [AMap.set, if_pos h, List.any_cons, hv]
      cases decide (w.table_id = t) <;> rfl
    · simp only [AMap.set, if_neg h, List.any_cons, ih1]
      cases decide (w.table_id = t) <;> cases decide (v1.table_id = t) <;> rfl

/-- The agreement of the tables of the store rows with the tables in memory is kept by one applied update. -/
theorem update_global_ddlwork_region_info_tables (s : MetaServer) (work : RegionDdlWork)
    (hw : s.rocksdb.writable = true)
    (hk : s.rocksdb.region_rows_keyed)
    (htables : ∀ t, MetaRocksdb.has_region_row s.rocksdb.region_ddlwork t = s.ddl.has_region_map t)
    (hmap : s.ddl.has_region_map work.table_id = true) :
    ∀ t, MetaRocksdb.has_region_row
        (DDLManager.update_global_ddlwork_region_info s work).2.rocksdb.region_ddlwork t
      = (DDLManager.update_global_ddlwork_region_info s work).2.ddl.has_region_map t := by
  intro t
  unfold DDLManager.has_region_map at hmap
  rcases hf : AMap.find work.table_id s.ddl.region_ddlwork with _ | region_map
  · rw [hf] at hmap; exact absurd hmap (by simp)
  obtain ⟨hmem, hrows, _⟩ := update_global_ddlwork_region_info_known s work region_map hw hf
  rw [hrows, has_region_row_set work t _ hk, htables t]
  unfold DDLManager.has_region_map
  rw [hmem, AMap.find_update]
  by_cases h : t = work.table_id
  · subst h
    simp [hf]
  · have h2 : ¬ work.table_id = t := fun e => h e.symm
    simp [h, h2]

/--
C32, amended: on a writable meta store whose region rows have distinct keys
made of their own table and region ids and which agrees with the memory (the
rebuilt region maps hold the same tables and, for every table and region id,
the same unit as the in-memory region maps), after any sequence of applied
updates of units whose tables have an in-memory region map, the region maps
rebuilt from the store rows by `load_region_ddl_snapshot` hold exactly the
tables of the in-memory region maps and, for every table and region id,
exactly the unit the in-memory region maps hold (`update_timestamp` put aside).
-/
theorem round_trip_known_tables (works : List RegionDdlWork) :
    ∀ (s : MetaServer), s.rocksdb.writable = true → s.rocksdb.region_rows_keyed →
      (s.rocksdb.region_ddlwork.map Prod.fst).Nodup →
      (∀ t, (DDLManager.rehydrate s.rocksdb.region_ddlwork).has_region_map t
        = s.ddl.has_region_map t) →
      (∀ t r, (DDLManager.rehydrate s.rocksdb.region_ddlwork).region_lookup t r
        = s.ddl.region_lookup t r) →
      (∀ work ∈ works, s.ddl.has_region_map work.table_id = true) →
      (∀ t,
        (DDLManager.rehydrate
          (DDLManager.apply_region_updates s works).rocksdb.region_ddlwork).has_region_map t
          = (DDLManager.apply_region_updates s works).ddl.has_region_map t)
      ∧ (∀ t r,
        (DDLManager.rehydrate
          (DDLManager.apply_region_updates s works).rocksdb.region_ddlwork).region_lookup t r
          = (DDLManager.apply_region_updates s works).ddl.region_lookup t r) := by
  induction works with
  | nil => intro s _ _ _ htables hagree _; exact ⟨htables, hagree⟩
  | cons work rest ih =>
    intro s hw hk hn htables hagree hmaps
    have hag : ∀ t r, AMap.find (t, r) s.rocksdb.region_ddlwork = s.ddl.region_lookup t r := by
      intro t r
      rw [← rehydrate_lookup _ hk hn t r]
      exact hagree t r
    have htab : ∀ t, MetaRocksdb.has_region_row s.rocksdb.region_ddlwork t
        = s.ddl.has_region_map t := by
      intro t
      rw [← rehydrate_tables]
      exact htables t
    have hmap := hmaps work (List.mem_cons_self _ _)
    obtain ⟨hw1, hk1, hn1, hag1, hpres⟩ :=
      update_global_ddlwork_region_info_agrees s work hw hk hn hag hmap
    have htab1 := update_global_ddlwork_region_info_tables s work hw hk htab hmap
    have e1 : DDLManager.apply_region_updates s (work :: rest)
        = DDLManager.apply_region_updates
            (DDLManager.update_global_ddlwork_region_info s work).2 rest := rfl
    rw [e1]
    apply ih _ hw1 hk1 hn1
    · intro t
      rw [rehydrate_tables]
      exact htab1 t
    · intro t r
      rw [rehydrate_lookup _ hk1 hn1 t r]
      exact hag1 t r
    · intro w hwm
      exact hpres _ (hmaps w (List.mem_cons_of_mem _ hwm))

/--
Witness of C32: the job of table 1 with its region 1; after the applied update
of the unit of region 1 the rebuilt region maps hold table 1, no table 2, and
the updated unit.
-/
theorem round_trip_known_tables_witness :
    ((DDLManager.rehydrate
        (DDLManager.apply_region_updates initialised_server [round_trip_unit]).rocksdb.region_ddlwork).has_region_map 1
        = (DDLManager.apply_region_updates initialised_server [round_trip_unit]).ddl.has_region_map 1
      ∧ (DDLManager.rehydrate
        (DDLManager.apply_region_updates initialised_server [round_trip_unit]).rocksdb.region_ddlwork).has_region_map 2
        = (DDLManager.apply_region_updates initialised_server [round_trip_unit]).ddl.has_region_map 2
      ∧ (DDLManager.rehydrate
        (DDLManager.apply_region_updates initialised_server [round_trip_unit]).rocksdb.region_ddlwork).region_lookup 1 1
        = (DDLManager.apply_region_updates initialised_server [round_trip_unit]).ddl.region_lookup 1 1)
      ∧ (DDLManager.apply_region_updates initialised_server [round_trip_unit]).ddl.has_region_map 1 = true
      ∧ (DDLManager.apply_region_updates initialised_server [round_trip_unit]).ddl.has_region_map 2 = false
      ∧ (DDLManager.apply_region_updates initialised_server [round_trip_unit]).ddl.region_lookup 1 1
        = some round_trip_unit :=
  ⟨match round_trip_known_tables [round_trip_unit] initialised_server (by decide)
      (by unfold MetaRocksdb.region_rows_keyed; decide)
      (by decide)
      (by
        intro t
        have h : (DDLManager.rehydrate initialised_server.rocksdb.region_ddlwork).region_ddlwork
            = initialised_server.ddl.region_ddlwork := by decide
        simp only [DDLManager.has_region_map, h])
      (by
        intro t r
        have h : (DDLManager.rehydrate initialised_server.rocksdb.region_ddlwork).region_ddlwork
            = initialised_server.ddl.region_ddlwork := by decide
        simp only [DDLManager.region_lookup, h])
      (by decide) with
    | ⟨h1, h2⟩ => ⟨h1 1, h1 2, h2 1 1⟩,
   by decide, by decide, by decide⟩

/-! ## The backfill executor: scan gate, insert count and row bound -/

/-- Incrementing a wrapped 32-bit counter is wrapping the incremented value. -/
theorem wrap_int32_succ (n : Int) : wrap_int32 (wrap_int32 n + 1) = wrap_int32 (n + 1) := by
  unfold wrap_int32
  norm_num
  omega

/-- One row: a negative return or a counted state with the row appended. -/
theorem scan_row_sound (node : GlobalDDLManagerNode) (env : ExecEnv) (limit : Int)
    (batch_size index : Nat) (mem_row : MemRow) (st : ScanState)
    (hrow : mem_row.encode_key_ret ≤ 0) (hst : st.counted) :
    (node.scan_row env limit batch_size index mem_row st).sound := by
  have hc : wrap_int32 (st.ddl_scan_size + 1)
      = wrap_int32 (((st.insert_records ++ [mem_row]).length : Nat) : Int) := by
    rw [hst, wrap_int32_succ]
    simp
  unfold GlobalDDLManagerNode.scan_row
  simp only
  split_ifs <;> simp only [ScanOutcome.sound, ScanState.counted] <;> first | exact hc | omega

/-- The rows of a batch: a negative return or a counted state. -/
theorem scan_rows_sound (node : GlobalDDLManagerNode) (env : ExecEnv) (limit : Int)
    (batch_size : Nat) :
    ∀ (rows : List MemRow) (index : Nat) (st : ScanState),
      (∀ row ∈ rows, row.encode_key_ret ≤ 0) → st.counted →
      (node.scan_rows env limit batch_size index rows st).sound := by
  intro rows
  induction rows with
  | nil => intro index st _ hst; exact hst
  | cons row rest ih =>
    intro index st hrows hst
    have h1 := scan_row_sound node env limit batch_size index row st
      (hrows row (List.mem_cons_self _ _)) hst
    unfold GlobalDDLManagerNode.scan_rows
    rcases hr : node.scan_row env limit batch_size index row st with ret | st1
    · rw [hr] at h1; exact h1
    · rw [hr] at h1
      exact ih (index + 1) st1 (fun r hrm => hrows r (List.mem_cons_of_mem _ hrm)) h1

/-- The batch of one region: a negative return or a counted state. -/
theorem scan_batch_sound (node : GlobalDDLManagerNode) (env : ExecEnv) (limit : Int)
    (store : FetcherStore) (hstore : store.encode_key_convention) (region_id : Int)
    (st : ScanState) (hst : st.counted) :
    (node.scan_batch env limit store region_id st).sound := by
  unfold GlobalDDLManagerNode.scan_batch
  rcases hf : AMap.find region_id store.region_batch with _ | batch
  · exact hst
  · simp only
    by_cases hl : batch.length ≠ 0
    · rw [if_pos hl]
      exact scan_rows_sound node env limit batch.length batch 0 st
        (hstore (region_id, batch) (AMap.mem_of_find _ _ _ hf)) hst
    · rw [if_neg hl]
      exact hst

/-- The batches of a store: a negative return or a counted state. -/
theorem scan_batches_sound (node : GlobalDDLManagerNode) (env : ExecEnv) (limit : Int)
    (store : FetcherStore) (hstore : store.encode_key_convention) :
    ∀ (pairs : List (String × Int)) (st : ScanState), st.counted →
      (node.scan_batches env limit store pairs st).sound := by
  intro pairs
  induction pairs with
  | nil => intro st hst; exact hst
  | cons pair rest ih =>
    intro st hst
    have hs := scan_batch_sound node env limit store hstore pair.2 st hst
    unfold GlobalDDLManagerNode.scan_batches
    rcases hb : node.scan_batch env limit store pair.2 st with ret | st1
    · rw [hb] at hs; exact hs
    · rw [hb] at hs
      simp only
      by_cases hl : to_size_t limit ≤ st1.insert_records.length
      · rw [if_pos hl]; exact hs
      · rw [if_neg hl]; exact ih st1 hs

/-- One row: an early return or a counted state. -/
theorem scan_row_tallied (node : GlobalDDLManagerNode) (env : ExecEnv) (limit : Int)
    (batch_size index : Nat) (mem_row : MemRow) (st : ScanState) (hst : st.counted) :
    (node.scan_row env limit batch_size index mem_row st).tallied := by
  have hc : wrap_int32 (st.ddl_scan_size + 1)
      = wrap_int32 (((st.insert_records ++ [mem_row]).length : Nat) : Int) := by
    rw [hst, wrap_int32_succ]
    simp
  unfold GlobalDDLManagerNode.scan_row
  simp only
  split_ifs <;> simp only [ScanOutcome.tallied, ScanState.counted] <;> exact hc

/-- The rows of a batch: an early return or a counted state. -/
theorem scan_rows_tallied (node : GlobalDDLManagerNode) (env : ExecEnv) (limit : Int)
    (batch_size : Nat) :
    ∀ (rows : List MemRow) (index : Nat) (st : ScanState), st.counted →
      (node.scan_rows env limit batch_size index rows st).tallied := by
  intro rows
  induction rows with
  | nil => intro index st hst; exact hst
  | cons row rest ih =>
    intro index st hst
    have h1 := scan_row_tallied node env limit batch_size index row st hst
    unfold GlobalDDLManagerNode.scan_rows
    rcases hr : node.scan_row env limit batch_size index row st with ret | st1
    · trivial
    · rw [hr] at h1
      exact ih (index + 1) st1 h1

/-- The batch of one region: an early return or a counted state. -/
theorem scan_batch_tallied (node : GlobalDDLManagerNode) (env : ExecEnv) (limit : Int)
    (store : FetcherStore) (region_id : Int) (st : ScanState) (hst : st.counted) :
    (node.scan_batch env limit store region_id st).tallied := by
  unfold GlobalDDLManagerNode.scan_batch
  rcases AMap.find region_id store.region_batch with _ | batch
  · exact hst
  · simp only
    by_cases hl : batch.length ≠ 0
    · rw [if_pos hl]
      exact scan_rows_tallied node env limit batch.length batch 0 st hst
    · rw [if_neg hl]
      exact hst

/-- The batches of a store: an early return or a counted state. -/
theorem scan_batches_tallied (node : GlobalDDLManagerNode) (env : ExecEnv) (limit : Int)
    (store : FetcherStore) :
    ∀ (pairs : List (String × Int)) (st : ScanState), st.counted →
      (node.scan_batches env limit store pairs st).tallied := by
  intro pairs
  induction pairs with
  | nil => intro st hst; exact hst
  | cons pair rest ih =>
    intro st hst
    have hs := scan_batch_tallied node env limit store pair.2 st hst
    unfold GlobalDDLManagerNode.scan_batches
    rcases hb : node.scan_batch env limit store pair.2 st with ret | st1
    · trivial
    · rw [hb] at hs
      simp only
      by_cases hl : to_size_t limit ≤ st1.insert_records.length
      · rw [if_pos hl]; exact hs
      · rw [if_neg hl]; exact ih st1 hs

/-- The end of `open`: the insert request is sent exactly when rows were scanned, and its count decides the result. -/
theorem open_finish_result (env : ExecEnv) (state : RuntimeState) (ret : Int) (fetch_run : Bool)
    (sc : ScanState) :
    (GlobalDDLManagerNode.open_finish env state ret fetch_run sc).scanned = some sc
      ∧ (0 < sc.ddl_scan_size →
          (GlobalDDLManagerNode.open_finish env state ret fetch_run sc).insert_request
              = some sc.insert_records
            ∧ (GlobalDDLManagerNode.open_finish env state ret fetch_run sc).ret
              = if env.send_request sc.insert_records = sc.ddl_scan_size then sc.ddl_scan_size
                else -1)
      ∧ (¬ 0 < sc.ddl_scan_size →
          (GlobalDDLManagerNode.open_finish env state ret fetch_run sc).insert_request = none
            ∧ (GlobalDDLManagerNode.open_finish env state ret fetch_run sc).ret = ret) := by
  unfold GlobalDDLManagerNode.open_finish
  by_cases hpos : 0 < sc.ddl_scan_size
  · simp only [hpos, if_true]
    by_cases hs : env.send_request sc.insert_records = -1
    · have hne : ¬ env.send_request sc.insert_records = sc.ddl_scan_size := by omega
      rw [if_pos hs, if_neg hne]
      exact ⟨rfl, fun _ => ⟨rfl, hs⟩, fun h => absurd trivial h⟩
    · rw [if_neg hs]
      by_cases he : env.send_request sc.insert_records = sc.ddl_scan_size
      · rw [if_pos he]
        refine ⟨rfl, fun _ => ⟨rfl, ?_⟩, fun h => absurd trivial h⟩
        simp only [ne_eq, he, not_true_eq_false, if_false]
      · rw [if_neg he]
        refine ⟨rfl, fun _ => ⟨rfl, ?_⟩, fun h => absurd trivial h⟩
        simp only [ne_eq, he, not_false_eq_true, if_true]
  · simp [hpos]

/-- The end of `open` keeps the record of whether the fetch ran. -/
theorem open_finish_fetch_run (env : ExecEnv) (state : RuntimeState) (ret : Int) (fetch_run : Bool)
    (sc : ScanState) :
    (GlobalDDLManagerNode.open_finish env state ret fetch_run sc).fetch_run = fetch_run := by
  unfold GlobalDDLManagerNode.open_finish
  simp only
  split_ifs <;> rfl

/-- The end of `open` is reached only when `reserve` did not throw. -/
theorem open_finish_length_error (env : ExecEnv) (state : RuntimeState) (ret : Int)
    (fetch_run : Bool) (sc : ScanState) :
    (GlobalDDLManagerNode.open_finish env state ret fetch_run sc).length_error = false := by
  unfold GlobalDDLManagerNode.open_finish
  simp only
  split_ifs <;> rfl

/--
The shape of every run of `open`: either line 131 is not reached and no insert
request is sent, or the run is the end of `open` from a counted scan state,
entered with the result of the fetch (0 when the fetch did not run), which is
not negative.
-/
theorem open_reach (node : GlobalDDLManagerNode) (env : ExecEnv) (state : RuntimeState) :
    ((node.open env state).scanned = none ∧ (node.open env state).insert_request = none)
      ∨ ∃ (state1 : RuntimeState) (fetch_run : Bool) (sc : ScanState), sc.counted
          ∧ 0 ≤ (if fetch_run = true then env.run_ret else 0)
          ∧ node.open env state = GlobalDDLManagerNode.open_finish env state1
              (if fetch_run = true then env.run_ret else 0) fetch_run sc := by
  unfold GlobalDDLManagerNode.open
  rcases state.client_conn with _ | client_conn
  · left; exact ⟨rfl, rfl⟩
  rcases hn : env.scan_nodes with _ | ⟨scan_node, _ | ⟨b, l⟩⟩
  · left; exact ⟨rfl, rfl⟩
  · simp only
    generalize (decide (scan_node.router_index_id = scan_node.table_id)
      || scan_node.covering_index) = fr
    by_cases hneg : (if fr = true then env.run_ret else 0) < 0
    · left; rw [if_pos hneg]; exact ⟨rfl, rfl⟩
    · rw [if_neg hneg]
      by_cases hmax : env.max_size < to_size_t scan_node.limit
      · left; rw [if_pos hmax]; exact ⟨rfl, rfl⟩
      · rw [if_neg hmax]
        by_cases hpk : env.index_info_id node.table_id = -1
        · left; rw [if_pos hpk]; exact ⟨rfl, rfl⟩
        · rw [if_neg hpk]
          have hs := scan_batches_tallied node env scan_node.limit
            (if fr = true then env.run_store else node.fetcher_store)
            (if fr = true then env.run_store else node.fetcher_store).start_key_sort {} rfl
          rcases hsc : node.scan_batches env scan_node.limit
              (if fr = true then env.run_store else node.fetcher_store)
              (if fr = true then env.run_store else node.fetcher_store).start_key_sort {}
            with ret | sc
          · left; exact ⟨rfl, rfl⟩
          · rw [hsc] at hs
            right
            exact ⟨_, fr, sc, hs, by omega, rfl⟩
  · left; exact ⟨rfl, rfl⟩

/--
The runs of `open` that do not reach line 131, when the key encoding fails
with negative values only: `reserve` threw, or a negative value is returned.
-/
theorem open_early (node : GlobalDDLManagerNode) (env : ExecEnv) (state : RuntimeState)
    (hkey1 : env.run_store.encode_key_convention)
    (hkey2 : node.fetcher_store.encode_key_convention)
    (hnone : (node.open env state).scanned = none) :
    (node.open env state).length_error = true ∨ (node.open env state).ret < 0 := by
  revert hnone
  unfold GlobalDDLManagerNode.open
  rcases state.client_conn with _ | client_conn
  · intro _; right; simp
  rcases hn : env.scan_nodes with _ | ⟨scan_node, _ | ⟨b, l⟩⟩
  · intro _; right; simp
  · simp only
    have hstore : ∀ fr : Bool,
        (if fr = true then env.run_store else node.fetcher_store).encode_key_convention := by
      intro fr
      cases fr
      · exact hkey2
      · exact hkey1
    generalize (decide (scan_node.router_index_id = scan_node.table_id)
      || scan_node.covering_index) = fr
    by_cases hneg : (if fr = true then env.run_ret else 0) < 0
    · intro _; right; rw [if_pos hneg]; exact hneg
    · rw [if_neg hneg]
      by_cases hmax : env.max_size < to_size_t scan_node.limit
      · intro _; left; rw [if_pos hmax]
      · rw [if_neg hmax]
        by_cases hpk : env.index_info_id node.table_id = -1
        · intro _; right; rw [if_pos hpk]; simp
        · rw [if_neg hpk]
          have hs := scan_batches_sound node env scan_node.limit
            (if fr = true then env.run_store else node.fetcher_store) (hstore fr)
            (if fr = true then env.run_store else node.fetcher_store).start_key_sort {} rfl
          rcases hsc : node.scan_batches env scan_node.limit
              (if fr = true then env.run_store else node.fetcher_store)
              (if fr = true then env.run_store else node.fetcher_store).start_key_sort {}
            with ret | sc
          · rw [hsc] at hs
            intro _; right; exact hs
          · intro hnone
            simp only at hnone
            rw [(open_finish_result env _ _ fr sc).1] at hnone
            exact absurd hnone (by simp)
  · intro _; right; simp

/--
C34, counterexample: a fetch that returns 5 and leaves no batch: `open` scans
no row, sends no insert request and returns 5, not 0; and a fetched row whose
key encoding returns 7: `open` returns 7 at line 111 with one row scanned and
no insert request sent. A non-negative result of `open` is then not the number
of rows scanned.
-/
theorem positive_results_returned :
    (backfill_node.open positive_fetch_env {}).ret = 5
      ∧ (backfill_node.open positive_fetch_env {}).length_error = false
      ∧ (backfill_node.open positive_fetch_env {}).scanned = some {}
      ∧ (backfill_node.open positive_fetch_env {}).state.ddl_scan_size = 0
      ∧ (backfill_node.open positive_fetch_env {}).insert_request = none
      ∧ (backfill_node.open (backfill_env wide_scan_node positive_key_store) {}).ret = 7
      ∧ (backfill_node.open (backfill_env wide_scan_node positive_key_store) {}).length_error = false
      ∧ (backfill_node.open (backfill_env wide_scan_node positive_key_store) {}).insert_request
        = none := by
  decide

/--
C34, amended: when fewer than 2^31 rows are scanned, a run of `open` that
reaches the end of the scan with `scan_size` rows did not throw and has
`ddl_scan_size = |insert_records|`; with `scan_size > 0` the insert request is
sent and `open` returns `scan_size` if the request returns `scan_size` and -1
otherwise; with `scan_size = 0` no insert request is sent and `open` returns
the result of the fetch (0 when the fetch did not run), which is not negative.
When moreover the fetch and the key encoding fail with negative values only,
`open` returns 0 for `scan_size = 0`, and every non-negative value that `open`
returns is the number of rows scanned.
-/
theorem insert_count (node : GlobalDDLManagerNode) (env : ExecEnv) (state : RuntimeState)
    (hsize : (node.open env state).scanned_rows < 2 ^ 31) :
    (∀ sc, (node.open env state).scanned = some sc →
        (node.open env state).length_error = false
        ∧ sc.ddl_scan_size = (sc.insert_records.length : Int)
        ∧ (0 < sc.ddl_scan_size →
            (node.open env state).insert_request = some sc.insert_records
            ∧ (node.open env state).ret
              = if env.send_request sc.insert_records = sc.ddl_scan_size then sc.ddl_scan_size
                else -1)
        ∧ (sc.ddl_scan_size = 0 →
            (node.open env state).insert_request = none
            ∧ (node.open env state).ret
              = (if (node.open env state).fetch_run = true then env.run_ret else 0)
            ∧ 0 ≤ (node.open env state).ret
            ∧ (env.run_ret ≤ 0 → (node.open env state).ret = 0)))
      ∧ (env.run_ret ≤ 0 → env.run_store.encode_key_convention →
          node.fetcher_store.encode_key_convention →
          (node.open env state).length_error = false → 0 ≤ (node.open env state).ret →
          ∃ sc, (node.open env state).scanned = some sc
            ∧ (node.open env state).ret = sc.ddl_scan_size) := by
  have hreach : ∀ sc, (node.open env state).scanned = some sc →
      (node.open env state).length_error = false
      ∧ sc.ddl_scan_size = (sc.insert_records.length : Int)
      ∧ (0 < sc.ddl_scan_size →
          (node.open env state).insert_request = some sc.insert_records
          ∧ (node.open env state).ret
            = if env.send_request sc.insert_records = sc.ddl_scan_size then sc.ddl_scan_size
              else -1)
      ∧ (sc.ddl_scan_size = 0 →
          (node.open env state).insert_request = none
          ∧ (node.open env state).ret
            = (if (node.open env state).fetch_run = true then env.run_ret else 0)
          ∧ 0 ≤ (node.open env state).ret
          ∧ (env.run_ret ≤ 0 → (node.open env state).ret = 0)) := by
    intro sc1 hsc1
    rcases open_reach node env state with ⟨hnone, _⟩ | ⟨state1, fr, sc, hc, hret0, heq⟩
    · rw [hnone] at hsc1
      exact absurd hsc1 (by simp)
    · obtain ⟨hsome, hpos, hzero⟩ := open_finish_result env state1
        (if fr = true then env.run_ret else 0) fr sc
      have hfr := open_finish_fetch_run env state1 (if fr = true then env.run_ret else 0) fr sc
      have hle := open_finish_length_error env state1 (if fr = true then env.run_ret else 0) fr sc
      rw [← heq] at hsome hpos hzero hfr hle
      rw [hsome] at hsc1
      have e : sc = sc1 := Option.some.inj hsc1
      subst e
      have hlen : sc.ddl_scan_size = (sc.insert_records.length : Int) := by
        have h1 : sc.insert_records.length < 2 ^ 31 := by
          unfold OpenResult.scanned_rows at hsize
          rw [hsome] at hsize
          exact hsize
        rw [hc]
        apply wrap_int32_of_range
        · omega
        · exact_mod_cast h1
      refine ⟨hle, hlen, hpos, ?_⟩
      intro hz
      obtain ⟨h1, h2⟩ := hzero (by omega)
      rw [hfr]
      refine ⟨h1, h2, by rw [h2]; exact hret0, ?_⟩
      intro hrun
      rw [h2]
      split_ifs at hret0 ⊢
      · omega
      · rfl
  refine ⟨hreach, ?_⟩
  intro hrun hkey1 hkey2 hle h0
  rcases hs : (node.open env state).scanned with _ | sc
  · rcases open_early node env state hkey1 hkey2 hs with h | h
    · rw [hle] at h; exact absurd h (by simp)
    · omega
  · refine ⟨sc, rfl, ?_⟩
    obtain ⟨_, hlen, hpos, hzero⟩ := hreach sc hs
    by_cases hp : 0 < sc.ddl_scan_size
    · have h2 := (hpos hp).2
      rw [h2] at h0 ⊢
      split_ifs at h0 ⊢
      · rfl
      · omega
    · have hz : sc.ddl_scan_size = 0 := by omega
      rw [(hzero hz).2.2.2 hrun, hz]

/--
Witness of C34: three fetched rows under limit 10 and an insert that stores
them all; `open` returns 3, the number of rows scanned.
-/
theorem insert_count_witness :
    (backfill_node.open (backfill_env wide_scan_node backfill_store) {}).scanned_rows < 2 ^ 31
      ∧ (backfill_node.open (backfill_env wide_scan_node backfill_store) {}).ret = 3
      ∧ ∃ sc, (backfill_node.open (backfill_env wide_scan_node backfill_store) {}).scanned = some sc
          ∧ (backfill_node.open (backfill_env wide_scan_node backfill_store) {}).ret
            = sc.ddl_scan_size :=
  ⟨by decide, by decide,
   (insert_count backfill_node (backfill_env wide_scan_node backfill_store) {} (by decide)).2
      (by decide) (by unfold FetcherStore.encode_key_convention; decide)
      (by unfold FetcherStore.encode_key_convention; decide) (by decide) (by decide)⟩

/-- A negative limit (of the 64-bit range): `reserve` throws `std::length_error` and nothing is scanned or sent. -/
theorem open_negative_limit (node : GlobalDDLManagerNode) (env : ExecEnv) (state : RuntimeState)
    (scan_node : RocksdbScanNode) (hn : env.scan_nodes = [scan_node])
    (hlimit : -2 ^ 63 ≤ scan_node.limit ∧ scan_node.limit < 0) (hmax : env.max_size < 2 ^ 63) :
    (node.open env state).scanned = none ∧ (node.open env state).insert_request = none
      ∧ ((node.open env state).length_error = true ∨ (node.open env state).ret < 0) := by
  have hbig : env.max_size < to_size_t scan_node.limit := by
    unfold to_size_t
    obtain ⟨h1, h2⟩ := hlimit
    norm_num at h1 hmax ⊢
    omega
  unfold GlobalDDLManagerNode.open
  rcases state.client_conn with _ | client_conn
  · exact ⟨rfl, rfl, Or.inr (by simp)⟩
  rw [hn]
  simp only
  generalize (decide (scan_node.router_index_id = scan_node.table_id)
    || scan_node.covering_index) = fr
  by_cases hneg : (if fr = true then env.run_ret else 0) < 0
  · rw [if_pos hneg]; exact ⟨rfl, rfl, Or.inr hneg⟩
  · rw [if_neg hneg, if_pos hbig]; exact ⟨rfl, rfl, Or.inl rfl⟩

/-- The fetch runs exactly when there is a connection and the condition of line 52 holds. -/
theorem open_fetch_run (node : GlobalDDLManagerNode) (env : ExecEnv) (state : RuntimeState) :
    (node.open env state).fetch_run = (state.client_conn.isSome && env.scan_gate) := by
  unfold GlobalDDLManagerNode.open ExecEnv.scan_gate
  rcases state.client_conn with _ | client_conn
  · rfl
  rcases hn : env.scan_nodes with _ | ⟨scan_node, _ | ⟨b, l⟩⟩
  · rfl
  · simp only [Option.isSome_some, Bool.true_and]
    split_ifs <;> try rfl
    all_goals
      split
      · rfl
      · exact open_finish_fetch_run _ _ _ _ _
  · rfl

/--
C33: with a scan node whose router index (20) is not the main table (1) and
which is not covering, `open` does not run the fetch and sends no insert
request, and it returns 0 with a scan size of 0: the work unit is reported as
successful, not as failed.
-/
theorem closed_gate_reports_success :
    (backfill_node.open (backfill_env gated_scan_node backfill_store) {}).ret = 0
      ∧ (backfill_node.open (backfill_env gated_scan_node backfill_store) {}).fetch_run = false
      ∧ (backfill_node.open (backfill_env gated_scan_node backfill_store) {}).insert_request = none
      ∧ (backfill_node.open (backfill_env gated_scan_node backfill_store) {}).state.ddl_scan_size = 0
      ∧ ¬ (backfill_node.open (backfill_env gated_scan_node backfill_store) {}).ret < 0
      ∧ (backfill_node.open (backfill_env gated_scan_node backfill_store) {}).length_error
        = false := by
  decide

/--
C35: with limit 2 and two fetched batches of one and two rows, `open` scans
and submits three rows: the row loop does not stop at the limit, the limit is
compared only after a whole batch.
-/
theorem row_bound_exceeded :
    limited_scan_node.limit = 2
      ∧ (backfill_node.open (backfill_env limited_scan_node backfill_store) {}).state.ddl_scan_size = 3
      ∧ (backfill_node.open (backfill_env limited_scan_node backfill_store) {}).insert_request
        = some backfill_rows
      ∧ (backfill_node.open (backfill_env limited_scan_node backfill_store) {}).ret = 3
      ∧ (backfill_node.open (backfill_env limited_scan_node backfill_store) {}).length_error
        = false := by
  decide

/-! ## The dwell timers of `StatusChangePolicy` -/

/-- A call of `should_change` keeps every timer that is running. -/
theorem should_change_keeps_timer (fl : Flags) (now : Int) (p : StatusChangePolicy)
    (table_id : Int) (status : IndexState) (k : Int × IndexState) (start : Int)
    (h : AMap.find k p.time_costs_map = some start) :
    AMap.find k (StatusChangePolicy.should_change fl now p table_id status).2.time_costs_map
      = some start := by
  unfold StatusChangePolicy.should_change
  rcases hf : AMap.find (table_id, status) p.time_costs_map with _ | s0
  · simp only
    rw [AMap.find_set]
    by_cases hk : k = (table_id, status)
    · rw [hk, hf] at h; exact absurd h (by simp)
    · rw [if_neg hk]; exact h
  · exact h

/-- A call of `should_change` for one pair leaves the timer of every other pair as it is. -/
theorem should_change_other_timer (fl : Flags) (now : Int) (p : StatusChangePolicy)
    (table_id : Int) (status : IndexState) (k : Int × IndexState) (hk : (table_id, status) ≠ k) :
    AMap.find k (StatusChangePolicy.should_change fl now p table_id status).2.time_costs_map
      = AMap.find k p.time_costs_map := by
  unfold StatusChangePolicy.should_change
  rcases hf : AMap.find (table_id, status) p.time_costs_map with _ | s0
  · simp only
    rw [AMap.find_set, if_neg (fun e => hk e.symm)]
  · rfl

/-- A sequence of `should_change` calls keeps every timer that is running. -/
theorem calls_keep_timer (fl : Flags) (k : Int × IndexState) (start : Int) :
    ∀ (cs : List (Int × Int × IndexState)) (p : StatusChangePolicy),
      AMap.find k p.time_costs_map = some start →
      AMap.find k (StatusChangePolicy.calls fl cs p).time_costs_map = some start := by
  intro cs
  induction cs with
  | nil => intro p h; exact h
  | cons c rest ih =>
    intro p h
    exact ih _ (should_change_keeps_timer fl c.1 p c.2.1 c.2.2 k start h)

/-- The result of `should_change` for a pair is decided by the timer of the pair alone. -/
theorem should_change_result (fl : Flags) (now : Int) (p : StatusChangePolicy)
    (table_id : Int) (status : IndexState) :
    (StatusChangePolicy.should_change fl now p table_id status).1
      = match AMap.find (table_id, status) p.time_costs_map with
        | none => false
        | some start =>
          decide (wrap_int32 (5 * fl.ddl_status_update_interval_us) < TimeCost_get_time start now) := by
  unfold StatusChangePolicy.should_change
  rcases AMap.find (table_id, status) p.time_costs_map with _ | s0 <;> rfl

/-- After `clear(table)` no pair of the table has a timer. -/
theorem clear_stops_timers (p : StatusChangePolicy) (table_id : Int) (status : IndexState) :
    AMap.find (table_id, status) (p.clear table_id).time_costs_map = none := by
  apply AMap.find_of_not_mem_keys
  unfold StatusChangePolicy.clear
  simp only [List.mem_map, List.mem_filter, not_exists, not_and]
  intro e he hk
  rw [hk] at he
  simp at he

/--
C36: for a pair (table, state) without a timer (never asked, or cleared), and
an interval within the `int32_t` range of `5 * interval`: the first call of
`should_change` returns false and starts the timer of the pair at the time of
the call; after any sequence of further `should_change` calls, for any pairs,
a call for the pair returns true exactly when more than
`5 * ddl_status_update_interval_us` has elapsed since the first call; a call
for another pair leaves the timer of the pair and the result of its next call
as they are; and `clear(table)` removes the timer.
-/
theorem should_change_timer (fl : Flags) (p : StatusChangePolicy) (table_id : Int)
    (status : IndexState) (first : Int)
    (hfl : 0 ≤ fl.ddl_status_update_interval_us ∧ 5 * fl.ddl_status_update_interval_us < 2 ^ 31)
    (hnew : AMap.find (table_id, status) p.time_costs_map = none) :
    (StatusChangePolicy.should_change fl first p table_id status).1 = false
      ∧ AMap.find (table_id, status)
          (StatusChangePolicy.should_change fl first p table_id status).2.time_costs_map
          = some first
      ∧ (∀ (cs : List (Int × Int × IndexState)) (now : Int),
          (StatusChangePolicy.should_change fl now
            (StatusChangePolicy.calls fl cs
              (StatusChangePolicy.should_change fl first p table_id status).2)
            table_id status).1 = true
          ↔ 5 * fl.ddl_status_update_interval_us < now - first)
      ∧ (∀ (q : StatusChangePolicy) (now other_now other_table : Int) (other_status : IndexState),
          (other_table, other_status) ≠ (table_id, status) →
          AMap.find (table_id, status)
              (StatusChangePolicy.should_change fl other_now q other_table other_status).2.time_costs_map
            = AMap.find (table_id, status) q.time_costs_map
          ∧ (StatusChangePolicy.should_change fl now
              (StatusChangePolicy.should_change fl other_now q other_table other_status).2
              table_id status).1
            = (StatusChangePolicy.should_change fl now q table_id status).1)
      ∧ (∀ (q : StatusChangePolicy),
          AMap.find (table_id, status) (q.clear table_id).time_costs_map = none) := by
  have hw := wrap_int32_of_range (5 * fl.ddl_status_update_interval_us) (by omega) hfl.2
  have hstart : AMap.find (table_id, status)
      (StatusChangePolicy.should_change fl first p table_id status).2.time_costs_map
      = some first := by
    unfold StatusChangePolicy.should_change
    rw [hnew]
    exact AMap.find_set_self _ _ _
  refine ⟨?_, hstart, ?_, ?_, fun q => clear_stops_timers q table_id status⟩
  · rw [should_change_result, hnew]
  · intro cs now
    rw [should_change_result, calls_keep_timer fl _ first cs _ hstart]
    simp only [hw, TimeCost_get_time, decide_eq_true_eq]
  · intro q now other_now other_table other_status hne
    have h1 := should_change_other_timer fl other_now q other_table other_status
      (table_id, status) hne
    refine ⟨h1, ?_⟩
    rw [should_change_result, should_change_result, h1]

/--
Witness of C36: with the default interval of 10 s, the pair (table 1,
`IS_NONE`) first asked at time 0; after a call for (table 2, `IS_PUBLIC`) the
call at 50 s returns false and the call at 50 s + 1 µs returns true.
-/
theorem should_change_timer_witness :
    (StatusChangePolicy.should_change defaultFlags 0 {} 1 IndexState.IS_NONE).1 = false
      ∧ ((StatusChangePolicy.should_change defaultFlags 50000001
            (StatusChangePolicy.calls defaultFlags [(7, 2, IndexState.IS_PUBLIC)]
              (StatusChangePolicy.should_change defaultFlags 0 {} 1 IndexState.IS_NONE).2)
            1 IndexState.IS_NONE).1 = true
          ↔ 5 * defaultFlags.ddl_status_update_interval_us < 50000001 - 0)
      ∧ (StatusChangePolicy.should_change defaultFlags 50000000
            (StatusChangePolicy.calls defaultFlags [(7, 2, IndexState.IS_PUBLIC)]
              (StatusChangePolicy.should_change defaultFlags 0 {} 1 IndexState.IS_NONE).2)
            1 IndexState.IS_NONE).1 = false :=
  ⟨(should_change_timer defaultFlags {} 1 IndexState.IS_NONE 0 (by decide) (by decide)).1,
   (should_change_timer defaultFlags {} 1 IndexState.IS_NONE 0 (by decide) (by decide)).2.2.1
      [(7, 2, IndexState.IS_PUBLIC)] 50000001,
   by decide⟩

/-! ## The counter of a broadcast task -/

/-- The keys of a map after a removal. -/
theorem AMap.keys_erase {κ α : Type} [DecidableEq κ] (k : κ) (m : List (κ × α)) :
    (AMap.erase k m).map Prod.fst = (m.map Prod.fst).filter (fun x => !decide (x = k)) := by
  induction m with
  | nil => rfl
  | cons x rest ih =>
    obtain ⟨k1, v1⟩ := x
    by_cases h : k1 = k
    · simp [AMap.erase, h, ih]
    · simp [AMap.erase, h, ih]

/-- The keys of a map are kept by an in-place update. -/
theorem AMap.keys_update {κ α : Type} [DecidableEq κ] (k : κ) (f : α → α) (m : List (κ × α)) :
    (AMap.update k f m).map Prod.fst = m.map Prod.fst := by
  induction m with
  | nil => rfl
  | cons x rest ih =>
    obtain ⟨k1, v1⟩ := x
    by_cases h : k1 = k
    · simp [AMap.update, h]
    · simp [AMap.update, h, ih]

/-- The keys of a map after the assignment of a new key. -/
theorem AMap.keys_set_new {κ α : Type} [DecidableEq κ] (k : κ) (v : α) (m : List (κ × α))
    (h : k ∉ m.map Prod.fst) : (AMap.set k v m).map Prod.fst = m.map Prod.fst ++ [k] := by
  induction m with
  | nil => rfl
  | cons x rest ih =>
    obtain ⟨k1, v1⟩ := x
    simp only [List.map_cons, List.mem_cons, not_or] at h
    have h1 : ¬ k1 = k := fun e => h.1 e.symm
    simp [AMap.set, h1, ih h.2]

/-- A key is contained in a map exactly when it is among its keys. -/
theorem AMap.contains_iff_mem_keys {κ α : Type} [DecidableEq κ] (k : κ) (m : List (κ × α)) :
    AMap.contains k m = true ↔ k ∈ m.map Prod.fst := by
  induction m with
  | nil => simp [AMap.contains, AMap.find]
  | cons x rest ih =>
    obtain ⟨k1, v1⟩ := x
    by_cases h : k1 = k
    · simp [AMap.contains, AMap.find, h]
    · have h2 : ¬ k = k1 := fun e => h e.symm
      simp only [AMap.contains, AMap.find, if_neg h, List.map_cons, List.mem_cons, h2, false_or]
      exact ih

/-- Removing one element of a list without repetition removes one entry. -/
theorem length_filter_ne_of_nodup {κ : Type} [DecidableEq κ] (k : κ) :
    ∀ (l : List κ), l.Nodup →
      ((l.filter (fun x => !decide (x = k))).length : Int)
        = (l.length : Int) - (if k ∈ l then 1 else 0) := by
  intro l
  induction l with
  | nil => intro _; simp
  | cons a rest ih =>
    intro hn
    simp only [List.nodup_cons] at hn
    have h1 := ih hn.2
    by_cases h : a = k
    · subst h
      have hnot : a ∉ rest := hn.1
      simp only [hnot, if_false] at h1
      simp only [List.filter, decide_True, Bool.not_true, List.mem_cons, true_or, if_true,
        List.length_cons]
      rw [h1]
      push_cast
      omega
    · have h2 : ¬ k = a := fun e => h e.symm
      simp only [List.filter, h, decide_False, Bool.not_false, List.length_cons, List.mem_cons, h2,
        false_or]
      push_cast
      rw [h1]
      omega

/-- The length of a map with distinct keys after a removal. -/
theorem AMap.length_erase_of_nodup {κ α : Type} [DecidableEq κ] (k : κ) (m : List (κ × α))
    (h : (m.map Prod.fst).Nodup) :
    ((AMap.erase k m).length : Int) = (m.length : Int) - AMap.erase_count k m := by
  have h1 := length_filter_ne_of_nodup k (m.map Prod.fst) h
  rw [← AMap.keys_erase, List.length_map, List.length_map] at h1
  rw [h1]
  unfold AMap.erase_count
  by_cases hc : AMap.contains k m = true
  · rw [if_pos hc, if_pos ((AMap.contains_iff_mem_keys k m).1 hc)]
  · rw [if_neg hc, if_neg (fun hm => hc ((AMap.contains_iff_mem_keys k m).2 hm))]

/-- The entries kept and the entries dropped by a filter make up the list. -/
theorem length_filter_split {α : Type} (p : α → Bool) (l : List α) :
    ((l.filter (fun e => !p e)).length : Int) = (l.length : Int) - ((l.filter p).length : Int) := by
  induction l with
  | nil => simp
  | cons a rest ih =>
    by_cases h : p a = true
    · simp only [List.filter, h, Bool.not_true, List.length_cons]
      push_cast
      omega
    · have h1 : p a = false := by simpa using h
      simp only [List.filter, h1, Bool.not_false, List.length_cons]
      push_cast
      omega

/-- The counter predicate is kept when both maps shrink to sublists and `number` follows. -/
theorem balanced_of_sublists (t t1 : BroadcastTask) (h : t.balanced)
    (htodo : List.Sublist (t1.to_do_task_map.map Prod.fst) (t.to_do_task_map.map Prod.fst))
    (hdoing : List.Sublist (t1.doing_task_map.map Prod.fst) (t.doing_task_map.map Prod.fst))
    (hnum : t1.number = (t1.to_do_task_map.length : Int) + (t1.doing_task_map.length : Int)) :
    t1.balanced :=
  ⟨List.Nodup.sublist (List.Sublist.append htodo hdoing) h.1, hnum⟩

/-- The move of a worker from todo to doing keeps the counter predicate. -/
theorem broadcast_hand_out_balanced (now : Int) (address : String) (task : BroadcastTask)
    (h : task.balanced) : (DBManager.broadcast_hand_out now address task).1.balanced := by
  unfold DBManager.broadcast_hand_out
  by_cases hc : AMap.contains address task.to_do_task_map = true
  · rw [if_pos hc]
    have hmem := (AMap.contains_iff_mem_keys _ _).1 hc
    obtain ⟨hn, hnum⟩ := h
    have hparts := List.nodup_append.1 hn
    have hnot : address ∉ task.doing_task_map.map Prod.fst := fun hd => hparts.2.2 hmem hd
    have hkeys := AMap.keys_set_new address ({ update_timestamp := now } : MemDdlWork)
      task.doing_task_map hnot
    constructor
    · simp only
      rw [AMap.keys_erase, hkeys, ← List.append_assoc]
      refine List.nodup_append.2 ⟨?_, List.nodup_singleton _, ?_⟩
      · exact hn.sublist (List.Sublist.append (List.filter_sublist _) (List.Sublist.refl _))
      · intro x hx hx2
        have hxa : x = address := by simpa using hx2
        subst hxa
        rcases List.mem_append.1 hx with h1 | h1
        · simp [List.mem_filter] at h1
        · exact hnot h1
    · simp only
      have hl : ((AMap.set address ({ update_timestamp := now } : MemDdlWork)
          task.doing_task_map).length : Int) = (task.doing_task_map.length : Int) + 1 := by
        have := congrArg List.length hkeys
        simp only [List.length_map, List.length_append, List.length_singleton] at this
        rw [this]
        push_cast
        rfl
      rw [AMap.length_erase_of_nodup _ _ hparts.1, hl, hnum]
      unfold AMap.erase_count
      rw [if_pos hc]
      omega
  · rw [if_neg hc]
    exact h

/-- The timeout sweep of a broadcast task keeps the counter predicate. -/
theorem sweep_broadcast_task_balanced (fl : Flags) (now : Int) (task : BroadcastTask)
    (h : task.balanced) : (DBManager.sweep_broadcast_task fl now task).balanced := by
  rw [sweep_broadcast_task_spec]
  apply balanced_of_sublists task _ h
  · exact List.Sublist.map _ (List.filter_sublist _)
  · exact List.Sublist.map _ (List.filter_sublist _)
  · simp only
    rw [length_filter_split (txn_timeout fl now), length_filter_split (txn_timeout fl now), h.2]
    omega

/-- The removal of a faulty worker from a broadcast task keeps the counter predicate. -/
theorem drop_worker_balanced (faulty_db : String) (task : BroadcastTask) (h : task.balanced) :
    (task.drop_worker faulty_db).balanced := by
  have hparts := List.nodup_append.1 h.1
  apply balanced_of_sublists task _ h
  · simp only [BroadcastTask.drop_worker]
    rw [AMap.keys_erase]
    exact (List.filter_sublist _)
  · simp only [BroadcastTask.drop_worker]
    rw [AMap.keys_erase]
    exact (List.filter_sublist _)
  · simp only [BroadcastTask.drop_worker]
    rw [AMap.length_erase_of_nodup _ _ hparts.1, AMap.length_erase_of_nodup _ _ hparts.2.1, h.2]
    omega

/-- A refreshed timestamp keeps the counter predicate. -/
theorem refresh_balanced (address : String) (f : MemDdlWork → MemDdlWork) (task : BroadcastTask)
    (h : task.balanced) :
    ({ task with doing_task_map := AMap.update address f task.doing_task_map } :
        BroadcastTask).balanced
      ∧ ({ task with to_do_task_map := AMap.update address f task.to_do_task_map } :
        BroadcastTask).balanced := by
  unfold BroadcastTask.balanced
  simp only [AMap.keys_update, AMap.length_update]
  exact ⟨h, h⟩

/-- The acknowledgement Done of a worker in doing keeps the counter predicate. -/
theorem done_ack_balanced (address : String) (task : BroadcastTask) (h : task.balanced)
    (hc : AMap.contains address task.doing_task_map = true) :
    ({ task with number := task.number - 1,
                 doing_task_map := AMap.erase address task.doing_task_map } :
        BroadcastTask).balanced := by
  have hparts := List.nodup_append.1 h.1
  apply balanced_of_sublists task _ h
  · exact List.Sublist.refl _
  · simp only
    rw [AMap.keys_erase]
    exact (List.filter_sublist _)
  · simp only
    rw [AMap.length_erase_of_nodup _ _ hparts.2.1, h.2]
    unfold AMap.erase_count
    rw [if_pos hc]
    omega

/-- The counter predicate of a list of tasks after a removal of a task. -/
theorem balanced_tasks_erase (bm : List (Int × BroadcastTask)) (table_id : Int)
    (h : ∀ e ∈ bm, e.2.balanced) : ∀ e ∈ AMap.erase table_id bm, e.2.balanced :=
  fun e he => h e (AMap.mem_of_mem_erase _ _ e he)

/-- The counter predicate of a list of tasks after one task has been replaced by a task that satisfies it. -/
theorem balanced_tasks_update (bm : List (Int × BroadcastTask)) (table_id : Int)
    (task : BroadcastTask) (h : ∀ e ∈ bm, e.2.balanced) (ht : task.balanced) :
    ∀ e ∈ AMap.update table_id (fun _ => task) bm, e.2.balanced :=
  AMap.forall_mem_update (fun e : Int × BroadcastTask => e.2.balanced) table_id _ _ h
    (fun _ _ => ht)

/-- One acknowledgement keeps the counter predicate of every task of the pool. -/
theorem process_broadcast_ack_balanced (now : Int) (address : String) (s : MetaServer)
    (ack : DdlWorkInfo) (h : s.db.broadcast_balanced) :
    (DBManager.process_broadcast_ack now address s ack).db.broadcast_balanced := by
  unfold DBManager.broadcast_balanced at h ⊢
  unfold DBManager.process_broadcast_ack
  simp only
  rcases hf : AMap.find ack.table_id s.db.broadcast_task_map with _ | txn
  · exact h
  · have htxn : txn.balanced := h (ack.table_id, txn) (AMap.mem_of_find _ _ _ hf)
    have hr := refresh_balanced address (fun _ => ({ update_timestamp := now } : MemDdlWork))
      txn htxn
    simp only
    split_ifs with h1 h2 h3 h4 h5 h6 h7 h8
    all_goals simp only
    all_goals
      first
      | exact h
      | exact balanced_tasks_erase _ _ h
      | exact balanced_tasks_erase _ _ (balanced_tasks_erase _ _ h)
      | exact balanced_tasks_update _ _ _ h hr.1
      | exact balanced_tasks_update _ _ _ h hr.2
      | exact balanced_tasks_update _ _ _ h (done_ack_balanced address txn htxn (by assumption))
      | exact balanced_tasks_erase _ _
          (balanced_tasks_update _ _ _ h (done_ack_balanced address txn htxn (by assumption)))

/-- The acknowledgements of a heartbeat keep the counter predicate of every task of the pool. -/
theorem process_broadcast_acks_balanced (now : Int) (address : String) :
    ∀ (acks : List DdlWorkInfo) (s : MetaServer), s.db.broadcast_balanced →
      (acks.foldl (DBManager.process_broadcast_ack now address) s).db.broadcast_balanced := by
  intro acks
  induction acks with
  | nil => intro s h; exact h
  | cons ack rest ih =>
    intro s h
    exact ih _ (process_broadcast_ack_balanced now address s ack h)

/-- The broadcast part of a heartbeat keeps the counter predicate of every task of the pool. -/
theorem process_broadcast_task_hearbeat_balanced (now : Int) (address : String) (s : MetaServer)
    (request : BaikalHeartBeatRequest) (response : BaikalHeartBeatResponse)
    (h : s.db.broadcast_balanced) :
    (DBManager.process_broadcast_task_hearbeat now address s request response).1.db.broadcast_balanced := by
  unfold DBManager.process_broadcast_task_hearbeat
  simp only
  apply process_broadcast_acks_balanced
  unfold DBManager.broadcast_balanced at h ⊢
  simp only [List.map_map]
  intro e he
  obtain ⟨x, hx, rfl⟩ := List.mem_map.1 he
  exact broadcast_hand_out_balanced now address x.2 (h x hx)

/-- The treatment of the faulty workers keeps the counter predicate of every task of the pool. -/
theorem sweep_faulty_dbs_balanced :
    ∀ (faulty_dbs : List String) (s : MetaServer), s.db.broadcast_balanced →
      (faulty_dbs.foldl DBManager.sweep_faulty_db s).db.broadcast_balanced := by
  intro faulty_dbs
  induction faulty_dbs with
  | nil => intro s h; exact h
  | cons f rest ih =>
    intro s h
    apply ih
    obtain ⟨mem, hs⟩ := sweep_faulty_db_shape s f
    rw [hs]
    unfold DBManager.broadcast_balanced at h ⊢
    intro e he
    simp only [MetaServer.with_queues] at he
    obtain ⟨x, hx, rfl⟩ := List.mem_map.1 he
    exact drop_worker_balanced f x.2 (h x hx)

/-- One pass of the sweeper keeps the counter predicate of every task of the pool. -/
theorem init_pass_balanced (fl : Flags) (now : Int) (s : MetaServer) (h : s.db.broadcast_balanced) :
    (DBManager.init_pass fl now s).db.broadcast_balanced := by
  obtain ⟨mem, hs⟩ := init_pass_shape fl now s
  rw [hs]
  apply sweep_faulty_dbs_balanced
  unfold DBManager.broadcast_balanced at h ⊢
  intro e he
  simp only at he
  obtain ⟨x, hx, rfl⟩ := List.mem_map.1 he
  exact sweep_broadcast_task_balanced fl now x.2 (h x hx)

/--
C37: when every broadcast task satisfies the counter predicate (todo and doing
hold distinct workers, disjoint from each other, and `number = |todo| +
|doing|`), every task left by the broadcast part of a heartbeat (the move from
todo to doing and the acknowledgements Doing, Fail and Done) and every task
left by a pass of the sweeper (the 30-heartbeat timeout and the removal of the
faulty workers) satisfies it again, and `number` is never negative.
-/
theorem broadcast_counter_invariant (fl : Flags) (now : Int) (address : String) (s : MetaServer)
    (request : BaikalHeartBeatRequest) (response : BaikalHeartBeatResponse)
    (h : s.db.broadcast_balanced) :
    (DBManager.process_broadcast_task_hearbeat now address s request response).1.db.broadcast_balanced
      ∧ (DBManager.init_pass fl now s).db.broadcast_balanced
      ∧ (∀ e ∈ (DBManager.process_broadcast_task_hearbeat now address s request
            response).1.db.broadcast_task_map, 0 ≤ e.2.number)
      ∧ (∀ e ∈ (DBManager.init_pass fl now s).db.broadcast_task_map, 0 ≤ e.2.number) := by
  have h1 := process_broadcast_task_hearbeat_balanced now address s request response h
  have h2 := init_pass_balanced fl now s h
  refine ⟨h1, h2, ?_, ?_⟩
  · intro e he
    have := (h1 e he).2
    omega
  · intro e he
    have := (h2 e he).2
    omega

/--
Witness of C37: the task of table 1 waits for `w1` (todo) and `w2` (doing);
the heartbeat of `w2` with the acknowledgement Done leaves `number = 1`, and a
sweeper pass after the timeout leaves `number = 0`.
-/
theorem broadcast_counter_invariant_witness :
    counter_server.db.broadcast_balanced
      ∧ (DBManager.process_broadcast_task_hearbeat 5 "w2" counter_server done_ack_request
          empty_response).1.db.broadcast_balanced
      ∧ (DBManager.init_pass defaultFlags 400000000 counter_server).db.broadcast_balanced
      ∧ (broadcast_task (DBManager.process_broadcast_task_hearbeat 5 "w2" counter_server
          done_ack_request empty_response).1 1).map (fun t => t.number) = some 1
      ∧ (broadcast_task (DBManager.init_pass defaultFlags 400000000 counter_server) 1).map
          (fun t => t.number) = some 0 :=
  ⟨by unfold DBManager.broadcast_balanced BroadcastTask.balanced; decide,
   (broadcast_counter_invariant defaultFlags 5 "w2" counter_server done_ack_request
      empty_response (by unfold DBManager.broadcast_balanced BroadcastTask.balanced; decide)).1,
   (broadcast_counter_invariant defaultFlags 400000000 "w2" counter_server done_ack_request
      empty_response (by unfold DBManager.broadcast_balanced BroadcastTask.balanced; decide)).2.1,
   by decide, by decide⟩

end baikaldb
